import Mathlib

/-!
# Kaz205/zuma: AES-XTS glue helpers and other drivers

Shallow embedding of `arch/x86/crypto/aes-intel_glue.h`
(`xts_setkey_common` and `xts_crypt_common`), followed by the functions of the
other drivers that the statements are about: `intel_pxp_key_check` and
`i915_pxp_ops_ioctl` (i915 PXP), `iwl_uefi_reduce_power_parse` and
`iwl_sar_fill_table` (iwlwifi), `hdcp_worker` and the DisplayPort link
notifications (HDCP), and the SVS voltage conversions (MediaTek thermal).

Conventions of the embedding

* A byte buffer is a list of naturals; memory is a map from buffer ids to
  buffers, and a `scatterlist` handle is a buffer id with a byte offset,
  together with the identity of the list, which is what a comparison of two
  `struct scatterlist *` pointers tests.
* A C argument pair (pointer, length) is passed to a primitive as the list of
  the `length` bytes found at the pointer.
* `unsigned int` values are naturals below `2 ^ 32`; where the C arithmetic can
  wrap the reduction is written out.
* The cipher primitives, the key-length validator, the key expansion and the
  fragmentation chosen by the scatter/gather walk are parameters.
* Every call the C code makes to a collaborator is logged in a trace, in
  program order.
-/

namespace Zuma

/-- Byte buffers. -/
abbrev Bytes := List Nat

/-- Modelled from the spec: the cipher block size (crypto/aes.h is not among
the sources): "blockSize is fixed (16 bytes, matching the underlying 128-bit
cipher)". -/
def AES_BLOCK_SIZE : Nat := 16

/-- Modelled from the spec: the errno behind `InvalidArgument` (the errno
header is not among the sources). -/
def EINVAL : Int := 22

/-- Reduction of an integer to `unsigned int`. -/
def to_u32 (z : Int) : Nat := (z % 4294967296).toNat

/-- Reinterpretation of an `unsigned int` bit pattern as `int`. -/
def to_s32 (n : Nat) : Int :=
  if n % 4294967296 < 2147483648 then ((n % 4294967296 : Nat) : Int)
  else ((n % 4294967296 : Nat) : Int) - 4294967296

/-- Modelled from the spec: the rounding-up division macro `DIV_ROUND_UP`
(linux/math.h is not among the sources), `((n) + (d) - 1) / (d)` evaluated in
`unsigned int`. -/
def DIV_ROUND_UP (n d : Nat) : Nat := ((n + d - 1) % 4294967296) / d

/-- The two key schedules of `struct aes_xts_ctx`. -/
structure aes_xts_ctx (K : Type) where
  tweak_ctx : K
  crypt_ctx : K

/-- Which key schedule of the context a call is given. -/
inductive KeySel where
  | tweak
  | crypt
deriving DecidableEq, Repr

/-! ## xts_setkey_common -/

/-- One call of the key-expansion callback `fn`: the schedule it fills, the
offset of `in_key` inside the key material, `key_len`, and its status. -/
structure ExpandCall where
  sel : KeySel
  off : Nat
  key_len : Nat
  err : Int
deriving DecidableEq, Repr

/-- Result of `xts_setkey_common`: status, the context afterwards, and the
expansion calls made. -/
structure SetkeyResult (K : Type) where
  err : Int
  ctx : aes_xts_ctx K
  calls : List ExpandCall

/-- Embedding of `xts_setkey_common`. `xts_verify_key key keylen` is the length
validator; `fn ctx in_key key_len` is the expansion callback, returning its
status and the schedule it leaves in `ctx`. -/
def xts_setkey_common {K : Type} (xts_verify_key : Bytes → Nat → Int)
    (fn : K → Bytes → Nat → Int × K)
    (ctx : aes_xts_ctx K) (key : Bytes) (keylen : Nat) : SetkeyResult K :=
  let err := xts_verify_key key keylen
  if err ≠ 0 then
    { err := err, ctx := ctx, calls := [] }
  else
    let keylen := keylen / 2
    -- first half of xts-key is for crypt
    let r := fn ctx.crypt_ctx (key.take keylen) keylen
    let ctx := { ctx with crypt_ctx := r.2 }
    let c1 : ExpandCall := { sel := KeySel.crypt, off := 0, key_len := keylen, err := r.1 }
    if r.1 ≠ 0 then
      { err := r.1, ctx := ctx, calls := [c1] }
    else
      -- second half of xts-key is for tweak
      let r2 := fn ctx.tweak_ctx ((key.drop keylen).take keylen) keylen
      let c2 : ExpandCall := { sel := KeySel.tweak, off := keylen, key_len := keylen, err := r2.1 }
      { err := r2.1, ctx := { ctx with tweak_ctx := r2.2 }, calls := [c1, c2] }

/-- Modelled from the spec: the key-length validator `xts_verify_key`
(crypto/xts.h is not among the sources). The material length "must be exactly
twice a supported cipher key length"; otherwise it fails with
`InvalidKeyLength`, here `-EINVAL`. `supported` lists the single-key lengths of
the underlying cipher. -/
def xts_verify_key (supported : List Nat) (_key : Bytes) (keylen : Nat) : Int :=
  if supported.any (fun k => keylen == 2 * k) then 0 else -EINVAL

/-! ## The scatter/gather walk -/

/-- A scatterlist handle, `struct scatterlist *`: the buffer and the byte offset
it designates, and `head`, the identity of the list it points into. The data
are found through `buf` and `off` alone; two handles are the same pointer when
they agree in all three fields, so two lists over the same memory are
different handles. A list described by its buffer alone is the list of that
buffer. -/
structure scatterlist where
  buf : Nat
  off : Nat
  head : Nat := buf
deriving DecidableEq, Repr

/-- The fields of `struct skcipher_request` the helper reads. The IV pointer
`req->iv` always designates the one IV buffer of the machine state. -/
structure skcipher_request where
  src : scatterlist
  dst : scatterlist
  cryptlen : Nat
deriving DecidableEq, Repr

/-- The walk cursor: where the current chunk starts in source and destination
(`walk.src.virt.addr`, `walk.dst.virt.addr`), the bytes in the current chunk and
the bytes remaining overall. -/
structure skcipher_walk where
  src : scatterlist
  dst : scatterlist
  nbytes : Nat
  total : Nat
deriving DecidableEq, Repr

/-- How the walk behaves on a given run: `chunk off total` is the length of the
contiguous chunk it offers when the cursor stands at source offset `off` with
`total` bytes remaining, and `status off total` the status of that walk step
(non-zero: the walk failed there). -/
structure WalkEnv where
  chunk : Nat → Nat → Nat
  status : Nat → Nat → Int

/-- Modelled from the spec: `scatterwalk_ffwd` (crypto/scatterwalk.h is not
among the sources): the handle advanced by `len` bytes, in the same list. -/
def scatterwalk_ffwd (sg : scatterlist) (len : Nat) : scatterlist :=
  { sg with off := sg.off + len }

/-- Modelled from the spec: one step of the scatter/gather walk
(crypto/skcipher.c is not among the sources), "an iterator abstraction that
yields physically-addressable chunks of a logical byte buffer". A failed step
offers no bytes; a chunk never exceeds the bytes remaining. -/
def skcipher_walk_next (env : WalkEnv) (src dst : scatterlist) (total : Nat) :
    Int × skcipher_walk :=
  let err := env.status src.off total
  (err, { src := src, dst := dst, total := total,
          nbytes := if err = 0 then min (env.chunk src.off total) total else 0 })

/-- Modelled from the spec: `skcipher_walk_virt`, which starts a walk over the
request's `cryptlen` bytes. -/
def skcipher_walk_virt (env : WalkEnv) (req : skcipher_request) : Int × skcipher_walk :=
  skcipher_walk_next env req.src req.dst req.cryptlen

/-- Modelled from the spec: `skcipher_walk_done`, the "partial-consumption
acknowledgment": `res` bytes of the current chunk were left unprocessed; the
cursor advances by the bytes consumed and the next chunk is fetched. -/
def skcipher_walk_done (env : WalkEnv) (w : skcipher_walk) (res : Nat) :
    Int × skcipher_walk :=
  let n := w.nbytes - res
  skcipher_walk_next env (scatterwalk_ffwd w.src n) (scatterwalk_ffwd w.dst n) (w.total - n)

/-! ## Machine state and trace -/

/-- Calls made by `xts_crypt_common`, in program order. -/
inductive Event where
  | fpu_begin
  | fpu_end
  | walk_virt (req : skcipher_request) (err : Int) (nbytes : Nat)
  | walk_abort
  | walk_done (res : Nat) (err : Int) (nbytes : Nat)
  | set_tfm
  | set_callback
  | set_crypt (src dst : scatterlist) (cryptlen : Nat)
  | ffwd (sg : scatterlist) (len : Nat)
  | crypt1 (sel : KeySel) (iv : Bytes) (err : Int)
  | crypt (sel : KeySel) (src dst : scatterlist) (len : Nat) (iv : Bytes) (err : Int)
deriving DecidableEq, Repr

/-- Memory, the IV buffer, and the trace so far. -/
structure State where
  mem : Nat → Bytes
  iv : Bytes
  trace : List Event

/-- The `n` bytes found at a handle. -/
def load (mem : Nat → Bytes) (sg : scatterlist) (n : Nat) : Bytes :=
  ((mem sg.buf).drop sg.off).take n

/-- Memory after `out` is written at a handle. -/
def store (mem : Nat → Bytes) (sg : scatterlist) (out : Bytes) : Nat → Bytes :=
  fun b =>
    if b = sg.buf then (mem b).take sg.off ++ out ++ (mem b).drop (sg.off + out.length)
    else mem b

/-- Append events to the trace. -/
def State.log (st : State) (es : List Event) : State :=
  { st with trace := st.trace ++ es }

/-- What a run of `xts_crypt_common` produced: `ret = none` when the loop bound
of the embedding ran out before the C function returned. -/
structure Outcome where
  ret : Option Int
  st : State

/-- The multi-block primitive `crypt_fn(ctx, out, in, len, iv)`: from the key
schedule, the `len` input bytes and the IV to its status, the bytes written to
`out` and the IV left in place. -/
abbrev CryptFn (K : Type) := K → Bytes → Bytes → Int × Bytes × Bytes

/-- The single-block primitive `crypt1_fn(ctx, out, in)`. -/
abbrev Crypt1Fn (K : Type) := K → Bytes → Int × Bytes

/-- How the main loop of `xts_crypt_common` was left. -/
inductive LoopExit where
  | returned (err : Int)
  | finished (err : Int)
  | exhausted
deriving DecidableEq, Repr

/-- Embedding of `nbytes &= ~(AES_BLOCK_SIZE - 1)`: the low four bits are
cleared, which rounds the length down to a whole number of blocks. -/
def block_floor (nbytes : Nat) : Nat := nbytes / AES_BLOCK_SIZE * AES_BLOCK_SIZE

/-- The `nbytes` local of one loop iteration: the chunk length, rounded down to
whole blocks unless the chunk is the last one of the walk. -/
def loop_nbytes (walk : skcipher_walk) : Nat :=
  if walk.nbytes < walk.total then block_floor walk.nbytes else walk.nbytes

/-- One multi-block call on the current chunk followed by `kernel_fpu_end()`:
`err = crypt_fn(aes_ctx(&ctx->crypt_ctx), walk.dst.virt.addr,
walk.src.virt.addr, nbytes, walk.iv); kernel_fpu_end();` -/
def xts_crypt_chunk {K : Type} (crypt_fn : CryptFn K) (ctx : aes_xts_ctx K)
    (walk : skcipher_walk) (nbytes : Nat) (st : State) : Int × State :=
  let r := crypt_fn ctx.crypt_ctx (load st.mem walk.src nbytes) st.iv
  (r.1, { mem := store st.mem walk.dst r.2.1, iv := r.2.2,
          trace := st.trace ++
            [Event.crypt KeySel.crypt walk.src walk.dst nbytes st.iv r.1, Event.fpu_end] })

/-- The end of one loop iteration: `err = skcipher_walk_done(&walk, res);
if (walk.nbytes > 0) kernel_fpu_begin();` -/
def xts_walk_advance (env : WalkEnv) (walk : skcipher_walk) (res : Nat) (st : State) :
    (Int × skcipher_walk) × State :=
  let d := skcipher_walk_done env walk res
  let st := st.log [Event.walk_done res d.1 d.2.nbytes]
  (d, if d.2.nbytes > 0 then st.log [Event.fpu_begin] else st)

/-- The `while (walk.nbytes > 0)` loop of `xts_crypt_common`; `fuel` bounds the
number of iterations. -/
def xts_walk_loop {K : Type} (env : WalkEnv) (crypt_fn : CryptFn K) (ctx : aes_xts_ctx K) :
    Nat → skcipher_walk → Int → State → LoopExit × State
  | 0, walk, err, st =>
    if walk.nbytes > 0 then (LoopExit.exhausted, st) else (LoopExit.finished err, st)
  | fuel + 1, walk, err, st =>
    if walk.nbytes > 0 then
      let c := xts_crypt_chunk crypt_fn ctx walk (loop_nbytes walk) st
      if c.1 ≠ 0 then (LoopExit.returned c.1, c.2)
      else
        let a := xts_walk_advance env walk (walk.nbytes - loop_nbytes walk) c.2
        xts_walk_loop env crypt_fn ctx fuel a.1.2 a.1.1 a.2
    else (LoopExit.finished err, st)

/-- The tail step of `xts_crypt_common` (`if (unlikely(tail > 0 && !err))`);
`req` is the sub-request. The test `req->dst != req->src` compares the two
`struct scatterlist *` pointers, here the two handles with their list
identity. -/
def xts_tail_step {K : Type} (env : WalkEnv) (crypt_fn : CryptFn K) (ctx : aes_xts_ctx K)
    (req : skcipher_request) (tail : Nat) (st : State) : Outcome :=
  let src := scatterwalk_ffwd req.src req.cryptlen
  let st := st.log [Event.ffwd req.src req.cryptlen]
  let dst := if req.dst ≠ req.src then scatterwalk_ffwd req.dst req.cryptlen else src
  let st := if req.dst ≠ req.src then st.log [Event.ffwd req.dst req.cryptlen] else st
  let subreq : skcipher_request := { src := src, dst := dst, cryptlen := AES_BLOCK_SIZE + tail }
  let st := st.log [Event.set_crypt src dst (AES_BLOCK_SIZE + tail)]
  let v := skcipher_walk_virt env subreq
  let walk := v.2
  let st := st.log [Event.walk_virt subreq v.1 walk.nbytes]
  if v.1 ≠ 0 then { ret := some v.1, st := st }
  else
    let c := xts_crypt_chunk crypt_fn ctx walk walk.nbytes (st.log [Event.fpu_begin])
    if c.1 ≠ 0 then { ret := some c.1, st := c.2 }
    else
      let d := skcipher_walk_done env walk 0
      { ret := some d.1, st := c.2.log [Event.walk_done 0 d.1 d.2.nbytes] }

/-- The part of `xts_crypt_common` from `kernel_fpu_begin()` on: tweak
initialisation, main loop, tail step. `req` is the request walked by the main
loop and `tail` the value of the local after the `if`/`else` before it. -/
def xts_crypt_rest {K : Type} (env : WalkEnv) (crypt_fn : CryptFn K) (crypt1_fn : Crypt1Fn K)
    (ctx : aes_xts_ctx K) (fuel : Nat) (req : skcipher_request) (tail : Nat)
    (walk : skcipher_walk) (st : State) : Outcome :=
  let st := st.log [Event.fpu_begin]
  -- calculate first value of T
  let t := crypt1_fn ctx.tweak_ctx st.iv
  let st : State :=
    { st with iv := t.2, trace := st.trace ++ [Event.crypt1 KeySel.tweak st.iv t.1] }
  if t.1 ≠ 0 then { ret := some t.1, st := st.log [Event.fpu_end] }
  else
    match xts_walk_loop env crypt_fn ctx fuel walk t.1 st with
    | (LoopExit.exhausted, st) => { ret := none, st := st }
    | (LoopExit.returned err, st) => { ret := some err, st := st }
    | (LoopExit.finished err, st) =>
      if tail > 0 ∧ err = 0 then xts_tail_step env crypt_fn ctx req tail st
      else { ret := some err, st := st }

/-- The length of the sub-request: `blocks * AES_BLOCK_SIZE` with
`int blocks = DIV_ROUND_UP(req->cryptlen, AES_BLOCK_SIZE) - 2`, passed as
`unsigned int`. -/
def subreq_cryptlen (cryptlen : Nat) : Nat :=
  let blocks : Int := to_s32 (to_u32 ((DIV_ROUND_UP cryptlen AES_BLOCK_SIZE : Nat) - 2))
  to_u32 (blocks * (AES_BLOCK_SIZE : Nat))

/-- The sub-request set up when the tail is held back:
`skcipher_request_set_crypt(&subreq, req->src, req->dst,
blocks * AES_BLOCK_SIZE, req->iv)`. -/
def make_subreq (req : skcipher_request) : skcipher_request :=
  { src := req.src, dst := req.dst, cryptlen := subreq_cryptlen req.cryptlen }

/-- Embedding of `xts_crypt_common`. -/
def xts_crypt_common {K : Type} (env : WalkEnv) (crypt_fn : CryptFn K) (crypt1_fn : Crypt1Fn K)
    (ctx : aes_xts_ctx K) (fuel : Nat) (req : skcipher_request) (st : State) : Outcome :=
  let tail := req.cryptlen % AES_BLOCK_SIZE
  if req.cryptlen < AES_BLOCK_SIZE then { ret := some (-EINVAL), st := st }
  else
    let v := skcipher_walk_virt env req
    let walk := v.2
    let st := st.log [Event.walk_virt req v.1 walk.nbytes]
    if walk.nbytes = 0 then { ret := some v.1, st := st }
    else if tail > 0 ∧ walk.nbytes < walk.total then
      let st := st.log [Event.walk_abort, Event.set_tfm, Event.set_callback]
      let subreq : skcipher_request := make_subreq req
      let st := st.log [Event.set_crypt req.src req.dst subreq.cryptlen]
      let v := skcipher_walk_virt env subreq
      let walk := v.2
      let st := st.log [Event.walk_virt subreq v.1 walk.nbytes]
      if walk.nbytes = 0 then { ret := some v.1, st := st }
      else xts_crypt_rest env crypt_fn crypt1_fn ctx fuel subreq tail walk st
    else
      xts_crypt_rest env crypt_fn crypt1_fn ctx fuel req 0 walk st

/-! ## Reading the trace -/

/-- Status of a primitive invocation; `none` for the other events. -/
def Event.prim_status : Event → Option Int
  | Event.crypt1 _ _ err => some err
  | Event.crypt _ _ _ _ _ err => some err
  | _ => none

/-- Checker of the cipher-unit discipline along a trace. `held` tells whether
the unit is held before the first event. The result is `none` when the unit is
acquired while held, released while free, or a primitive runs while it is free;
otherwise it tells whether the unit is held after the last event. -/
def fpu_check : Bool → List Event → Option Bool
  | held, [] => some held
  | held, Event.fpu_begin :: es => if held then none else fpu_check true es
  | held, Event.fpu_end :: es => if held then fpu_check false es else none
  | held, Event.crypt1 _ _ _ :: es => if held then fpu_check held es else none
  | held, Event.crypt _ _ _ _ _ _ :: es => if held then fpu_check held es else none
  | held, _ :: es => fpu_check held es

/-- The request the tail step walks: the handles of `req` advanced by its
length (the destination handle is the advanced source handle when the request
is in place), over one block plus the tail. -/
def tail_subreq (req : skcipher_request) (tail : Nat) : skcipher_request :=
  { src := scatterwalk_ffwd req.src req.cryptlen,
    dst := if req.dst ≠ req.src then scatterwalk_ffwd req.dst req.cryptlen
           else scatterwalk_ffwd req.src req.cryptlen,
    cryptlen := AES_BLOCK_SIZE + tail }

/-- What the tail step logs before it starts its walk. -/
def tail_prelude (req : skcipher_request) (tail : Nat) : List Event :=
  Event.ffwd req.src req.cryptlen ::
    ((if req.dst ≠ req.src then [Event.ffwd req.dst req.cryptlen] else []) ++
      [Event.set_crypt (tail_subreq req tail).src (tail_subreq req tail).dst
        (AES_BLOCK_SIZE + tail)])

/-- The multi-block primitive succeeds on every input under key schedule `k`. -/
def NeverFails {K : Type} (f : CryptFn K) (k : K) : Prop :=
  ∀ x iv, (f k x iv).1 = 0

/-- The multi-block primitive writes as many bytes as it reads. -/
def LengthPreserving {K : Type} (f : CryptFn K) (k : K) : Prop :=
  ∀ x iv, (f k x iv).2.1.length = x.length

/-- The multi-block primitive is chunk-composable at block boundaries: a
buffer cut after a positive whole number of blocks, with at least one block
left, may be processed as two calls chained through the IV. -/
def ChunkComposable {K : Type} (f : CryptFn K) (k : K) : Prop :=
  ∀ a b iv, a.length % 16 = 0 → 16 ≤ a.length → 16 ≤ b.length →
    (f k (a ++ b) iv).2.1 = (f k a iv).2.1 ++ (f k b (f k a iv).2.2).2.1 ∧
    (f k (a ++ b) iv).2.2 = (f k b (f k a iv).2.2).2.2

/-- On whole buffers of at least one block, `dec` undoes `enc` from the same IV. -/
def MutuallyInverse {K : Type} (enc dec : CryptFn K) (k : K) : Prop :=
  ∀ x iv, 16 ≤ x.length → (dec k (enc k x iv).2.1 iv).2.1 = x

/-- The walk never fails. -/
def WalkEnv.never_fails (env : WalkEnv) : Prop :=
  ∀ off total, env.status off total = 0

/-- Every chunk the walk offers holds at least one block, or all the bytes that
remain: a chunk that is not the last one of its walk has 16 bytes or more. -/
def WalkEnv.block_chunks (env : WalkEnv) : Prop :=
  ∀ off total, min total 16 ≤ env.chunk off total

/-- A walk over fewer than two blocks is offered as a single chunk. -/
def WalkEnv.short_whole (env : WalkEnv) : Prop :=
  ∀ off total, total < 32 → total ≤ env.chunk off total

/-- Events of the ciphertext-stealing path: the set-up of the sub-request and
the bookkeeping of the tail step. -/
def Event.is_stealing : Event → Bool
  | Event.walk_abort => true
  | Event.set_tfm => true
  | Event.set_callback => true
  | Event.set_crypt _ _ _ => true
  | Event.ffwd _ _ => true
  | _ => false

/-- What a run logs up to the start of the walk over the sub-request. -/
def subreq_events (env : WalkEnv) (req : skcipher_request) : List Event :=
  [Event.walk_virt req (skcipher_walk_virt env req).1 (skcipher_walk_virt env req).2.nbytes,
   Event.walk_abort, Event.set_tfm, Event.set_callback,
   Event.set_crypt req.src req.dst (make_subreq req).cryptlen,
   Event.walk_virt (make_subreq req) (skcipher_walk_virt env (make_subreq req)).1
     (skcipher_walk_virt env (make_subreq req)).2.nbytes]

/-- Every primitive invocation of the trace returned zero. -/
def AllOk (es : List Event) : Prop :=
  ∀ x ∈ es, ∀ e : Int, x.prim_status = some e → e = 0

/-- Shape of the trace of a run with respect to primitive failures: either no
primitive failed, or the trace ends with the one failing invocation followed by
the release of the cipher unit, and the run returned that invocation's status. -/
def FailShape (es : List Event) (ret : Option Int) : Prop :=
  AllOk es ∨
  ∃ (c : List Event) (f : Event) (e : Int),
    es = c ++ [f, Event.fpu_end] ∧ AllOk c ∧ f.prim_status = some e ∧ e ≠ 0 ∧ ret = some e

/-- The source ranges (offset, length) handed to the multi-block primitive. -/
def crypt_src_ranges : List Event → List (Nat × Nat)
  | [] => []
  | Event.crypt _ src _ len _ _ :: es => (src.off, len) :: crypt_src_ranges es
  | _ :: es => crypt_src_ranges es

/-- The destination ranges (offset, length) handed to the multi-block primitive. -/
def crypt_dst_ranges : List Event → List (Nat × Nat)
  | [] => []
  | Event.crypt _ _ dst len _ _ :: es => (dst.off, len) :: crypt_dst_ranges es
  | _ :: es => crypt_dst_ranges es

/-- The ranges follow one another without gap or overlap from `s` to `e`. -/
def chained : Nat → List (Nat × Nat) → Nat → Prop
  | s, [], e => s = e
  | s, r :: rs, e => r.1 = s ∧ chained (s + r.2) rs e

/-- Events of the tail step's bookkeeping: the forwarding of a handle. -/
def Event.is_tail : Event → Bool
  | Event.ffwd _ _ => true
  | _ => false

/-- Invocations of the single-block primitive. -/
def Event.is_crypt1 : Event → Bool
  | Event.crypt1 _ _ _ => true
  | _ => false

/-- Invocations of the multi-block primitive. -/
def Event.is_crypt : Event → Bool
  | Event.crypt _ _ _ _ _ _ => true
  | _ => false

/-- Events that may follow the tweak initialisation: anything but a call of the
single-block primitive, a call of the multi-block primitive under the tweak key,
or the set-up of the sub-request. -/
def Event.after_tweak : Event → Bool
  | Event.crypt1 _ _ _ => false
  | Event.crypt KeySel.tweak _ _ _ _ _ => false
  | Event.walk_abort => false
  | Event.set_tfm => false
  | Event.set_callback => false
  | _ => true

/-- Checker of the lengths the bulk loop passes to the multi-block primitive.
`nb` and `tot` are the bytes of the chunk on offer and the bytes remaining in
the walk, read off the walk events; a multi-block call must be over `nb`
rounded down to whole blocks when the chunk is not the last one of its walk
(`nb < tot`) and over `nb` otherwise. The check ends where the tail step
begins. -/
def bulk_lengths_ok : Nat → Nat → List Event → Bool
  | _, _, [] => true
  | _, _, Event.ffwd _ _ :: _ => true
  | _, _, Event.walk_virt req _ nb :: es => bulk_lengths_ok nb req.cryptlen es
  | nb, tot, Event.walk_done res _ nb1 :: es => bulk_lengths_ok nb1 (tot - (nb - res)) es
  | nb, tot, Event.crypt _ _ _ len _ _ :: es =>
    decide (len = if nb < tot then nb / 16 * 16 else nb) && bulk_lengths_ok nb tot es
  | nb, tot, _ :: es => bulk_lengths_ok nb tot es

/-- Checker that every multi-block call made before the tail step begins is
over a whole number of blocks. -/
def bulk_whole_blocks : List Event → Bool
  | [] => true
  | Event.ffwd _ _ :: _ => true
  | Event.crypt _ _ _ len _ _ :: es => decide (len % 16 = 0) && bulk_whole_blocks es
  | _ :: es => bulk_whole_blocks es

/-- The key schedule a selector stands for. -/
def key_of {K : Type} (ctx : aes_xts_ctx K) : KeySel → K
  | KeySel.tweak => ctx.tweak_ctx
  | KeySel.crypt => ctx.crypt_ctx

/-- Replay of a trace by the primitives alone, from a memory and an IV. Every
primitive call of the trace must have been passed the IV standing in place at
that moment and must have returned the status of the primitive under the key
schedule it names; its effect on the memory and on the IV is recomputed from
the primitive. The other events change nothing. The result is `none` when a
call was passed another IV or logged another status. -/
def replay {K : Type} (crypt_fn : CryptFn K) (crypt1_fn : Crypt1Fn K) (ctx : aes_xts_ctx K) :
    (Nat → Bytes) → Bytes → List Event → Option ((Nat → Bytes) × Bytes)
  | mem, iv, [] => some (mem, iv)
  | mem, iv, Event.crypt1 sel iv0 e :: es =>
    if iv0 = iv ∧ e = (crypt1_fn (key_of ctx sel) iv).1 then
      replay crypt_fn crypt1_fn ctx mem (crypt1_fn (key_of ctx sel) iv).2 es
    else none
  | mem, iv, Event.crypt sel src dst len iv0 e :: es =>
    if iv0 = iv ∧ e = (crypt_fn (key_of ctx sel) (load mem src len) iv).1 then
      replay crypt_fn crypt1_fn ctx
        (store mem dst (crypt_fn (key_of ctx sel) (load mem src len) iv).2.1)
        (crypt_fn (key_of ctx sel) (load mem src len) iv).2.2 es
    else none
  | mem, iv, _ :: es => replay crypt_fn crypt1_fn ctx mem iv es

/-- One primitive call as far as the IV is concerned: whether it is a call of
the multi-block primitive, the IV it was passed and the IV it left in place. -/
structure IvUse where
  multi : Bool
  passed : Bytes
  left : Bytes
deriving DecidableEq, Repr

/-- The primitive calls of a trace, in order, as far as the IV is concerned.
The IV passed is the one logged with the call; the IV left is the one the
primitive leaves when run on that IV, under the key schedule the call names
and, for the multi-block primitive, on the bytes found at the source of the
call in the memory the earlier calls of the trace left. -/
def iv_flow {K : Type} (crypt_fn : CryptFn K) (crypt1_fn : Crypt1Fn K) (ctx : aes_xts_ctx K) :
    (Nat → Bytes) → List Event → List IvUse
  | _, [] => []
  | mem, Event.crypt1 sel iv0 _ :: es =>
    { multi := false, passed := iv0, left := (crypt1_fn (key_of ctx sel) iv0).2 } ::
      iv_flow crypt_fn crypt1_fn ctx mem es
  | mem, Event.crypt sel src dst len iv0 _ :: es =>
    { multi := true, passed := iv0,
      left := (crypt_fn (key_of ctx sel) (load mem src len) iv0).2.2 } ::
      iv_flow crypt_fn crypt1_fn ctx
        (store mem dst (crypt_fn (key_of ctx sel) (load mem src len) iv0).2.1) es
  | mem, _ :: es => iv_flow crypt_fn crypt1_fn ctx mem es

/-- The calls are linked through the IV from `iv` on: the first call is passed
`iv`, and every later call is passed the IV the call before it left. -/
def iv_linked : Bytes → List IvUse → Prop
  | _, [] => True
  | iv, u :: us => u.passed = iv ∧ iv_linked u.left us

/-- The IV in place after the calls: the one the last call left, or `iv` when
there is no call. -/
def last_iv : Bytes → List IvUse → Bytes
  | iv, [] => iv
  | _, u :: us => last_iv u.left us

/-- What the cipher unit is to the walk: released, held with no multi-block
call made since it was acquired, or held after a multi-block call. -/
inductive UnitState where
  | free
  | fresh
  | used
deriving DecidableEq, Repr

/-- Checker of the cipher unit around the walk. Every start, advance or abort
of the walk must find the unit released; a multi-block call must find the unit
held with no other multi-block call made since it was acquired; the unit is
acquired only while released and released only while held. The result is `none`
at the first violation, otherwise the state after the last event. -/
def walk_check : UnitState → List Event → Option UnitState
  | s, [] => some s
  | s, Event.fpu_begin :: es =>
    if s = UnitState.free then walk_check UnitState.fresh es else none
  | s, Event.fpu_end :: es =>
    if s = UnitState.free then none else walk_check UnitState.free es
  | s, Event.walk_virt _ _ _ :: es => if s = UnitState.free then walk_check s es else none
  | s, Event.walk_done _ _ _ :: es => if s = UnitState.free then walk_check s es else none
  | s, Event.walk_abort :: es => if s = UnitState.free then walk_check s es else none
  | s, Event.crypt _ _ _ _ _ _ :: es =>
    if s = UnitState.fresh then walk_check UnitState.used es else none
  | s, Event.crypt1 _ _ _ :: es => if s = UnitState.free then none else walk_check s es
  | s, _ :: es => walk_check s es

/-- A single-block primitive that fails with status `-5` on every call. -/
def failing_crypt1 : Crypt1Fn Nat := fun _ x => (-5, x)

/-! ## Concrete collaborators used to exercise the statements -/

/-- A walk that reports success and offers no bytes. -/
def zero_env : WalkEnv :=
  { chunk := fun _ _ => 0, status := fun _ _ => 0 }

/-- A walk that fails with status `-12` at every step. -/
def failing_env : WalkEnv :=
  { chunk := fun _ total => total, status := fun _ _ => -12 }

/-- A walk that never fails and cuts the buffer every `n` bytes. -/
def cut_env (n : Nat) : WalkEnv :=
  { chunk := fun off _ => n - off % n, status := fun _ _ => 0 }

/-- A walk that never fails, cuts the buffer every 48 bytes, and offers the
next 32 bytes when fewer are left before the cut. -/
def stride_env : WalkEnv :=
  { chunk := fun off _ => if 48 - off % 48 < 32 then 32 else 48 - off % 48,
    status := fun _ _ => 0 }

/-- A walk that never fails, cuts the buffer every 64 bytes, and offers at
least 32 bytes. -/
def wide_env : WalkEnv :=
  { chunk := fun off _ => max 32 (64 - off % 64), status := fun _ _ => 0 }

/-- Byte-wise worker of the toy cipher: the tweak `t` masks each byte and
advances after every sixteenth byte; `c` counts the bytes of the current block. -/
def toy_go (k : Nat) (enc : Bool) : Nat → Nat → Bytes → Bytes × Nat
  | t, _, [] => ([], t)
  | t, c, b :: bs =>
    let r := toy_go k enc (if c + 1 = 16 then t + 1 else t) (if c + 1 = 16 then 0 else c + 1) bs
    ((if enc then b + (k + t) else b - (k + t)) :: r.1, r.2)

/-- Toy multi-block encryption: never fails, chains the tweak through the IV. -/
def toy_enc : CryptFn Nat := fun k x iv =>
  (0, (toy_go k true (iv.headD 0) 0 x).1, (toy_go k true (iv.headD 0) 0 x).2 :: iv.tail)

/-- Toy multi-block decryption, inverse of `toy_enc`. -/
def toy_dec : CryptFn Nat := fun k x iv =>
  (0, (toy_go k false (iv.headD 0) 0 x).1, (toy_go k false (iv.headD 0) 0 x).2 :: iv.tail)

/-- Toy single-block primitive. -/
def toy_crypt1 : Crypt1Fn Nat := fun k x => (0, x.map (fun b => b + k))

/-- A multi-block primitive that fails with status `-5` on every call. -/
def failing_crypt : CryptFn Nat := fun _ x iv => (-5, x, iv)

/-- A toy key expansion: rejects lengths other than 16, 24 and 32. -/
def toy_expand : Nat → Bytes → Nat → Int × Nat := fun old k n =>
  if n = 16 ∨ n = 24 ∨ n = 32 then (0, k.sum + n) else (-EINVAL, old)

/-- A validator that accepts every even length. -/
def even_verify : Bytes → Nat → Int := fun _ n => if n % 2 = 0 then 0 else -EINVAL

/-- The 32 zero key bytes of the spec's scenario, expanded by the toy key
expansion into a key pair. -/
def zero_key_ctx : aes_xts_ctx Nat :=
  (xts_setkey_common even_verify toy_expand { tweak_ctx := 0, crypt_ctx := 0 }
    (List.replicate 32 0) 32).ctx

/-- A walk cursor standing on an 8-byte chunk of a 32-byte walk over the toy
request. -/
def stuck_walk : skcipher_walk :=
  { src := { buf := 0, off := 0 }, dst := { buf := 1, off := 0 }, nbytes := 8, total := 32 }

/-- The decryption request that reads what the encryption request wrote and
writes to `out`. -/
def decrypt_req (req : skcipher_request) (out : scatterlist) : skcipher_request :=
  { src := req.dst, dst := out, cryptlen := req.cryptlen }

/-- The round trip: `req` is run with the encrypt primitive under walk `env_e`,
then `decrypt_req req out` is run with the decrypt primitive under walk `env_d`
on the memory the first run left, from the same initial IV. -/
def round_trip {K : Type} (env_e env_d : WalkEnv) (enc dec : CryptFn K)
    (crypt1_fn : Crypt1Fn K) (ctx : aes_xts_ctx K) (fuel : Nat) (req : skcipher_request)
    (out : scatterlist) (st : State) : Outcome :=
  xts_crypt_common env_d dec crypt1_fn ctx fuel (decrypt_req req out)
    { mem := (xts_crypt_common env_e enc crypt1_fn ctx fuel req st).st.mem,
      iv := st.iv,
      trace := (xts_crypt_common env_e enc crypt1_fn ctx fuel req st).st.trace }

/-- Toy key schedules. -/
def toy_ctx : aes_xts_ctx Nat := { tweak_ctx := 3, crypt_ctx := 7 }

/-- A memory with a source buffer 0 holding `src` and every other buffer
holding `n` zero bytes. -/
def toy_mem (src : Bytes) (n : Nat) : Nat → Bytes :=
  fun b => if b = 0 then src else List.replicate n 0

/-- A start state over `toy_mem` with an all-zero 16-byte IV. -/
def toy_state (src : Bytes) (n : Nat) : State :=
  { mem := toy_mem src n, iv := List.replicate 16 0, trace := [] }

/-- An out-of-place request over `toy_mem`: source buffer 0, destination buffer 1. -/
def toy_req (len : Nat) : skcipher_request :=
  { src := { buf := 0, off := 0 }, dst := { buf := 1, off := 0 }, cryptlen := len }

/-- A request over `toy_mem` whose source and destination are two lists over
the same bytes of buffer 0: the same memory behind two different
`struct scatterlist *` pointers. -/
def two_list_req (len : Nat) : skcipher_request :=
  { src := { buf := 0, off := 0 }, dst := { buf := 0, off := 0, head := 1 }, cryptlen := len }

/-! # The other drivers

## Error numbers

The errno header is not among the sources; the numbers below are those of
`errno-base.h` and `errno.h`. The statements only rely on their being distinct
and non-zero. -/

/-- Operation not permitted. -/
def EPERM : Int := 1

/-- No such file or directory. -/
def ENOENT : Int := 2

/-- Input/output error. -/
def EIO : Int := 5

/-- No such device or address. -/
def ENXIO : Int := 6

/-- Exec format error. -/
def ENOEXEC : Int := 8

/-- Try again. -/
def EAGAIN : Int := 11

/-- Bad address. -/
def EFAULT : Int := 14

/-- No such device. -/
def ENODEV : Int := 19

/-- Operation not supported. -/
def EOPNOTSUPP : Int := 95

/-! ## drivers/thermal/mediatek/soc_temp.c: SVS voltage conversion -/

/-- Reduction of an integer to `u8`. -/
def to_u8 (z : Int) : Nat := (z % 256).toNat

/-- Embedding of `uvolt_to_config`:
`return ((uvolt / 1000 - 700) * 100 + 625 - 1) / 625;` on `int`, with the
division of C (towards zero), the numerator reduced to 32 bits, and the result
converted to the `u8` return type. -/
def uvolt_to_config (uvolt : Int) : Nat :=
  to_u8 (Int.tdiv (to_s32 (to_u32 ((Int.tdiv uvolt 1000 - 700) * 100 + 625 - 1))) 625)

/-- Embedding of `config_to_uvolt`: `return ((val * 625 / 100) + 700) * 1000;`
evaluated in `u32` and converted to the `int` return type. -/
def config_to_uvolt (val : Nat) : Int :=
  to_s32 ((((val % 4294967296) * 625 % 4294967296) / 100 + 700) * 1000 % 4294967296)

/-! ## drivers/gpu/drm/i915/pxp/intel_pxp.c -/

/-- The fields of `struct intel_pxp` the embedded functions read: `ce` (whether
the context pointer is set), `arb_session.is_valid`, `key_instance` and
`hw_state_invalidated`. -/
structure intel_pxp where
  ce : Bool
  arb_is_valid : Bool
  key_instance : Nat
  hw_state_invalidated : Bool
deriving DecidableEq, Repr

/-- The part of `struct drm_i915_gem_object` that `intel_pxp_key_check` reads:
whether the object is protected (`i915_gem_object_is_protected`, whose header is
not among the sources) and its `pxp_key_instance`. -/
structure drm_i915_gem_object where
  is_protected : Bool
  pxp_key_instance : Nat
deriving DecidableEq, Repr

/-- Embedding of `intel_pxp_is_enabled`: `return pxp->ce;`. -/
def intel_pxp_is_enabled (pxp : intel_pxp) : Bool := pxp.ce

/-- Embedding of `intel_pxp_is_active`: `return pxp->arb_session.is_valid;`. -/
def intel_pxp_is_active (pxp : intel_pxp) : Bool := pxp.arb_is_valid

/-- Embedding of `intel_pxp_key_check`: the status and the object as the call
leaves it. `GEM_BUG_ON(!pxp->key_instance)` (i915_gem.h, not among the sources)
is an assertion that compiles to nothing outside debug builds and is not
embedded. -/
def intel_pxp_key_check (pxp : intel_pxp) (obj : drm_i915_gem_object) (assign : Bool) :
    Int × drm_i915_gem_object :=
  if !intel_pxp_is_active pxp then (-ENODEV, obj)
  else if !obj.is_protected then (-EINVAL, obj)
  else
    let obj1 : drm_i915_gem_object :=
      if obj.pxp_key_instance = 0 ∧ assign = true then
        { is_protected := obj.is_protected, pxp_key_instance := pxp.key_instance }
      else obj
    if obj1.pxp_key_instance ≠ pxp.key_instance then (-ENOEXEC, obj1)
    else (0, obj1)

/-- Embedding of `intel_pxp_start`. `bound` is the outcome of
`wait_for(pxp_component_bound(pxp), 250)`, `restart` the status of
`__pxp_global_teardown_restart` and `valid_after` the value of
`pxp->arb_session.is_valid` read after it. The function takes `arb_mutex`; it
touches neither `session_mutex` nor a wakeref. -/
def intel_pxp_start (pxp : intel_pxp) (bound : Bool) (restart : Int) (valid_after : Bool) :
    Int :=
  if !intel_pxp_is_enabled pxp then -ENODEV
  else if !bound then - ENXIO
  else if restart ≠ 0 then restart
  else if !valid_after then - EIO
  else 0

/-- The values of `pxp_ops->action` that `i915_pxp_ops_ioctl` dispatches on (the
uapi header is not among the sources); every other value is `other`. -/
inductive pxp_action where
  | DOWNSTREAM_DRM_I915_PXP_ACTION_SET_SESSION_STATUS
  | DOWNSTREAM_DRM_I915_PXP_ACTION_TEE_IO_MESSAGE
  | DOWNSTREAM_DRM_I915_PXP_ACTION_QUERY_PXP_TAG
  | other (n : Nat)
deriving DecidableEq, Repr

/-- The statuses `i915_pxp_ops_ioctl` itself writes to `pxp_ops->status`. -/
inductive pxp_op_status where
  | DOWNSTREAM_DRM_I915_PXP_OP_STATUS_SESSION_NOT_AVAILABLE
  | DOWNSTREAM_DRM_I915_PXP_OP_STATUS_RETRY_REQUIRED
deriving DecidableEq, Repr

/-- Calls `i915_pxp_ops_ioctl` makes on the runtime-PM reference and on
`session_mutex`, and the calls in between, in program order. -/
inductive PxpEvent where
  | pm_get (wakeref : Nat)
  | pm_put (wakeref : Nat)
  | mutex_lock
  | mutex_unlock
  | start (ret : Int)
  | handler (action : pxp_action) (ret : Int)
deriving DecidableEq, Repr

/-- Outcome of `i915_pxp_ops_ioctl`: the return value, the status it wrote to
`pxp_ops->status` itself (if any) and the trace of its calls. -/
structure IoctlOutcome where
  ret : Int
  status : Option pxp_op_status
  trace : List PxpEvent
deriving DecidableEq, Repr

/-- Embedding of `i915_pxp_ops_ioctl`. `wakeref` is what
`intel_runtime_pm_get_if_in_use` returns (0 when the device is not in use);
`bound`, `restart` and `valid_after` feed `intel_pxp_start`; `handler` gives the
status of the handler of each action (`pxp_set_session_status`,
`pxp_send_tee_msg`, `pxp_query_tag`, which run under the mutex and do not touch
it). The labels `out_unlock` and `out_pm` are the tails of the trace. -/
def i915_pxp_ops_ioctl (pxp : intel_pxp) (wakeref : Nat) (bound : Bool) (restart : Int)
    (valid_after : Bool) (handler : pxp_action → Int) (action : pxp_action) : IoctlOutcome :=
  if !intel_pxp_is_enabled pxp then { ret := -ENODEV, status := none, trace := [] }
  else if wakeref = 0 then
    { ret := 0,
      status := some pxp_op_status.DOWNSTREAM_DRM_I915_PXP_OP_STATUS_SESSION_NOT_AVAILABLE,
      trace := [PxpEvent.pm_get wakeref] }
  else if pxp.hw_state_invalidated then
    -- goto out_unlock
    { ret := 0,
      status := some pxp_op_status.DOWNSTREAM_DRM_I915_PXP_OP_STATUS_RETRY_REQUIRED,
      trace := [PxpEvent.pm_get wakeref, PxpEvent.mutex_unlock, PxpEvent.pm_put wakeref] }
  else if !intel_pxp_is_active pxp ∧ intel_pxp_start pxp bound restart valid_after ≠ 0 then
    -- goto out_pm
    { ret := intel_pxp_start pxp bound restart valid_after, status := none,
      trace := [PxpEvent.pm_get wakeref,
        PxpEvent.start (intel_pxp_start pxp bound restart valid_after),
        PxpEvent.pm_put wakeref] }
  else
    let ret : Int :=
      match action with
      | pxp_action.other _ => -EINVAL
      | a => handler a
    { ret := ret, status := none,
      trace := [PxpEvent.pm_get wakeref] ++
        (if !intel_pxp_is_active pxp then
          [PxpEvent.start (intel_pxp_start pxp bound restart valid_after)] else []) ++
        [PxpEvent.mutex_lock] ++
        (match action with
         | pxp_action.other _ => []
         | a => [PxpEvent.handler a (handler a)]) ++
        [PxpEvent.mutex_unlock, PxpEvent.pm_put wakeref] }

/-- Checker of `session_mutex` along a trace: `held` tells whether this call
holds the mutex before the first event. The result is `none` when the mutex is
locked while held or unlocked while not held, otherwise whether it is held after
the last event. -/
def mutex_check : Bool → List PxpEvent → Option Bool
  | held, [] => some held
  | held, PxpEvent.mutex_lock :: es => if held then none else mutex_check true es
  | held, PxpEvent.mutex_unlock :: es => if held then mutex_check false es else none
  | held, _ :: es => mutex_check held es

/-- Number of releases of the wakeref `w` in a trace. -/
def pm_puts (w : Nat) (es : List PxpEvent) : Nat :=
  es.count (PxpEvent.pm_put w)

/-! ## drivers/net/wireless/iwl7000/iwlwifi/fw/regulatory.c: SAR table -/

/-- The number of SAR profiles, `#define BIOS_SAR_MAX_PROFILE_NUM 4`. -/
def BIOS_SAR_MAX_PROFILE_NUM : Nat := 4

/-- The number of chains filled, `#define BIOS_SAR_NUM_CHAINS 2`. -/
def BIOS_SAR_NUM_CHAINS : Nat := 2

/-- What a call of `iwl_sar_fill_table` did: its return value, the indices at
which it accessed `fwrt->sar_profiles`, in order, and the entries of
`per_chain` it wrote (index, value). -/
structure SarFill where
  ret : Int
  accesses : List Int
  writes : List (Nat × Nat)
deriving DecidableEq, Repr

/-- The index `profs[i] - 1` of `iwl_sar_fill_table`, computed in `int`: the
difference is reduced to 32 bits and read as a signed value, so that `INT_MIN`
gives 2147483647. -/
def sar_profile_index (p : Int) : Int := to_s32 (to_u32 (p - 1))

/-- The loop `for (i = 0; i < BIOS_SAR_NUM_CHAINS; i++)` of
`iwl_sar_fill_table` over the remaining entries of `profs`, from chain `i`.
The entries of `profs` are `int` values. `enabled idx` and
`subbands idx chain j` stand for what the memory at `fwrt->sar_profiles[idx]`
holds, whatever `idx` is. -/
def iwl_sar_fill_chains (enabled : Int → Bool) (subbands : Int → Nat → Nat → Nat)
    (n_subbands : Nat) : Nat → List Int → List Int → List (Nat × Nat) → SarFill
  | _, [], acc, wr => { ret := 0, accesses := acc, writes := wr }
  | i, p :: ps, acc, wr =>
    -- don't allow SAR to be disabled (profile 0 means disable)
    if p = 0 then { ret := -EPERM, accesses := acc, writes := wr }
    -- we are off by one, so allow up to BIOS_SAR_MAX_PROFILE_NUM
    else if p > (BIOS_SAR_MAX_PROFILE_NUM : Int) then
      { ret := -EINVAL, accesses := acc, writes := wr }
    else
      -- profiles go from 1 to 4, so decrement to access the array
      if !enabled (sar_profile_index p) then
        { ret := 1, accesses := acc ++ [sar_profile_index p], writes := wr }
      else
        iwl_sar_fill_chains enabled subbands n_subbands (i + 1) ps
          (acc ++ [sar_profile_index p])
          (wr ++ (List.range n_subbands).map
            (fun j => ((i * n_subbands + j) % 4294967296, subbands (sar_profile_index p) i j)))

/-- Embedding of `iwl_sar_fill_table`, with
`int profs[BIOS_SAR_NUM_CHAINS] = { prof_a, prof_b };`. The parameters
`prof_a` and `prof_b` are `int` values, from -2147483648 to 2147483647. -/
def iwl_sar_fill_table (enabled : Int → Bool) (subbands : Int → Nat → Nat → Nat)
    (n_subbands : Nat) (prof_a prof_b : Int) : SarFill :=
  iwl_sar_fill_chains enabled subbands n_subbands 0 [prof_a, prof_b] [] []

/-! ## google-modules/hdcp/samsung/auth-control.c -/

/-- The values of `enum auth_state` named in auth-control.c (the header is not
among the sources). -/
inductive auth_state where
  | HDCP_AUTH_IDLE
  | HDCP1_AUTH_PROGRESS
  | HDCP1_AUTH_DONE
  | HDCP2_AUTH_PROGRESS
  | HDCP2_AUTH_DONE
deriving DecidableEq, Repr

/-- The values of `enum dp_state` that `hdcp_dplink_connect_state` tells apart
(exynos-hdcp-interface.h is not among the sources); every other value is
`other`. -/
inductive dp_state where
  | DP_DISCONNECT
  | DP_PHYSICAL_DISCONNECT
  | other (n : Nat)
deriving DecidableEq, Repr

/-- The fields of `struct hdcp_device` used by auth-control.c, with the
delayed work reduced to whether it is pending and to the number of calls of
`hdcp_auth_worker_schedule`. -/
structure hdcp_device where
  connect_time : Nat
  hdcp2_success_count : Nat
  hdcp2_fallback_count : Nat
  hdcp1_success_count : Nat
  hdcp2_fail_count : Nat
  hdcp1_fail_count : Nat
  hdcp0_count : Nat
  work_pending : Bool
  schedule_calls : Nat
deriving DecidableEq, Repr

/-- The file-scope variables of auth-control.c: `state`,
`hdcp_auth_try_count` and the device behind `hdcp_dev`. `state` is `static`:
no code outside this file writes it. -/
structure hdcp_ctl where
  state : auth_state
  hdcp_auth_try_count : Nat
  dev : hdcp_device
deriving DecidableEq, Repr

/-- The loop of `run_hdcp2_auth` with `n` attempts left, attempt `i` next;
`auth22 i` is the status of the `i`-th call of `hdcp22_dplink_authenticate`. -/
def run_hdcp2_auth_from (auth22 : Nat → Int) : Nat → Nat → auth_state → Int × auth_state
  | 0, _, s => (- EIO, s)
  | n + 1, i, s =>
    if auth22 i = 0 then (0, auth_state.HDCP2_AUTH_DONE)
    else if auth22 i ≠ -EAGAIN then (auth22 i, s)
    else run_hdcp2_auth_from auth22 n (i + 1) s

/-- Embedding of `run_hdcp2_auth`: `state = HDCP2_AUTH_PROGRESS;` then up to
five attempts. The status and the value of `state` at return. -/
def run_hdcp2_auth (auth22 : Nat → Int) : Int × auth_state :=
  run_hdcp2_auth_from auth22 5 0 auth_state.HDCP2_AUTH_PROGRESS

/-- Increment of a counter by a C `bool`. -/
def add_bool (n : Nat) (b : Bool) : Nat := if b then n + 1 else n

/-- Embedding of `hdcp_worker`. `cp` is the pair (status, requested level) of
`hdcp_tee_get_cp_level`, `auth22` the statuses of the HDCP 2.2 attempts and
`auth13` the status of `hdcp13_dplink_authenticate`. The sleeps are not
embedded. -/
def hdcp_worker (max_ver : Nat) (cp : Int × Nat) (auth22 : Nat → Int) (auth13 : Int)
    (g : hdcp_ctl) : hdcp_ctl :=
  if g.state ≠ auth_state.HDCP_AUTH_IDLE then g
  else if cp.1 = 0 ∧ cp.2 = 0 ∧ max_ver ≤ 2 then g
  else
    let r2 := if max_ver ≥ 2 then run_hdcp2_auth auth22 else (0, g.state)
    if max_ver ≥ 2 ∧ r2.1 = 0 then
      { g with state := r2.2,
               dev := { g.dev with hdcp2_success_count := g.dev.hdcp2_success_count + 1 } }
    else
      let hdcp2_capable : Bool := decide (max_ver ≥ 2 ∧ r2.1 ≠ -EOPNOTSUPP)
      let g1 : hdcp_ctl := { g with state := r2.2 }
      if max_ver ≥ 1 ∧ auth13 = 0 then
        { g1 with state := auth_state.HDCP1_AUTH_DONE,
                  dev := { g1.dev with
                    hdcp2_fallback_count := add_bool g1.dev.hdcp2_fallback_count hdcp2_capable,
                    hdcp1_success_count :=
                      add_bool g1.dev.hdcp1_success_count (!hdcp2_capable) } }
      else
        let hdcp1_capable : Bool := decide (max_ver ≥ 1 ∧ auth13 ≠ -EOPNOTSUPP)
        let g2 : hdcp_ctl :=
          if max_ver ≥ 1 then { g1 with state := auth_state.HDCP_AUTH_IDLE } else g1
        { g2 with dev := { g2.dev with
            hdcp2_fail_count := add_bool g2.dev.hdcp2_fail_count hdcp2_capable,
            hdcp1_fail_count :=
              add_bool g2.dev.hdcp1_fail_count (!hdcp2_capable && hdcp1_capable),
            hdcp0_count := add_bool g2.dev.hdcp0_count (!hdcp2_capable && !hdcp1_capable) } }

/-- Embedding of `hdcp_auth_worker_schedule`:
`schedule_delayed_work(&dev->hdcp_work, 0);`. -/
def hdcp_auth_worker_schedule (g : hdcp_ctl) : hdcp_ctl :=
  { g with dev := { g.dev with work_pending := true,
                               schedule_calls := g.dev.schedule_calls + 1 } }

/-- The local `ret` of `hdcp_dplink_handle_irq` after the `switch`: `irq22` and
`irq13` are the statuses of `hdcp22_dplink_handle_irq` and
`hdcp13_dplink_handle_irq`. In `HDCP2_AUTH_PROGRESS` the handler is called and
its status dropped. -/
def hdcp_irq_ret (irq22 irq13 : Int) : auth_state → Int
  | auth_state.HDCP2_AUTH_DONE => irq22
  | auth_state.HDCP1_AUTH_DONE => irq13
  | _ => 0

/-- Embedding of `hdcp_dplink_handle_irq`; `max_retry_count` is the module
parameter. -/
def hdcp_dplink_handle_irq (max_retry_count : Nat) (irq22 irq13 : Int) (g : hdcp_ctl) :
    hdcp_ctl :=
  let ret := hdcp_irq_ret irq22 irq13 g.state
  let g1 : hdcp_ctl :=
    if ret = -EAGAIN ∨ ret = -EFAULT then { g with state := auth_state.HDCP_AUTH_IDLE } else g
  if ret = -EFAULT ∧ g1.hdcp_auth_try_count ≥ max_retry_count then g1
  else
    let g2 : hdcp_ctl :=
      if ret = -EFAULT then
        { g1 with hdcp_auth_try_count := (g1.hdcp_auth_try_count + 1) % 4294967296 }
      else g1
    if ret = -EAGAIN ∨ ret = -EFAULT then hdcp_auth_worker_schedule g2 else g2

/-- Embedding of `hdcp_dplink_connect_state`; `now` is what `ktime_get()`
returns. The calls into the TEE and the aborts of the link layer leave the
variables of this file untouched. -/
def hdcp_dplink_connect_state (max_retry_count : Nat) (now : Nat) (dp_hdcp_state : dp_state)
    (g : hdcp_ctl) : hdcp_ctl :=
  if dp_hdcp_state = dp_state.DP_PHYSICAL_DISCONNECT then
    { g with hdcp_auth_try_count := 0, dev := { g.dev with connect_time := 0 } }
  else if dp_hdcp_state = dp_state.DP_DISCONNECT then
    { g with state := auth_state.HDCP_AUTH_IDLE, dev := { g.dev with work_pending := false } }
  else
    let g1 : hdcp_ctl := { g with dev := { g.dev with connect_time := now } }
    if g1.hdcp_auth_try_count ≥ max_retry_count then g1
    else
      hdcp_auth_worker_schedule
        { g1 with hdcp_auth_try_count := (g1.hdcp_auth_try_count + 1) % 4294967296 }

/-- A call into auth-control.c from the DisplayPort driver. -/
inductive hdcp_call where
  | irq (irq22 irq13 : Int)
  | connect (now : Nat) (dp_hdcp_state : dp_state)
deriving DecidableEq, Repr

/-- One call. -/
def hdcp_step (max_retry_count : Nat) : hdcp_call → hdcp_ctl → hdcp_ctl
  | hdcp_call.irq irq22 irq13, g => hdcp_dplink_handle_irq max_retry_count irq22 irq13 g
  | hdcp_call.connect now dp, g => hdcp_dplink_connect_state max_retry_count now dp g

/-- A sequence of calls, in order. -/
def hdcp_run (max_retry_count : Nat) : List hdcp_call → hdcp_ctl → hdcp_ctl
  | [], g => g
  | c :: cs, g => hdcp_run max_retry_count cs (hdcp_step max_retry_count c g)

/-- Whether a call is the notification of a physical disconnect. -/
def hdcp_call.is_physical_disconnect : hdcp_call → Bool
  | hdcp_call.connect _ dp_state.DP_PHYSICAL_DISCONNECT => true
  | _ => false

/-- Number of interrupts of a sequence of calls whose handler reported
`-EAGAIN`, each read in the state its call found. -/
def eagain_irqs (max_retry_count : Nat) : List hdcp_call → hdcp_ctl → Nat
  | [], _ => 0
  | hdcp_call.irq irq22 irq13 :: cs, g =>
    (if hdcp_irq_ret irq22 irq13 g.state = -EAGAIN then 1 else 0) +
      eagain_irqs max_retry_count cs (hdcp_step max_retry_count (hdcp_call.irq irq22 irq13) g)
  | c :: cs, g => eagain_irqs max_retry_count cs (hdcp_step max_retry_count c g)

/-- A device with all counters at zero and no work pending. -/
def hdcp_dev0 : hdcp_device :=
  { connect_time := 0, hdcp2_success_count := 0, hdcp2_fallback_count := 0,
    hdcp1_success_count := 0, hdcp2_fail_count := 0, hdcp1_fail_count := 0, hdcp0_count := 0,
    work_pending := false, schedule_calls := 0 }

/-! ## drivers/net/wireless/iwl7000/iwlwifi/fw/uefi.c: reduced-power TLVs -/

/-- A little-endian 32-bit read at byte offset `off` of a buffer; `none` when
the four bytes do not all lie within the buffer. -/
def le32_at (data : Bytes) (off : Nat) : Option Nat :=
  if off + 4 ≤ data.length then
    some (data.getD off 0 % 256 + 256 * (data.getD (off + 1) 0 % 256)
      + 65536 * (data.getD (off + 2) 0 % 256) + 16777216 * (data.getD (off + 3) 0 % 256))
  else none

/-- The kernel macro `ALIGN(x, 4)` on a `u32` (linux/align.h is not among the
sources): `(x + 3) & ~3` in 32 bits. -/
def ALIGN4 (x : Nat) : Nat := (x + 3) % 4294967296 / 4 * 4

/-- Subtraction on `size_t` (64 bits), as in `len -= ALIGN(tlv_len, 4);`. -/
def size_sub (len n : Nat) : Nat := (len % 18446744073709551616 + 18446744073709551616
  - n % 18446744073709551616) % 18446744073709551616

/-- The chunks of `struct iwl_pnvm_image`, each the offset of its payload in
the buffer and its length; `n_chunks` is the length of the list. -/
structure iwl_pnvm_image where
  chunks : List (Nat × Nat)
deriving DecidableEq, Repr

/-- Outcome of a parse: a return value with the image, a read outside the
buffer (offset and size of the read), or the bound on the iterations reached. -/
inductive ParseOutcome where
  | returned (ret : Int) (img : iwl_pnvm_image)
  | fault (off size : Nat)
  | out_of_fuel
deriving DecidableEq, Repr

/-- Embedding of `iwl_uefi_handle_tlv_mem_desc`; `off` is the offset of the
payload of the TLV, `max_chunks` is `IPC_DRAM_MAP_ENTRY_NUM_MAX`. The result is
the status with the image, or the read of `desc->size` that left the buffer. -/
def iwl_uefi_handle_tlv_mem_desc (max_chunks : Nat) (data : Bytes) (off tlv_len : Nat)
    (img : iwl_pnvm_image) : Except (Nat × Nat) (Int × iwl_pnvm_image) :=
  if tlv_len < 8 then Except.ok (-EINVAL, img)
  else
    match le32_at data (off + 4) with
    | none => Except.error (off + 4, 4)
    | some size =>
      if size ≠ tlv_len - 8 then Except.ok (-EINVAL, img)
      else if img.chunks.length = max_chunks then Except.ok (-EINVAL, img)
      else Except.ok (0, { chunks := img.chunks ++ [(off + 8, tlv_len - 8)] })

/-- The label `done` of `iwl_uefi_reduce_power_section`. -/
def reduce_power_section_done (img : iwl_pnvm_image) : ParseOutcome :=
  if img.chunks.length = 0 then ParseOutcome.returned (-ENOENT) img
  else ParseOutcome.returned 0 img

/-- The loop `while (len >= sizeof(*tlv))` of `iwl_uefi_reduce_power_section`
from offset `off` with `len` bytes counted as remaining. `sku_type` and
`mem_desc_type` are `IWL_UCODE_TLV_PNVM_SKU` and `IWL_UCODE_TLV_MEM_DESC`
(fw/file.h is not among the sources). -/
def reduce_power_section_loop (sku_type mem_desc_type max_chunks : Nat) (data : Bytes) :
    Nat → Nat → Nat → iwl_pnvm_image → ParseOutcome
  | 0, _, _, _ => ParseOutcome.out_of_fuel
  | fuel + 1, off, len, img =>
    if len ≥ 8 then
      match le32_at data (off + 4), le32_at data off with
      | none, _ => ParseOutcome.fault (off + 4) 4
      | some _, none => ParseOutcome.fault off 4
      | some tlv_len, some tlv_type =>
        if len - 8 < tlv_len then ParseOutcome.returned (-EINVAL) img
        else if tlv_type = mem_desc_type then
          match iwl_uefi_handle_tlv_mem_desc max_chunks data (off + 8) tlv_len img with
          | Except.error e => ParseOutcome.fault e.1 e.2
          | Except.ok r =>
            if r.1 ≠ 0 then ParseOutcome.returned (-EINVAL) r.2
            else
              reduce_power_section_loop sku_type mem_desc_type max_chunks data fuel
                (off + 8 + ALIGN4 tlv_len) (size_sub (len - 8) (ALIGN4 tlv_len)) r.2
        else if tlv_type = sku_type then reduce_power_section_done img
        else
          reduce_power_section_loop sku_type mem_desc_type max_chunks data fuel
            (off + 8 + ALIGN4 tlv_len) (size_sub (len - 8) (ALIGN4 tlv_len)) img
    else reduce_power_section_done img

/-- Embedding of `iwl_uefi_reduce_power_section`: `memset(pnvm_data, 0, ...)`
then the loop. -/
def iwl_uefi_reduce_power_section (sku_type mem_desc_type max_chunks : Nat) (data : Bytes)
    (fuel off len : Nat) : ParseOutcome :=
  reduce_power_section_loop sku_type mem_desc_type max_chunks data fuel off len { chunks := [] }

/-- The test `trans->sku_id[0] == le32_to_cpu(sku_id->data[0]) && ...` of
`iwl_uefi_reduce_power_parse`, with the short-circuit evaluation of C: the
words of the SKU id at `off`, `off + 4` and `off + 8` are read as long as the
words before them match. The result is the read that left the buffer, or
whether the three words match. -/
def sku_id_match (sku_id : Nat × Nat × Nat) (data : Bytes) (off : Nat) :
    Except (Nat × Nat) Bool :=
  match le32_at data off with
  | none => Except.error (off, 4)
  | some d0 =>
    if sku_id.1 ≠ d0 then Except.ok false
    else
      match le32_at data (off + 4) with
      | none => Except.error (off + 4, 4)
      | some d1 =>
        if sku_id.2.1 ≠ d1 then Except.ok false
        else
          match le32_at data (off + 8) with
          | none => Except.error (off + 8, 4)
          | some d2 => Except.ok (decide (sku_id.2.2 = d2))

/-- Embedding of `iwl_uefi_reduce_power_parse`: the loop
`while (len >= sizeof(*tlv))` from offset `off` with `len` bytes counted as
remaining; `sku_id` is `trans->sku_id`, `img` the image as the last section
parse left it. The debug prints are not embedded. -/
def iwl_uefi_reduce_power_parse (sku_type mem_desc_type max_chunks : Nat)
    (sku_id : Nat × Nat × Nat) (data : Bytes) :
    Nat → Nat → Nat → iwl_pnvm_image → ParseOutcome
  | 0, _, _, _ => ParseOutcome.out_of_fuel
  | fuel + 1, off, len, img =>
    if len ≥ 8 then
      match le32_at data (off + 4), le32_at data off with
      | none, _ => ParseOutcome.fault (off + 4) 4
      | some _, none => ParseOutcome.fault off 4
      | some tlv_len, some tlv_type =>
        if len - 8 < tlv_len then ParseOutcome.returned (-EINVAL) img
        else if tlv_type = sku_type then
          match sku_id_match sku_id data (off + 8) with
          | Except.error e => ParseOutcome.fault e.1 e.2
          | Except.ok true =>
            match iwl_uefi_reduce_power_section sku_type mem_desc_type max_chunks data fuel
                (off + 8 + ALIGN4 tlv_len) (size_sub (len - 8) (ALIGN4 tlv_len)) with
            | ParseOutcome.returned ret img1 =>
              if ret = 0 then ParseOutcome.returned 0 img1
              else
                iwl_uefi_reduce_power_parse sku_type mem_desc_type max_chunks sku_id data fuel
                  (off + 8 + ALIGN4 tlv_len) (size_sub (len - 8) (ALIGN4 tlv_len)) img1
            | other => other
          | Except.ok false =>
            iwl_uefi_reduce_power_parse sku_type mem_desc_type max_chunks sku_id data fuel
              (off + 8 + ALIGN4 tlv_len) (size_sub (len - 8) (ALIGN4 tlv_len)) img
        else
          iwl_uefi_reduce_power_parse sku_type mem_desc_type max_chunks sku_id data fuel
            (off + 8 + ALIGN4 tlv_len) (size_sub (len - 8) (ALIGN4 tlv_len)) img
    else ParseOutcome.returned (-ENOENT) img

/-- A TLV header: type and length, little-endian. -/
def tlv_header (type len : Nat) : Bytes :=
  [type % 256, type / 256 % 256, type / 65536 % 256, type / 16777216 % 256,
   len % 256, len / 256 % 256, len / 65536 % 256, len / 16777216 % 256]

/-- A 14-byte buffer: one TLV of type 0 whose length field is 5, followed by
six payload bytes. -/
def padded_tlv_input : Bytes := tlv_header 0 5 ++ [1, 2, 3, 4, 5, 6]

/-! # Theorems -/

/-! ## xts_setkey_common -/

/-- C8: for key material of even length `n` accepted by the validator, the
first expansion call fills the data-key (crypt) schedule from bytes `[0, n/2)`
with length `n/2`; when it succeeds the second call fills the tweak-key
schedule from bytes `[n/2, n)` with length `n/2`, and no other call is made. -/
theorem xts_setkey_common_split {K : Type} (verify : Bytes → Nat → Int)
    (fn : K → Bytes → Nat → Int × K) (ctx : aes_xts_ctx K) (key : Bytes) (n : Nat)
    (heven : n % 2 = 0) (hlen : key.length = n) (hok : verify key n = 0) :
    (xts_setkey_common verify fn ctx key n).ctx.crypt_ctx
        = (fn ctx.crypt_ctx (key.take (n / 2)) (n / 2)).2 ∧
    (xts_setkey_common verify fn ctx key n).calls.head?
        = some { sel := KeySel.crypt, off := 0, key_len := n / 2,
                 err := (fn ctx.crypt_ctx (key.take (n / 2)) (n / 2)).1 } ∧
    ((fn ctx.crypt_ctx (key.take (n / 2)) (n / 2)).1 = 0 →
      (xts_setkey_common verify fn ctx key n).ctx.tweak_ctx
          = (fn ctx.tweak_ctx (key.drop (n / 2)) (n / 2)).2 ∧
      (xts_setkey_common verify fn ctx key n).calls
          = [{ sel := KeySel.crypt, off := 0, key_len := n / 2, err := 0 },
             { sel := KeySel.tweak, off := n / 2, key_len := n / 2,
               err := (fn ctx.tweak_ctx (key.drop (n / 2)) (n / 2)).1 }]) ∧
    (key.take (n / 2)).length = n / 2 ∧ (key.drop (n / 2)).length = n / 2 ∧
    key.take (n / 2) ++ key.drop (n / 2) = key := by
  have htake : (key.drop (n / 2)).take (n / 2) = key.drop (n / 2) := by
    apply List.take_of_length_le
    simp only [List.length_drop]
    omega
  refine ⟨?_, ?_, ?_, ?_, ?_, ?_⟩
  · by_cases h1 : (fn ctx.crypt_ctx (key.take (n / 2)) (n / 2)).1 = 0
    · simp [xts_setkey_common, hok, h1]
    · simp [xts_setkey_common, hok, h1]
  · by_cases h1 : (fn ctx.crypt_ctx (key.take (n / 2)) (n / 2)).1 = 0
    · simp [xts_setkey_common, hok, h1]
    · simp [xts_setkey_common, hok, h1]
  · intro h0
    simp only [xts_setkey_common, hok, h0, htake]
    simp
  · simp only [List.length_take]; omega
  · simp only [List.length_drop]; omega
  · exact List.take_append_drop _ _

/-- Witness for C8: a 32-byte key under the even-length validator. -/
theorem xts_setkey_common_split_witness :
    (xts_setkey_common even_verify toy_expand toy_ctx (List.replicate 32 1) 32).calls
      = [{ sel := KeySel.crypt, off := 0, key_len := 16, err := 0 },
         { sel := KeySel.tweak, off := 16, key_len := 16, err := 0 }] :=
  ((xts_setkey_common_split even_verify toy_expand toy_ctx (List.replicate 32 1) 32
      (by decide) (by decide) (by decide)).2.2.1 (by decide)).2

/-- C9: the key length is checked before splitting. A failing validator's
error is returned with no expansion call and the context untouched; otherwise a
failing data-key expansion's error is returned and the tweak-key expansion is
not attempted; otherwise the tweak-key expansion's status is returned. The
status is zero exactly when the validator and both expansions return zero. -/
theorem xts_setkey_common_status {K : Type} (verify : Bytes → Nat → Int)
    (fn : K → Bytes → Nat → Int × K) (ctx : aes_xts_ctx K) (key : Bytes) (n : Nat) :
    (verify key n ≠ 0 →
      (xts_setkey_common verify fn ctx key n).err = verify key n ∧
      (xts_setkey_common verify fn ctx key n).calls = [] ∧
      (xts_setkey_common verify fn ctx key n).ctx = ctx) ∧
    (verify key n = 0 → (fn ctx.crypt_ctx (key.take (n / 2)) (n / 2)).1 ≠ 0 →
      (xts_setkey_common verify fn ctx key n).err
          = (fn ctx.crypt_ctx (key.take (n / 2)) (n / 2)).1 ∧
      (xts_setkey_common verify fn ctx key n).calls
          = [{ sel := KeySel.crypt, off := 0, key_len := n / 2,
               err := (fn ctx.crypt_ctx (key.take (n / 2)) (n / 2)).1 }] ∧
      (xts_setkey_common verify fn ctx key n).ctx.tweak_ctx = ctx.tweak_ctx) ∧
    (verify key n = 0 → (fn ctx.crypt_ctx (key.take (n / 2)) (n / 2)).1 = 0 →
      (xts_setkey_common verify fn ctx key n).err
          = (fn ctx.tweak_ctx ((key.drop (n / 2)).take (n / 2)) (n / 2)).1 ∧
      (xts_setkey_common verify fn ctx key n).calls
          = [{ sel := KeySel.crypt, off := 0, key_len := n / 2, err := 0 },
             { sel := KeySel.tweak, off := n / 2, key_len := n / 2,
               err := (fn ctx.tweak_ctx ((key.drop (n / 2)).take (n / 2)) (n / 2)).1 }]) ∧
    ((xts_setkey_common verify fn ctx key n).err = 0 ↔
      verify key n = 0 ∧ (fn ctx.crypt_ctx (key.take (n / 2)) (n / 2)).1 = 0 ∧
      (fn ctx.tweak_ctx ((key.drop (n / 2)).take (n / 2)) (n / 2)).1 = 0) := by
  refine ⟨?_, ?_, ?_, ?_⟩
  · intro h
    simp [xts_setkey_common, h]
  · intro h0 h1
    simp [xts_setkey_common, h0, h1]
  · intro h0 h1
    simp [xts_setkey_common, h0, h1]
  · by_cases h0 : verify key n = 0
    · by_cases h1 : (fn ctx.crypt_ctx (key.take (n / 2)) (n / 2)).1 = 0
      · simp [xts_setkey_common, h0, h1]
      · simp [xts_setkey_common, h0, h1]
    · simp [xts_setkey_common, h0]

/-- C10: with the validator of the spec, key material whose length is not
double a supported single-key length is rejected with the validator's error
`-EINVAL`, whatever its content; no expansion is invoked and the context is
untouched. -/
theorem xts_setkey_common_bad_length {K : Type} (supported : List Nat)
    (fn : K → Bytes → Nat → Int × K) (ctx : aes_xts_ctx K) (key : Bytes) (n : Nat)
    (hbad : ∀ k ∈ supported, n ≠ 2 * k) :
    (xts_setkey_common (xts_verify_key supported) fn ctx key n).err = -EINVAL ∧
    (xts_setkey_common (xts_verify_key supported) fn ctx key n).err
        = xts_verify_key supported key n ∧
    (xts_setkey_common (xts_verify_key supported) fn ctx key n).calls = [] ∧
    (xts_setkey_common (xts_verify_key supported) fn ctx key n).ctx = ctx := by
  have hv : xts_verify_key supported key n = -EINVAL := by
    unfold xts_verify_key
    rw [if_neg]
    simp only [List.any_eq_true, beq_iff_eq, not_exists, not_and]
    exact hbad
  have hne : xts_verify_key supported key n ≠ 0 := by
    rw [hv]; decide
  simp [xts_setkey_common, hv, EINVAL]

/-- Witness for C10: 48 bytes of key material when the cipher supports 16- and
32-byte keys. -/
theorem xts_setkey_common_bad_length_witness :
    (xts_setkey_common (xts_verify_key [16, 32]) toy_expand toy_ctx (List.replicate 48 9) 48).err
      = -EINVAL :=
  (xts_setkey_common_bad_length [16, 32] toy_expand toy_ctx (List.replicate 48 9) 48
    (by decide)).1

/-! ## xts_crypt_common: rejected requests -/

/-- C1: a request shorter than one block returns `-EINVAL` and leaves the
machine state as it was: no walk is started, the cipher unit is not acquired,
no primitive is invoked (the trace is unchanged), and memory and IV are
untouched. -/
theorem xts_crypt_common_short {K : Type} (env : WalkEnv) (crypt_fn : CryptFn K)
    (crypt1_fn : Crypt1Fn K) (ctx : aes_xts_ctx K) (fuel : Nat) (req : skcipher_request)
    (st : State) (hshort : req.cryptlen < 16) :
    (xts_crypt_common env crypt_fn crypt1_fn ctx fuel req st).ret = some (-EINVAL) ∧
    (xts_crypt_common env crypt_fn crypt1_fn ctx fuel req st).st = st := by
  have h : req.cryptlen < AES_BLOCK_SIZE := hshort
  simp [xts_crypt_common, h]

/-- Witness for C1: a 15-byte request. -/
theorem xts_crypt_common_short_witness :
    (xts_crypt_common (cut_env 16) toy_enc toy_crypt1 toy_ctx 8 (toy_req 15)
        (toy_state (List.replicate 15 1) 15)).ret = some (-EINVAL) :=
  (xts_crypt_common_short (cut_env 16) toy_enc toy_crypt1 toy_ctx 8 (toy_req 15)
    (toy_state (List.replicate 15 1) 15) (by decide)).1

/-! ## Trace lemmas -/

theorem AllOk_nil : AllOk [] := by
  intro x hx
  cases hx

theorem AllOk_append {a b : List Event} (ha : AllOk a) (hb : AllOk b) : AllOk (a ++ b) := by
  intro x hx e he
  rcases List.mem_append.mp hx with h | h
  · exact ha x h e he
  · exact hb x h e he

theorem FailShape_append {a b : List Event} {ret : Option Int} (ha : AllOk a)
    (hb : FailShape b ret) : FailShape (a ++ b) ret := by
  rcases hb with hb | ⟨c, f, e, hes, hc, hf, hne, hret⟩
  · exact Or.inl (AllOk_append ha hb)
  · refine Or.inr ⟨a ++ c, f, e, ?_, AllOk_append ha hc, hf, hne, hret⟩
    rw [hes, List.append_assoc]

theorem fpu_check_append (a b : List Event) (h : Bool) :
    fpu_check h (a ++ b) = (fpu_check h a).bind (fun h1 => fpu_check h1 b) := by
  induction a generalizing h with
  | nil => simp [fpu_check]
  | cons x xs ih =>
    cases x <;> cases h <;> simp [fpu_check, ih]

theorem fpu_check_append_of {a b : List Event} {h h1 : Bool} {r : Option Bool}
    (ha : fpu_check h a = some h1) (hb : fpu_check h1 b = r) :
    fpu_check h (a ++ b) = r := by
  rw [fpu_check_append, ha]
  simpa using hb

theorem xts_crypt_chunk_trace {K : Type} (crypt_fn : CryptFn K) (ctx : aes_xts_ctx K)
    (walk : skcipher_walk) (n : Nat) (st : State) :
    (xts_crypt_chunk crypt_fn ctx walk n st).2.trace
      = st.trace ++ [Event.crypt KeySel.crypt walk.src walk.dst n st.iv
          (xts_crypt_chunk crypt_fn ctx walk n st).1, Event.fpu_end] := rfl

theorem xts_walk_advance_trace (env : WalkEnv) (walk : skcipher_walk) (res : Nat) (st : State) :
    (xts_walk_advance env walk res st).2.trace
      = st.trace ++ (Event.walk_done res (xts_walk_advance env walk res st).1.1
          (xts_walk_advance env walk res st).1.2.nbytes ::
          (if 0 < (xts_walk_advance env walk res st).1.2.nbytes then [Event.fpu_begin] else [])) := by
  unfold xts_walk_advance
  by_cases h : 0 < (skcipher_walk_done env walk res).2.nbytes
  · simp [h, State.log]
  · simp [h, State.log]

theorem AllOk_chunk_ok {sel : KeySel} {src dst : scatterlist} {n : Nat} {iv : Bytes} :
    AllOk [Event.crypt sel src dst n iv 0, Event.fpu_end] := by
  intro x hx e he
  simp only [List.mem_cons, List.mem_singleton, List.not_mem_nil, or_false] at hx
  rcases hx with rfl | rfl
  · simpa [Event.prim_status] using he.symm
  · simp [Event.prim_status] at he

theorem AllOk_advance {res : Nat} {err : Int} {n : Nat} {b : Bool} :
    AllOk (Event.walk_done res err n :: (if b then [Event.fpu_begin] else [])) := by
  intro x hx e he
  cases b <;> simp at hx <;> rcases hx with rfl | rfl <;> simp [Event.prim_status] at he

theorem not_AllOk_fail {c : List Event} {f : Event} {e : Int} (hf : f.prim_status = some e)
    (hne : e ≠ 0) (t : List Event) : ¬ AllOk (c ++ f :: t) := by
  intro h
  exact hne (h f (by simp) e hf)

/-- Trace of one successful loop iteration. -/
theorem xts_iter_trace {K : Type} (env : WalkEnv) (crypt_fn : CryptFn K) (ctx : aes_xts_ctx K)
    (walk : skcipher_walk) (n res : Nat) (st : State)
    (hr : (xts_crypt_chunk crypt_fn ctx walk n st).1 = 0) :
    ∃ pre, (xts_walk_advance env walk res (xts_crypt_chunk crypt_fn ctx walk n st).2).2.trace
        = st.trace ++ pre ∧ AllOk pre ∧
      fpu_check true pre = some (decide (0 <
        (xts_walk_advance env walk res (xts_crypt_chunk crypt_fn ctx walk n st).2).1.2.nbytes)) ∧
      crypt_src_ranges pre = [(walk.src.off, n)] ∧ crypt_dst_ranges pre = [(walk.dst.off, n)] := by
  refine ⟨[Event.crypt KeySel.crypt walk.src walk.dst n st.iv 0, Event.fpu_end] ++
    (Event.walk_done res
      (xts_walk_advance env walk res (xts_crypt_chunk crypt_fn ctx walk n st).2).1.1
      (xts_walk_advance env walk res (xts_crypt_chunk crypt_fn ctx walk n st).2).1.2.nbytes ::
      (if 0 < (xts_walk_advance env walk res
        (xts_crypt_chunk crypt_fn ctx walk n st).2).1.2.nbytes then [Event.fpu_begin] else [])),
    ?_, ?_, ?_, ?_, ?_⟩
  · rw [xts_walk_advance_trace, xts_crypt_chunk_trace, hr]
    simp only [List.append_assoc]
  · apply AllOk_append AllOk_chunk_ok
    have := @AllOk_advance res
      (xts_walk_advance env walk res (xts_crypt_chunk crypt_fn ctx walk n st).2).1.1
      (xts_walk_advance env walk res (xts_crypt_chunk crypt_fn ctx walk n st).2).1.2.nbytes
      (decide (0 < (xts_walk_advance env walk res
        (xts_crypt_chunk crypt_fn ctx walk n st).2).1.2.nbytes))
    simpa using this
  · by_cases hnb : 0 < (xts_walk_advance env walk res
        (xts_crypt_chunk crypt_fn ctx walk n st).2).1.2.nbytes
    · simp [hnb, fpu_check]
    · simp [hnb, fpu_check]
  · by_cases hnb : 0 < (xts_walk_advance env walk res
        (xts_crypt_chunk crypt_fn ctx walk n st).2).1.2.nbytes
    · simp [hnb, crypt_src_ranges]
    · simp [hnb, crypt_src_ranges]
  · by_cases hnb : 0 < (xts_walk_advance env walk res
        (xts_crypt_chunk crypt_fn ctx walk n st).2).1.2.nbytes
    · simp [hnb, crypt_dst_ranges]
    · simp [hnb, crypt_dst_ranges]

theorem xts_walk_loop_succ_ok {K : Type} (env : WalkEnv) (crypt_fn : CryptFn K)
    (ctx : aes_xts_ctx K) (fuel : Nat) (walk : skcipher_walk) (err : Int) (st : State)
    (hn : 0 < walk.nbytes)
    (hr : (xts_crypt_chunk crypt_fn ctx walk (loop_nbytes walk) st).1 = 0) :
    xts_walk_loop env crypt_fn ctx (fuel + 1) walk err st
      = xts_walk_loop env crypt_fn ctx fuel
          (xts_walk_advance env walk (walk.nbytes - loop_nbytes walk)
            (xts_crypt_chunk crypt_fn ctx walk (loop_nbytes walk) st).2).1.2
          (xts_walk_advance env walk (walk.nbytes - loop_nbytes walk)
            (xts_crypt_chunk crypt_fn ctx walk (loop_nbytes walk) st).2).1.1
          (xts_walk_advance env walk (walk.nbytes - loop_nbytes walk)
            (xts_crypt_chunk crypt_fn ctx walk (loop_nbytes walk) st).2).2 := by
  simp [xts_walk_loop, hn, hr]

theorem xts_walk_loop_succ_fail {K : Type} (env : WalkEnv) (crypt_fn : CryptFn K)
    (ctx : aes_xts_ctx K) (fuel : Nat) (walk : skcipher_walk) (err : Int) (st : State)
    (hn : 0 < walk.nbytes)
    (hr : (xts_crypt_chunk crypt_fn ctx walk (loop_nbytes walk) st).1 ≠ 0) :
    xts_walk_loop env crypt_fn ctx (fuel + 1) walk err st
      = (LoopExit.returned (xts_crypt_chunk crypt_fn ctx walk (loop_nbytes walk) st).1,
         (xts_crypt_chunk crypt_fn ctx walk (loop_nbytes walk) st).2) := by
  simp [xts_walk_loop, hn, hr]

theorem xts_walk_loop_idle {K : Type} (env : WalkEnv) (crypt_fn : CryptFn K)
    (ctx : aes_xts_ctx K) (fuel : Nat) (walk : skcipher_walk) (err : Int) (st : State)
    (hn : ¬ 0 < walk.nbytes) :
    xts_walk_loop env crypt_fn ctx fuel walk err st = (LoopExit.finished err, st) := by
  cases fuel <;> simp [xts_walk_loop, hn]

/-- Trace of the main loop: what it appends obeys the cipher-unit discipline
(the unit is held at the loop head exactly when a chunk is pending, and is held
afterwards only if the bound ran out), and a primitive failure ends it. -/
theorem xts_walk_loop_trace {K : Type} (env : WalkEnv) (crypt_fn : CryptFn K)
    (ctx : aes_xts_ctx K) :
    ∀ (fuel : Nat) (walk : skcipher_walk) (err : Int) (st : State),
      ∃ es, (xts_walk_loop env crypt_fn ctx fuel walk err st).2.trace = st.trace ++ es ∧
        fpu_check (decide (0 < walk.nbytes)) es
          = some (decide ((xts_walk_loop env crypt_fn ctx fuel walk err st).1
              = LoopExit.exhausted)) ∧
        (∀ e, (xts_walk_loop env crypt_fn ctx fuel walk err st).1 = LoopExit.returned e →
          FailShape es (some e) ∧ ¬ AllOk es) ∧
        ((∀ e, (xts_walk_loop env crypt_fn ctx fuel walk err st).1 ≠ LoopExit.returned e) →
          AllOk es) := by
  intro fuel
  induction fuel with
  | zero =>
    intro walk err st
    by_cases hn : 0 < walk.nbytes
    · refine ⟨[], ?_, ?_, ?_, ?_⟩ <;> simp [xts_walk_loop, hn, fpu_check, AllOk_nil]
    · refine ⟨[], ?_, ?_, ?_, ?_⟩ <;> simp [xts_walk_loop, hn, fpu_check, AllOk_nil]
  | succ fuel ih =>
    intro walk err st
    by_cases hn : 0 < walk.nbytes
    · by_cases hr : (xts_crypt_chunk crypt_fn ctx walk (loop_nbytes walk) st).1 = 0
      · obtain ⟨pre, hp1, hp2, hp3, -, -⟩ := xts_iter_trace env crypt_fn ctx walk
          (loop_nbytes walk) (walk.nbytes - loop_nbytes walk) st hr
        obtain ⟨es, htr, hfpu, hret, hok⟩ := ih
          (xts_walk_advance env walk (walk.nbytes - loop_nbytes walk)
            (xts_crypt_chunk crypt_fn ctx walk (loop_nbytes walk) st).2).1.2
          (xts_walk_advance env walk (walk.nbytes - loop_nbytes walk)
            (xts_crypt_chunk crypt_fn ctx walk (loop_nbytes walk) st).2).1.1
          (xts_walk_advance env walk (walk.nbytes - loop_nbytes walk)
            (xts_crypt_chunk crypt_fn ctx walk (loop_nbytes walk) st).2).2
        rw [xts_walk_loop_succ_ok env crypt_fn ctx fuel walk err st hn hr]
        refine ⟨pre ++ es, ?_, ?_, ?_, ?_⟩
        · rw [htr, hp1, List.append_assoc]
        · simp only [hn, decide_True]
          exact fpu_check_append_of hp3 hfpu
        · intro e he
          obtain ⟨h1, h2⟩ := hret e he
          refine ⟨FailShape_append hp2 h1, ?_⟩
          intro hall
          apply h2
          intro x hx
          exact hall x (List.mem_append_right _ hx)
        · intro hne
          exact AllOk_append hp2 (hok hne)
      · rw [xts_walk_loop_succ_fail env crypt_fn ctx fuel walk err st hn hr]
        refine ⟨_, xts_crypt_chunk_trace _ _ _ _ _, ?_, ?_, ?_⟩
        · simp [hn, fpu_check]
        · intro e he
          simp only [LoopExit.returned.injEq] at he
          refine ⟨Or.inr ⟨[], _, e, rfl, AllOk_nil, ?_, ?_, rfl⟩, ?_⟩
          · simp [Event.prim_status, he]
          · rw [← he]; exact hr
          · exact not_AllOk_fail (c := []) (e := e) (by simp [Event.prim_status, he])
              (by rw [← he]; exact hr) _
        · intro hne
          exact absurd rfl (hne _)
    · rw [xts_walk_loop_idle env crypt_fn ctx _ walk err st hn]
      refine ⟨[], ?_, ?_, ?_, ?_⟩ <;> simp [hn, fpu_check, AllOk_nil]

theorem FailShape_fail (c : List Event) (sel : KeySel) (src dst : scatterlist) (n : Nat)
    (iv : Bytes) (e : Int) (hc : AllOk c) (hne : e ≠ 0) :
    FailShape (c ++ [Event.crypt sel src dst n iv e, Event.fpu_end]) (some e) :=
  Or.inr ⟨c, Event.crypt sel src dst n iv e, e, rfl, hc, rfl, hne, rfl⟩

theorem FailShape_fail1 (c : List Event) (sel : KeySel) (iv : Bytes) (e : Int)
    (hc : AllOk c) (hne : e ≠ 0) :
    FailShape (c ++ [Event.crypt1 sel iv e, Event.fpu_end]) (some e) :=
  Or.inr ⟨c, Event.crypt1 sel iv e, e, rfl, hc, rfl, hne, rfl⟩

theorem AllOk_of_no_prim {es : List Event} (h : ∀ x ∈ es, x.prim_status = none) : AllOk es := by
  intro x hx e he
  rw [h x hx] at he
  cases he

/-- The tail step, with its bookkeeping gathered. -/
theorem xts_tail_step_eq {K : Type} (env : WalkEnv) (crypt_fn : CryptFn K)
    (ctx : aes_xts_ctx K) (req : skcipher_request) (tail : Nat) (st : State) :
    xts_tail_step env crypt_fn ctx req tail st =
      if (skcipher_walk_virt env (tail_subreq req tail)).1 ≠ 0 then
        { ret := some (skcipher_walk_virt env (tail_subreq req tail)).1,
          st := st.log (tail_prelude req tail ++
            [Event.walk_virt (tail_subreq req tail)
              (skcipher_walk_virt env (tail_subreq req tail)).1
              (skcipher_walk_virt env (tail_subreq req tail)).2.nbytes]) }
      else if (xts_crypt_chunk crypt_fn ctx (skcipher_walk_virt env (tail_subreq req tail)).2
          (skcipher_walk_virt env (tail_subreq req tail)).2.nbytes
          (st.log (tail_prelude req tail ++
            [Event.walk_virt (tail_subreq req tail)
              (skcipher_walk_virt env (tail_subreq req tail)).1
              (skcipher_walk_virt env (tail_subreq req tail)).2.nbytes,
             Event.fpu_begin]))).1 ≠ 0 then
        { ret := some (xts_crypt_chunk crypt_fn ctx
            (skcipher_walk_virt env (tail_subreq req tail)).2
            (skcipher_walk_virt env (tail_subreq req tail)).2.nbytes
            (st.log (tail_prelude req tail ++
              [Event.walk_virt (tail_subreq req tail)
                (skcipher_walk_virt env (tail_subreq req tail)).1
                (skcipher_walk_virt env (tail_subreq req tail)).2.nbytes,
               Event.fpu_begin]))).1,
          st := (xts_crypt_chunk crypt_fn ctx
            (skcipher_walk_virt env (tail_subreq req tail)).2
            (skcipher_walk_virt env (tail_subreq req tail)).2.nbytes
            (st.log (tail_prelude req tail ++
              [Event.walk_virt (tail_subreq req tail)
                (skcipher_walk_virt env (tail_subreq req tail)).1
                (skcipher_walk_virt env (tail_subreq req tail)).2.nbytes,
               Event.fpu_begin]))).2 }
      else
        { ret := some (skcipher_walk_done env
            (skcipher_walk_virt env (tail_subreq req tail)).2 0).1,
          st := ((xts_crypt_chunk crypt_fn ctx
            (skcipher_walk_virt env (tail_subreq req tail)).2
            (skcipher_walk_virt env (tail_subreq req tail)).2.nbytes
            (st.log (tail_prelude req tail ++
              [Event.walk_virt (tail_subreq req tail)
                (skcipher_walk_virt env (tail_subreq req tail)).1
                (skcipher_walk_virt env (tail_subreq req tail)).2.nbytes,
               Event.fpu_begin]))).2).log
            [Event.walk_done 0
              (skcipher_walk_done env (skcipher_walk_virt env (tail_subreq req tail)).2 0).1
              (skcipher_walk_done env
                (skcipher_walk_virt env (tail_subreq req tail)).2 0).2.nbytes] } := by
  by_cases hd : req.dst = req.src
  · simp [xts_tail_step, tail_subreq, tail_prelude, State.log, hd, List.append_assoc]
  · simp [xts_tail_step, tail_subreq, tail_prelude, State.log, hd, List.append_assoc]

theorem tail_prelude_no_prim (req : skcipher_request) (tail : Nat) :
    ∀ x ∈ tail_prelude req tail, x.prim_status = none ∧ x ≠ Event.fpu_begin ∧
      x ≠ Event.fpu_end ∧ x ≠ Event.set_tfm := by
  intro x hx
  unfold tail_prelude at hx
  by_cases hd : req.dst = req.src
  · simp [hd] at hx
    rcases hx with rfl | rfl <;> simp [Event.prim_status]
  · simp [hd] at hx
    rcases hx with rfl | rfl | rfl <;> simp [Event.prim_status]

theorem fpu_check_skip {es : List Event} (h : ∀ x ∈ es, x.prim_status = none ∧
    x ≠ Event.fpu_begin ∧ x ≠ Event.fpu_end) (held : Bool) :
    fpu_check held es = some held := by
  induction es with
  | nil => rfl
  | cons x xs ih =>
    have hx := h x (List.mem_cons_self _ _)
    have ih1 := ih (fun y hy => h y (List.mem_cons_of_mem _ hy))
    cases x <;> simp_all [fpu_check, Event.prim_status]

/-- Trace of the tail step: it always returns, obeys the cipher-unit discipline
and ends at a primitive failure. -/
theorem xts_tail_step_trace {K : Type} (env : WalkEnv) (crypt_fn : CryptFn K)
    (ctx : aes_xts_ctx K) (req : skcipher_request) (tail : Nat) (st : State) :
    ∃ es, (xts_tail_step env crypt_fn ctx req tail st).st.trace = st.trace ++ es ∧
      fpu_check false es = some false ∧
      FailShape es (xts_tail_step env crypt_fn ctx req tail st).ret ∧
      (xts_tail_step env crypt_fn ctx req tail st).ret ≠ none := by
  have hpre := tail_prelude_no_prim req tail
  have hpre_ok : AllOk (tail_prelude req tail) :=
    AllOk_of_no_prim (fun x hx => (hpre x hx).1)
  have hpre_fpu : ∀ held, fpu_check held (tail_prelude req tail) = some held :=
    fpu_check_skip (fun x hx => ⟨(hpre x hx).1, (hpre x hx).2.1, (hpre x hx).2.2.1⟩)
  rw [xts_tail_step_eq]
  by_cases hv : (skcipher_walk_virt env (tail_subreq req tail)).1 = 0
  · by_cases hc : (xts_crypt_chunk crypt_fn ctx (skcipher_walk_virt env (tail_subreq req tail)).2
          (skcipher_walk_virt env (tail_subreq req tail)).2.nbytes
          (st.log (tail_prelude req tail ++
            [Event.walk_virt (tail_subreq req tail)
              (skcipher_walk_virt env (tail_subreq req tail)).1
              (skcipher_walk_virt env (tail_subreq req tail)).2.nbytes,
             Event.fpu_begin]))).1 = 0
    · rw [if_neg (not_not.mpr hv), if_neg (not_not.mpr hc)]
      refine ⟨?esa, ?h1, ?h2, ?h3, ?h4⟩
      case h1 =>
        simp only [State.log, xts_crypt_chunk_trace, List.append_assoc]
        exact rfl
      case h2 =>
        apply fpu_check_append_of (hpre_fpu false)
        simp [fpu_check]
      case h3 =>
        left
        apply AllOk_append hpre_ok
        intro x hx e he
        simp only [List.cons_append, List.nil_append, List.mem_cons, List.mem_singleton,
          List.not_mem_nil, or_false] at hx
        rcases hx with rfl | rfl | rfl | rfl | rfl
        · simp [Event.prim_status] at he
        · simp [Event.prim_status] at he
        · simp only [Event.prim_status, Option.some.injEq] at he
          rw [← he]
          exact hc
        · simp [Event.prim_status] at he
        · simp [Event.prim_status] at he
      case h4 => simp
    · rw [if_neg (not_not.mpr hv), if_pos hc]
      refine ⟨?esb, ?h1, ?h2, ?h3, ?h4⟩
      case h1 =>
        simp only [State.log, xts_crypt_chunk_trace, List.append_assoc]
        exact rfl
      case h2 =>
        apply fpu_check_append_of (hpre_fpu false)
        simp [fpu_check]
      case h3 =>
        have hsh := FailShape_fail (tail_prelude req tail ++
            [Event.walk_virt (tail_subreq req tail)
              (skcipher_walk_virt env (tail_subreq req tail)).1
              (skcipher_walk_virt env (tail_subreq req tail)).2.nbytes,
             Event.fpu_begin]) KeySel.crypt
          (skcipher_walk_virt env (tail_subreq req tail)).2.src
          (skcipher_walk_virt env (tail_subreq req tail)).2.dst
          (skcipher_walk_virt env (tail_subreq req tail)).2.nbytes st.iv _
          (by
            apply AllOk_append hpre_ok
            apply AllOk_of_no_prim
            intro x hx
            simp only [List.mem_cons, List.mem_singleton, List.not_mem_nil, or_false] at hx
            rcases hx with rfl | rfl <;> rfl) hc
        simpa only [List.append_assoc] using hsh
      case h4 => simp
  · rw [if_pos hv]
    refine ⟨?esc, ?h1, ?h2, ?h3, ?h4⟩
    case h1 =>
      simp only [State.log]
      exact rfl
    case h2 =>
      apply fpu_check_append_of (hpre_fpu false)
      simp [fpu_check]
    case h3 =>
      left
      apply AllOk_append hpre_ok
      apply AllOk_of_no_prim
      intro x hx
      simp only [List.mem_singleton] at hx
      rw [hx]
      rfl
    case h4 => simp

/-- The state in which the main loop starts: the unit acquired and the IV
replaced by the output of the single-block primitive under the tweak key. -/
theorem xts_crypt_rest_eq {K : Type} (env : WalkEnv) (crypt_fn : CryptFn K)
    (crypt1_fn : Crypt1Fn K) (ctx : aes_xts_ctx K) (fuel : Nat) (req : skcipher_request)
    (tail : Nat) (walk : skcipher_walk) (st : State) :
    xts_crypt_rest env crypt_fn crypt1_fn ctx fuel req tail walk st =
      if (crypt1_fn ctx.tweak_ctx st.iv).1 ≠ 0 then
        { ret := some (crypt1_fn ctx.tweak_ctx st.iv).1,
          st := { mem := st.mem, iv := (crypt1_fn ctx.tweak_ctx st.iv).2,
                  trace := st.trace ++ [Event.fpu_begin,
                    Event.crypt1 KeySel.tweak st.iv (crypt1_fn ctx.tweak_ctx st.iv).1,
                    Event.fpu_end] } }
      else
        match xts_walk_loop env crypt_fn ctx fuel walk 0
            { mem := st.mem, iv := (crypt1_fn ctx.tweak_ctx st.iv).2,
              trace := st.trace ++ [Event.fpu_begin,
                Event.crypt1 KeySel.tweak st.iv 0] } with
        | (LoopExit.exhausted, st1) => { ret := none, st := st1 }
        | (LoopExit.returned err, st1) => { ret := some err, st := st1 }
        | (LoopExit.finished err, st1) =>
          if tail > 0 ∧ err = 0 then xts_tail_step env crypt_fn ctx req tail st1
          else { ret := some err, st := st1 } := by
  by_cases ht : (crypt1_fn ctx.tweak_ctx st.iv).1 = 0
  · simp [xts_crypt_rest, State.log, ht]
  · simp [xts_crypt_rest, State.log, ht]

/-- Trace of the part of `xts_crypt_common` that follows the walk set-up,
entered with a pending chunk. -/
theorem xts_crypt_rest_trace {K : Type} (env : WalkEnv) (crypt_fn : CryptFn K)
    (crypt1_fn : Crypt1Fn K) (ctx : aes_xts_ctx K) (fuel : Nat) (req : skcipher_request)
    (tail : Nat) (walk : skcipher_walk) (st : State) (hw : 0 < walk.nbytes) :
    ∃ es, (xts_crypt_rest env crypt_fn crypt1_fn ctx fuel req tail walk st).st.trace
        = st.trace ++ es ∧
      fpu_check false es = some (decide
        ((xts_crypt_rest env crypt_fn crypt1_fn ctx fuel req tail walk st).ret = none)) ∧
      FailShape es (xts_crypt_rest env crypt_fn crypt1_fn ctx fuel req tail walk st).ret := by
  rw [xts_crypt_rest_eq]
  by_cases ht : (crypt1_fn ctx.tweak_ctx st.iv).1 = 0
  · rw [if_neg (not_not.mpr ht)]
    obtain ⟨es, htr, hfpu, hret, hok⟩ := xts_walk_loop_trace env crypt_fn ctx fuel walk 0
      { mem := st.mem, iv := (crypt1_fn ctx.tweak_ctx st.iv).2,
        trace := st.trace ++ [Event.fpu_begin, Event.crypt1 KeySel.tweak st.iv 0] }
    have hpre : AllOk [Event.fpu_begin, Event.crypt1 KeySel.tweak st.iv 0] := by
      intro x hx e he
      simp only [List.mem_cons, List.mem_singleton, List.not_mem_nil, or_false] at hx
      rcases hx with rfl | rfl
      · simp [Event.prim_status] at he
      · simpa [Event.prim_status] using he.symm
    have hpre_fpu : fpu_check false [Event.fpu_begin, Event.crypt1 KeySel.tweak st.iv 0]
        = some true := by simp [fpu_check]
    simp only [hw, decide_True] at hfpu
    rcases hl : xts_walk_loop env crypt_fn ctx fuel walk 0
      { mem := st.mem, iv := (crypt1_fn ctx.tweak_ctx st.iv).2,
        trace := st.trace ++ [Event.fpu_begin, Event.crypt1 KeySel.tweak st.iv 0] }
      with ⟨exit, st1⟩
    rw [hl] at htr hfpu hret hok
    simp only at htr hfpu hret hok
    cases exit with
    | exhausted =>
      refine ⟨[Event.fpu_begin, Event.crypt1 KeySel.tweak st.iv 0] ++ es, ?_, ?_, ?_⟩
      · simp only [htr, List.append_assoc]
      · simp only [decide_True]
        refine fpu_check_append_of hpre_fpu ?_
        simpa using hfpu
      · exact Or.inl (AllOk_append hpre (hok (by intro e h; cases h)))
    | returned e =>
      refine ⟨[Event.fpu_begin, Event.crypt1 KeySel.tweak st.iv 0] ++ es, ?_, ?_, ?_⟩
      · simp only [htr, List.append_assoc]
      · refine fpu_check_append_of hpre_fpu ?_
        simpa using hfpu
      · exact FailShape_append hpre (hret e rfl).1
    | finished e =>
      have hes : AllOk es := hok (by intro e h; cases h)
      have hfpu1 : fpu_check true es = some false := by simpa using hfpu
      by_cases htl : tail > 0 ∧ e = 0
      · simp only [htl, and_self, if_true]
        obtain ⟨es2, htr2, hfpu2, hsh2, hret2⟩ := xts_tail_step_trace env crypt_fn ctx req tail st1
        refine ⟨[Event.fpu_begin, Event.crypt1 KeySel.tweak st.iv 0] ++ (es ++ es2), ?_, ?_, ?_⟩
        · rw [htr2, htr]
          simp only [List.append_assoc]
        · have : decide ((xts_tail_step env crypt_fn ctx req tail st1).ret = none) = false := by
            simpa using hret2
          rw [this]
          exact fpu_check_append_of hpre_fpu (fpu_check_append_of hfpu1 hfpu2)
        · exact FailShape_append hpre (FailShape_append hes hsh2)
      · simp only [htl, if_false]
        refine ⟨[Event.fpu_begin, Event.crypt1 KeySel.tweak st.iv 0] ++ es, ?_, ?_, ?_⟩
        · simp only [htr, List.append_assoc]
        · refine fpu_check_append_of hpre_fpu ?_
          simpa using hfpu1
        · exact Or.inl (AllOk_append hpre hes)
  · rw [if_pos ht]
    refine ⟨[Event.fpu_begin, Event.crypt1 KeySel.tweak st.iv (crypt1_fn ctx.tweak_ctx st.iv).1,
      Event.fpu_end], rfl, ?_, ?_⟩
    · simp [fpu_check]
    · exact FailShape_fail1 [Event.fpu_begin] KeySel.tweak st.iv _
        (AllOk_of_no_prim (by intro x hx; simp only [List.mem_singleton] at hx; rw [hx]; rfl)) ht

/-- Trace of a whole run: what it appends to the trace obeys the cipher-unit
discipline, leaving the unit held only if the bound ran out, and has the shape
forced by primitive failures. -/
theorem xts_crypt_common_trace {K : Type} (env : WalkEnv) (crypt_fn : CryptFn K)
    (crypt1_fn : Crypt1Fn K) (ctx : aes_xts_ctx K) (fuel : Nat) (req : skcipher_request)
    (st : State) :
    ∃ es, (xts_crypt_common env crypt_fn crypt1_fn ctx fuel req st).st.trace = st.trace ++ es ∧
      fpu_check false es = some (decide
        ((xts_crypt_common env crypt_fn crypt1_fn ctx fuel req st).ret = none)) ∧
      FailShape es (xts_crypt_common env crypt_fn crypt1_fn ctx fuel req st).ret := by
  by_cases hshort : req.cryptlen < AES_BLOCK_SIZE
  · refine ⟨[], ?_, ?_, ?_⟩
    · simp [xts_crypt_common, hshort]
    · simp [xts_crypt_common, hshort, fpu_check]
    · exact Or.inl AllOk_nil
  · by_cases hn : (skcipher_walk_virt env req).2.nbytes = 0
    · refine ⟨[Event.walk_virt req (skcipher_walk_virt env req).1
        (skcipher_walk_virt env req).2.nbytes], ?_, ?_, ?_⟩
      · simp [xts_crypt_common, hshort, hn, State.log]
      · simp [xts_crypt_common, hshort, hn, fpu_check]
      · exact Or.inl (AllOk_of_no_prim (by
          intro x hx; simp only [List.mem_singleton] at hx; rw [hx]; rfl))
    · by_cases hsub : req.cryptlen % AES_BLOCK_SIZE > 0 ∧
          (skcipher_walk_virt env req).2.nbytes < (skcipher_walk_virt env req).2.total
      · by_cases hn2 : (skcipher_walk_virt env
            (make_subreq req)).2.nbytes = 0
        · refine ⟨[Event.walk_virt req (skcipher_walk_virt env req).1
              (skcipher_walk_virt env req).2.nbytes, Event.walk_abort, Event.set_tfm,
              Event.set_callback, Event.set_crypt req.src req.dst (make_subreq req).cryptlen,
              Event.walk_virt (make_subreq req)
                (skcipher_walk_virt env (make_subreq req)).1
                (skcipher_walk_virt env (make_subreq req)).2.nbytes], ?_, ?_, ?_⟩
          · simp [xts_crypt_common, hshort, hn, hsub, hn2, State.log]
          · simp [xts_crypt_common, hshort, hn, hsub, hn2, fpu_check]
          · exact Or.inl (AllOk_of_no_prim (by
              intro x hx
              simp only [List.mem_cons, List.mem_singleton, List.not_mem_nil, or_false] at hx
              rcases hx with rfl | rfl | rfl | rfl | rfl | rfl <;> rfl))
        · have hrun : xts_crypt_common env crypt_fn crypt1_fn ctx fuel req st
              = xts_crypt_rest env crypt_fn crypt1_fn ctx fuel
                  (make_subreq req)
                  (req.cryptlen % AES_BLOCK_SIZE)
                  (skcipher_walk_virt env (make_subreq req)).2
                  (st.log [Event.walk_virt req (skcipher_walk_virt env req).1
                    (skcipher_walk_virt env req).2.nbytes, Event.walk_abort, Event.set_tfm,
                    Event.set_callback,
                    Event.set_crypt req.src req.dst (make_subreq req).cryptlen,
                    Event.walk_virt (make_subreq req)
                      (skcipher_walk_virt env (make_subreq req)).1
                      (skcipher_walk_virt env (make_subreq req)).2.nbytes]) := by
            simp [xts_crypt_common, hshort, hn, hsub, hn2, State.log]
          obtain ⟨es, htr, hfpu, hsh⟩ := xts_crypt_rest_trace env crypt_fn crypt1_fn ctx fuel
            (make_subreq req)
            (req.cryptlen % AES_BLOCK_SIZE)
            (skcipher_walk_virt env (make_subreq req)).2
            (st.log [Event.walk_virt req (skcipher_walk_virt env req).1
              (skcipher_walk_virt env req).2.nbytes, Event.walk_abort, Event.set_tfm,
              Event.set_callback,
              Event.set_crypt req.src req.dst (make_subreq req).cryptlen,
              Event.walk_virt (make_subreq req)
                (skcipher_walk_virt env (make_subreq req)).1
                (skcipher_walk_virt env (make_subreq req)).2.nbytes])
            (Nat.pos_of_ne_zero hn2)
          rw [hrun]
          have hpre : ∀ x ∈ [Event.walk_virt req (skcipher_walk_virt env req).1
              (skcipher_walk_virt env req).2.nbytes, Event.walk_abort, Event.set_tfm,
              Event.set_callback,
              Event.set_crypt req.src req.dst (make_subreq req).cryptlen,
              Event.walk_virt (make_subreq req)
                (skcipher_walk_virt env (make_subreq req)).1
                (skcipher_walk_virt env (make_subreq req)).2.nbytes],
              x.prim_status = none ∧ x ≠ Event.fpu_begin ∧ x ≠ Event.fpu_end := by
            intro x hx
            simp only [List.mem_cons, List.mem_singleton, List.not_mem_nil, or_false] at hx
            rcases hx with rfl | rfl | rfl | rfl | rfl | rfl <;> simp [Event.prim_status]
          refine ⟨subreq_events env req ++ es, ?_, ?_, ?_⟩
          · rw [htr]
            simp only [State.log, List.append_assoc, subreq_events]
          · exact fpu_check_append_of (fpu_check_skip hpre false) hfpu
          · exact FailShape_append (AllOk_of_no_prim (fun x hx => (hpre x hx).1)) hsh
      · have hrun : xts_crypt_common env crypt_fn crypt1_fn ctx fuel req st
            = xts_crypt_rest env crypt_fn crypt1_fn ctx fuel req 0
                (skcipher_walk_virt env req).2
                (st.log [Event.walk_virt req (skcipher_walk_virt env req).1
                  (skcipher_walk_virt env req).2.nbytes]) := by
          simp only [xts_crypt_common, hshort, hn, if_false]
          rw [if_neg hsub]
        obtain ⟨es, htr, hfpu, hsh⟩ := xts_crypt_rest_trace env crypt_fn crypt1_fn ctx fuel
          req 0 (skcipher_walk_virt env req).2
          (st.log [Event.walk_virt req (skcipher_walk_virt env req).1
            (skcipher_walk_virt env req).2.nbytes])
          (Nat.pos_of_ne_zero hn)
        rw [hrun]
        have hpre : ∀ x ∈ [Event.walk_virt req (skcipher_walk_virt env req).1
            (skcipher_walk_virt env req).2.nbytes],
            x.prim_status = none ∧ x ≠ Event.fpu_begin ∧ x ≠ Event.fpu_end := by
          intro x hx
          simp only [List.mem_singleton] at hx
          rw [hx]
          simp [Event.prim_status]
        refine ⟨[Event.walk_virt req (skcipher_walk_virt env req).1
            (skcipher_walk_virt env req).2.nbytes] ++ es, ?_, ?_, ?_⟩
        · rw [htr]
          simp only [State.log, List.append_assoc]
        · exact fpu_check_append_of (fpu_check_skip hpre false) hfpu
        · exact FailShape_append (AllOk_of_no_prim (fun x hx => (hpre x hx).1)) hsh

/-- A failing primitive invocation in a trace of failure shape is the last
primitive invocation, is followed by the release of the unit only, and its
status is the value returned. -/
theorem FailShape_split {pre post : List Event} {ev : Event} {e : Int} {ret : Option Int}
    (hsh : FailShape (pre ++ ev :: post) ret) (hev : ev.prim_status = some e) (hne : e ≠ 0) :
    ret = some e ∧ post = [Event.fpu_end] := by
  rcases hsh with hall | ⟨c, f, e1, hes, hc, hf, hne1, hret⟩
  · exact absurd (hall ev (by simp) e hev) hne
  · rcases List.append_eq_append_iff.mp hes with ⟨a, hca, hrest⟩ | ⟨b, hpre, hrest⟩
    · cases a with
      | nil =>
        simp only [List.nil_append, List.cons.injEq] at hrest
        obtain ⟨h1, h2⟩ := hrest
        subst h1
        rw [hev] at hf
        cases hf
        exact ⟨hret, h2⟩
      | cons x xs =>
        simp only [List.cons_append, List.cons.injEq] at hrest
        obtain ⟨h1, -⟩ := hrest
        subst h1
        have : ev ∈ c := by rw [hca]; simp
        exact absurd (hc ev this e hev) hne
    · cases b with
      | nil =>
        simp only [List.nil_append, List.cons.injEq] at hrest
        obtain ⟨h1, h2⟩ := hrest
        subst h1
        rw [hev] at hf
        cases hf
        exact ⟨hret, h2.symm⟩
      | cons x xs =>
        simp only [List.cons_append, List.cons.injEq] at hrest
        obtain ⟨-, h2⟩ := hrest
        cases xs with
        | nil =>
          simp only [List.nil_append, List.cons.injEq] at h2
          obtain ⟨h3, -⟩ := h2
          subst h3
          simp [Event.prim_status] at hev
        | cons y ys =>
          simp at h2

/-! ## xts_crypt_common: error propagation and the cipher unit -/

/-- C5: if a primitive invocation of a run (the tweak initialisation, a
main-loop call or the tail-step call) returns a non-zero status `e`, the run
returns exactly `e`, and after that invocation it only releases the cipher
unit: no further primitive invocation, no retry. -/
theorem xts_crypt_common_failure_terminal {K : Type} (env : WalkEnv) (crypt_fn : CryptFn K)
    (crypt1_fn : Crypt1Fn K) (ctx : aes_xts_ctx K) (fuel : Nat) (req : skcipher_request)
    (st : State) (pre post : List Event) (ev : Event) (e : Int)
    (htrace : (xts_crypt_common env crypt_fn crypt1_fn ctx fuel req st).st.trace
      = st.trace ++ (pre ++ ev :: post))
    (hev : ev.prim_status = some e) (hne : e ≠ 0) :
    (xts_crypt_common env crypt_fn crypt1_fn ctx fuel req st).ret = some e ∧
    post = [Event.fpu_end] ∧ ∀ x ∈ post, x.prim_status = none := by
  obtain ⟨es, htr, -, hsh⟩ := xts_crypt_common_trace env crypt_fn crypt1_fn ctx fuel req st
  rw [htrace] at htr
  have hes : es = pre ++ ev :: post := (List.append_cancel_left htr).symm
  rw [hes] at hsh
  obtain ⟨h1, h2⟩ := FailShape_split hsh hev hne
  refine ⟨h1, h2, ?_⟩
  intro x hx
  rw [h2] at hx
  simp only [List.mem_singleton] at hx
  rw [hx]
  rfl

/-- Witness for C5: a 32-byte request whose first multi-block call fails with
status `-5`. -/
theorem xts_crypt_common_failure_terminal_witness :
    (xts_crypt_common (cut_env 16) failing_crypt toy_crypt1 toy_ctx 8 (toy_req 32)
        (toy_state (List.replicate 32 1) 32)).ret = some (-5) :=
  (xts_crypt_common_failure_terminal (cut_env 16) failing_crypt toy_crypt1 toy_ctx 8 (toy_req 32)
    (toy_state (List.replicate 32 1) 32)
    [Event.walk_virt (toy_req 32) 0 16, Event.fpu_begin,
      Event.crypt1 KeySel.tweak (List.replicate 16 0) 0]
    [Event.fpu_end]
    (Event.crypt KeySel.crypt { buf := 0, off := 0 } { buf := 1, off := 0 } 16
      (List.replicate 16 3) (-5))
    (-5) (by decide) (by decide) (by decide)).1

/-- C7: on every path of a run that returns, the events the run appends to the
trace obey the cipher-unit discipline: the unit is never acquired while held
nor released while free, every primitive invocation happens while it is held,
and it is free when the function returns. Only a run cut short by the bound of
the embedding still holds the unit. -/
theorem xts_crypt_common_fpu_balanced {K : Type} (env : WalkEnv) (crypt_fn : CryptFn K)
    (crypt1_fn : Crypt1Fn K) (ctx : aes_xts_ctx K) (fuel : Nat) (req : skcipher_request)
    (st : State) :
    ∃ es, (xts_crypt_common env crypt_fn crypt1_fn ctx fuel req st).st.trace = st.trace ++ es ∧
      ((xts_crypt_common env crypt_fn crypt1_fn ctx fuel req st).ret ≠ none →
        fpu_check false es = some false) ∧
      ((xts_crypt_common env crypt_fn crypt1_fn ctx fuel req st).ret = none →
        fpu_check false es = some true) := by
  obtain ⟨es, htr, hfpu, -⟩ := xts_crypt_common_trace env crypt_fn crypt1_fn ctx fuel req st
  refine ⟨es, htr, ?_, ?_⟩
  · intro h
    rw [hfpu]
    simp [h]
  · intro h
    rw [hfpu]
    simp [h]

/-! ## Memory lemmas -/

theorem load_length (mem : Nat → Bytes) (sg : scatterlist) (n : Nat)
    (h : sg.off + n ≤ (mem sg.buf).length) : (load mem sg n).length = n := by
  simp only [load, List.length_take, List.length_drop]
  omega

/-- The bytes found at a handle do not depend on the identity of its list. -/
theorem load_same_memory (mem : Nat → Bytes) (a b : scatterlist) (n : Nat)
    (hb : a.buf = b.buf) (ho : a.off = b.off) : load mem a n = load mem b n := by
  simp only [load, hb, ho]

/-- The memory after a write at a handle does not depend on the identity of
its list. -/
theorem store_same_memory (mem : Nat → Bytes) (a b : scatterlist) (out : Bytes)
    (hb : a.buf = b.buf) (ho : a.off = b.off) : store mem a out = store mem b out := by
  funext x
  unfold store
  rw [hb, ho]

theorem load_add (mem : Nat → Bytes) (sg : scatterlist) (n k : Nat) :
    load mem sg (n + k) = load mem sg n ++ load mem (scatterwalk_ffwd sg n) k := by
  simp only [load, scatterwalk_ffwd, List.take_add, List.drop_drop]

theorem store_length (mem : Nat → Bytes) (sg : scatterlist) (out : Bytes)
    (h : sg.off + out.length ≤ (mem sg.buf).length) (b : Nat) :
    (store mem sg out b).length = (mem b).length := by
  unfold store
  by_cases hb : b = sg.buf
  · subst hb
    simp only [if_true, List.length_append, List.length_take, List.length_drop]
    omega
  · simp [hb]

theorem load_store_self (mem : Nat → Bytes) (sg : scatterlist) (out : Bytes)
    (h : sg.off ≤ (mem sg.buf).length) :
    load (store mem sg out) sg out.length = out := by
  simp only [load, store, if_true]
  rw [List.append_assoc, List.drop_append_of_le_length (by simp; omega)]
  have : List.drop sg.off (List.take sg.off (mem sg.buf)) = [] := by
    apply List.drop_eq_nil_of_le
    simp
  rw [this, List.nil_append, List.take_append_of_le_length (le_refl _), List.take_length]

theorem load_store_after (mem : Nat → Bytes) (sg : scatterlist) (out : Bytes) (k : Nat)
    (h : sg.off + out.length ≤ (mem sg.buf).length) :
    load (store mem sg out) (scatterwalk_ffwd sg out.length) k
      = load mem (scatterwalk_ffwd sg out.length) k := by
  simp only [load, store, scatterwalk_ffwd, if_true]
  congr 1
  have hlen : (List.take sg.off (mem sg.buf) ++ out).length = sg.off + out.length := by
    simp only [List.length_append, List.length_take]
    omega
  rw [← hlen, List.drop_left]

theorem load_store_other (mem : Nat → Bytes) (s d : scatterlist) (out : Bytes) (k : Nat)
    (h : s.buf ≠ d.buf) : load (store mem d out) s k = load mem s k := by
  simp [load, store, h]

theorem store_store (mem : Nat → Bytes) (d : scatterlist) (a b : Bytes)
    (h : d.off + a.length ≤ (mem d.buf).length) :
    store (store mem d a) (scatterwalk_ffwd d a.length) b = store mem d (a ++ b) := by
  funext x
  by_cases hx : x = d.buf
  · subst hx
    simp only [store, scatterwalk_ffwd, if_true]
    have hlen : (List.take d.off (mem d.buf) ++ a).length = d.off + a.length := by
      simp only [List.length_append, List.length_take]
      omega
    have h1 : List.take (d.off + a.length)
        (List.take d.off (mem d.buf) ++ a ++ List.drop (d.off + a.length) (mem d.buf))
        = List.take d.off (mem d.buf) ++ a := by
      rw [← hlen, List.take_left]
    have h2 : List.drop (d.off + a.length + b.length)
        (List.take d.off (mem d.buf) ++ a ++ List.drop (d.off + a.length) (mem d.buf))
        = List.drop (d.off + (a ++ b).length) (mem d.buf) := by
      rw [show d.off + a.length + b.length
          = (List.take d.off (mem d.buf) ++ a).length + b.length by rw [hlen],
        List.drop_append, List.drop_drop, List.length_append]
      congr 1
      omega
    rw [h1, h2]
    simp only [List.append_assoc]
  · simp [store, scatterwalk_ffwd, hx]

/-! ## The main loop computes the primitive on the whole walk -/

theorem xts_step_state {K : Type} (env : WalkEnv) (crypt_fn : CryptFn K) (ctx : aes_xts_ctx K)
    (walk : skcipher_walk) (n res : Nat) (st : State) :
    (xts_walk_advance env walk res (xts_crypt_chunk crypt_fn ctx walk n st).2).2.mem
      = store st.mem walk.dst (crypt_fn ctx.crypt_ctx (load st.mem walk.src n) st.iv).2.1 ∧
    (xts_walk_advance env walk res (xts_crypt_chunk crypt_fn ctx walk n st).2).2.iv
      = (crypt_fn ctx.crypt_ctx (load st.mem walk.src n) st.iv).2.2 ∧
    (xts_walk_advance env walk res (xts_crypt_chunk crypt_fn ctx walk n st).2).1
      = skcipher_walk_done env walk res := by
  unfold xts_walk_advance
  by_cases h : 0 < (skcipher_walk_done env walk res).2.nbytes
  · simp [h, State.log, xts_crypt_chunk]
  · simp [h, State.log, xts_crypt_chunk]

theorem block_floor_le (n : Nat) : block_floor n ≤ n := by
  unfold block_floor AES_BLOCK_SIZE
  omega

theorem block_floor_mod (n : Nat) : block_floor n % 16 = 0 := by
  unfold block_floor AES_BLOCK_SIZE
  omega

theorem block_floor_ge {n : Nat} (h : 16 ≤ n) : 16 ≤ block_floor n := by
  unfold block_floor AES_BLOCK_SIZE
  omega

/-- With a walk that never fails and offers whole blocks, and a primitive that
never fails, preserves lengths and composes at block boundaries, the main loop
over a walk of whole blocks (or over a walk offered as one chunk) finishes with
status 0 and leaves in the destination the output of one call of the primitive
on all the bytes of the walk; the IV is the one that call leaves. -/
theorem xts_walk_loop_refines {K : Type} (env : WalkEnv) (crypt_fn : CryptFn K)
    (ctx : aes_xts_ctx K) (hstat : env.never_fails) (hblk : env.block_chunks)
    (hok : NeverFails crypt_fn ctx.crypt_ctx) (hlen : LengthPreserving crypt_fn ctx.crypt_ctx)
    (hcomp : ChunkComposable crypt_fn ctx.crypt_ctx) :
    ∀ (fuel : Nat) (walk : skcipher_walk) (err : Int) (st : State),
      0 < walk.total → walk.total ≤ fuel →
      walk.nbytes = min (env.chunk walk.src.off walk.total) walk.total →
      (walk.total % 16 = 0 ∨ walk.nbytes = walk.total) →
      (walk.dst = walk.src ∨ walk.dst.buf ≠ walk.src.buf) →
      walk.src.off + walk.total ≤ (st.mem walk.src.buf).length →
      walk.dst.off + walk.total ≤ (st.mem walk.dst.buf).length →
      (xts_walk_loop env crypt_fn ctx fuel walk err st).1 = LoopExit.finished 0 ∧
      (xts_walk_loop env crypt_fn ctx fuel walk err st).2.mem
        = store st.mem walk.dst
            (crypt_fn ctx.crypt_ctx (load st.mem walk.src walk.total) st.iv).2.1 ∧
      (xts_walk_loop env crypt_fn ctx fuel walk err st).2.iv
        = (crypt_fn ctx.crypt_ctx (load st.mem walk.src walk.total) st.iv).2.2 := by
  intro fuel
  induction fuel with
  | zero =>
    intro walk err st hpos hfuel
    omega
  | succ fuel ih =>
    intro walk err st hpos hfuel hnb hshape halias hsrc hdst
    have hchunk := hblk walk.src.off walk.total
    have hn : 0 < walk.nbytes := by
      rw [hnb]
      omega
    have hr : (xts_crypt_chunk crypt_fn ctx walk (loop_nbytes walk) st).1 = 0 :=
      hok _ _
    rw [xts_walk_loop_succ_ok env crypt_fn ctx fuel walk err st hn hr]
    obtain ⟨hmem, hiv, hadv⟩ := xts_step_state env crypt_fn ctx walk (loop_nbytes walk)
      (walk.nbytes - loop_nbytes walk) st
    rw [hadv]
    by_cases hlast : walk.nbytes < walk.total
    · -- a chunk that is not the last one: whole blocks only
      have htot : walk.total % 16 = 0 := by
        rcases hshape with h | h
        · exact h
        · omega
      have hln : loop_nbytes walk = block_floor walk.nbytes := by
        simp [loop_nbytes, hlast]
      have h16 : 16 ≤ walk.nbytes := by
        rw [hnb]
        omega
      have hb1 := block_floor_le walk.nbytes
      have hb2 := block_floor_mod walk.nbytes
      have hb3 := block_floor_ge h16
      generalize loop_nbytes walk = n at *
      rw [← hln] at hb1 hb2 hb3
      have hcons : walk.nbytes - (walk.nbytes - n) = n := by omega
      have hA : (load st.mem walk.src n).length = n := load_length _ _ _ (by omega)
      have houtA : (crypt_fn ctx.crypt_ctx (load st.mem walk.src n) st.iv).2.1.length = n := by
        rw [hlen, hA]
      have hw1 : (skcipher_walk_done env walk (walk.nbytes - n)).2.src
          = scatterwalk_ffwd walk.src n := by
        simp [skcipher_walk_done, skcipher_walk_next, hcons]
      have hw2 : (skcipher_walk_done env walk (walk.nbytes - n)).2.dst
          = scatterwalk_ffwd walk.dst n := by
        simp [skcipher_walk_done, skcipher_walk_next, hcons]
      have hw3 : (skcipher_walk_done env walk (walk.nbytes - n)).2.total = walk.total - n := by
        simp [skcipher_walk_done, skcipher_walk_next, hcons]
      have hw4 : (skcipher_walk_done env walk (walk.nbytes - n)).2.nbytes
          = min (env.chunk (scatterwalk_ffwd walk.src n).off (walk.total - n))
              (walk.total - n) := by
        simp [skcipher_walk_done, skcipher_walk_next, hcons, hstat _ _]
      have hloadB : load (store st.mem walk.dst
            (crypt_fn ctx.crypt_ctx (load st.mem walk.src n) st.iv).2.1)
            (scatterwalk_ffwd walk.src n) (walk.total - n)
          = load st.mem (scatterwalk_ffwd walk.src n) (walk.total - n) := by
        rcases halias with h | h
        · rw [h]
          have := load_store_after st.mem walk.src
            (crypt_fn ctx.crypt_ctx (load st.mem walk.src n) st.iv).2.1 (walk.total - n)
            (by rw [houtA]; omega)
          rw [houtA] at this
          exact this
        · exact load_store_other _ _ _ _ _ (Ne.symm h)
      obtain ⟨h1, h2, h3⟩ := ih
        (skcipher_walk_done env walk (walk.nbytes - n)).2
        (skcipher_walk_done env walk (walk.nbytes - n)).1
        (xts_walk_advance env walk (walk.nbytes - n)
          (xts_crypt_chunk crypt_fn ctx walk n st).2).2
        (by rw [hw3]; omega)
        (by rw [hw3]; omega)
        (by rw [hw4, hw1, hw3])
        (by rw [hw3]; left; omega)
        (by
          rw [hw1, hw2]
          rcases halias with h | h
          · left; rw [h]
          · right; simpa [scatterwalk_ffwd] using h)
        (by
          rw [hw1, hw3, hmem, store_length _ _ _ (by rw [houtA]; omega)]
          simp only [scatterwalk_ffwd]
          omega)
        (by
          rw [hw2, hw3, hmem, store_length _ _ _ (by rw [houtA]; omega)]
          simp only [scatterwalk_ffwd]
          omega)
      rw [hw1, hw2, hw3, hmem, hiv, hloadB] at h2
      rw [hw1, hw3, hmem, hiv, hloadB] at h3
      have hsplit : load st.mem walk.src walk.total
          = load st.mem walk.src n ++ load st.mem (scatterwalk_ffwd walk.src n)
              (walk.total - n) := by
        rw [← load_add]
        congr 1
        omega
      have hB : (load st.mem (scatterwalk_ffwd walk.src n) (walk.total - n)).length
          = walk.total - n := load_length _ _ _ (by simp only [scatterwalk_ffwd]; omega)
      obtain ⟨hc1, hc2⟩ := hcomp (load st.mem walk.src n)
        (load st.mem (scatterwalk_ffwd walk.src n) (walk.total - n)) st.iv
        (by rw [hA]; exact hb2) (by rw [hA]; exact hb3) (by rw [hB]; omega)
      refine ⟨h1, ?_, ?_⟩
      · rw [h2, hsplit, hc1]
        have := store_store st.mem walk.dst
          (crypt_fn ctx.crypt_ctx (load st.mem walk.src n) st.iv).2.1
          (crypt_fn ctx.crypt_ctx (load st.mem (scatterwalk_ffwd walk.src n) (walk.total - n))
            (crypt_fn ctx.crypt_ctx (load st.mem walk.src n) st.iv).2.2).2.1
          (by rw [houtA]; omega)
        rw [houtA] at this
        exact this
      · rw [h3, hsplit, hc2]
    · -- the last chunk of the walk
      have hall : walk.nbytes = walk.total := by
        rw [hnb] at hlast ⊢
        omega
      have hln : loop_nbytes walk = walk.total := by
        simp [loop_nbytes, hlast, hall]
      rw [hln] at hmem hiv hadv ⊢
      have hidle : ¬ 0 < (skcipher_walk_done env walk (walk.nbytes - walk.total)).2.nbytes := by
        simp [skcipher_walk_done, skcipher_walk_next, hall]
      rw [xts_walk_loop_idle env crypt_fn ctx fuel _ _ _ hidle]
      refine ⟨?_, hmem, hiv⟩
      simp [skcipher_walk_done, skcipher_walk_next, hstat _ _]

/-! ## The sub-request length, the tail step and the whole run -/

/-- For a 32-bit length of at least one block that is not a multiple of 16, the
sub-request holds everything but the last full block and the tail. -/
theorem subreq_cryptlen_eq (len : Nat) (h16 : 16 ≤ len) (hu : len < 4294967296)
    (htail : len % 16 ≠ 0) : subreq_cryptlen len = len - len % 16 - 16 := by
  unfold subreq_cryptlen DIV_ROUND_UP to_u32 to_s32 AES_BLOCK_SIZE
  simp only []
  split
  · omega
  · omega

/-- With a walk and a primitive that never fail, the tail step returns 0 after
one call of the primitive on the chunk its walk offers. -/
theorem xts_tail_step_state {K : Type} (env : WalkEnv) (crypt_fn : CryptFn K)
    (ctx : aes_xts_ctx K) (req : skcipher_request) (tail : Nat) (st : State)
    (hstat : env.never_fails) (hok : NeverFails crypt_fn ctx.crypt_ctx) :
    (xts_tail_step env crypt_fn ctx req tail st).ret = some 0 ∧
    (xts_tail_step env crypt_fn ctx req tail st).st.mem
      = store st.mem (tail_subreq req tail).dst
          (crypt_fn ctx.crypt_ctx (load st.mem (tail_subreq req tail).src
            (min (env.chunk (tail_subreq req tail).src.off (AES_BLOCK_SIZE + tail))
              (AES_BLOCK_SIZE + tail))) st.iv).2.1 := by
  have hv : (skcipher_walk_virt env (tail_subreq req tail)).1 = 0 := hstat _ _
  rw [xts_tail_step_eq, if_neg (not_not.mpr hv),
    if_neg (not_not.mpr (show (xts_crypt_chunk crypt_fn ctx _ _ _).1 = 0 from hok _ _))]
  constructor
  · simp [skcipher_walk_done, skcipher_walk_next, hstat _ _]
  · simp [State.log, xts_crypt_chunk, skcipher_walk_virt, skcipher_walk_next, hstat _ _,
      tail_subreq]

/-- The run on a walk and primitives that never fail, helper for the
refinement statements: the run returns 0 and the destination holds the output
of one call of the multi-block primitive on the whole source, from the IV the
single-block primitive produced under the tweak key. -/
theorem xts_crypt_common_whole {K : Type} (env : WalkEnv) (crypt_fn : CryptFn K)
    (crypt1_fn : Crypt1Fn K) (ctx : aes_xts_ctx K) (fuel : Nat) (req : skcipher_request)
    (st : State)
    (hstat : env.never_fails) (hblk : env.block_chunks)
    (hshort : req.cryptlen % 16 ≠ 0 → env.short_whole)
    (hok : NeverFails crypt_fn ctx.crypt_ctx) (hlen : LengthPreserving crypt_fn ctx.crypt_ctx)
    (hcomp : ChunkComposable crypt_fn ctx.crypt_ctx)
    (h1 : (crypt1_fn ctx.tweak_ctx st.iv).1 = 0)
    (h16 : 16 ≤ req.cryptlen) (hu : req.cryptlen < 4294967296) (hfuel : req.cryptlen ≤ fuel)
    (halias : req.dst = req.src ∨ req.dst.buf ≠ req.src.buf)
    (hsrc : req.src.off + req.cryptlen ≤ (st.mem req.src.buf).length)
    (hdst : req.dst.off + req.cryptlen ≤ (st.mem req.dst.buf).length) :
    (xts_crypt_common env crypt_fn crypt1_fn ctx fuel req st).ret = some 0 ∧
    (xts_crypt_common env crypt_fn crypt1_fn ctx fuel req st).st.mem
      = store st.mem req.dst
          (crypt_fn ctx.crypt_ctx (load st.mem req.src req.cryptlen)
            (crypt1_fn ctx.tweak_ctx st.iv).2).2.1 := by
  have hns : ¬ req.cryptlen < AES_BLOCK_SIZE := by unfold AES_BLOCK_SIZE; omega
  have hv2 : (skcipher_walk_virt env req).2
      = { src := req.src, dst := req.dst,
          nbytes := min (env.chunk req.src.off req.cryptlen) req.cryptlen,
          total := req.cryptlen } := by
    simp [skcipher_walk_virt, skcipher_walk_next, hstat _ _]
  have hc0 := hblk req.src.off req.cryptlen
  have hn : ¬ (skcipher_walk_virt env req).2.nbytes = 0 := by
    rw [hv2]
    simp only []
    omega
  by_cases hsub : req.cryptlen % AES_BLOCK_SIZE > 0 ∧
      (skcipher_walk_virt env req).2.nbytes < (skcipher_walk_virt env req).2.total
  · have htl : req.cryptlen % 16 ≠ 0 := by
      have := hsub.1
      simp only [AES_BLOCK_SIZE] at this
      omega
    have hsw := hshort htl
    have h32 : 32 ≤ req.cryptlen := by
      by_contra h
      have h2 := hsw req.src.off req.cryptlen (by omega)
      have h3 := hsub.2
      rw [hv2] at h3
      simp only [] at h3
      omega
    have hsl : (make_subreq req).cryptlen = req.cryptlen - req.cryptlen % 16 - 16 :=
      subreq_cryptlen_eq req.cryptlen h16 hu htl
    generalize hL : req.cryptlen - req.cryptlen % 16 - 16 = L at hsl
    have hv3 : (skcipher_walk_virt env (make_subreq req)).2
        = { src := req.src, dst := req.dst,
            nbytes := min (env.chunk req.src.off L) L, total := L } := by
      simp only [skcipher_walk_virt, skcipher_walk_next, hstat _ _, hsl, if_true]
      rfl
    have hc1 := hblk req.src.off L
    have hn2 : ¬ (skcipher_walk_virt env (make_subreq req)).2.nbytes = 0 := by
      rw [hv3]
      simp only []
      omega
    have hrun : xts_crypt_common env crypt_fn crypt1_fn ctx fuel req st
        = xts_crypt_rest env crypt_fn crypt1_fn ctx fuel (make_subreq req)
            (req.cryptlen % AES_BLOCK_SIZE)
            (skcipher_walk_virt env (make_subreq req)).2
            (st.log (subreq_events env req)) := by
      simp [xts_crypt_common, hns, hn, hsub, hn2, State.log, subreq_events]
    rw [hrun, xts_crypt_rest_eq]
    simp only [State.log]
    rw [if_neg (not_not.mpr h1)]
    obtain ⟨hl1, hl2, hl3⟩ := xts_walk_loop_refines env crypt_fn ctx hstat hblk hok hlen hcomp
      fuel (skcipher_walk_virt env (make_subreq req)).2 0
      { mem := st.mem, iv := (crypt1_fn ctx.tweak_ctx st.iv).2,
        trace := st.trace ++ subreq_events env req ++ [Event.fpu_begin,
                Event.crypt1 KeySel.tweak st.iv 0] }
      (by rw [hv3]; simp only []; omega)
      (by rw [hv3]; simp only []; omega)
      (by rw [hv3])
      (by rw [hv3]; simp only []; left; omega)
      (by rw [hv3]; exact halias)
      (by rw [hv3]; simp only []; omega)
      (by rw [hv3]; simp only []; omega)
    rcases hl : xts_walk_loop env crypt_fn ctx fuel (skcipher_walk_virt env (make_subreq req)).2 0
      { mem := st.mem, iv := (crypt1_fn ctx.tweak_ctx st.iv).2,
        trace := st.trace ++ subreq_events env req ++ [Event.fpu_begin,
                Event.crypt1 KeySel.tweak st.iv 0] }
      with ⟨exit, st1⟩
    rw [hl] at hl1 hl2 hl3
    simp only at hl1 hl2 hl3
    subst hl1
    have htpos : req.cryptlen % AES_BLOCK_SIZE > 0 ∧ (0 : Int) = 0 := ⟨hsub.1, rfl⟩
    simp only [htpos, and_self, if_true]
    obtain ⟨ht1, ht2⟩ := xts_tail_step_state env crypt_fn ctx (make_subreq req)
      (req.cryptlen % AES_BLOCK_SIZE) st1 hstat hok
    refine ⟨ht1, ?_⟩
    rw [ht2, hl2, hl3, hv3]
    simp only []
    have hts : (tail_subreq (make_subreq req) (req.cryptlen % AES_BLOCK_SIZE)).src
        = scatterwalk_ffwd req.src L := by
      simp only [tail_subreq, hsl]
      rfl
    have htd : (tail_subreq (make_subreq req) (req.cryptlen % AES_BLOCK_SIZE)).dst
        = scatterwalk_ffwd req.dst L := by
      simp only [tail_subreq, hsl]
      by_cases hd : (make_subreq req).dst = (make_subreq req).src
      · have hd2 : req.dst = req.src := hd
        simp only [hd, ne_eq, not_true_eq_false, if_false]
        rw [hd2]
        rfl
      · simp only [hd, ne_eq, not_false_eq_true, if_true]
        rfl
    have hT : min (env.chunk (scatterwalk_ffwd req.src L).off
          (AES_BLOCK_SIZE + req.cryptlen % AES_BLOCK_SIZE))
        (AES_BLOCK_SIZE + req.cryptlen % AES_BLOCK_SIZE) = req.cryptlen - L := by
      have := hsw (scatterwalk_ffwd req.src L).off
        (AES_BLOCK_SIZE + req.cryptlen % AES_BLOCK_SIZE)
        (by simp only [AES_BLOCK_SIZE]; omega)
      simp only [AES_BLOCK_SIZE] at this ⊢
      omega
    rw [hts, htd, hT]
    have hA : (load st.mem req.src L).length = L := load_length _ _ _ (by omega)
    have houtA : (crypt_fn ctx.crypt_ctx (load st.mem req.src L)
        (crypt1_fn ctx.tweak_ctx st.iv).2).2.1.length = L := by
      rw [hlen, hA]
    have hloadB : load (store st.mem req.dst (crypt_fn ctx.crypt_ctx (load st.mem req.src L)
          (crypt1_fn ctx.tweak_ctx st.iv).2).2.1) (scatterwalk_ffwd req.src L) (req.cryptlen - L)
        = load st.mem (scatterwalk_ffwd req.src L) (req.cryptlen - L) := by
      rcases halias with h | h
      · rw [h]
        have := load_store_after st.mem req.src
          (crypt_fn ctx.crypt_ctx (load st.mem req.src L)
            (crypt1_fn ctx.tweak_ctx st.iv).2).2.1 (req.cryptlen - L)
          (by rw [houtA]; omega)
        rw [houtA] at this
        exact this
      · exact load_store_other _ _ _ _ _ (Ne.symm h)
    rw [hloadB]
    have hsplit : load st.mem req.src req.cryptlen
        = load st.mem req.src L ++ load st.mem (scatterwalk_ffwd req.src L)
            (req.cryptlen - L) := by
      rw [← load_add]
      congr 1
      omega
    have hB : (load st.mem (scatterwalk_ffwd req.src L) (req.cryptlen - L)).length
        = req.cryptlen - L := load_length _ _ _ (by simp only [scatterwalk_ffwd]; omega)
    obtain ⟨hc2, -⟩ := hcomp (load st.mem req.src L)
      (load st.mem (scatterwalk_ffwd req.src L) (req.cryptlen - L))
      (crypt1_fn ctx.tweak_ctx st.iv).2
      (by rw [hA]; omega) (by rw [hA]; omega) (by rw [hB]; omega)
    rw [hsplit, hc2]
    have := store_store st.mem req.dst
      (crypt_fn ctx.crypt_ctx (load st.mem req.src L) (crypt1_fn ctx.tweak_ctx st.iv).2).2.1
      (crypt_fn ctx.crypt_ctx (load st.mem (scatterwalk_ffwd req.src L) (req.cryptlen - L))
        (crypt_fn ctx.crypt_ctx (load st.mem req.src L)
          (crypt1_fn ctx.tweak_ctx st.iv).2).2.2).2.1
      (by rw [houtA]; omega)
    rw [houtA] at this
    exact this
  · have hrun : xts_crypt_common env crypt_fn crypt1_fn ctx fuel req st
        = xts_crypt_rest env crypt_fn crypt1_fn ctx fuel req 0
            (skcipher_walk_virt env req).2
            (st.log [Event.walk_virt req (skcipher_walk_virt env req).1
              (skcipher_walk_virt env req).2.nbytes]) := by
      simp only [xts_crypt_common, hns, hn, if_false]
      rw [if_neg hsub]
    rw [hrun, xts_crypt_rest_eq]
    simp only [State.log]
    rw [if_neg (not_not.mpr h1)]
    obtain ⟨hl1, hl2, hl3⟩ := xts_walk_loop_refines env crypt_fn ctx hstat hblk hok hlen hcomp
      fuel (skcipher_walk_virt env req).2 0
      { mem := st.mem, iv := (crypt1_fn ctx.tweak_ctx st.iv).2,
        trace := st.trace ++ [Event.walk_virt req (skcipher_walk_virt env req).1
              (skcipher_walk_virt env req).2.nbytes] ++ [Event.fpu_begin,
                Event.crypt1 KeySel.tweak st.iv 0] }
      (by rw [hv2]; simp only []; omega)
      (by rw [hv2]; simp only []; omega)
      (by rw [hv2])
      (by
        rw [hv2] at hsub ⊢
        simp only [AES_BLOCK_SIZE] at hsub ⊢
        omega)
      (by rw [hv2]; exact halias)
      (by rw [hv2]; exact hsrc)
      (by rw [hv2]; exact hdst)
    rcases hl : xts_walk_loop env crypt_fn ctx fuel (skcipher_walk_virt env req).2 0
      { mem := st.mem, iv := (crypt1_fn ctx.tweak_ctx st.iv).2,
        trace := st.trace ++ [Event.walk_virt req (skcipher_walk_virt env req).1
              (skcipher_walk_virt env req).2.nbytes] ++ [Event.fpu_begin,
                Event.crypt1 KeySel.tweak st.iv 0] }
      with ⟨exit, st1⟩
    rw [hl] at hl1 hl2 hl3
    simp only at hl1 hl2 hl3
    subst hl1
    simp only [gt_iff_lt, lt_self_iff_false, false_and, if_false]
    refine ⟨trivial, ?_⟩
    rw [hl2, hv2]

/-! ## The toy collaborators meet the hypotheses -/

theorem toy_go_length (k : Nat) (e : Bool) :
    ∀ (x : Bytes) (t c : Nat), (toy_go k e t c x).1.length = x.length := by
  intro x
  induction x with
  | nil => intro t c; rfl
  | cons b bs ih =>
    intro t c
    simp only [toy_go, List.length_cons, ih]

theorem toy_go_append (k : Nat) (e : Bool) :
    ∀ (a b : Bytes) (t c : Nat), c < 16 →
      toy_go k e t c (a ++ b)
        = ((toy_go k e t c a).1 ++
            (toy_go k e (toy_go k e t c a).2 ((c + a.length) % 16) b).1,
           (toy_go k e (toy_go k e t c a).2 ((c + a.length) % 16) b).2) := by
  intro a
  induction a with
  | nil =>
    intro b t c hc
    simp only [List.nil_append, toy_go, List.length_nil, Nat.add_zero, Nat.mod_eq_of_lt hc]
  | cons x xs ih =>
    intro b t c hc
    have hc1 : (if c + 1 = 16 then 0 else c + 1) < 16 := by
      split <;> omega
    have hmod : ((if c + 1 = 16 then 0 else c + 1) + xs.length) % 16
        = (c + (xs.length + 1)) % 16 := by
      split <;> omega
    have h := ih b (if c + 1 = 16 then t + 1 else t) _ hc1
    rw [hmod] at h
    simp only [List.cons_append, toy_go, List.length_cons, List.append_eq, h]

theorem toy_go_inverse (k : Nat) :
    ∀ (x : Bytes) (t c : Nat), (toy_go k false t c (toy_go k true t c x).1).1 = x := by
  intro x
  induction x with
  | nil => intro t c; rfl
  | cons b bs ih =>
    intro t c
    simp only [toy_go, if_true, Bool.false_eq_true, if_false, ih, Nat.add_sub_cancel]

theorem toy_enc_never_fails (k : Nat) : NeverFails toy_enc k := fun _ _ => rfl

theorem toy_dec_never_fails (k : Nat) : NeverFails toy_dec k := fun _ _ => rfl

theorem toy_enc_length (k : Nat) : LengthPreserving toy_enc k :=
  fun x iv => toy_go_length k true x (iv.headD 0) 0

theorem toy_dec_length (k : Nat) : LengthPreserving toy_dec k :=
  fun x iv => toy_go_length k false x (iv.headD 0) 0

theorem toy_enc_composable (k : Nat) : ChunkComposable toy_enc k := by
  intro a b iv ha _ _
  have h := toy_go_append k true a b (iv.headD 0) 0 (by omega)
  simp only [Nat.zero_add, ha] at h
  simp only [toy_enc, h, List.headD_cons, List.tail_cons, and_self]

theorem toy_dec_composable (k : Nat) : ChunkComposable toy_dec k := by
  intro a b iv ha _ _
  have h := toy_go_append k false a b (iv.headD 0) 0 (by omega)
  simp only [Nat.zero_add, ha] at h
  simp only [toy_dec, h, List.headD_cons, List.tail_cons, and_self]

theorem toy_inverse (k : Nat) : MutuallyInverse toy_enc toy_dec k := by
  intro x iv _
  simp only [toy_enc, toy_dec]
  exact toy_go_inverse k x (iv.headD 0) 0

theorem stride_env_never_fails : stride_env.never_fails := fun _ _ => rfl

theorem stride_env_block_chunks : stride_env.block_chunks := by
  intro off total
  simp only [stride_env]
  split <;> omega

theorem stride_env_short_whole : stride_env.short_whole := by
  intro off total h
  simp only [stride_env]
  split <;> omega

theorem wide_env_never_fails : wide_env.never_fails := fun _ _ => rfl

theorem wide_env_block_chunks : wide_env.block_chunks := by
  intro off total
  simp only [wide_env]
  omega

theorem wide_env_short_whole : wide_env.short_whole := by
  intro off total h
  simp only [wide_env]
  omega

theorem cut_env_never_fails (n : Nat) : (cut_env n).never_fails := fun _ _ => rfl

/-! ## The block-aligned run takes no stealing path -/

theorem xts_walk_loop_no_stealing {K : Type} (env : WalkEnv) (crypt_fn : CryptFn K)
    (ctx : aes_xts_ctx K) :
    ∀ (fuel : Nat) (walk : skcipher_walk) (err : Int) (st : State),
      ∃ es, (xts_walk_loop env crypt_fn ctx fuel walk err st).2.trace = st.trace ++ es ∧
        ∀ x ∈ es, x.is_stealing = false := by
  intro fuel
  induction fuel with
  | zero =>
    intro walk err st
    refine ⟨[], ?_, by simp⟩
    by_cases hn : 0 < walk.nbytes <;> simp [xts_walk_loop, hn]
  | succ fuel ih =>
    intro walk err st
    by_cases hn : 0 < walk.nbytes
    · by_cases hr : (xts_crypt_chunk crypt_fn ctx walk (loop_nbytes walk) st).1 = 0
      · rw [xts_walk_loop_succ_ok env crypt_fn ctx fuel walk err st hn hr]
        obtain ⟨es, htr, hes⟩ := ih
          (xts_walk_advance env walk (walk.nbytes - loop_nbytes walk)
            (xts_crypt_chunk crypt_fn ctx walk (loop_nbytes walk) st).2).1.2
          (xts_walk_advance env walk (walk.nbytes - loop_nbytes walk)
            (xts_crypt_chunk crypt_fn ctx walk (loop_nbytes walk) st).2).1.1
          (xts_walk_advance env walk (walk.nbytes - loop_nbytes walk)
            (xts_crypt_chunk crypt_fn ctx walk (loop_nbytes walk) st).2).2
        rw [xts_walk_advance_trace, xts_crypt_chunk_trace] at htr
        refine ⟨_, htr.trans (by rw [List.append_assoc, List.append_assoc]), ?_⟩
        intro x hx
        rcases List.mem_append.mp hx with h | h
        · simp only [List.mem_cons, List.mem_singleton, List.not_mem_nil, or_false] at h
          rcases h with rfl | rfl <;> rfl
        · rcases List.mem_append.mp h with h | h
          · rcases List.mem_cons.mp h with rfl | h
            · rfl
            · split at h
              · simp only [List.mem_singleton] at h
                rw [h]
                rfl
              · cases h
          · exact hes x h
      · rw [xts_walk_loop_succ_fail env crypt_fn ctx fuel walk err st hn hr]
        refine ⟨_, xts_crypt_chunk_trace _ _ _ _ _, ?_⟩
        intro x hx
        simp only [List.mem_cons, List.mem_singleton, List.not_mem_nil, or_false] at hx
        rcases hx with rfl | rfl <;> rfl
    · rw [xts_walk_loop_idle env crypt_fn ctx _ walk err st hn]
      exact ⟨[], by simp, by simp⟩

/-- A run on a block-aligned length sets up no sub-request and runs no tail
step, whatever the walk and the primitives do. -/
theorem xts_crypt_common_aligned_trace {K : Type} (env : WalkEnv) (crypt_fn : CryptFn K)
    (crypt1_fn : Crypt1Fn K) (ctx : aes_xts_ctx K) (fuel : Nat) (req : skcipher_request)
    (st : State) (hal : req.cryptlen % 16 = 0) :
    ∃ es, (xts_crypt_common env crypt_fn crypt1_fn ctx fuel req st).st.trace = st.trace ++ es ∧
      ∀ x ∈ es, x.is_stealing = false := by
  by_cases hshort : req.cryptlen < AES_BLOCK_SIZE
  · exact ⟨[], by simp [xts_crypt_common, hshort], by simp⟩
  · by_cases hn : (skcipher_walk_virt env req).2.nbytes = 0
    · refine ⟨[Event.walk_virt req (skcipher_walk_virt env req).1
        (skcipher_walk_virt env req).2.nbytes], ?_, ?_⟩
      · simp [xts_crypt_common, hshort, hn, State.log]
      · intro x hx
        simp only [List.mem_singleton] at hx
        rw [hx]
        rfl
    · have hsub : ¬ (req.cryptlen % AES_BLOCK_SIZE > 0 ∧
          (skcipher_walk_virt env req).2.nbytes < (skcipher_walk_virt env req).2.total) := by
        simp only [AES_BLOCK_SIZE]
        omega
      have hrun : xts_crypt_common env crypt_fn crypt1_fn ctx fuel req st
          = xts_crypt_rest env crypt_fn crypt1_fn ctx fuel req 0
              (skcipher_walk_virt env req).2
              (st.log [Event.walk_virt req (skcipher_walk_virt env req).1
                (skcipher_walk_virt env req).2.nbytes]) := by
        simp only [xts_crypt_common, hshort, hn, if_false]
        rw [if_neg hsub]
      rw [hrun, xts_crypt_rest_eq]
      simp only [State.log]
      by_cases ht : (crypt1_fn ctx.tweak_ctx st.iv).1 = 0
      · rw [if_neg (not_not.mpr ht)]
        obtain ⟨es, htr, hes⟩ := xts_walk_loop_no_stealing env crypt_fn ctx fuel
          (skcipher_walk_virt env req).2 0
          { mem := st.mem, iv := (crypt1_fn ctx.tweak_ctx st.iv).2,
            trace := st.trace ++ [Event.walk_virt req (skcipher_walk_virt env req).1
                (skcipher_walk_virt env req).2.nbytes] ++ [Event.fpu_begin,
                  Event.crypt1 KeySel.tweak st.iv 0] }
        rcases hl : xts_walk_loop env crypt_fn ctx fuel (skcipher_walk_virt env req).2 0
          { mem := st.mem, iv := (crypt1_fn ctx.tweak_ctx st.iv).2,
            trace := st.trace ++ [Event.walk_virt req (skcipher_walk_virt env req).1
                (skcipher_walk_virt env req).2.nbytes] ++ [Event.fpu_begin,
                  Event.crypt1 KeySel.tweak st.iv 0] }
          with ⟨exit, st1⟩
        rw [hl] at htr
        simp only at htr
        have hall : ∀ x ∈ [Event.walk_virt req (skcipher_walk_virt env req).1
            (skcipher_walk_virt env req).2.nbytes] ++ ([Event.fpu_begin,
              Event.crypt1 KeySel.tweak st.iv 0] ++ es), x.is_stealing = false := by
          intro x hx
          rcases List.mem_append.mp hx with h | h
          · simp only [List.mem_singleton] at h
            rw [h]
            rfl
          · rcases List.mem_append.mp h with h | h
            · simp only [List.mem_cons, List.mem_singleton, List.not_mem_nil, or_false] at h
              rcases h with rfl | rfl <;> rfl
            · exact hes x h
        refine ⟨_, ?_, hall⟩
        cases exit with
        | exhausted => simp only [htr, List.append_assoc]
        | returned e => simp only [htr, List.append_assoc]
        | finished e =>
          simp only [gt_iff_lt, lt_self_iff_false, false_and, if_false, htr, List.append_assoc]
      · rw [if_pos ht]
        refine ⟨[Event.walk_virt req (skcipher_walk_virt env req).1
            (skcipher_walk_virt env req).2.nbytes] ++ [Event.fpu_begin,
            Event.crypt1 KeySel.tweak st.iv (crypt1_fn ctx.tweak_ctx st.iv).1,
            Event.fpu_end], ?_, ?_⟩
        · simp only [List.append_assoc]
        · intro x hx
          simp only [List.cons_append, List.nil_append, List.mem_cons, List.mem_singleton,
            List.not_mem_nil, or_false] at hx
          rcases hx with rfl | rfl | rfl | rfl <;> rfl

/-! ## xts_crypt_common: the output -/

/-- C3, amended: for a request of at least 17 bytes whose length is not a
multiple of 16, walked by a walk that never fails, offers at least one block in
every chunk that is not the last, and offers a walk of fewer than 32 bytes as a
single chunk, with a multi-block primitive that never fails, preserves lengths
and composes at block boundaries, the run returns 0 and the destination holds
exactly the output of one call of the multi-block primitive on the whole source
from the IV the single-block primitive produced under the tweak key. -/
theorem xts_crypt_common_stealing_refines {K : Type} (env : WalkEnv) (crypt_fn : CryptFn K)
    (crypt1_fn : Crypt1Fn K) (ctx : aes_xts_ctx K) (fuel : Nat) (req : skcipher_request)
    (st : State)
    (hstat : env.never_fails) (hblk : env.block_chunks) (hshort : env.short_whole)
    (hok : NeverFails crypt_fn ctx.crypt_ctx) (hlen : LengthPreserving crypt_fn ctx.crypt_ctx)
    (hcomp : ChunkComposable crypt_fn ctx.crypt_ctx)
    (h1 : (crypt1_fn ctx.tweak_ctx st.iv).1 = 0)
    (h17 : 17 ≤ req.cryptlen) (_htail : req.cryptlen % 16 ≠ 0)
    (hu : req.cryptlen < 4294967296) (hfuel : req.cryptlen ≤ fuel)
    (halias : req.dst = req.src ∨ req.dst.buf ≠ req.src.buf)
    (hsrc : req.src.off + req.cryptlen ≤ (st.mem req.src.buf).length)
    (hdst : req.dst.off + req.cryptlen ≤ (st.mem req.dst.buf).length) :
    (xts_crypt_common env crypt_fn crypt1_fn ctx fuel req st).ret = some 0 ∧
    load (xts_crypt_common env crypt_fn crypt1_fn ctx fuel req st).st.mem req.dst req.cryptlen
      = (crypt_fn ctx.crypt_ctx (load st.mem req.src req.cryptlen)
          (crypt1_fn ctx.tweak_ctx st.iv).2).2.1 ∧
    (xts_crypt_common env crypt_fn crypt1_fn ctx fuel req st).st.mem
      = store st.mem req.dst
          (crypt_fn ctx.crypt_ctx (load st.mem req.src req.cryptlen)
            (crypt1_fn ctx.tweak_ctx st.iv).2).2.1 := by
  obtain ⟨hr, hm⟩ := xts_crypt_common_whole env crypt_fn crypt1_fn ctx fuel req st hstat hblk
    (fun _ => hshort) hok hlen hcomp h1 (by omega) hu hfuel halias hsrc hdst
  refine ⟨hr, ?_, hm⟩
  rw [hm]
  have hl : (crypt_fn ctx.crypt_ctx (load st.mem req.src req.cryptlen)
      (crypt1_fn ctx.tweak_ctx st.iv).2).2.1.length = req.cryptlen := by
    rw [hlen, load_length _ _ _ hsrc]
  have := load_store_self st.mem req.dst
    (crypt_fn ctx.crypt_ctx (load st.mem req.src req.cryptlen)
      (crypt1_fn ctx.tweak_ctx st.iv).2).2.1 (by omega)
  rw [hl] at this
  exact this

/-- Witness for C3: the spec's scenario, 32 zero key bytes, tweak 0 and 17 zero
plaintext bytes. -/
theorem xts_crypt_common_stealing_refines_witness :
    (xts_crypt_common stride_env toy_enc toy_crypt1 zero_key_ctx 17 (toy_req 17)
        (toy_state (List.replicate 17 0) 17)).ret = some 0 ∧
    load (xts_crypt_common stride_env toy_enc toy_crypt1 zero_key_ctx 17 (toy_req 17)
        (toy_state (List.replicate 17 0) 17)).st.mem (toy_req 17).dst 17
      = (toy_enc zero_key_ctx.crypt_ctx (load (toy_state (List.replicate 17 0) 17).mem
          (toy_req 17).src 17)
          (toy_crypt1 zero_key_ctx.tweak_ctx (toy_state (List.replicate 17 0) 17).iv).2).2.1 :=
  let h := xts_crypt_common_stealing_refines stride_env toy_enc toy_crypt1 zero_key_ctx 17
    (toy_req 17) (toy_state (List.replicate 17 0) 17)
    stride_env_never_fails stride_env_block_chunks stride_env_short_whole
    (toy_enc_never_fails _) (toy_enc_length _) (toy_enc_composable _) rfl
    (by decide) (by decide) (by decide) (by decide) (by decide) (by decide) (by decide)
  ⟨h.1, h.2.1⟩

/-- Counterexample to C3 as stated: 17 zero bytes under the zero key, offered by
a walk that cuts the buffer after 16 bytes. The sub-request is empty, the run
returns 0 without any primitive call, and the destination keeps its 17 zero
bytes instead of the output of the primitive on the whole buffer. Likewise for
50 zero bytes cut every 16 bytes: the tail step is offered 16 of its 18 bytes,
the run returns 0 and the last two bytes of the destination are never written. -/
theorem xts_crypt_common_stealing_cex :
    (xts_crypt_common (cut_env 16) toy_enc toy_crypt1 zero_key_ctx 17 (toy_req 17)
        (toy_state (List.replicate 17 0) 17)).ret = some 0 ∧
    (xts_crypt_common (cut_env 16) toy_enc toy_crypt1 zero_key_ctx 17 (toy_req 17)
        (toy_state (List.replicate 17 0) 17)).st.trace
      = [Event.walk_virt (toy_req 17) 0 16, Event.walk_abort, Event.set_tfm, Event.set_callback,
         Event.set_crypt { buf := 0, off := 0 } { buf := 1, off := 0 } 0,
         Event.walk_virt (make_subreq (toy_req 17)) 0 0] ∧
    load (xts_crypt_common (cut_env 16) toy_enc toy_crypt1 zero_key_ctx 17 (toy_req 17)
        (toy_state (List.replicate 17 0) 17)).st.mem (toy_req 17).dst 17
      = List.replicate 17 0 ∧
    (toy_enc zero_key_ctx.crypt_ctx (load (toy_state (List.replicate 17 0) 17).mem
        (toy_req 17).src 17)
        (toy_crypt1 zero_key_ctx.tweak_ctx (toy_state (List.replicate 17 0) 17).iv).2).2.1
      = [32, 32, 32, 32, 32, 32, 32, 32, 32, 32, 32, 32, 32, 32, 32, 32, 33] ∧
    (xts_crypt_common (cut_env 16) toy_enc toy_crypt1 zero_key_ctx 50 (toy_req 50)
        (toy_state (List.replicate 50 0) 50)).ret = some 0 ∧
    (load (xts_crypt_common (cut_env 16) toy_enc toy_crypt1 zero_key_ctx 50 (toy_req 50)
        (toy_state (List.replicate 50 0) 50)).st.mem (toy_req 50).dst 50).drop 48 = [0, 0] ∧
    ((toy_enc zero_key_ctx.crypt_ctx (load (toy_state (List.replicate 50 0) 50).mem
        (toy_req 50).src 50)
        (toy_crypt1 zero_key_ctx.tweak_ctx (toy_state (List.replicate 50 0) 50).iv).2).2.1).drop 48
      = [35, 35] := by
  refine ⟨?_, ?_, ?_, ?_, ?_, ?_, ?_⟩ <;> decide

/-- C4, amended: for a request whose length is a positive multiple of 16,
walked by a walk that never fails and offers at least one block in every chunk
that is not the last, with a multi-block primitive that never fails, preserves
lengths and composes at block boundaries, the run returns 0, the destination
holds exactly the output of one call of the multi-block primitive on the whole
source from the IV produced under the tweak key, and no stealing path is
taken: the run sets up no sub-request and runs no tail step. -/
theorem xts_crypt_common_aligned_refines {K : Type} (env : WalkEnv) (crypt_fn : CryptFn K)
    (crypt1_fn : Crypt1Fn K) (ctx : aes_xts_ctx K) (fuel : Nat) (req : skcipher_request)
    (st : State)
    (hstat : env.never_fails) (hblk : env.block_chunks)
    (hok : NeverFails crypt_fn ctx.crypt_ctx) (hlen : LengthPreserving crypt_fn ctx.crypt_ctx)
    (hcomp : ChunkComposable crypt_fn ctx.crypt_ctx)
    (h1 : (crypt1_fn ctx.tweak_ctx st.iv).1 = 0)
    (hpos : 0 < req.cryptlen) (hal : req.cryptlen % 16 = 0)
    (hu : req.cryptlen < 4294967296) (hfuel : req.cryptlen ≤ fuel)
    (halias : req.dst = req.src ∨ req.dst.buf ≠ req.src.buf)
    (hsrc : req.src.off + req.cryptlen ≤ (st.mem req.src.buf).length)
    (hdst : req.dst.off + req.cryptlen ≤ (st.mem req.dst.buf).length) :
    (xts_crypt_common env crypt_fn crypt1_fn ctx fuel req st).ret = some 0 ∧
    load (xts_crypt_common env crypt_fn crypt1_fn ctx fuel req st).st.mem req.dst req.cryptlen
      = (crypt_fn ctx.crypt_ctx (load st.mem req.src req.cryptlen)
          (crypt1_fn ctx.tweak_ctx st.iv).2).2.1 ∧
    (xts_crypt_common env crypt_fn crypt1_fn ctx fuel req st).st.mem
      = store st.mem req.dst
          (crypt_fn ctx.crypt_ctx (load st.mem req.src req.cryptlen)
            (crypt1_fn ctx.tweak_ctx st.iv).2).2.1 ∧
    ∃ es, (xts_crypt_common env crypt_fn crypt1_fn ctx fuel req st).st.trace = st.trace ++ es ∧
      ∀ x ∈ es, x.is_stealing = false := by
  obtain ⟨hr, hm⟩ := xts_crypt_common_whole env crypt_fn crypt1_fn ctx fuel req st hstat hblk
    (fun h => absurd hal h) hok hlen hcomp h1 (by omega) hu hfuel halias hsrc hdst
  refine ⟨hr, ?_, hm, xts_crypt_common_aligned_trace env crypt_fn crypt1_fn ctx fuel req st hal⟩
  rw [hm]
  have hl : (crypt_fn ctx.crypt_ctx (load st.mem req.src req.cryptlen)
      (crypt1_fn ctx.tweak_ctx st.iv).2).2.1.length = req.cryptlen := by
    rw [hlen, load_length _ _ _ hsrc]
  have := load_store_self st.mem req.dst
    (crypt_fn ctx.crypt_ctx (load st.mem req.src req.cryptlen)
      (crypt1_fn ctx.tweak_ctx st.iv).2).2.1 (by omega)
  rw [hl] at this
  exact this

/-- Witness for C4: 96 bytes offered in two chunks of 48. -/
theorem xts_crypt_common_aligned_refines_witness :
    (xts_crypt_common stride_env toy_enc toy_crypt1 toy_ctx 96 (toy_req 96)
        (toy_state (List.replicate 96 5) 96)).ret = some 0 ∧
    load (xts_crypt_common stride_env toy_enc toy_crypt1 toy_ctx 96 (toy_req 96)
        (toy_state (List.replicate 96 5) 96)).st.mem (toy_req 96).dst 96
      = (toy_enc toy_ctx.crypt_ctx (load (toy_state (List.replicate 96 5) 96).mem
          (toy_req 96).src 96)
          (toy_crypt1 toy_ctx.tweak_ctx (toy_state (List.replicate 96 5) 96).iv).2).2.1 :=
  let h := xts_crypt_common_aligned_refines stride_env toy_enc toy_crypt1 toy_ctx 96
    (toy_req 96) (toy_state (List.replicate 96 5) 96)
    stride_env_never_fails stride_env_block_chunks
    (toy_enc_never_fails _) (toy_enc_length _) (toy_enc_composable _) rfl
    (by decide) (by decide) (by decide) (by decide) (by decide) (by decide) (by decide)
  ⟨h.1, h.2.1⟩

/-- On an 8-byte chunk that is not the last one the loop rounds the length down
to zero bytes, the walk gets all 8 bytes back, and the loop never leaves. -/
theorem stuck_walk_spins :
    ∀ (fuel : Nat) (err : Int) (st : State),
      (xts_walk_loop (cut_env 8) toy_enc toy_ctx fuel stuck_walk err st).1
        = LoopExit.exhausted := by
  intro fuel
  induction fuel with
  | zero =>
    intro err st
    rfl
  | succ fuel ih =>
    intro err st
    rw [xts_walk_loop_succ_ok (cut_env 8) toy_enc toy_ctx fuel stuck_walk err st
      (by decide) rfl]
    obtain ⟨-, -, hadv⟩ := xts_step_state (cut_env 8) toy_enc toy_ctx stuck_walk
      (loop_nbytes stuck_walk) (stuck_walk.nbytes - loop_nbytes stuck_walk) st
    have hdone : skcipher_walk_done (cut_env 8) stuck_walk
        (stuck_walk.nbytes - loop_nbytes stuck_walk) = (0, stuck_walk) := by decide
    rw [hadv, hdone]
    exact ih _ _

/-- Counterexample to C4 as stated: 32 bytes offered by a walk that cuts the
buffer every 8 bytes. Whatever the bound on the loop, the run has not
returned: each iteration passes zero bytes to the primitive and hands the
8-byte chunk back to the walk. -/
theorem xts_crypt_common_aligned_cex :
    ¬ ∃ fuel : Nat,
      (xts_crypt_common (cut_env 8) toy_enc toy_crypt1 toy_ctx fuel (toy_req 32)
        (toy_state (List.replicate 32 0) 32)).ret ≠ none := by
  rintro ⟨fuel, h⟩
  apply h
  have hrun : xts_crypt_common (cut_env 8) toy_enc toy_crypt1 toy_ctx fuel (toy_req 32)
        (toy_state (List.replicate 32 0) 32)
      = xts_crypt_rest (cut_env 8) toy_enc toy_crypt1 toy_ctx fuel (toy_req 32) 0 stuck_walk
          ((toy_state (List.replicate 32 0) 32).log
            [Event.walk_virt (toy_req 32) 0 8]) := rfl
  rw [hrun, xts_crypt_rest_eq, if_neg (by decide)]
  have hs := stuck_walk_spins fuel 0
    { mem := ((toy_state (List.replicate 32 0) 32).log
          [Event.walk_virt (toy_req 32) 0 8]).mem,
      iv := (toy_crypt1 toy_ctx.tweak_ctx ((toy_state (List.replicate 32 0) 32).log
          [Event.walk_virt (toy_req 32) 0 8]).iv).2,
      trace := ((toy_state (List.replicate 32 0) 32).log
          [Event.walk_virt (toy_req 32) 0 8]).trace ++
        [Event.fpu_begin, Event.crypt1 KeySel.tweak
          ((toy_state (List.replicate 32 0) 32).log [Event.walk_virt (toy_req 32) 0 8]).iv 0] }
  rcases hl : xts_walk_loop (cut_env 8) toy_enc toy_ctx fuel stuck_walk 0
    { mem := ((toy_state (List.replicate 32 0) 32).log
          [Event.walk_virt (toy_req 32) 0 8]).mem,
      iv := (toy_crypt1 toy_ctx.tweak_ctx ((toy_state (List.replicate 32 0) 32).log
          [Event.walk_virt (toy_req 32) 0 8]).iv).2,
      trace := ((toy_state (List.replicate 32 0) 32).log
          [Event.walk_virt (toy_req 32) 0 8]).trace ++
        [Event.fpu_begin, Event.crypt1 KeySel.tweak
          ((toy_state (List.replicate 32 0) 32).log [Event.walk_virt (toy_req 32) 0 8]).iv 0] }
    with ⟨exit, st1⟩
  rw [hl] at hs
  simp only at hs
  subst hs
  rfl

/-- C2, amended: round trip. For every key pair, initial IV and plaintext of
at least 16 bytes, and for every pair of walks that never fail, offer at least
one block in every chunk that is not the last and, when the length is not a
multiple of 16, offer a walk of fewer than 32 bytes as a single chunk: with
multi-block primitives that never fail, preserve lengths, compose at block
boundaries and are mutually inverse on whole buffers, encrypting and then
decrypting from the same initial IV returns 0 twice and yields the plaintext. -/
theorem xts_crypt_common_round_trip {K : Type} (env_e env_d : WalkEnv) (enc dec : CryptFn K)
    (crypt1_fn : Crypt1Fn K) (ctx : aes_xts_ctx K) (fuel : Nat) (req : skcipher_request)
    (out : scatterlist) (st : State)
    (hstat_e : env_e.never_fails) (hblk_e : env_e.block_chunks)
    (hshort_e : req.cryptlen % 16 ≠ 0 → env_e.short_whole)
    (hstat_d : env_d.never_fails) (hblk_d : env_d.block_chunks)
    (hshort_d : req.cryptlen % 16 ≠ 0 → env_d.short_whole)
    (hok_e : NeverFails enc ctx.crypt_ctx) (hlen_e : LengthPreserving enc ctx.crypt_ctx)
    (hcomp_e : ChunkComposable enc ctx.crypt_ctx)
    (hok_d : NeverFails dec ctx.crypt_ctx) (hlen_d : LengthPreserving dec ctx.crypt_ctx)
    (hcomp_d : ChunkComposable dec ctx.crypt_ctx)
    (hinv : MutuallyInverse enc dec ctx.crypt_ctx)
    (h1 : (crypt1_fn ctx.tweak_ctx st.iv).1 = 0)
    (h16 : 16 ≤ req.cryptlen) (hu : req.cryptlen < 4294967296) (hfuel : req.cryptlen ≤ fuel)
    (halias : req.dst = req.src ∨ req.dst.buf ≠ req.src.buf)
    (halias_out : out = req.dst ∨ out.buf ≠ req.dst.buf)
    (hsrc : req.src.off + req.cryptlen ≤ (st.mem req.src.buf).length)
    (hdst : req.dst.off + req.cryptlen ≤ (st.mem req.dst.buf).length)
    (hout : out.off + req.cryptlen ≤ (st.mem out.buf).length) :
    (xts_crypt_common env_e enc crypt1_fn ctx fuel req st).ret = some 0 ∧
    (round_trip env_e env_d enc dec crypt1_fn ctx fuel req out st).ret = some 0 ∧
    load (round_trip env_e env_d enc dec crypt1_fn ctx fuel req out st).st.mem out req.cryptlen
      = load st.mem req.src req.cryptlen := by
  obtain ⟨hr, hm⟩ := xts_crypt_common_whole env_e enc crypt1_fn ctx fuel req st hstat_e hblk_e
    hshort_e hok_e hlen_e hcomp_e h1 h16 hu hfuel halias hsrc hdst
  have hP : (load st.mem req.src req.cryptlen).length = req.cryptlen :=
    load_length _ _ _ hsrc
  have hC : (enc ctx.crypt_ctx (load st.mem req.src req.cryptlen)
      (crypt1_fn ctx.tweak_ctx st.iv).2).2.1.length = req.cryptlen := by
    rw [hlen_e, hP]
  have hlenmem : ∀ b, ((xts_crypt_common env_e enc crypt1_fn ctx fuel req st).st.mem b).length
      = (st.mem b).length := by
    intro b
    rw [hm]
    exact store_length _ _ _ (by rw [hC]; exact hdst) b
  have hread : load (xts_crypt_common env_e enc crypt1_fn ctx fuel req st).st.mem req.dst
      req.cryptlen = (enc ctx.crypt_ctx (load st.mem req.src req.cryptlen)
        (crypt1_fn ctx.tweak_ctx st.iv).2).2.1 := by
    rw [hm]
    have := load_store_self st.mem req.dst
      (enc ctx.crypt_ctx (load st.mem req.src req.cryptlen)
        (crypt1_fn ctx.tweak_ctx st.iv).2).2.1 (by omega)
    rw [hC] at this
    exact this
  obtain ⟨hr2, hm2⟩ := xts_crypt_common_whole env_d dec crypt1_fn ctx fuel
    (decrypt_req req out)
    { mem := (xts_crypt_common env_e enc crypt1_fn ctx fuel req st).st.mem,
      iv := st.iv,
      trace := (xts_crypt_common env_e enc crypt1_fn ctx fuel req st).st.trace }
    hstat_d hblk_d hshort_d hok_d hlen_d hcomp_d h1 h16 hu hfuel halias_out
    (by simp only [decrypt_req, hlenmem]; exact hdst)
    (by simp only [decrypt_req, hlenmem]; exact hout)
  refine ⟨hr, hr2, ?_⟩
  unfold round_trip
  rw [hm2]
  simp only [decrypt_req]
  rw [hread, hinv _ _ (by rw [hP]; exact h16)]
  have := load_store_self (xts_crypt_common env_e enc crypt1_fn ctx fuel req st).st.mem out
    (load st.mem req.src req.cryptlen) (by rw [hlenmem]; omega)
  rw [hP] at this
  exact this

/-- Witness for C2: 100 bytes (a 4-byte tail), encrypted out of place and
decrypted in place, the two walks cutting the buffers differently. -/
theorem xts_crypt_common_round_trip_witness :
    load (round_trip stride_env wide_env toy_enc toy_dec toy_crypt1 toy_ctx 100
        (toy_req 100) { buf := 1, off := 0 } (toy_state (List.replicate 100 9) 100)).st.mem
        { buf := 1, off := 0 } 100
      = List.replicate 100 9 :=
  (xts_crypt_common_round_trip stride_env wide_env toy_enc toy_dec toy_crypt1 toy_ctx 100
    (toy_req 100) { buf := 1, off := 0 } (toy_state (List.replicate 100 9) 100)
    stride_env_never_fails stride_env_block_chunks (fun _ => stride_env_short_whole)
    wide_env_never_fails wide_env_block_chunks (fun _ => wide_env_short_whole)
    (toy_enc_never_fails _) (toy_enc_length _) (toy_enc_composable _)
    (toy_dec_never_fails _) (toy_dec_length _) (toy_dec_composable _)
    (toy_inverse _) rfl
    (by decide) (by decide) (by decide) (by decide) (by decide) (by decide) (by decide)
    (by decide)).2.2

/-- Counterexample to C2 as stated: a 17-byte plaintext of ones, offered by
walks that cut the buffers after 16 bytes, with the toy primitives (which never
fail, compose at block boundaries and are mutually inverse). Both runs return 0
without calling a primitive, and the round trip yields the 17 zero bytes the
output buffer held, not the plaintext. -/
theorem xts_crypt_common_round_trip_cex :
    MutuallyInverse toy_enc toy_dec toy_ctx.crypt_ctx ∧
    ChunkComposable toy_enc toy_ctx.crypt_ctx ∧ ChunkComposable toy_dec toy_ctx.crypt_ctx ∧
    (xts_crypt_common (cut_env 16) toy_enc toy_crypt1 toy_ctx 17 (toy_req 17)
        (toy_state (List.replicate 17 1) 17)).ret = some 0 ∧
    (round_trip (cut_env 16) (cut_env 16) toy_enc toy_dec toy_crypt1 toy_ctx 17 (toy_req 17)
        { buf := 2, off := 0 } (toy_state (List.replicate 17 1) 17)).ret = some 0 ∧
    load (round_trip (cut_env 16) (cut_env 16) toy_enc toy_dec toy_crypt1 toy_ctx 17 (toy_req 17)
        { buf := 2, off := 0 } (toy_state (List.replicate 17 1) 17)).st.mem
        { buf := 2, off := 0 } 17 = List.replicate 17 0 ∧
    load (toy_state (List.replicate 17 1) 17).mem (toy_req 17).src 17 = List.replicate 17 1 := by
  refine ⟨toy_inverse _, toy_enc_composable _, toy_dec_composable _, ?_, ?_, ?_, ?_⟩ <;> decide

/-! ## xts_crypt_common: the ranges handed to the multi-block primitive -/

theorem crypt_src_ranges_append (a b : List Event) :
    crypt_src_ranges (a ++ b) = crypt_src_ranges a ++ crypt_src_ranges b := by
  induction a with
  | nil => rfl
  | cons x xs ih => cases x <;> simp [crypt_src_ranges, ih]

theorem crypt_dst_ranges_append (a b : List Event) :
    crypt_dst_ranges (a ++ b) = crypt_dst_ranges a ++ crypt_dst_ranges b := by
  induction a with
  | nil => rfl
  | cons x xs ih => cases x <;> simp [crypt_dst_ranges, ih]

theorem chained_append {s m e : Nat} {a b : List (Nat × Nat)} (ha : chained s a m)
    (hb : chained m b e) : chained s (a ++ b) e := by
  induction a generalizing s with
  | nil =>
    simp only [chained] at ha
    subst ha
    exact hb
  | cons r rs ih =>
    obtain ⟨h1, h2⟩ := ha
    exact ⟨h1, ih h2⟩

theorem loop_nbytes_le (walk : skcipher_walk) : loop_nbytes walk ≤ walk.nbytes := by
  unfold loop_nbytes
  split
  · exact block_floor_le _
  · exact le_refl _

theorem xts_walk_loop_returned_ne {K : Type} (env : WalkEnv) (crypt_fn : CryptFn K)
    (ctx : aes_xts_ctx K) (fuel : Nat) (walk : skcipher_walk) (err : Int) (st : State) (e : Int)
    (h : (xts_walk_loop env crypt_fn ctx fuel walk err st).1 = LoopExit.returned e) : e ≠ 0 := by
  obtain ⟨es, -, -, hret, -⟩ := xts_walk_loop_trace env crypt_fn ctx fuel walk err st
  obtain ⟨hsh, hnot⟩ := hret e h
  rcases hsh with hall | ⟨c, f, e1, -, -, -, hne, he⟩
  · exact absurd hall hnot
  · cases he
    exact hne

/-- Ranges of the main loop: when the loop finishes with status 0 on a walk
that offers a non-empty chunk while bytes remain, the ranges it handed to the
primitive follow one another from the cursor to the end of the walk. -/
theorem xts_walk_loop_covers {K : Type} (env : WalkEnv) (crypt_fn : CryptFn K)
    (ctx : aes_xts_ctx K) (hblk : env.block_chunks) :
    ∀ (fuel : Nat) (walk : skcipher_walk) (err : Int) (st : State),
      walk.nbytes ≤ walk.total →
      (walk.nbytes = 0 → err = 0 → walk.total = 0) →
      (xts_walk_loop env crypt_fn ctx fuel walk err st).1 = LoopExit.finished 0 →
      ∃ es, (xts_walk_loop env crypt_fn ctx fuel walk err st).2.trace = st.trace ++ es ∧
        chained walk.src.off (crypt_src_ranges es) (walk.src.off + walk.total) ∧
        chained walk.dst.off (crypt_dst_ranges es) (walk.dst.off + walk.total) := by
  intro fuel
  induction fuel with
  | zero =>
    intro walk err st hle hz hfin
    by_cases hn : 0 < walk.nbytes
    · simp [xts_walk_loop, hn] at hfin
    · simp only [xts_walk_loop, hn, if_false, LoopExit.finished.injEq] at hfin
      have ht := hz (by omega) hfin
      refine ⟨[], by simp [xts_walk_loop, hn], ?_, ?_⟩ <;> simp [crypt_src_ranges,
        crypt_dst_ranges, chained, ht]
  | succ fuel ih =>
    intro walk err st hle hz hfin
    by_cases hn : 0 < walk.nbytes
    · by_cases hr : (xts_crypt_chunk crypt_fn ctx walk (loop_nbytes walk) st).1 = 0
      · rw [xts_walk_loop_succ_ok env crypt_fn ctx fuel walk err st hn hr] at hfin ⊢
        obtain ⟨pre, hp1, -, -, hp4, hp5⟩ := xts_iter_trace env crypt_fn ctx walk
          (loop_nbytes walk) (walk.nbytes - loop_nbytes walk) st hr
        obtain ⟨-, -, hadv⟩ := xts_step_state env crypt_fn ctx walk (loop_nbytes walk)
          (walk.nbytes - loop_nbytes walk) st
        have hnle := loop_nbytes_le walk
        generalize loop_nbytes walk = n at *
        have hcons : walk.nbytes - (walk.nbytes - n) = n := by omega
        rw [hadv] at hfin ⊢
        have hw1 : (skcipher_walk_done env walk (walk.nbytes - n)).2.src.off
            = walk.src.off + n := by
          simp [skcipher_walk_done, skcipher_walk_next, scatterwalk_ffwd, hcons]
        have hw2 : (skcipher_walk_done env walk (walk.nbytes - n)).2.dst.off
            = walk.dst.off + n := by
          simp [skcipher_walk_done, skcipher_walk_next, scatterwalk_ffwd, hcons]
        have hw3 : (skcipher_walk_done env walk (walk.nbytes - n)).2.total
            = walk.total - n := by
          simp [skcipher_walk_done, skcipher_walk_next, hcons]
        have hw4 : (skcipher_walk_done env walk (walk.nbytes - n)).2.nbytes
            = if (skcipher_walk_done env walk (walk.nbytes - n)).1 = 0 then
                min (env.chunk (walk.src.off + n) (walk.total - n)) (walk.total - n)
              else 0 := by
          simp [skcipher_walk_done, skcipher_walk_next, scatterwalk_ffwd, hcons]
        have hc := hblk (walk.src.off + n) (walk.total - n)
        obtain ⟨es, htr, hs, hd⟩ := ih
          (skcipher_walk_done env walk (walk.nbytes - n)).2
          (skcipher_walk_done env walk (walk.nbytes - n)).1
          (xts_walk_advance env walk (walk.nbytes - n)
            (xts_crypt_chunk crypt_fn ctx walk n st).2).2
          (by
            rw [hw4, hw3]
            split <;> omega)
          (by
            intro h0 he
            rw [hw4, if_pos he] at h0
            rw [hw3]
            omega)
          hfin
        rw [hw1, hw3] at hs
        rw [hw2, hw3] at hd
        refine ⟨pre ++ es, ?_, ?_, ?_⟩
        · rw [htr, hp1, List.append_assoc]
        · rw [crypt_src_ranges_append, hp4]
          refine ⟨rfl, ?_⟩
          have : walk.src.off + n + (walk.total - n) = walk.src.off + walk.total := by omega
          rw [this] at hs
          exact hs
        · rw [crypt_dst_ranges_append, hp5]
          refine ⟨rfl, ?_⟩
          have : walk.dst.off + n + (walk.total - n) = walk.dst.off + walk.total := by omega
          rw [this] at hd
          exact hd
      · rw [xts_walk_loop_succ_fail env crypt_fn ctx fuel walk err st hn hr] at hfin
        cases hfin
    · rw [xts_walk_loop_idle env crypt_fn ctx _ walk err st hn] at hfin ⊢
      simp only [LoopExit.finished.injEq] at hfin
      have ht := hz (by omega) hfin
      refine ⟨[], by simp, ?_, ?_⟩ <;> simp [crypt_src_ranges, crypt_dst_ranges, chained, ht]

theorem tail_prelude_ranges (req : skcipher_request) (tail : Nat) :
    crypt_src_ranges (tail_prelude req tail) = [] ∧
    crypt_dst_ranges (tail_prelude req tail) = [] := by
  unfold tail_prelude
  by_cases hd : req.dst = req.src
  · simp [hd, crypt_src_ranges, crypt_dst_ranges]
  · simp [hd, crypt_src_ranges, crypt_dst_ranges]

theorem tail_subreq_offsets (req : skcipher_request) (tail : Nat) :
    (tail_subreq req tail).src.off = req.src.off + req.cryptlen ∧
    (tail_subreq req tail).dst.off = req.dst.off + req.cryptlen := by
  unfold tail_subreq
  by_cases hd : req.dst = req.src
  · simp [hd, scatterwalk_ffwd]
  · simp [hd, scatterwalk_ffwd]

/-- Ranges of the tail step: when it returns 0 on a walk that offers fewer than
32 bytes as one chunk, it handed the primitive the one block and the tail that
follow the sub-request. -/
theorem xts_tail_step_covers {K : Type} (env : WalkEnv) (crypt_fn : CryptFn K)
    (ctx : aes_xts_ctx K) (req : skcipher_request) (tail : Nat) (st : State)
    (hshort : env.short_whole) (htail : tail < 16)
    (hret : (xts_tail_step env crypt_fn ctx req tail st).ret = some 0) :
    ∃ es, (xts_tail_step env crypt_fn ctx req tail st).st.trace = st.trace ++ es ∧
      crypt_src_ranges es = [(req.src.off + req.cryptlen, 16 + tail)] ∧
      crypt_dst_ranges es = [(req.dst.off + req.cryptlen, 16 + tail)] := by
  obtain ⟨ho1, ho2⟩ := tail_subreq_offsets req tail
  obtain ⟨hp1, hp2⟩ := tail_prelude_ranges req tail
  rw [xts_tail_step_eq] at hret ⊢
  by_cases hv : (skcipher_walk_virt env (tail_subreq req tail)).1 = 0
  · have hnb : (skcipher_walk_virt env (tail_subreq req tail)).2.nbytes = 16 + tail := by
      have hs : env.status (tail_subreq req tail).src.off (tail_subreq req tail).cryptlen = 0 := hv
      have hc := hshort (tail_subreq req tail).src.off (16 + tail) (by omega)
      simp only [skcipher_walk_virt, skcipher_walk_next, hs, if_true]
      simp only [tail_subreq, AES_BLOCK_SIZE] at hc ⊢
      omega
    have hsrc : (skcipher_walk_virt env (tail_subreq req tail)).2.src
        = (tail_subreq req tail).src := rfl
    have hdst : (skcipher_walk_virt env (tail_subreq req tail)).2.dst
        = (tail_subreq req tail).dst := rfl
    by_cases hc : (xts_crypt_chunk crypt_fn ctx (skcipher_walk_virt env (tail_subreq req tail)).2
          (skcipher_walk_virt env (tail_subreq req tail)).2.nbytes
          (st.log (tail_prelude req tail ++
            [Event.walk_virt (tail_subreq req tail)
              (skcipher_walk_virt env (tail_subreq req tail)).1
              (skcipher_walk_virt env (tail_subreq req tail)).2.nbytes,
             Event.fpu_begin]))).1 = 0
    · rw [if_neg (not_not.mpr hv), if_neg (not_not.mpr hc)]
      refine ⟨?esa, ?h1, ?h2, ?h3⟩
      case h1 =>
        simp only [State.log, xts_crypt_chunk_trace, List.append_assoc]
        exact rfl
      case h2 =>
        rw [crypt_src_ranges_append, hp1]
        simp [crypt_src_ranges, hsrc, ho1, hnb]
      case h3 =>
        rw [crypt_dst_ranges_append, hp2]
        simp [crypt_dst_ranges, hdst, ho2, hnb]
    · rw [if_neg (not_not.mpr hv), if_pos hc] at hret
      simp only [Option.some.injEq] at hret
      exact absurd hret hc
  · rw [if_pos hv] at hret
    simp only [Option.some.injEq] at hret
    exact absurd hret hv

/-- Ranges of the part of a run that follows the walk set-up. -/
theorem xts_crypt_rest_covers {K : Type} (env : WalkEnv) (crypt_fn : CryptFn K)
    (crypt1_fn : Crypt1Fn K) (ctx : aes_xts_ctx K) (fuel : Nat) (req : skcipher_request)
    (tail : Nat) (walk : skcipher_walk) (st : State)
    (hblk : env.block_chunks) (hshort : 0 < tail → env.short_whole) (htail : tail < 16)
    (hws : walk.src = req.src) (hwd : walk.dst = req.dst) (hwt : walk.total = req.cryptlen)
    (hw : 0 < walk.nbytes) (hle : walk.nbytes ≤ walk.total)
    (hret : (xts_crypt_rest env crypt_fn crypt1_fn ctx fuel req tail walk st).ret = some 0) :
    ∃ es, (xts_crypt_rest env crypt_fn crypt1_fn ctx fuel req tail walk st).st.trace
        = st.trace ++ es ∧
      chained req.src.off (crypt_src_ranges es)
        (req.src.off + req.cryptlen + (if 0 < tail then 16 + tail else 0)) ∧
      chained req.dst.off (crypt_dst_ranges es)
        (req.dst.off + req.cryptlen + (if 0 < tail then 16 + tail else 0)) := by
  rw [xts_crypt_rest_eq] at hret ⊢
  by_cases ht : (crypt1_fn ctx.tweak_ctx st.iv).1 = 0
  · rw [if_neg (not_not.mpr ht)] at hret ⊢
    have hcov := xts_walk_loop_covers env crypt_fn ctx hblk fuel walk 0
      { mem := st.mem, iv := (crypt1_fn ctx.tweak_ctx st.iv).2,
        trace := st.trace ++ [Event.fpu_begin, Event.crypt1 KeySel.tweak st.iv 0] }
      hle (by intro h; omega)
    have hne := xts_walk_loop_returned_ne env crypt_fn ctx fuel walk 0
      { mem := st.mem, iv := (crypt1_fn ctx.tweak_ctx st.iv).2,
        trace := st.trace ++ [Event.fpu_begin, Event.crypt1 KeySel.tweak st.iv 0] }
    rcases hl : xts_walk_loop env crypt_fn ctx fuel walk 0
      { mem := st.mem, iv := (crypt1_fn ctx.tweak_ctx st.iv).2,
        trace := st.trace ++ [Event.fpu_begin, Event.crypt1 KeySel.tweak st.iv 0] }
      with ⟨exit, st1⟩
    rw [hl] at hret hcov hne
    simp only at hret hcov hne
    cases exit with
    | exhausted => simp at hret
    | returned e =>
      simp only [Option.some.injEq] at hret
      exact absurd hret (hne e rfl)
    | finished e =>
      by_cases htl : tail > 0 ∧ e = 0
      · simp only [htl, and_self, if_true] at hret ⊢
        obtain ⟨es, htr, hs, hd⟩ := hcov (by rw [htl.2])
        obtain ⟨es2, htr2, hs2, hd2⟩ := xts_tail_step_covers env crypt_fn ctx req tail st1
          (hshort htl.1) htail hret
        rw [hws, hwt] at hs
        rw [hwd, hwt] at hd
        refine ⟨[Event.fpu_begin, Event.crypt1 KeySel.tweak st.iv 0] ++ (es ++ es2), ?_, ?_, ?_⟩
        · rw [htr2, htr]
          simp only [List.append_assoc]
        · rw [crypt_src_ranges_append, crypt_src_ranges_append, hs2]
          simp only [crypt_src_ranges, List.nil_append]
          exact chained_append hs ⟨rfl, rfl⟩
        · rw [crypt_dst_ranges_append, crypt_dst_ranges_append, hd2]
          simp only [crypt_dst_ranges, List.nil_append]
          exact chained_append hd ⟨rfl, rfl⟩
      · simp only [htl, if_false, Option.some.injEq] at hret ⊢
        subst hret
        have htz : ¬ 0 < tail := by
          intro h
          exact htl ⟨h, rfl⟩
        obtain ⟨es, htr, hs, hd⟩ := hcov rfl
        rw [hws, hwt] at hs
        rw [hwd, hwt] at hd
        refine ⟨[Event.fpu_begin, Event.crypt1 KeySel.tweak st.iv 0] ++ es, ?_, ?_, ?_⟩
        · rw [htr]
          simp only [List.append_assoc]
        · rw [crypt_src_ranges_append]
          simp only [crypt_src_ranges, List.nil_append, htz, if_false, Nat.add_zero]
          exact hs
        · rw [crypt_dst_ranges_append]
          simp only [crypt_dst_ranges, List.nil_append, htz, if_false, Nat.add_zero]
          exact hd
  · rw [if_pos ht] at hret
    simp only [Option.some.injEq] at hret
    exact absurd hret ht

/-- C6, amended: for a request of at least 16 bytes walked by a walk that
offers at least one block in every chunk that is not the last and, when the
length is not a multiple of 16, offers a walk of fewer than 32 bytes as a single
chunk: if the run returns 0, the byte ranges it handed to the multi-block
primitive (main loop, then tail step) follow one another without gap or overlap
from the start of the request to its end, in the source and in the
destination. -/
theorem xts_crypt_common_covers {K : Type} (env : WalkEnv) (crypt_fn : CryptFn K)
    (crypt1_fn : Crypt1Fn K) (ctx : aes_xts_ctx K) (fuel : Nat) (req : skcipher_request)
    (st : State)
    (hblk : env.block_chunks) (hshort : req.cryptlen % 16 ≠ 0 → env.short_whole)
    (h16 : 16 ≤ req.cryptlen) (hu : req.cryptlen < 4294967296)
    (hret : (xts_crypt_common env crypt_fn crypt1_fn ctx fuel req st).ret = some 0) :
    ∃ es, (xts_crypt_common env crypt_fn crypt1_fn ctx fuel req st).st.trace = st.trace ++ es ∧
      chained req.src.off (crypt_src_ranges es) (req.src.off + req.cryptlen) ∧
      chained req.dst.off (crypt_dst_ranges es) (req.dst.off + req.cryptlen) := by
  have hns : ¬ req.cryptlen < AES_BLOCK_SIZE := by unfold AES_BLOCK_SIZE; omega
  have hc0 := hblk req.src.off req.cryptlen
  have hnb : (skcipher_walk_virt env req).2.nbytes
      = if (skcipher_walk_virt env req).1 = 0 then
          min (env.chunk req.src.off req.cryptlen) req.cryptlen else 0 := rfl
  have hn : ¬ (skcipher_walk_virt env req).2.nbytes = 0 := by
    intro h
    have hr : (skcipher_walk_virt env req).1 = 0 := by
      simpa [xts_crypt_common, hns, h] using hret
    rw [hnb, if_pos hr] at h
    omega
  have hst : (skcipher_walk_virt env req).1 = 0 := by
    by_contra h
    rw [hnb, if_neg h] at hn
    exact hn rfl
  rw [if_pos hst] at hnb
  by_cases hsub : req.cryptlen % AES_BLOCK_SIZE > 0 ∧
      (skcipher_walk_virt env req).2.nbytes < (skcipher_walk_virt env req).2.total
  · have htl : req.cryptlen % 16 ≠ 0 := by
      have := hsub.1
      simp only [AES_BLOCK_SIZE] at this
      omega
    have hsw := hshort htl
    have h32 : 32 ≤ req.cryptlen := by
      by_contra h
      have h2 := hsw req.src.off req.cryptlen (by omega)
      have h3 := hsub.2
      rw [hnb] at h3
      have h4 : (skcipher_walk_virt env req).2.total = req.cryptlen := rfl
      omega
    have hsl : (make_subreq req).cryptlen = req.cryptlen - req.cryptlen % 16 - 16 :=
      subreq_cryptlen_eq req.cryptlen h16 hu htl
    have hc1 := hblk req.src.off (make_subreq req).cryptlen
    have hnb2 : (skcipher_walk_virt env (make_subreq req)).2.nbytes
        = if (skcipher_walk_virt env (make_subreq req)).1 = 0 then
            min (env.chunk req.src.off (make_subreq req).cryptlen) (make_subreq req).cryptlen
          else 0 := rfl
    have hn2 : ¬ (skcipher_walk_virt env (make_subreq req)).2.nbytes = 0 := by
      intro h
      have hr : (skcipher_walk_virt env (make_subreq req)).1 = 0 := by
        simpa [xts_crypt_common, hns, hn, hsub, h] using hret
      rw [hnb2, if_pos hr] at h
      omega
    have hrun : xts_crypt_common env crypt_fn crypt1_fn ctx fuel req st
        = xts_crypt_rest env crypt_fn crypt1_fn ctx fuel (make_subreq req)
            (req.cryptlen % AES_BLOCK_SIZE)
            (skcipher_walk_virt env (make_subreq req)).2
            (st.log (subreq_events env req)) := by
      simp [xts_crypt_common, hns, hn, hsub, hn2, State.log, subreq_events]
    rw [hrun] at hret ⊢
    obtain ⟨es, htr, hs, hd⟩ := xts_crypt_rest_covers env crypt_fn crypt1_fn ctx fuel
      (make_subreq req) (req.cryptlen % AES_BLOCK_SIZE)
      (skcipher_walk_virt env (make_subreq req)).2 (st.log (subreq_events env req))
      hblk (fun _ => hsw) (by simp only [AES_BLOCK_SIZE]; omega) rfl rfl rfl
      (Nat.pos_of_ne_zero hn2)
      (by
        rw [hnb2]
        have : (skcipher_walk_virt env (make_subreq req)).2.total
            = (make_subreq req).cryptlen := rfl
        split <;> omega)
      hret
    have hend : ∀ base : Nat, base + (make_subreq req).cryptlen +
        (if 0 < req.cryptlen % AES_BLOCK_SIZE then 16 + req.cryptlen % AES_BLOCK_SIZE else 0)
        = base + req.cryptlen := by
      intro base
      rw [if_pos hsub.1, hsl]
      simp only [AES_BLOCK_SIZE]
      omega
    have hsrc : (make_subreq req).src = req.src := rfl
    have hdst : (make_subreq req).dst = req.dst := rfl
    rw [hsrc, hend] at hs
    rw [hdst, hend] at hd
    refine ⟨subreq_events env req ++ es, ?_, ?_, ?_⟩
    · rw [htr]
      simp only [State.log, List.append_assoc]
    · rw [crypt_src_ranges_append]
      simpa only [subreq_events, crypt_src_ranges, List.nil_append] using hs
    · rw [crypt_dst_ranges_append]
      simpa only [subreq_events, crypt_dst_ranges, List.nil_append] using hd
  · have hrun : xts_crypt_common env crypt_fn crypt1_fn ctx fuel req st
        = xts_crypt_rest env crypt_fn crypt1_fn ctx fuel req 0
            (skcipher_walk_virt env req).2
            (st.log [Event.walk_virt req (skcipher_walk_virt env req).1
              (skcipher_walk_virt env req).2.nbytes]) := by
      simp only [xts_crypt_common, hns, hn, if_false]
      rw [if_neg hsub]
    rw [hrun] at hret ⊢
    obtain ⟨es, htr, hs, hd⟩ := xts_crypt_rest_covers env crypt_fn crypt1_fn ctx fuel
      req 0 (skcipher_walk_virt env req).2
      (st.log [Event.walk_virt req (skcipher_walk_virt env req).1
        (skcipher_walk_virt env req).2.nbytes])
      hblk (fun h => absurd h (lt_irrefl 0)) (by omega) rfl rfl rfl
      (Nat.pos_of_ne_zero hn)
      (by
        rw [hnb]
        have : (skcipher_walk_virt env req).2.total = req.cryptlen := rfl
        omega)
      hret
    simp only [lt_self_iff_false, if_false, Nat.add_zero] at hs hd
    refine ⟨[Event.walk_virt req (skcipher_walk_virt env req).1
        (skcipher_walk_virt env req).2.nbytes] ++ es, ?_, ?_, ?_⟩
    · rw [htr]
      simp only [State.log, List.append_assoc]
    · rw [crypt_src_ranges_append]
      simpa only [crypt_src_ranges, List.nil_append] using hs
    · rw [crypt_dst_ranges_append]
      simpa only [crypt_dst_ranges, List.nil_append] using hd

/-- Witness for C6: 100 bytes, a 4-byte tail, offered in chunks of 48 bytes. -/
theorem xts_crypt_common_covers_witness :
    ∃ es, (xts_crypt_common stride_env toy_enc toy_crypt1 toy_ctx 100 (toy_req 100)
        (toy_state (List.replicate 100 9) 100)).st.trace
        = (toy_state (List.replicate 100 9) 100).trace ++ es ∧
      chained (toy_req 100).src.off (crypt_src_ranges es)
        ((toy_req 100).src.off + (toy_req 100).cryptlen) ∧
      chained (toy_req 100).dst.off (crypt_dst_ranges es)
        ((toy_req 100).dst.off + (toy_req 100).cryptlen) :=
  xts_crypt_common_covers stride_env toy_enc toy_crypt1 toy_ctx 100 (toy_req 100)
    (toy_state (List.replicate 100 9) 100)
    stride_env_block_chunks (fun _ => stride_env_short_whole) (by decide) (by decide)
    (xts_crypt_common_whole stride_env toy_enc toy_crypt1 toy_ctx 100 (toy_req 100)
      (toy_state (List.replicate 100 9) 100)
      stride_env_never_fails stride_env_block_chunks (fun _ => stride_env_short_whole)
      (toy_enc_never_fails _) (toy_enc_length _) (toy_enc_composable _) rfl
      (by decide) (by decide) (by decide) (by decide) (by decide) (by decide)).1

/-- Counterexample to C6 as stated: 17 bytes offered by a walk that cuts the
buffer after 16 bytes. The run returns 0 and has handed no byte range to the
multi-block primitive, so the ranges do not cover the 17 bytes. Likewise for 50
bytes cut every 16 bytes: the run returns 0 after handing over the ranges
`[0, 16)`, `[16, 32)` and, in the tail step, `[32, 48)` only. -/
theorem xts_crypt_common_covers_cex :
    (xts_crypt_common (cut_env 16) toy_enc toy_crypt1 toy_ctx 17 (toy_req 17)
        (toy_state (List.replicate 17 1) 17)).ret = some 0 ∧
    crypt_src_ranges (xts_crypt_common (cut_env 16) toy_enc toy_crypt1 toy_ctx 17 (toy_req 17)
        (toy_state (List.replicate 17 1) 17)).st.trace = [] ∧
    ¬ chained 0 (crypt_src_ranges (xts_crypt_common (cut_env 16) toy_enc toy_crypt1 toy_ctx 17
        (toy_req 17) (toy_state (List.replicate 17 1) 17)).st.trace) 17 ∧
    (xts_crypt_common (cut_env 16) toy_enc toy_crypt1 toy_ctx 50 (toy_req 50)
        (toy_state (List.replicate 50 1) 50)).ret = some 0 ∧
    crypt_src_ranges (xts_crypt_common (cut_env 16) toy_enc toy_crypt1 toy_ctx 50 (toy_req 50)
        (toy_state (List.replicate 50 1) 50)).st.trace = [(0, 16), (16, 16), (32, 16)] ∧
    ¬ chained 0 (crypt_src_ranges (xts_crypt_common (cut_env 16) toy_enc toy_crypt1 toy_ctx 50
        (toy_req 50) (toy_state (List.replicate 50 1) 50)).st.trace) 50 := by
  have h : crypt_src_ranges (xts_crypt_common (cut_env 16) toy_enc toy_crypt1 toy_ctx 17
      (toy_req 17) (toy_state (List.replicate 17 1) 17)).st.trace = [] := by decide
  have h2 : crypt_src_ranges (xts_crypt_common (cut_env 16) toy_enc toy_crypt1 toy_ctx 50
      (toy_req 50) (toy_state (List.replicate 50 1) 50)).st.trace
      = [(0, 16), (16, 16), (32, 16)] := by decide
  refine ⟨by decide, h, ?_, by decide, h2, ?_⟩
  · rw [h]
    simp [chained]
  · rw [h2]
    simp [chained]

/-! ## The paths of a run -/

theorem xts_crypt_common_eq_empty {K : Type} (env : WalkEnv) (crypt_fn : CryptFn K)
    (crypt1_fn : Crypt1Fn K) (ctx : aes_xts_ctx K) (fuel : Nat) (req : skcipher_request)
    (st : State) (h16 : 16 ≤ req.cryptlen)
    (hn : (skcipher_walk_virt env req).2.nbytes = 0) :
    xts_crypt_common env crypt_fn crypt1_fn ctx fuel req st
      = { ret := some (skcipher_walk_virt env req).1,
          st := st.log [Event.walk_virt req (skcipher_walk_virt env req).1
            (skcipher_walk_virt env req).2.nbytes] } := by
  have hns : ¬ req.cryptlen < AES_BLOCK_SIZE := by unfold AES_BLOCK_SIZE; omega
  simp [xts_crypt_common, hns, hn]

theorem xts_crypt_common_eq_nosub {K : Type} (env : WalkEnv) (crypt_fn : CryptFn K)
    (crypt1_fn : Crypt1Fn K) (ctx : aes_xts_ctx K) (fuel : Nat) (req : skcipher_request)
    (st : State) (h16 : 16 ≤ req.cryptlen)
    (hn : (skcipher_walk_virt env req).2.nbytes ≠ 0)
    (hsub : ¬ (req.cryptlen % AES_BLOCK_SIZE > 0 ∧
      (skcipher_walk_virt env req).2.nbytes < (skcipher_walk_virt env req).2.total)) :
    xts_crypt_common env crypt_fn crypt1_fn ctx fuel req st
      = xts_crypt_rest env crypt_fn crypt1_fn ctx fuel req 0 (skcipher_walk_virt env req).2
          (st.log [Event.walk_virt req (skcipher_walk_virt env req).1
            (skcipher_walk_virt env req).2.nbytes]) := by
  have hns : ¬ req.cryptlen < AES_BLOCK_SIZE := by unfold AES_BLOCK_SIZE; omega
  simp only [xts_crypt_common, hns, hn, if_false]
  rw [if_neg hsub]

theorem xts_crypt_common_eq_sub_empty {K : Type} (env : WalkEnv) (crypt_fn : CryptFn K)
    (crypt1_fn : Crypt1Fn K) (ctx : aes_xts_ctx K) (fuel : Nat) (req : skcipher_request)
    (st : State) (h16 : 16 ≤ req.cryptlen)
    (hn : (skcipher_walk_virt env req).2.nbytes ≠ 0)
    (hsub : req.cryptlen % AES_BLOCK_SIZE > 0 ∧
      (skcipher_walk_virt env req).2.nbytes < (skcipher_walk_virt env req).2.total)
    (hn2 : (skcipher_walk_virt env (make_subreq req)).2.nbytes = 0) :
    xts_crypt_common env crypt_fn crypt1_fn ctx fuel req st
      = { ret := some (skcipher_walk_virt env (make_subreq req)).1,
          st := st.log (subreq_events env req) } := by
  have hns : ¬ req.cryptlen < AES_BLOCK_SIZE := by unfold AES_BLOCK_SIZE; omega
  simp [xts_crypt_common, hns, hn, hsub, hn2, State.log, subreq_events]

theorem xts_crypt_common_eq_sub {K : Type} (env : WalkEnv) (crypt_fn : CryptFn K)
    (crypt1_fn : Crypt1Fn K) (ctx : aes_xts_ctx K) (fuel : Nat) (req : skcipher_request)
    (st : State) (h16 : 16 ≤ req.cryptlen)
    (hn : (skcipher_walk_virt env req).2.nbytes ≠ 0)
    (hsub : req.cryptlen % AES_BLOCK_SIZE > 0 ∧
      (skcipher_walk_virt env req).2.nbytes < (skcipher_walk_virt env req).2.total)
    (hn2 : (skcipher_walk_virt env (make_subreq req)).2.nbytes ≠ 0) :
    xts_crypt_common env crypt_fn crypt1_fn ctx fuel req st
      = xts_crypt_rest env crypt_fn crypt1_fn ctx fuel (make_subreq req)
          (req.cryptlen % AES_BLOCK_SIZE) (skcipher_walk_virt env (make_subreq req)).2
          (st.log (subreq_events env req)) := by
  have hns : ¬ req.cryptlen < AES_BLOCK_SIZE := by unfold AES_BLOCK_SIZE; omega
  simp [xts_crypt_common, hns, hn, hsub, hn2, State.log, subreq_events]

/-- Every event the main loop logs is a multi-block call under the data key, a
release or an acquisition of the unit, or a walk step. -/
theorem xts_walk_loop_all {K : Type} (env : WalkEnv) (crypt_fn : CryptFn K)
    (ctx : aes_xts_ctx K) (Q : Event → Prop)
    (hc : ∀ src dst n iv e, Q (Event.crypt KeySel.crypt src dst n iv e))
    (he : Q Event.fpu_end) (hb : Q Event.fpu_begin) (hd : ∀ r e n, Q (Event.walk_done r e n)) :
    ∀ (fuel : Nat) (walk : skcipher_walk) (err : Int) (st : State),
      ∃ es, (xts_walk_loop env crypt_fn ctx fuel walk err st).2.trace = st.trace ++ es ∧
        ∀ x ∈ es, Q x := by
  intro fuel
  induction fuel with
  | zero =>
    intro walk err st
    refine ⟨[], ?_, by simp⟩
    by_cases hn : 0 < walk.nbytes <;> simp [xts_walk_loop, hn]
  | succ fuel ih =>
    intro walk err st
    by_cases hn : 0 < walk.nbytes
    · by_cases hr : (xts_crypt_chunk crypt_fn ctx walk (loop_nbytes walk) st).1 = 0
      · rw [xts_walk_loop_succ_ok env crypt_fn ctx fuel walk err st hn hr]
        obtain ⟨es, htr, hes⟩ := ih
          (xts_walk_advance env walk (walk.nbytes - loop_nbytes walk)
            (xts_crypt_chunk crypt_fn ctx walk (loop_nbytes walk) st).2).1.2
          (xts_walk_advance env walk (walk.nbytes - loop_nbytes walk)
            (xts_crypt_chunk crypt_fn ctx walk (loop_nbytes walk) st).2).1.1
          (xts_walk_advance env walk (walk.nbytes - loop_nbytes walk)
            (xts_crypt_chunk crypt_fn ctx walk (loop_nbytes walk) st).2).2
        rw [xts_walk_advance_trace, xts_crypt_chunk_trace] at htr
        refine ⟨_, htr.trans (by rw [List.append_assoc, List.append_assoc]), ?_⟩
        intro x hx
        rcases List.mem_append.mp hx with h | h
        · simp only [List.mem_cons, List.mem_singleton, List.not_mem_nil, or_false] at h
          rcases h with rfl | rfl
          · exact hc _ _ _ _ _
          · exact he
        · rcases List.mem_append.mp h with h | h
          · rcases List.mem_cons.mp h with rfl | h
            · exact hd _ _ _
            · split at h
              · simp only [List.mem_singleton] at h
                rw [h]
                exact hb
              · cases h
          · exact hes x h
      · rw [xts_walk_loop_succ_fail env crypt_fn ctx fuel walk err st hn hr]
        refine ⟨_, xts_crypt_chunk_trace _ _ _ _ _, ?_⟩
        intro x hx
        simp only [List.mem_cons, List.mem_singleton, List.not_mem_nil, or_false] at hx
        rcases hx with rfl | rfl
        · exact hc _ _ _ _ _
        · exact he
    · rw [xts_walk_loop_idle env crypt_fn ctx _ walk err st hn]
      exact ⟨[], by simp, by simp⟩

/-- The events of the tail step, spelled out: its bookkeeping, the start of its
walk and, unless that start fails, one multi-block call under the data key with
the unit held, followed by the end of the walk unless the call fails. -/
theorem xts_tail_step_events {K : Type} (env : WalkEnv) (crypt_fn : CryptFn K)
    (ctx : aes_xts_ctx K) (req : skcipher_request) (tail : Nat) (st : State) :
    (xts_tail_step env crypt_fn ctx req tail st).st.trace
      = st.trace ++ (tail_prelude req tail ++
          (Event.walk_virt (tail_subreq req tail)
              (skcipher_walk_virt env (tail_subreq req tail)).1
              (skcipher_walk_virt env (tail_subreq req tail)).2.nbytes ::
            (if (skcipher_walk_virt env (tail_subreq req tail)).1 ≠ 0 then []
             else
              Event.fpu_begin ::
              Event.crypt KeySel.crypt (skcipher_walk_virt env (tail_subreq req tail)).2.src
                (skcipher_walk_virt env (tail_subreq req tail)).2.dst
                (skcipher_walk_virt env (tail_subreq req tail)).2.nbytes st.iv
                (crypt_fn ctx.crypt_ctx (load st.mem
                  (skcipher_walk_virt env (tail_subreq req tail)).2.src
                  (skcipher_walk_virt env (tail_subreq req tail)).2.nbytes) st.iv).1 ::
              Event.fpu_end ::
              (if (crypt_fn ctx.crypt_ctx (load st.mem
                  (skcipher_walk_virt env (tail_subreq req tail)).2.src
                  (skcipher_walk_virt env (tail_subreq req tail)).2.nbytes) st.iv).1 ≠ 0
               then []
               else [Event.walk_done 0
                  (skcipher_walk_done env (skcipher_walk_virt env (tail_subreq req tail)).2 0).1
                  (skcipher_walk_done env
                    (skcipher_walk_virt env (tail_subreq req tail)).2 0).2.nbytes])))) := by
  rw [xts_tail_step_eq]
  by_cases hv : (skcipher_walk_virt env (tail_subreq req tail)).1 = 0
  · have hcs : (xts_crypt_chunk crypt_fn ctx (skcipher_walk_virt env (tail_subreq req tail)).2
          (skcipher_walk_virt env (tail_subreq req tail)).2.nbytes
          (st.log (tail_prelude req tail ++
            [Event.walk_virt (tail_subreq req tail)
              (skcipher_walk_virt env (tail_subreq req tail)).1
              (skcipher_walk_virt env (tail_subreq req tail)).2.nbytes,
             Event.fpu_begin]))).1
        = (crypt_fn ctx.crypt_ctx (load st.mem
            (skcipher_walk_virt env (tail_subreq req tail)).2.src
            (skcipher_walk_virt env (tail_subreq req tail)).2.nbytes) st.iv).1 := rfl
    by_cases hc : (crypt_fn ctx.crypt_ctx (load st.mem
            (skcipher_walk_virt env (tail_subreq req tail)).2.src
            (skcipher_walk_virt env (tail_subreq req tail)).2.nbytes) st.iv).1 = 0
    · rw [if_neg (not_not.mpr hv), if_neg (by rw [hcs]; exact not_not.mpr hc),
        if_neg (not_not.mpr hv), if_neg (not_not.mpr hc)]
      simp only [State.log, xts_crypt_chunk_trace, List.append_assoc, hcs]
      rfl
    · rw [if_neg (not_not.mpr hv), if_pos (by rw [hcs]; exact hc),
        if_neg (not_not.mpr hv), if_pos hc]
      simp only [State.log, xts_crypt_chunk_trace, List.append_assoc, hcs]
      rfl
  · rw [if_pos hv, if_pos hv]
    simp only [State.log]

theorem tail_prelude_after_tweak (req : skcipher_request) (tail : Nat) :
    ∀ x ∈ tail_prelude req tail, x.after_tweak = true := by
  intro x hx
  unfold tail_prelude at hx
  by_cases hd : req.dst = req.src
  · simp [hd] at hx
    rcases hx with rfl | rfl <;> rfl
  · simp [hd] at hx
    rcases hx with rfl | rfl | rfl <;> rfl

/-- The tail step logs no call of the single-block primitive, no multi-block
call under the tweak key and no set-up of a sub-request. -/
theorem xts_tail_step_after_tweak {K : Type} (env : WalkEnv) (crypt_fn : CryptFn K)
    (ctx : aes_xts_ctx K) (req : skcipher_request) (tail : Nat) (st : State) :
    ∃ es, (xts_tail_step env crypt_fn ctx req tail st).st.trace = st.trace ++ es ∧
      (∀ x ∈ es, x.after_tweak = true) ∧
      ∃ rest, es = Event.ffwd req.src req.cryptlen :: rest := by
  refine ⟨_, xts_tail_step_events env crypt_fn ctx req tail st, ?_, ?_⟩
  · intro x hx
    rcases List.mem_append.mp hx with h | h
    · exact tail_prelude_after_tweak req tail x h
    · rcases List.mem_cons.mp h with rfl | h
      · rfl
      · split at h
        · cases h
        · rcases List.mem_cons.mp h with rfl | h
          · rfl
          · rcases List.mem_cons.mp h with rfl | h
            · rfl
            · rcases List.mem_cons.mp h with rfl | h
              · rfl
              · split at h
                · cases h
                · simp only [List.mem_singleton] at h
                  rw [h]
                  rfl
  · exact ⟨_, rfl⟩

/-- The events of the part of a run that follows the walk set-up: the unit is
acquired, the single-block primitive is called once under the tweak key on the
IV in place, and nothing that follows is a call of the single-block primitive,
a multi-block call under the tweak key or the set-up of a sub-request. -/
theorem xts_crypt_rest_events {K : Type} (env : WalkEnv) (crypt_fn : CryptFn K)
    (crypt1_fn : Crypt1Fn K) (ctx : aes_xts_ctx K) (fuel : Nat) (req : skcipher_request)
    (tail : Nat) (walk : skcipher_walk) (st : State) :
    ∃ post, (xts_crypt_rest env crypt_fn crypt1_fn ctx fuel req tail walk st).st.trace
        = st.trace ++ (Event.fpu_begin ::
            Event.crypt1 KeySel.tweak st.iv (crypt1_fn ctx.tweak_ctx st.iv).1 :: post) ∧
      ∀ x ∈ post, x.after_tweak = true := by
  rw [xts_crypt_rest_eq]
  by_cases ht : (crypt1_fn ctx.tweak_ctx st.iv).1 = 0
  · rw [if_neg (not_not.mpr ht), ht]
    obtain ⟨es, htr, hes⟩ := xts_walk_loop_all env crypt_fn ctx (fun x => x.after_tweak = true)
      (fun _ _ _ _ _ => rfl) rfl rfl (fun _ _ _ => rfl) fuel walk 0
      { mem := st.mem, iv := (crypt1_fn ctx.tweak_ctx st.iv).2,
        trace := st.trace ++ [Event.fpu_begin, Event.crypt1 KeySel.tweak st.iv 0] }
    rcases hl : xts_walk_loop env crypt_fn ctx fuel walk 0
      { mem := st.mem, iv := (crypt1_fn ctx.tweak_ctx st.iv).2,
        trace := st.trace ++ [Event.fpu_begin, Event.crypt1 KeySel.tweak st.iv 0] }
      with ⟨exit, st1⟩
    rw [hl] at htr
    simp only at htr
    have hpre : st1.trace = st.trace ++ (Event.fpu_begin ::
        Event.crypt1 KeySel.tweak st.iv 0 :: es) := by
      rw [htr]
      simp only [List.append_assoc, List.cons_append, List.nil_append]
    cases exit with
    | exhausted => exact ⟨es, hpre, hes⟩
    | returned e => exact ⟨es, hpre, hes⟩
    | finished e =>
      by_cases htl : tail > 0 ∧ e = 0
      · simp only [htl, and_self, if_true]
        obtain ⟨es2, htr2, hes2, -⟩ := xts_tail_step_after_tweak env crypt_fn ctx req tail st1
        refine ⟨es ++ es2, ?_, ?_⟩
        · rw [htr2, hpre]
          simp only [List.append_assoc, List.cons_append]
        · intro x hx
          rcases List.mem_append.mp hx with h | h
          · exact hes x h
          · exact hes2 x h
      · simp only [htl, if_false]
        exact ⟨es, hpre, hes⟩
  · rw [if_pos ht]
    refine ⟨[Event.fpu_end], rfl, ?_⟩
    intro x hx
    simp only [List.mem_singleton] at hx
    rw [hx]
    rfl

/-! ## xts_crypt_common: an empty walk -/

/-- C11, amended: when the walk offers no bytes at its first step, be it the
walk over the request or the walk over the sub-request set up when the tail is
held back, the run returns the status that walk step reported: a failure status
when the walk reported one, and 0 when it reported none (there is no status of
its own for this case). It calls no primitive and does not acquire the cipher
unit; memory and IV are untouched. -/
theorem xts_crypt_common_empty_walk {K : Type} (env : WalkEnv) (crypt_fn : CryptFn K)
    (crypt1_fn : Crypt1Fn K) (ctx : aes_xts_ctx K) (fuel : Nat) (req : skcipher_request)
    (st : State) (h16 : 16 ≤ req.cryptlen) :
    ((skcipher_walk_virt env req).2.nbytes = 0 →
      (xts_crypt_common env crypt_fn crypt1_fn ctx fuel req st).ret
        = some (env.status req.src.off req.cryptlen) ∧
      (xts_crypt_common env crypt_fn crypt1_fn ctx fuel req st).st
        = st.log [Event.walk_virt req (env.status req.src.off req.cryptlen) 0]) ∧
    ((skcipher_walk_virt env req).2.nbytes ≠ 0 →
      (req.cryptlen % AES_BLOCK_SIZE > 0 ∧
        (skcipher_walk_virt env req).2.nbytes < (skcipher_walk_virt env req).2.total) →
      (skcipher_walk_virt env (make_subreq req)).2.nbytes = 0 →
      (xts_crypt_common env crypt_fn crypt1_fn ctx fuel req st).ret
        = some (env.status req.src.off (make_subreq req).cryptlen) ∧
      (xts_crypt_common env crypt_fn crypt1_fn ctx fuel req st).st
        = st.log (subreq_events env req) ∧
      ∀ x ∈ subreq_events env req, x.prim_status = none ∧ x ≠ Event.fpu_begin) := by
  constructor
  · intro hn
    rw [xts_crypt_common_eq_empty env crypt_fn crypt1_fn ctx fuel req st h16 hn, hn]
    exact ⟨rfl, rfl⟩
  · intro hn hsub hn2
    rw [xts_crypt_common_eq_sub_empty env crypt_fn crypt1_fn ctx fuel req st h16 hn hsub hn2]
    refine ⟨rfl, rfl, ?_⟩
    intro x hx
    simp only [subreq_events, List.mem_cons, List.mem_singleton, List.not_mem_nil,
      or_false] at hx
    rcases hx with rfl | rfl | rfl | rfl | rfl | rfl <;> simp [Event.prim_status]

/-- Witness for C11: a walk that fails with status `-12` at its first step. -/
theorem xts_crypt_common_empty_walk_witness :
    (xts_crypt_common failing_env toy_enc toy_crypt1 toy_ctx 8 (toy_req 32)
        (toy_state (List.replicate 32 1) 32)).ret = some (-12) :=
  ((xts_crypt_common_empty_walk failing_env toy_enc toy_crypt1 toy_ctx 8 (toy_req 32)
    (toy_state (List.replicate 32 1) 32) (by decide)).1 (by decide)).1

/-- Counterexample to C11 as stated: a walk that offers no bytes and reports
success makes the run return 0, for the walk over a 32-byte request as for the
walk over the empty sub-request of a 17-byte request cut after 16 bytes. -/
theorem xts_crypt_common_empty_walk_cex :
    (skcipher_walk_virt zero_env (toy_req 32)).2.nbytes = 0 ∧
    (xts_crypt_common zero_env toy_enc toy_crypt1 toy_ctx 8 (toy_req 32)
        (toy_state (List.replicate 32 1) 32)).ret = some 0 ∧
    (skcipher_walk_virt (cut_env 16) (make_subreq (toy_req 17))).2.nbytes = 0 ∧
    (xts_crypt_common (cut_env 16) toy_enc toy_crypt1 toy_ctx 8 (toy_req 17)
        (toy_state (List.replicate 17 1) 17)).ret = some 0 := by
  refine ⟨?_, ?_, ?_, ?_⟩ <;> decide

/-! ## xts_crypt_common: the tweak initialisation and the keys -/

theorem after_tweak_not_crypt1 {x : Event} (h : x.after_tweak = true) : x.is_crypt1 = false := by
  cases x <;> simp_all [Event.after_tweak, Event.is_crypt1]

theorem after_tweak_data_key {x : Event} (h : x.after_tweak = true) {sel : KeySel}
    {src dst : scatterlist} {n : Nat} {iv : Bytes} {e : Int}
    (hx : x = Event.crypt sel src dst n iv e) : sel = KeySel.crypt := by
  subst hx
  cases sel
  · simp [Event.after_tweak] at h
  · rfl

/-- A multi-block call depends on the multi-block primitive through what it
does under the data-key schedule only. -/
theorem xts_crypt_chunk_congr {K : Type} (f g : CryptFn K) (ctx : aes_xts_ctx K)
    (h : ∀ x iv, g ctx.crypt_ctx x iv = f ctx.crypt_ctx x iv)
    (walk : skcipher_walk) (n : Nat) (st : State) :
    xts_crypt_chunk g ctx walk n st = xts_crypt_chunk f ctx walk n st := by
  simp only [xts_crypt_chunk, h]

theorem xts_walk_loop_congr {K : Type} (env : WalkEnv) (f g : CryptFn K) (ctx : aes_xts_ctx K)
    (h : ∀ x iv, g ctx.crypt_ctx x iv = f ctx.crypt_ctx x iv) :
    ∀ (fuel : Nat) (walk : skcipher_walk) (err : Int) (st : State),
      xts_walk_loop env g ctx fuel walk err st = xts_walk_loop env f ctx fuel walk err st := by
  intro fuel
  induction fuel with
  | zero =>
    intro walk err st
    simp only [xts_walk_loop]
  | succ fuel ih =>
    intro walk err st
    simp only [xts_walk_loop, xts_crypt_chunk_congr f g ctx h, ih]

theorem xts_tail_step_congr {K : Type} (env : WalkEnv) (f g : CryptFn K) (ctx : aes_xts_ctx K)
    (h : ∀ x iv, g ctx.crypt_ctx x iv = f ctx.crypt_ctx x iv)
    (req : skcipher_request) (tail : Nat) (st : State) :
    xts_tail_step env g ctx req tail st = xts_tail_step env f ctx req tail st := by
  simp only [xts_tail_step, xts_crypt_chunk_congr f g ctx h]

theorem xts_crypt_rest_congr {K : Type} (env : WalkEnv) (f g : CryptFn K) (f1 g1 : Crypt1Fn K)
    (ctx : aes_xts_ctx K)
    (h : ∀ x iv, g ctx.crypt_ctx x iv = f ctx.crypt_ctx x iv)
    (h1 : ∀ iv, g1 ctx.tweak_ctx iv = f1 ctx.tweak_ctx iv)
    (fuel : Nat) (req : skcipher_request) (tail : Nat) (walk : skcipher_walk) (st : State) :
    xts_crypt_rest env g g1 ctx fuel req tail walk st
      = xts_crypt_rest env f f1 ctx fuel req tail walk st := by
  simp only [xts_crypt_rest, h1, xts_walk_loop_congr env f g ctx h,
    xts_tail_step_congr env f g ctx h]

/-- A run depends on the two primitives through what the multi-block primitive
does under the data-key schedule and what the single-block primitive does
under the tweak-key schedule, and through nothing else. -/
theorem xts_crypt_common_congr {K : Type} (env : WalkEnv) (f g : CryptFn K) (f1 g1 : Crypt1Fn K)
    (ctx : aes_xts_ctx K)
    (h : ∀ x iv, g ctx.crypt_ctx x iv = f ctx.crypt_ctx x iv)
    (h1 : ∀ iv, g1 ctx.tweak_ctx iv = f1 ctx.tweak_ctx iv)
    (fuel : Nat) (req : skcipher_request) (st : State) :
    xts_crypt_common env g g1 ctx fuel req st = xts_crypt_common env f f1 ctx fuel req st := by
  simp only [xts_crypt_common, xts_crypt_rest_congr env f g f1 g1 ctx h h1]

/-! ## xts_crypt_common: the IV is threaded through the primitives -/

theorem replay_append {K : Type} (crypt_fn : CryptFn K) (crypt1_fn : Crypt1Fn K)
    (ctx : aes_xts_ctx K) (a b : List Event) :
    ∀ (mem : Nat → Bytes) (iv : Bytes),
      replay crypt_fn crypt1_fn ctx mem iv (a ++ b)
        = (replay crypt_fn crypt1_fn ctx mem iv a).bind
            (fun p => replay crypt_fn crypt1_fn ctx p.1 p.2 b) := by
  induction a with
  | nil => intro mem iv; simp [replay]
  | cons x xs ih =>
    intro mem iv
    cases x with
    | crypt1 sel iv0 e =>
      by_cases h : iv0 = iv ∧ e = (crypt1_fn (key_of ctx sel) iv).1
      · simp only [List.cons_append, replay, if_pos h]
        exact ih _ _
      · simp only [List.cons_append, replay, if_neg h, Option.none_bind]
    | crypt sel src dst len iv0 e =>
      by_cases h : iv0 = iv ∧ e = (crypt_fn (key_of ctx sel) (load mem src len) iv).1
      · simp only [List.cons_append, replay, if_pos h]
        exact ih _ _
      · simp only [List.cons_append, replay, if_neg h, Option.none_bind]
    | _ => simp [replay, ih]

theorem replay_append_of {K : Type} {crypt_fn : CryptFn K} {crypt1_fn : Crypt1Fn K}
    {ctx : aes_xts_ctx K} {a b : List Event} {mem m : Nat → Bytes} {iv i : Bytes}
    {r : Option ((Nat → Bytes) × Bytes)}
    (ha : replay crypt_fn crypt1_fn ctx mem iv a = some (m, i))
    (hb : replay crypt_fn crypt1_fn ctx m i b = r) :
    replay crypt_fn crypt1_fn ctx mem iv (a ++ b) = r := by
  rw [replay_append, ha]
  simpa using hb

theorem replay_skip {K : Type} (crypt_fn : CryptFn K) (crypt1_fn : Crypt1Fn K)
    (ctx : aes_xts_ctx K) {es : List Event} (h : ∀ x ∈ es, x.prim_status = none)
    (mem : Nat → Bytes) (iv : Bytes) :
    replay crypt_fn crypt1_fn ctx mem iv es = some (mem, iv) := by
  induction es with
  | nil => rfl
  | cons x xs ih =>
    have hx := h x (List.mem_cons_self _ _)
    have ih1 := ih (fun y hy => h y (List.mem_cons_of_mem _ hy))
    cases x <;> simp_all [replay, Event.prim_status]

/-- A trace that replays links its calls through the IV, and the replay ends
on the IV the last call left. -/
theorem replay_iv_flow {K : Type} (crypt_fn : CryptFn K) (crypt1_fn : Crypt1Fn K)
    (ctx : aes_xts_ctx K) :
    ∀ (es : List Event) (mem : Nat → Bytes) (iv : Bytes) (m : Nat → Bytes) (i : Bytes),
      replay crypt_fn crypt1_fn ctx mem iv es = some (m, i) →
      iv_linked iv (iv_flow crypt_fn crypt1_fn ctx mem es) ∧
      i = last_iv iv (iv_flow crypt_fn crypt1_fn ctx mem es) := by
  intro es
  induction es with
  | nil =>
    intro mem iv m i h
    simp only [replay, Option.some.injEq, Prod.mk.injEq] at h
    exact ⟨trivial, h.2.symm⟩
  | cons x xs ih =>
    intro mem iv m i h
    cases x with
    | crypt1 sel iv0 e =>
      by_cases hc : iv0 = iv ∧ e = (crypt1_fn (key_of ctx sel) iv).1
      · simp only [replay, if_pos hc] at h
        obtain ⟨rfl, -⟩ := hc
        obtain ⟨r1, r2⟩ := ih _ _ _ _ h
        exact ⟨⟨rfl, r1⟩, r2⟩
      · simp only [replay, if_neg hc] at h
        cases h
    | crypt sel src dst len iv0 e =>
      by_cases hc : iv0 = iv ∧ e = (crypt_fn (key_of ctx sel) (load mem src len) iv).1
      · simp only [replay, if_pos hc] at h
        obtain ⟨rfl, -⟩ := hc
        obtain ⟨r1, r2⟩ := ih _ _ _ _ h
        exact ⟨⟨rfl, r1⟩, r2⟩
      · simp only [replay, if_neg hc] at h
        cases h
    | _ =>
      simp only [replay] at h
      exact ih _ _ _ _ h

/-- Events that are no primitive calls contribute nothing to the IV flow. -/
theorem iv_flow_skip_append {K : Type} (crypt_fn : CryptFn K) (crypt1_fn : Crypt1Fn K)
    (ctx : aes_xts_ctx K) {pre : List Event} (h : ∀ x ∈ pre, x.prim_status = none)
    (mem : Nat → Bytes) (es : List Event) :
    iv_flow crypt_fn crypt1_fn ctx mem (pre ++ es) = iv_flow crypt_fn crypt1_fn ctx mem es := by
  induction pre with
  | nil => rfl
  | cons x xs ih =>
    have hx := h x (List.mem_cons_self _ _)
    have ih1 := ih (fun y hy => h y (List.mem_cons_of_mem _ hy))
    cases x <;> simp_all [iv_flow, Event.prim_status]

/-- Without a single-block call, every call of the IV flow is multi-block. -/
theorem iv_flow_multi {K : Type} (crypt_fn : CryptFn K) (crypt1_fn : Crypt1Fn K)
    (ctx : aes_xts_ctx K) :
    ∀ (es : List Event) (mem : Nat → Bytes), (∀ x ∈ es, x.is_crypt1 = false) →
      ∀ c ∈ iv_flow crypt_fn crypt1_fn ctx mem es, c.multi = true := by
  intro es
  induction es with
  | nil =>
    intro mem _ c hc
    simp [iv_flow] at hc
  | cons x xs ih =>
    intro mem h c hc
    have hx := h x (List.mem_cons_self _ _)
    have ih1 := fun m => ih m (fun y hy => h y (List.mem_cons_of_mem _ hy))
    cases x with
    | crypt1 sel iv0 e => simp [Event.is_crypt1] at hx
    | crypt sel src dst len iv0 e =>
      simp only [iv_flow, List.mem_cons] at hc
      rcases hc with rfl | hc
      · rfl
      · exact ih1 _ c hc
    | _ =>
      simp only [iv_flow] at hc
      exact ih1 _ c hc

/-- Replay of the main loop: each multi-block call was passed the IV in place,
and memory and IV after the loop are what the calls left. -/
theorem xts_walk_loop_replay {K : Type} (env : WalkEnv) (crypt_fn : CryptFn K)
    (crypt1_fn : Crypt1Fn K) (ctx : aes_xts_ctx K) :
    ∀ (fuel : Nat) (walk : skcipher_walk) (err : Int) (st : State),
      ∃ es, (xts_walk_loop env crypt_fn ctx fuel walk err st).2.trace = st.trace ++ es ∧
        replay crypt_fn crypt1_fn ctx st.mem st.iv es
          = some ((xts_walk_loop env crypt_fn ctx fuel walk err st).2.mem,
                  (xts_walk_loop env crypt_fn ctx fuel walk err st).2.iv) := by
  intro fuel
  induction fuel with
  | zero =>
    intro walk err st
    refine ⟨[], ?_, ?_⟩
    · by_cases hn : 0 < walk.nbytes <;> simp [xts_walk_loop, hn]
    · by_cases hn : 0 < walk.nbytes <;> simp [xts_walk_loop, hn, replay]
  | succ fuel ih =>
    intro walk err st
    by_cases hn : 0 < walk.nbytes
    · by_cases hr : (xts_crypt_chunk crypt_fn ctx walk (loop_nbytes walk) st).1 = 0
      · rw [xts_walk_loop_succ_ok env crypt_fn ctx fuel walk err st hn hr]
        obtain ⟨es, htr, hrep⟩ := ih
          (xts_walk_advance env walk (walk.nbytes - loop_nbytes walk)
            (xts_crypt_chunk crypt_fn ctx walk (loop_nbytes walk) st).2).1.2
          (xts_walk_advance env walk (walk.nbytes - loop_nbytes walk)
            (xts_crypt_chunk crypt_fn ctx walk (loop_nbytes walk) st).2).1.1
          (xts_walk_advance env walk (walk.nbytes - loop_nbytes walk)
            (xts_crypt_chunk crypt_fn ctx walk (loop_nbytes walk) st).2).2
        obtain ⟨hmem, hiv, -⟩ := xts_step_state env crypt_fn ctx walk (loop_nbytes walk)
          (walk.nbytes - loop_nbytes walk) st
        rw [xts_walk_advance_trace, xts_crypt_chunk_trace] at htr
        rw [hmem, hiv] at hrep
        refine ⟨_, htr.trans (by rw [List.append_assoc, List.append_assoc]), ?_⟩
        refine replay_append_of (m := store st.mem walk.dst
            (crypt_fn ctx.crypt_ctx (load st.mem walk.src (loop_nbytes walk)) st.iv).2.1)
          (i := (crypt_fn ctx.crypt_ctx (load st.mem walk.src (loop_nbytes walk)) st.iv).2.2)
          ?_ (replay_append_of (replay_skip crypt_fn crypt1_fn ctx ?_ _ _) hrep)
        · simp [replay, key_of, xts_crypt_chunk]
        · intro x hx
          rcases List.mem_cons.mp hx with rfl | h
          · rfl
          · split at h
            · simp only [List.mem_singleton] at h
              rw [h]
              rfl
            · cases h
      · rw [xts_walk_loop_succ_fail env crypt_fn ctx fuel walk err st hn hr]
        refine ⟨_, xts_crypt_chunk_trace _ _ _ _ _, ?_⟩
        simp [replay, key_of, xts_crypt_chunk]
    · rw [xts_walk_loop_idle env crypt_fn ctx _ walk err st hn]
      exact ⟨[], by simp, rfl⟩

/-- Memory and IV after the tail step: untouched when its walk fails to start,
otherwise what the one multi-block call left. -/
theorem xts_tail_step_mem_iv {K : Type} (env : WalkEnv) (crypt_fn : CryptFn K)
    (ctx : aes_xts_ctx K) (req : skcipher_request) (tail : Nat) (st : State) :
    ((skcipher_walk_virt env (tail_subreq req tail)).1 ≠ 0 →
      (xts_tail_step env crypt_fn ctx req tail st).st.mem = st.mem ∧
      (xts_tail_step env crypt_fn ctx req tail st).st.iv = st.iv) ∧
    ((skcipher_walk_virt env (tail_subreq req tail)).1 = 0 →
      (xts_tail_step env crypt_fn ctx req tail st).st.mem
        = store st.mem (skcipher_walk_virt env (tail_subreq req tail)).2.dst
            (crypt_fn ctx.crypt_ctx (load st.mem
              (skcipher_walk_virt env (tail_subreq req tail)).2.src
              (skcipher_walk_virt env (tail_subreq req tail)).2.nbytes) st.iv).2.1 ∧
      (xts_tail_step env crypt_fn ctx req tail st).st.iv
        = (crypt_fn ctx.crypt_ctx (load st.mem
              (skcipher_walk_virt env (tail_subreq req tail)).2.src
              (skcipher_walk_virt env (tail_subreq req tail)).2.nbytes) st.iv).2.2) := by
  rw [xts_tail_step_eq]
  constructor
  · intro hv
    rw [if_pos hv]
    exact ⟨rfl, rfl⟩
  · intro hv
    rw [if_neg (not_not.mpr hv)]
    split
    · exact ⟨rfl, rfl⟩
    · exact ⟨rfl, rfl⟩

/-- Replay of the tail step. -/
theorem xts_tail_step_replay {K : Type} (env : WalkEnv) (crypt_fn : CryptFn K)
    (crypt1_fn : Crypt1Fn K) (ctx : aes_xts_ctx K) (req : skcipher_request) (tail : Nat)
    (st : State) :
    ∃ es, (xts_tail_step env crypt_fn ctx req tail st).st.trace = st.trace ++ es ∧
      replay crypt_fn crypt1_fn ctx st.mem st.iv es
        = some ((xts_tail_step env crypt_fn ctx req tail st).st.mem,
                (xts_tail_step env crypt_fn ctx req tail st).st.iv) := by
  refine ⟨_, xts_tail_step_events env crypt_fn ctx req tail st, ?_⟩
  obtain ⟨h1, h2⟩ := xts_tail_step_mem_iv env crypt_fn ctx req tail st
  have hpre : replay crypt_fn crypt1_fn ctx st.mem st.iv (tail_prelude req tail)
      = some (st.mem, st.iv) :=
    replay_skip crypt_fn crypt1_fn ctx (fun x hx => (tail_prelude_no_prim req tail x hx).1) _ _
  refine replay_append_of hpre ?_
  by_cases hv : (skcipher_walk_virt env (tail_subreq req tail)).1 = 0
  · obtain ⟨hm, hi⟩ := h2 hv
    rw [hm, hi, if_neg (not_not.mpr hv)]
    by_cases hc : (crypt_fn ctx.crypt_ctx (load st.mem
              (skcipher_walk_virt env (tail_subreq req tail)).2.src
              (skcipher_walk_virt env (tail_subreq req tail)).2.nbytes) st.iv).1 = 0
    · rw [if_neg (not_not.mpr hc)]
      simp [replay, key_of]
    · rw [if_pos hc]
      simp [replay, key_of]
  · obtain ⟨hm, hi⟩ := h1 hv
    rw [hm, hi, if_pos hv]
    simp [replay]

/-- Replay of the part of a run that follows the walk set-up. -/
theorem xts_crypt_rest_replay {K : Type} (env : WalkEnv) (crypt_fn : CryptFn K)
    (crypt1_fn : Crypt1Fn K) (ctx : aes_xts_ctx K) (fuel : Nat) (req : skcipher_request)
    (tail : Nat) (walk : skcipher_walk) (st : State) :
    ∃ es, (xts_crypt_rest env crypt_fn crypt1_fn ctx fuel req tail walk st).st.trace
        = st.trace ++ es ∧
      replay crypt_fn crypt1_fn ctx st.mem st.iv es
        = some ((xts_crypt_rest env crypt_fn crypt1_fn ctx fuel req tail walk st).st.mem,
                (xts_crypt_rest env crypt_fn crypt1_fn ctx fuel req tail walk st).st.iv) := by
  rw [xts_crypt_rest_eq]
  by_cases ht : (crypt1_fn ctx.tweak_ctx st.iv).1 = 0
  · rw [if_neg (not_not.mpr ht)]
    obtain ⟨es, htr, hrep⟩ := xts_walk_loop_replay env crypt_fn crypt1_fn ctx fuel walk 0
      { mem := st.mem, iv := (crypt1_fn ctx.tweak_ctx st.iv).2,
        trace := st.trace ++ [Event.fpu_begin, Event.crypt1 KeySel.tweak st.iv 0] }
    have hpre : replay crypt_fn crypt1_fn ctx st.mem st.iv
        [Event.fpu_begin, Event.crypt1 KeySel.tweak st.iv 0]
        = some (st.mem, (crypt1_fn ctx.tweak_ctx st.iv).2) := by
      simp [replay, key_of, ht]
    rcases hl : xts_walk_loop env crypt_fn ctx fuel walk 0
      { mem := st.mem, iv := (crypt1_fn ctx.tweak_ctx st.iv).2,
        trace := st.trace ++ [Event.fpu_begin, Event.crypt1 KeySel.tweak st.iv 0] }
      with ⟨exit, st1⟩
    rw [hl] at htr hrep
    simp only at htr hrep
    have hloop : replay crypt_fn crypt1_fn ctx st.mem st.iv
        ([Event.fpu_begin, Event.crypt1 KeySel.tweak st.iv 0] ++ es)
        = some (st1.mem, st1.iv) := replay_append_of hpre hrep
    cases exit with
    | exhausted =>
      exact ⟨[Event.fpu_begin, Event.crypt1 KeySel.tweak st.iv 0] ++ es,
        by simp only [htr, List.append_assoc], hloop⟩
    | returned e =>
      exact ⟨[Event.fpu_begin, Event.crypt1 KeySel.tweak st.iv 0] ++ es,
        by simp only [htr, List.append_assoc], hloop⟩
    | finished e =>
      by_cases htl : tail > 0 ∧ e = 0
      · simp only [htl, and_self, if_true]
        obtain ⟨es2, htr2, hrep2⟩ := xts_tail_step_replay env crypt_fn crypt1_fn ctx req tail st1
        refine ⟨([Event.fpu_begin, Event.crypt1 KeySel.tweak st.iv 0] ++ es) ++ es2, ?_, ?_⟩
        · rw [htr2, htr]
          simp only [List.append_assoc]
        · exact replay_append_of hloop hrep2
      · simp only [htl, if_false]
        exact ⟨[Event.fpu_begin, Event.crypt1 KeySel.tweak st.iv 0] ++ es,
          by simp only [htr, List.append_assoc], hloop⟩
  · rw [if_pos ht]
    refine ⟨[Event.fpu_begin, Event.crypt1 KeySel.tweak st.iv (crypt1_fn ctx.tweak_ctx st.iv).1,
      Event.fpu_end], rfl, ?_⟩
    simp [replay, key_of]

/-- The part of a run that follows the walk set-up: the cipher unit is
acquired, the single-block primitive is called under the tweak-key schedule on
the IV in place, no event after it is a single-block call or a multi-block call
under the tweak key, and the events replay through the primitives. -/
theorem xts_crypt_rest_chain {K : Type} (env : WalkEnv) (crypt_fn : CryptFn K)
    (crypt1_fn : Crypt1Fn K) (ctx : aes_xts_ctx K) (fuel : Nat) (req : skcipher_request)
    (tail : Nat) (walk : skcipher_walk) (st : State) :
    ∃ post, (xts_crypt_rest env crypt_fn crypt1_fn ctx fuel req tail walk st).st.trace
        = st.trace ++ Event.fpu_begin ::
            Event.crypt1 KeySel.tweak st.iv (crypt1_fn ctx.tweak_ctx st.iv).1 :: post ∧
      (∀ x ∈ post, x.after_tweak = true) ∧
      replay crypt_fn crypt1_fn ctx st.mem st.iv (Event.fpu_begin ::
          Event.crypt1 KeySel.tweak st.iv (crypt1_fn ctx.tweak_ctx st.iv).1 :: post)
        = some ((xts_crypt_rest env crypt_fn crypt1_fn ctx fuel req tail walk st).st.mem,
                (xts_crypt_rest env crypt_fn crypt1_fn ctx fuel req tail walk st).st.iv) := by
  obtain ⟨post, htr, hpost⟩ := xts_crypt_rest_events env crypt_fn crypt1_fn ctx fuel req tail
    walk st
  obtain ⟨es, htr2, hrep⟩ := xts_crypt_rest_replay env crypt_fn crypt1_fn ctx fuel req tail
    walk st
  have hsame : es = Event.fpu_begin ::
      Event.crypt1 KeySel.tweak st.iv (crypt1_fn ctx.tweak_ctx st.iv).1 :: post :=
    List.append_cancel_left (htr2.symm.trans htr)
  rw [hsame] at hrep
  exact ⟨post, htr, hpost, hrep⟩

/-- The events of a run replay through the primitives, and either none of them
is a primitive call or they are events that are no primitive calls, the
single-block call under the tweak-key schedule on the IV in place, and events
none of which is a single-block call or a multi-block call under the tweak
key. -/
theorem xts_crypt_common_calls {K : Type} (env : WalkEnv) (crypt_fn : CryptFn K)
    (crypt1_fn : Crypt1Fn K) (ctx : aes_xts_ctx K) (fuel : Nat) (req : skcipher_request)
    (st : State) :
    ∃ es, (xts_crypt_common env crypt_fn crypt1_fn ctx fuel req st).st.trace = st.trace ++ es ∧
      replay crypt_fn crypt1_fn ctx st.mem st.iv es
        = some ((xts_crypt_common env crypt_fn crypt1_fn ctx fuel req st).st.mem,
                (xts_crypt_common env crypt_fn crypt1_fn ctx fuel req st).st.iv) ∧
      ((∀ x ∈ es, x.prim_status = none) ∨
        ∃ pre post, es = pre ++
            Event.crypt1 KeySel.tweak st.iv (crypt1_fn ctx.tweak_ctx st.iv).1 :: post ∧
          (∀ x ∈ pre, x.prim_status = none) ∧ (∀ x ∈ post, x.after_tweak = true)) ∧
      ((16 ≤ req.cryptlen ∧ (skcipher_walk_virt env req).2.nbytes ≠ 0 ∧
          ¬ ((req.cryptlen % AES_BLOCK_SIZE > 0 ∧
              (skcipher_walk_virt env req).2.nbytes < (skcipher_walk_virt env req).2.total) ∧
            (skcipher_walk_virt env (make_subreq req)).2.nbytes = 0)) →
        ∃ pre post, es = pre ++
            Event.crypt1 KeySel.tweak st.iv (crypt1_fn ctx.tweak_ctx st.iv).1 :: post ∧
          (∀ x ∈ pre, x.prim_status = none) ∧ (∀ x ∈ post, x.after_tweak = true)) ∧
      ((16 ≤ req.cryptlen ∧ (skcipher_walk_virt env req).2.nbytes ≠ 0 ∧
          (req.cryptlen % AES_BLOCK_SIZE > 0 ∧
            (skcipher_walk_virt env req).2.nbytes < (skcipher_walk_virt env req).2.total) ∧
          (skcipher_walk_virt env (make_subreq req)).2.nbytes = 0) →
        (xts_crypt_common env crypt_fn crypt1_fn ctx fuel req st).ret
          = some (skcipher_walk_virt env (make_subreq req)).1 ∧
        ∀ x ∈ es, x.prim_status = none) := by
  have hsubev : ∀ x ∈ subreq_events env req, x.prim_status = none := by
    intro x hx
    simp only [subreq_events, List.cons_append, List.nil_append, List.mem_cons,
      List.mem_singleton, List.not_mem_nil, or_false] at hx
    rcases hx with rfl | rfl | rfl | rfl | rfl | rfl <;> rfl
  by_cases h16 : 16 ≤ req.cryptlen
  · by_cases hn : (skcipher_walk_virt env req).2.nbytes = 0
    · rw [xts_crypt_common_eq_empty env crypt_fn crypt1_fn ctx fuel req st h16 hn]
      have hno : ∀ x ∈ [Event.walk_virt req (skcipher_walk_virt env req).1
          (skcipher_walk_virt env req).2.nbytes], x.prim_status = none := by
        intro x hx
        simp only [List.mem_singleton] at hx
        rw [hx]
        rfl
      exact ⟨_, rfl, replay_skip crypt_fn crypt1_fn ctx hno _ _, Or.inl hno,
        fun h => absurd hn h.2.1, fun h => absurd hn h.2.1⟩
    · by_cases hsub : req.cryptlen % AES_BLOCK_SIZE > 0 ∧
          (skcipher_walk_virt env req).2.nbytes < (skcipher_walk_virt env req).2.total
      · have hskip : replay crypt_fn crypt1_fn ctx st.mem st.iv (subreq_events env req)
            = some (st.mem, st.iv) := replay_skip crypt_fn crypt1_fn ctx hsubev _ _
        by_cases hn2 : (skcipher_walk_virt env (make_subreq req)).2.nbytes = 0
        · rw [xts_crypt_common_eq_sub_empty env crypt_fn crypt1_fn ctx fuel req st h16 hn hsub hn2]
          exact ⟨_, rfl, hskip, Or.inl hsubev, fun h => absurd ⟨hsub, hn2⟩ h.2.2,
            fun _ => ⟨rfl, hsubev⟩⟩
        · rw [xts_crypt_common_eq_sub env crypt_fn crypt1_fn ctx fuel req st h16 hn hsub hn2]
          obtain ⟨post, htr, hpost, hrep⟩ := xts_crypt_rest_chain env crypt_fn crypt1_fn ctx fuel
            (make_subreq req) (req.cryptlen % AES_BLOCK_SIZE)
            (skcipher_walk_virt env (make_subreq req)).2 (st.log (subreq_events env req))
          have hpre : ∀ x ∈ subreq_events env req ++ [Event.fpu_begin],
              x.prim_status = none := by
            intro x hx
            rcases List.mem_append.mp hx with h | h
            · exact hsubev x h
            · simp only [List.mem_singleton] at h
              rw [h]
              rfl
          have hshape : ∃ pre post1, subreq_events env req ++ (Event.fpu_begin ::
                Event.crypt1 KeySel.tweak st.iv (crypt1_fn ctx.tweak_ctx st.iv).1 :: post)
              = pre ++ Event.crypt1 KeySel.tweak st.iv (crypt1_fn ctx.tweak_ctx st.iv).1 ::
                  post1 ∧
              (∀ x ∈ pre, x.prim_status = none) ∧ (∀ x ∈ post1, x.after_tweak = true) :=
            ⟨subreq_events env req ++ [Event.fpu_begin], post,
              by simp only [List.append_assoc, List.cons_append, List.nil_append], hpre, hpost⟩
          refine ⟨subreq_events env req ++ (Event.fpu_begin ::
              Event.crypt1 KeySel.tweak st.iv (crypt1_fn ctx.tweak_ctx st.iv).1 :: post),
            ?_, replay_append_of hskip hrep, Or.inr hshape, fun _ => hshape,
            fun h => absurd h.2.2.2 hn2⟩
          rw [htr]
          simp only [State.log, List.append_assoc]
      · rw [xts_crypt_common_eq_nosub env crypt_fn crypt1_fn ctx fuel req st h16 hn hsub]
        obtain ⟨post, htr, hpost, hrep⟩ := xts_crypt_rest_chain env crypt_fn crypt1_fn ctx fuel
          req 0 (skcipher_walk_virt env req).2
          (st.log [Event.walk_virt req (skcipher_walk_virt env req).1
            (skcipher_walk_virt env req).2.nbytes])
        have hpre : ∀ x ∈ [Event.walk_virt req (skcipher_walk_virt env req).1
            (skcipher_walk_virt env req).2.nbytes, Event.fpu_begin], x.prim_status = none := by
          intro x hx
          simp only [List.mem_cons, List.mem_singleton, List.not_mem_nil, or_false] at hx
          rcases hx with rfl | rfl <;> rfl
        have hshape : ∃ pre post1, [Event.walk_virt req (skcipher_walk_virt env req).1
              (skcipher_walk_virt env req).2.nbytes] ++ (Event.fpu_begin ::
              Event.crypt1 KeySel.tweak st.iv (crypt1_fn ctx.tweak_ctx st.iv).1 :: post)
            = pre ++ Event.crypt1 KeySel.tweak st.iv (crypt1_fn ctx.tweak_ctx st.iv).1 ::
                post1 ∧
            (∀ x ∈ pre, x.prim_status = none) ∧ (∀ x ∈ post1, x.after_tweak = true) :=
          ⟨[Event.walk_virt req (skcipher_walk_virt env req).1
              (skcipher_walk_virt env req).2.nbytes, Event.fpu_begin], post, rfl, hpre, hpost⟩
        refine ⟨[Event.walk_virt req (skcipher_walk_virt env req).1
            (skcipher_walk_virt env req).2.nbytes] ++ (Event.fpu_begin ::
            Event.crypt1 KeySel.tweak st.iv (crypt1_fn ctx.tweak_ctx st.iv).1 :: post),
          ?_, replay_append_of (replay_skip crypt_fn crypt1_fn ctx ?_ _ _) hrep,
          Or.inr hshape, fun _ => hshape, fun h => absurd h.2.2.1 hsub⟩
        · rw [htr]
          simp only [State.log, List.append_assoc]
        · intro x hx
          simp only [List.mem_singleton] at hx
          rw [hx]
          rfl
  · have hs : req.cryptlen < AES_BLOCK_SIZE := by unfold AES_BLOCK_SIZE; omega
    refine ⟨[], ?_, ?_, Or.inl (fun x hx => by cases hx), fun h => absurd h.1 h16,
      fun h => absurd h.1 h16⟩
    · simp [xts_crypt_common, hs]
    · simp [xts_crypt_common, hs, replay]

/-- C19, amended: for every accepted request whose walk is non-empty, unless
the tail is held back and the walk over the sub-request offers no bytes, the
run calls the single-block primitive exactly once, under the tweak-key schedule
and on the IV in place, and no primitive call comes before it; when the tail is
held back and the walk over the sub-request offers no bytes, the run returns
the status of that walk and calls no primitive. In both cases every multi-block
call of the run is made under the data-key schedule: it is logged with that
schedule, every logged call returned the status and left the memory and the IV
that the primitive gives under the schedule logged, and the run stays the same
when the multi-block primitive is replaced by one that agrees with it under the
data-key schedule and the single-block primitive by one that agrees with it
under the tweak-key schedule. -/
theorem xts_crypt_common_tweak_once {K : Type} (env : WalkEnv) (crypt_fn : CryptFn K)
    (crypt1_fn : Crypt1Fn K) (ctx : aes_xts_ctx K) (fuel : Nat) (req : skcipher_request)
    (st : State) (h16 : 16 ≤ req.cryptlen)
    (hn : (skcipher_walk_virt env req).2.nbytes ≠ 0) :
    ∃ es, (xts_crypt_common env crypt_fn crypt1_fn ctx fuel req st).st.trace = st.trace ++ es ∧
      (¬ ((req.cryptlen % AES_BLOCK_SIZE > 0 ∧
            (skcipher_walk_virt env req).2.nbytes < (skcipher_walk_virt env req).2.total) ∧
          (skcipher_walk_virt env (make_subreq req)).2.nbytes = 0) →
        ∃ pre post, es = pre ++
            Event.crypt1 KeySel.tweak st.iv (crypt1_fn ctx.tweak_ctx st.iv).1 :: post ∧
          (∀ x ∈ pre, x.prim_status = none) ∧ (∀ x ∈ post, x.is_crypt1 = false)) ∧
      (((req.cryptlen % AES_BLOCK_SIZE > 0 ∧
            (skcipher_walk_virt env req).2.nbytes < (skcipher_walk_virt env req).2.total) ∧
          (skcipher_walk_virt env (make_subreq req)).2.nbytes = 0) →
        (xts_crypt_common env crypt_fn crypt1_fn ctx fuel req st).ret
          = some (skcipher_walk_virt env (make_subreq req)).1 ∧
        ∀ x ∈ es, x.prim_status = none) ∧
      (∀ x ∈ es, ∀ sel src dst n iv e,
        x = Event.crypt sel src dst n iv e → sel = KeySel.crypt) ∧
      replay crypt_fn crypt1_fn ctx st.mem st.iv es
        = some ((xts_crypt_common env crypt_fn crypt1_fn ctx fuel req st).st.mem,
                (xts_crypt_common env crypt_fn crypt1_fn ctx fuel req st).st.iv) ∧
      (∀ (g : CryptFn K) (g1 : Crypt1Fn K),
        (∀ x iv, g ctx.crypt_ctx x iv = crypt_fn ctx.crypt_ctx x iv) →
        (∀ iv, g1 ctx.tweak_ctx iv = crypt1_fn ctx.tweak_ctx iv) →
        xts_crypt_common env g g1 ctx fuel req st
          = xts_crypt_common env crypt_fn crypt1_fn ctx fuel req st) := by
  obtain ⟨es, htr, hrep, hor, hA, hB⟩ := xts_crypt_common_calls env crypt_fn crypt1_fn ctx fuel
    req st
  refine ⟨es, htr, ?_, ?_, ?_, hrep, ?_⟩
  · intro hneg
    obtain ⟨pre, post, he, hpre, hpost⟩ := hA ⟨h16, hn, hneg⟩
    exact ⟨pre, post, he, hpre, fun x hx => after_tweak_not_crypt1 (hpost x hx)⟩
  · intro h
    exact hB ⟨h16, hn, h.1, h.2⟩
  · intro x hx sel src dst n iv e hxe
    rcases hor with hnone | ⟨pre, post, he, hpre, hpost⟩
    · have := hnone x hx
      rw [hxe] at this
      simp [Event.prim_status] at this
    · rw [he] at hx
      rcases List.mem_append.mp hx with h | h
      · have := hpre x h
        rw [hxe] at this
        simp [Event.prim_status] at this
      · rcases List.mem_cons.mp h with h | h
        · rw [hxe] at h
          cases h
        · exact after_tweak_data_key (hpost x h) hxe
  · intro g g1 h h1
    exact xts_crypt_common_congr env crypt_fn g crypt1_fn g1 ctx h h1 fuel req st

/-- Witness for C19: 100 bytes with a 4-byte tail, offered in chunks of 48
bytes. The tail is held back, the walk over the 80 bytes of the sub-request
offers bytes, and the single-block primitive is called once, before any other
primitive call. -/
theorem xts_crypt_common_tweak_once_witness :
    16 ≤ (toy_req 100).cryptlen ∧
    (skcipher_walk_virt stride_env (toy_req 100)).2.nbytes ≠ 0 ∧
    ∃ es, (xts_crypt_common stride_env toy_enc toy_crypt1 toy_ctx 100 (toy_req 100)
          (toy_state (List.replicate 100 9) 100)).st.trace
        = (toy_state (List.replicate 100 9) 100).trace ++ es ∧
      (∃ pre post, es = pre ++
          Event.crypt1 KeySel.tweak (toy_state (List.replicate 100 9) 100).iv
            (toy_crypt1 toy_ctx.tweak_ctx (toy_state (List.replicate 100 9) 100).iv).1 ::
          post ∧
        (∀ x ∈ pre, x.prim_status = none) ∧ (∀ x ∈ post, x.is_crypt1 = false)) ∧
      (∀ x ∈ es, ∀ sel src dst n iv e,
        x = Event.crypt sel src dst n iv e → sel = KeySel.crypt) := by
  obtain ⟨es, htr, h1, -, h3, -⟩ := xts_crypt_common_tweak_once stride_env toy_enc toy_crypt1
    toy_ctx 100 (toy_req 100) (toy_state (List.replicate 100 9) 100) (by decide) (by decide)
  exact ⟨by decide, by decide, es, htr, h1 (by decide), h3⟩

/-- Counterexample to C19 as stated: 17 bytes offered by a walk that cuts the
buffer after 16 bytes. The request is accepted and its walk offers 16 bytes,
so the tail is held back; the sub-request has no bytes, its walk is empty, and
the run returns 0 without calling the single-block primitive, or any
primitive. -/
theorem xts_crypt_common_tweak_once_cex :
    16 ≤ (toy_req 17).cryptlen ∧
    (skcipher_walk_virt (cut_env 16) (toy_req 17)).2.nbytes = 16 ∧
    (make_subreq (toy_req 17)).cryptlen = 0 ∧
    (skcipher_walk_virt (cut_env 16) (make_subreq (toy_req 17))).2.nbytes = 0 ∧
    (xts_crypt_common (cut_env 16) toy_enc toy_crypt1 toy_ctx 17 (toy_req 17)
        (toy_state (List.replicate 17 1) 17)).ret = some 0 ∧
    (xts_crypt_common (cut_env 16) toy_enc toy_crypt1 toy_ctx 17 (toy_req 17)
        (toy_state (List.replicate 17 1) 17)).st.trace.countP Event.is_crypt1 = 0 ∧
    (xts_crypt_common (cut_env 16) toy_enc toy_crypt1 toy_ctx 17 (toy_req 17)
        (toy_state (List.replicate 17 1) 17)).st.trace.all
          (fun e => e.prim_status.isNone) = true := by
  refine ⟨?_, ?_, ?_, ?_, ?_, ?_, ?_⟩ <;> decide

/-- The checks are not vacuous: a multi-block call passed another IV than the
one in place, or logged with another status than the one the primitive gives
under the schedule it names, does not replay, and two calls of which the second
is not passed the IV the first left are not linked. -/
theorem replay_rejects :
    replay toy_enc toy_crypt1 toy_ctx (toy_mem (List.replicate 16 9) 16) [0]
      [Event.crypt KeySel.crypt { buf := 0, off := 0 } { buf := 1, off := 0 } 16 [1] 0]
      = none ∧
    replay toy_enc toy_crypt1 toy_ctx (toy_mem (List.replicate 16 9) 16) [0]
      [Event.crypt KeySel.crypt { buf := 0, off := 0 } { buf := 1, off := 0 } 16 [0] (-5)]
      = none ∧
    ¬ iv_linked [0]
      [{ multi := false, passed := [0], left := [3] },
       { multi := true, passed := [0], left := [4] }] := by
  refine ⟨rfl, rfl, ?_⟩
  simp [iv_linked]

/-- C20: tweak chaining. Among the events a run appends to the trace, the
primitive calls are, in order, none at all, or the tweak initialisation on the
request's IV followed by multi-block calls only, the tail step's call
included. The calls are linked through the IV: the tweak initialisation is
passed the request's IV, the first multi-block call the IV the tweak
initialisation left, and every later multi-block call the IV the multi-block
call before it left. The IV in place after the run is the one the last call
left, or the request's IV when no call was made, so that nothing but the
primitives modifies the IV. The events replay through the primitives alone:
every call was passed the IV standing in place at that moment, and the memory
and the IV the run leaves are exactly what those calls produced. -/
theorem xts_crypt_common_iv_chain {K : Type} (env : WalkEnv) (crypt_fn : CryptFn K)
    (crypt1_fn : Crypt1Fn K) (ctx : aes_xts_ctx K) (fuel : Nat) (req : skcipher_request)
    (st : State) :
    ∃ es, (xts_crypt_common env crypt_fn crypt1_fn ctx fuel req st).st.trace = st.trace ++ es ∧
      (iv_flow crypt_fn crypt1_fn ctx st.mem es = [] ∨
        ∃ rest, iv_flow crypt_fn crypt1_fn ctx st.mem es
            = { multi := false, passed := st.iv, left := (crypt1_fn ctx.tweak_ctx st.iv).2 } ::
              rest ∧
          ∀ c ∈ rest, c.multi = true) ∧
      iv_linked st.iv (iv_flow crypt_fn crypt1_fn ctx st.mem es) ∧
      (xts_crypt_common env crypt_fn crypt1_fn ctx fuel req st).st.iv
        = last_iv st.iv (iv_flow crypt_fn crypt1_fn ctx st.mem es) ∧
      replay crypt_fn crypt1_fn ctx st.mem st.iv es
        = some ((xts_crypt_common env crypt_fn crypt1_fn ctx fuel req st).st.mem,
                (xts_crypt_common env crypt_fn crypt1_fn ctx fuel req st).st.iv) := by
  obtain ⟨es, htr, hrep, hor, -, -⟩ := xts_crypt_common_calls env crypt_fn crypt1_fn ctx fuel
    req st
  obtain ⟨hlink, hlast⟩ := replay_iv_flow crypt_fn crypt1_fn ctx es _ _ _ _ hrep
  refine ⟨es, htr, ?_, hlink, hlast, hrep⟩
  rcases hor with hnone | ⟨pre, post, he, hpre, hpost⟩
  · left
    have h := iv_flow_skip_append crypt_fn crypt1_fn ctx hnone st.mem []
    rw [List.append_nil] at h
    rw [h]
    rfl
  · right
    refine ⟨iv_flow crypt_fn crypt1_fn ctx st.mem post, ?_, ?_⟩
    · rw [he, iv_flow_skip_append crypt_fn crypt1_fn ctx hpre]
      rfl
    · exact iv_flow_multi crypt_fn crypt1_fn ctx post st.mem
        (fun x hx => after_tweak_not_crypt1 (hpost x hx))

/-! ## xts_crypt_common: the length of the sub-request -/

/-- C14: when the tail is non-zero and the first chunk of the walk is shorter
than the whole request, the tweak initialisation and the main loop run on the
walk over a sub-request that starts where the request starts and whose length
is `blocks * AES_BLOCK_SIZE` with `blocks = DIV_ROUND_UP(cryptlen, 16) - 2` (or
the run returns at once when that walk offers nothing). For every 32-bit length
of 17 bytes or more that is not a multiple of 16 the length of the sub-request
is a multiple of 16 and leaves exactly one block plus the tail of the request:
it equals `cryptlen - 16 - tail`, with no wrap-around in the subtraction. As
long as `cryptlen + 15` fits in 32 bits the rounded-up block count is at least 2
and the length is `(DIV_ROUND_UP(cryptlen, 16) - 2) * 16` without any
reduction. -/
theorem xts_crypt_common_subreq_length {K : Type} (env : WalkEnv) (crypt_fn : CryptFn K)
    (crypt1_fn : Crypt1Fn K) (ctx : aes_xts_ctx K) (fuel : Nat) (req : skcipher_request)
    (st : State)
    (h17 : 17 ≤ req.cryptlen) (hu : req.cryptlen < 4294967296)
    (htail : req.cryptlen % 16 ≠ 0)
    (hn : (skcipher_walk_virt env req).2.nbytes ≠ 0)
    (hcut : (skcipher_walk_virt env req).2.nbytes < (skcipher_walk_virt env req).2.total) :
    subreq_cryptlen req.cryptlen + 16 + req.cryptlen % 16 = req.cryptlen ∧
    subreq_cryptlen req.cryptlen % 16 = 0 ∧
    (req.cryptlen + 15 < 4294967296 →
      2 ≤ DIV_ROUND_UP req.cryptlen AES_BLOCK_SIZE ∧
      subreq_cryptlen req.cryptlen
        = (DIV_ROUND_UP req.cryptlen AES_BLOCK_SIZE - 2) * AES_BLOCK_SIZE) ∧
    (skcipher_walk_virt env (make_subreq req)).2.src = req.src ∧
    (skcipher_walk_virt env (make_subreq req)).2.dst = req.dst ∧
    (skcipher_walk_virt env (make_subreq req)).2.total
      = req.cryptlen - 16 - req.cryptlen % 16 ∧
    ((skcipher_walk_virt env (make_subreq req)).2.nbytes = 0 →
      xts_crypt_common env crypt_fn crypt1_fn ctx fuel req st
        = { ret := some (skcipher_walk_virt env (make_subreq req)).1,
            st := st.log (subreq_events env req) }) ∧
    ((skcipher_walk_virt env (make_subreq req)).2.nbytes ≠ 0 →
      xts_crypt_common env crypt_fn crypt1_fn ctx fuel req st
        = xts_crypt_rest env crypt_fn crypt1_fn ctx fuel (make_subreq req)
            (req.cryptlen % AES_BLOCK_SIZE) (skcipher_walk_virt env (make_subreq req)).2
            (st.log (subreq_events env req))) := by
  have h16 : 16 ≤ req.cryptlen := by omega
  have heq := subreq_cryptlen_eq req.cryptlen h16 hu htail
  have hsub : req.cryptlen % AES_BLOCK_SIZE > 0 ∧
      (skcipher_walk_virt env req).2.nbytes < (skcipher_walk_virt env req).2.total :=
    ⟨by unfold AES_BLOCK_SIZE; omega, hcut⟩
  refine ⟨by omega, by omega, ?_, rfl, rfl, ?_, ?_, ?_⟩
  · intro hfit
    have hdiv : DIV_ROUND_UP req.cryptlen AES_BLOCK_SIZE = req.cryptlen / 16 + 1 := by
      unfold DIV_ROUND_UP AES_BLOCK_SIZE
      have hlt : req.cryptlen + 16 - 1 < 4294967296 := by omega
      rw [Nat.mod_eq_of_lt hlt]
      omega
    rw [heq, hdiv]
    unfold AES_BLOCK_SIZE
    omega
  · show subreq_cryptlen req.cryptlen = _
    omega
  · intro hn2
    exact xts_crypt_common_eq_sub_empty env crypt_fn crypt1_fn ctx fuel req st h16 hn hsub hn2
  · intro hn2
    exact xts_crypt_common_eq_sub env crypt_fn crypt1_fn ctx fuel req st h16 hn hsub hn2

/-- Witness for C14: 50 bytes cut every 16 bytes; the sub-request has 32 bytes. -/
theorem xts_crypt_common_subreq_length_witness :
    subreq_cryptlen (toy_req 50).cryptlen + 16 + (toy_req 50).cryptlen % 16
        = (toy_req 50).cryptlen ∧
    subreq_cryptlen (toy_req 50).cryptlen = 32 ∧
    (skcipher_walk_virt (cut_env 16) (toy_req 50)).2.nbytes = 16 :=
  ⟨(xts_crypt_common_subreq_length (cut_env 16) toy_enc toy_crypt1 toy_ctx 50 (toy_req 50)
      (toy_state (List.replicate 50 1) 50) (by decide) (by decide) (by decide) (by decide)
      (by decide)).1, by decide, by decide⟩

/-! ## xts_crypt_common: the lengths passed by the main loop -/

theorem bulk_lengths_ok_tail (req : skcipher_request) (tail : Nat) (rest : List Event)
    (nb tot : Nat) : bulk_lengths_ok nb tot (tail_prelude req tail ++ rest) = true := by
  simp [tail_prelude, bulk_lengths_ok]

/-- The main loop passes each chunk that is not the last of its walk rounded
down to whole blocks, and the last chunk whole. -/
theorem xts_walk_loop_lengths {K : Type} (env : WalkEnv) (crypt_fn : CryptFn K)
    (ctx : aes_xts_ctx K) :
    ∀ (fuel : Nat) (walk : skcipher_walk) (err : Int) (st : State),
      ∃ es, (xts_walk_loop env crypt_fn ctx fuel walk err st).2.trace = st.trace ++ es ∧
        ∀ rest, (∀ nb tot, bulk_lengths_ok nb tot rest = true) →
          bulk_lengths_ok walk.nbytes walk.total (es ++ rest) = true := by
  intro fuel
  induction fuel with
  | zero =>
    intro walk err st
    refine ⟨[], ?_, fun rest h => h _ _⟩
    by_cases hn : 0 < walk.nbytes <;> simp [xts_walk_loop, hn]
  | succ fuel ih =>
    intro walk err st
    by_cases hn : 0 < walk.nbytes
    · by_cases hr : (xts_crypt_chunk crypt_fn ctx walk (loop_nbytes walk) st).1 = 0
      · rw [xts_walk_loop_succ_ok env crypt_fn ctx fuel walk err st hn hr]
        obtain ⟨es, htr, hes⟩ := ih
          (xts_walk_advance env walk (walk.nbytes - loop_nbytes walk)
            (xts_crypt_chunk crypt_fn ctx walk (loop_nbytes walk) st).2).1.2
          (xts_walk_advance env walk (walk.nbytes - loop_nbytes walk)
            (xts_crypt_chunk crypt_fn ctx walk (loop_nbytes walk) st).2).1.1
          (xts_walk_advance env walk (walk.nbytes - loop_nbytes walk)
            (xts_crypt_chunk crypt_fn ctx walk (loop_nbytes walk) st).2).2
        obtain ⟨-, -, hadv⟩ := xts_step_state env crypt_fn ctx walk (loop_nbytes walk)
          (walk.nbytes - loop_nbytes walk) st
        rw [xts_walk_advance_trace, xts_crypt_chunk_trace] at htr
        refine ⟨_, htr.trans (by rw [List.append_assoc, List.append_assoc]), ?_⟩
        intro rest hrest
        have h := hes rest hrest
        rw [hadv] at h ⊢
        have htot : (skcipher_walk_done env walk (walk.nbytes - loop_nbytes walk)).2.total
            = walk.total - (walk.nbytes - (walk.nbytes - loop_nbytes walk)) := rfl
        rw [htot] at h
        have hlen : loop_nbytes walk
            = if walk.nbytes < walk.total then walk.nbytes / 16 * 16 else walk.nbytes := rfl
        by_cases hp : 0 < (skcipher_walk_done env walk (walk.nbytes - loop_nbytes walk)).2.nbytes
        · simp only [hp, if_true, List.cons_append, List.nil_append, List.append_assoc,
            bulk_lengths_ok, Bool.and_eq_true, decide_eq_true_eq]
          exact ⟨hlen, h⟩
        · simp only [hp, if_false, List.cons_append, List.nil_append, List.append_assoc,
            bulk_lengths_ok, Bool.and_eq_true, decide_eq_true_eq]
          exact ⟨hlen, h⟩
      · rw [xts_walk_loop_succ_fail env crypt_fn ctx fuel walk err st hn hr]
        refine ⟨_, xts_crypt_chunk_trace _ _ _ _ _, ?_⟩
        intro rest hrest
        have hlen : loop_nbytes walk
            = if walk.nbytes < walk.total then walk.nbytes / 16 * 16 else walk.nbytes := rfl
        simp only [List.cons_append, List.nil_append, bulk_lengths_ok, Bool.and_eq_true,
          decide_eq_true_eq]
        exact ⟨hlen, hrest _ _⟩
    · rw [xts_walk_loop_idle env crypt_fn ctx _ walk err st hn]
      exact ⟨[], by simp, fun rest h => h _ _⟩

/-- The lengths passed from the tweak initialisation to the start of the tail
step are those of the main loop. -/
theorem xts_crypt_rest_lengths {K : Type} (env : WalkEnv) (crypt_fn : CryptFn K)
    (crypt1_fn : Crypt1Fn K) (ctx : aes_xts_ctx K) (fuel : Nat) (req : skcipher_request)
    (tail : Nat) (walk : skcipher_walk) (st : State) :
    ∃ es, (xts_crypt_rest env crypt_fn crypt1_fn ctx fuel req tail walk st).st.trace
        = st.trace ++ es ∧
      bulk_lengths_ok walk.nbytes walk.total es = true := by
  rw [xts_crypt_rest_eq]
  by_cases ht : (crypt1_fn ctx.tweak_ctx st.iv).1 = 0
  · rw [if_neg (not_not.mpr ht)]
    obtain ⟨es, htr, hes⟩ := xts_walk_loop_lengths env crypt_fn ctx fuel walk 0
      { mem := st.mem, iv := (crypt1_fn ctx.tweak_ctx st.iv).2,
        trace := st.trace ++ [Event.fpu_begin, Event.crypt1 KeySel.tweak st.iv 0] }
    rcases hl : xts_walk_loop env crypt_fn ctx fuel walk 0
      { mem := st.mem, iv := (crypt1_fn ctx.tweak_ctx st.iv).2,
        trace := st.trace ++ [Event.fpu_begin, Event.crypt1 KeySel.tweak st.iv 0] }
      with ⟨exit, st1⟩
    rw [hl] at htr
    simp only at htr
    have hpre : st1.trace = st.trace ++ (Event.fpu_begin ::
        Event.crypt1 KeySel.tweak st.iv 0 :: es) := by
      rw [htr]
      simp only [List.append_assoc, List.cons_append, List.nil_append]
    have hnil : bulk_lengths_ok walk.nbytes walk.total
        (Event.fpu_begin :: Event.crypt1 KeySel.tweak st.iv 0 :: es) = true := by
      have := hes [] (fun _ _ => rfl)
      rw [List.append_nil] at this
      simpa [bulk_lengths_ok] using this
    cases exit with
    | exhausted => exact ⟨_, hpre, hnil⟩
    | returned e => exact ⟨_, hpre, hnil⟩
    | finished e =>
      by_cases htl : tail > 0 ∧ e = 0
      · simp only [htl, and_self, if_true]
        obtain ⟨es2, htr2, -, rest, hes2⟩ :=
          xts_tail_step_after_tweak env crypt_fn ctx req tail st1
        refine ⟨(Event.fpu_begin :: Event.crypt1 KeySel.tweak st.iv 0 :: es) ++ es2, ?_, ?_⟩
        · rw [htr2, hpre, List.append_assoc]
        · have := hes es2 (by intro nb tot; rw [hes2]; rfl)
          simpa [bulk_lengths_ok] using this
      · simp only [htl, if_false]
        exact ⟨_, hpre, hnil⟩
  · rw [if_pos ht]
    exact ⟨_, rfl, rfl⟩

/-- After the last chunk of a walk is consumed whole, the walk offers nothing. -/
theorem skcipher_walk_done_last (env : WalkEnv) (w : skcipher_walk) (h : w.nbytes = w.total) :
    (skcipher_walk_done env w 0).2.nbytes = 0 := by
  simp only [skcipher_walk_done, skcipher_walk_next, Nat.sub_zero, h, Nat.sub_self,
    Nat.min_zero, ite_self]

theorem loop_nbytes_last (w : skcipher_walk) (h : w.nbytes = w.total) :
    loop_nbytes w = w.nbytes := by
  unfold loop_nbytes
  rw [if_neg (by omega)]

/-- The main loop on a walk whose chunk on offer is the whole of what remains:
one multi-block call over that chunk, then the walk is acknowledged and ends. -/
theorem xts_walk_loop_single {K : Type} (env : WalkEnv) (crypt_fn : CryptFn K)
    (ctx : aes_xts_ctx K) (fuel : Nat) (walk : skcipher_walk) (err : Int) (st : State)
    (hn : 0 < walk.nbytes) (hw : walk.nbytes = walk.total) :
    xts_walk_loop env crypt_fn ctx (fuel + 1) walk err st
      = if (crypt_fn ctx.crypt_ctx (load st.mem walk.src walk.nbytes) st.iv).1 ≠ 0 then
          (LoopExit.returned (crypt_fn ctx.crypt_ctx (load st.mem walk.src walk.nbytes) st.iv).1,
           (xts_crypt_chunk crypt_fn ctx walk walk.nbytes st).2)
        else
          (LoopExit.finished (skcipher_walk_done env walk 0).1,
           (xts_crypt_chunk crypt_fn ctx walk walk.nbytes st).2.log
             [Event.walk_done 0 (skcipher_walk_done env walk 0).1 0]) := by
  have hl := loop_nbytes_last walk hw
  have hd := skcipher_walk_done_last env walk hw
  by_cases hr : (xts_crypt_chunk crypt_fn ctx walk (loop_nbytes walk) st).1 = 0
  · rw [xts_walk_loop_succ_ok env crypt_fn ctx fuel walk err st hn hr]
    rw [hl] at hr ⊢
    have hr2 : (crypt_fn ctx.crypt_ctx (load st.mem walk.src walk.nbytes) st.iv).1 = 0 := hr
    rw [if_neg (not_not.mpr hr2), Nat.sub_self]
    have ha : xts_walk_advance env walk 0 (xts_crypt_chunk crypt_fn ctx walk walk.nbytes st).2
        = (skcipher_walk_done env walk 0,
           (xts_crypt_chunk crypt_fn ctx walk walk.nbytes st).2.log
             [Event.walk_done 0 (skcipher_walk_done env walk 0).1 0]) := by
      simp only [xts_walk_advance, hd, Nat.lt_irrefl, if_false, gt_iff_lt]
    rw [ha]
    exact xts_walk_loop_idle env crypt_fn ctx fuel _ _ _ (by simp only [hd, Nat.lt_irrefl,
      not_false_eq_true])
  · rw [xts_walk_loop_succ_fail env crypt_fn ctx fuel walk err st hn hr]
    rw [hl] at hr ⊢
    have hr2 : (crypt_fn ctx.crypt_ctx (load st.mem walk.src walk.nbytes) st.iv).1 ≠ 0 := hr
    rw [if_pos hr2]
    rfl

/-- A request the walk offers as a single chunk: after the tweak
initialisation, one multi-block call over all `cryptlen` bytes, a trailing
partial block included, and no tail step. -/
theorem xts_crypt_common_single_chunk {K : Type} (env : WalkEnv) (crypt_fn : CryptFn K)
    (crypt1_fn : Crypt1Fn K) (ctx : aes_xts_ctx K) (fuel : Nat) (req : skcipher_request)
    (st : State) (h16 : 16 ≤ req.cryptlen)
    (hwhole : (skcipher_walk_virt env req).2.nbytes = req.cryptlen)
    (h1 : (crypt1_fn ctx.tweak_ctx st.iv).1 = 0) :
    (xts_crypt_common env crypt_fn crypt1_fn ctx (fuel + 1) req st).st.trace
      = st.trace ++
          (Event.walk_virt req (skcipher_walk_virt env req).1 req.cryptlen ::
           Event.fpu_begin ::
           Event.crypt1 KeySel.tweak st.iv 0 ::
           Event.crypt KeySel.crypt req.src req.dst req.cryptlen
             (crypt1_fn ctx.tweak_ctx st.iv).2
             (crypt_fn ctx.crypt_ctx (load st.mem req.src req.cryptlen)
               (crypt1_fn ctx.tweak_ctx st.iv).2).1 ::
           Event.fpu_end ::
           (if (crypt_fn ctx.crypt_ctx (load st.mem req.src req.cryptlen)
               (crypt1_fn ctx.tweak_ctx st.iv).2).1 ≠ 0 then []
            else [Event.walk_done 0
              (skcipher_walk_done env (skcipher_walk_virt env req).2 0).1 0])) ∧
    (xts_crypt_common env crypt_fn crypt1_fn ctx (fuel + 1) req st).ret
      = some (if (crypt_fn ctx.crypt_ctx (load st.mem req.src req.cryptlen)
               (crypt1_fn ctx.tweak_ctx st.iv).2).1 ≠ 0
          then (crypt_fn ctx.crypt_ctx (load st.mem req.src req.cryptlen)
               (crypt1_fn ctx.tweak_ctx st.iv).2).1
          else (skcipher_walk_done env (skcipher_walk_virt env req).2 0).1) := by
  have hn : (skcipher_walk_virt env req).2.nbytes ≠ 0 := by omega
  have htot : (skcipher_walk_virt env req).2.total = req.cryptlen := rfl
  have hsrc : (skcipher_walk_virt env req).2.src = req.src := rfl
  have hdst : (skcipher_walk_virt env req).2.dst = req.dst := rfl
  have hsub : ¬ (req.cryptlen % AES_BLOCK_SIZE > 0 ∧
      (skcipher_walk_virt env req).2.nbytes < (skcipher_walk_virt env req).2.total) := by
    rw [htot, hwhole]
    omega
  rw [xts_crypt_common_eq_nosub env crypt_fn crypt1_fn ctx (fuel + 1) req st h16 hn hsub,
    xts_crypt_rest_eq, if_neg (not_not.mpr (show (crypt1_fn ctx.tweak_ctx
      (st.log [Event.walk_virt req (skcipher_walk_virt env req).1
        (skcipher_walk_virt env req).2.nbytes]).iv).1 = 0 from h1)),
    xts_walk_loop_single env crypt_fn ctx fuel (skcipher_walk_virt env req).2 0 _
      (by omega) (by rw [htot, hwhole])]
  simp only [hsrc, hdst, hwhole, State.log]
  by_cases hc : (crypt_fn ctx.crypt_ctx (load st.mem req.src req.cryptlen)
      (crypt1_fn ctx.tweak_ctx st.iv).2).1 = 0
  · simp [hc, xts_crypt_chunk, State.log, hsrc, hdst]
  · simp [hc, xts_crypt_chunk, State.log, hsrc, hdst]

theorem skcipher_walk_next_le (env : WalkEnv) (src dst : scatterlist) (total : Nat) :
    (skcipher_walk_next env src dst total).2.nbytes
      ≤ (skcipher_walk_next env src dst total).2.total := by
  simp only [skcipher_walk_next]
  split
  · exact Nat.min_le_right _ _
  · exact Nat.zero_le _

theorem loop_nbytes_mod (walk : skcipher_walk) (ht : walk.total % 16 = 0)
    (hle : walk.nbytes ≤ walk.total) : loop_nbytes walk % 16 = 0 := by
  unfold loop_nbytes
  split
  · exact block_floor_mod _
  · have : walk.nbytes = walk.total := by omega
    rw [this]
    exact ht

/-- Over a walk of a whole number of blocks, the main loop passes only whole
numbers of blocks. -/
theorem xts_walk_loop_whole_blocks {K : Type} (env : WalkEnv) (crypt_fn : CryptFn K)
    (ctx : aes_xts_ctx K) :
    ∀ (fuel : Nat) (walk : skcipher_walk) (err : Int) (st : State),
      walk.total % 16 = 0 → walk.nbytes ≤ walk.total →
      ∃ es, (xts_walk_loop env crypt_fn ctx fuel walk err st).2.trace = st.trace ++ es ∧
        ∀ rest, bulk_whole_blocks rest = true → bulk_whole_blocks (es ++ rest) = true := by
  intro fuel
  induction fuel with
  | zero =>
    intro walk err st _ _
    refine ⟨[], ?_, fun rest h => h⟩
    by_cases hn : 0 < walk.nbytes <;> simp [xts_walk_loop, hn]
  | succ fuel ih =>
    intro walk err st ht hle
    have hmod := loop_nbytes_mod walk ht hle
    have hlen := loop_nbytes_le walk
    by_cases hn : 0 < walk.nbytes
    · by_cases hr : (xts_crypt_chunk crypt_fn ctx walk (loop_nbytes walk) st).1 = 0
      · rw [xts_walk_loop_succ_ok env crypt_fn ctx fuel walk err st hn hr]
        obtain ⟨-, -, hadv⟩ := xts_step_state env crypt_fn ctx walk (loop_nbytes walk)
          (walk.nbytes - loop_nbytes walk) st
        have htot : (skcipher_walk_done env walk (walk.nbytes - loop_nbytes walk)).2.total
            = walk.total - (walk.nbytes - (walk.nbytes - loop_nbytes walk)) := rfl
        obtain ⟨es, htr, hes⟩ := ih
          (xts_walk_advance env walk (walk.nbytes - loop_nbytes walk)
            (xts_crypt_chunk crypt_fn ctx walk (loop_nbytes walk) st).2).1.2
          (xts_walk_advance env walk (walk.nbytes - loop_nbytes walk)
            (xts_crypt_chunk crypt_fn ctx walk (loop_nbytes walk) st).2).1.1
          (xts_walk_advance env walk (walk.nbytes - loop_nbytes walk)
            (xts_crypt_chunk crypt_fn ctx walk (loop_nbytes walk) st).2).2
          (by rw [hadv, htot]; omega)
          (by rw [hadv]; exact skcipher_walk_next_le _ _ _ _)
        rw [xts_walk_advance_trace, xts_crypt_chunk_trace] at htr
        refine ⟨_, htr.trans (by rw [List.append_assoc, List.append_assoc]), ?_⟩
        intro rest hrest
        have h := hes rest hrest
        by_cases hp : 0 < (xts_walk_advance env walk (walk.nbytes - loop_nbytes walk)
            (xts_crypt_chunk crypt_fn ctx walk (loop_nbytes walk) st).2).1.2.nbytes
        · simp only [hp, if_true, List.cons_append, List.nil_append, List.append_assoc,
            bulk_whole_blocks, Bool.and_eq_true, decide_eq_true_eq]
          exact ⟨hmod, h⟩
        · simp only [hp, if_false, List.cons_append, List.nil_append, List.append_assoc,
            bulk_whole_blocks, Bool.and_eq_true, decide_eq_true_eq]
          exact ⟨hmod, h⟩
      · rw [xts_walk_loop_succ_fail env crypt_fn ctx fuel walk err st hn hr]
        refine ⟨_, xts_crypt_chunk_trace _ _ _ _ _, ?_⟩
        intro rest hrest
        simp only [List.cons_append, List.nil_append, bulk_whole_blocks, Bool.and_eq_true,
          decide_eq_true_eq]
        exact ⟨hmod, hrest⟩
    · rw [xts_walk_loop_idle env crypt_fn ctx _ walk err st hn]
      exact ⟨[], by simp, fun rest h => h⟩

theorem xts_crypt_rest_whole_blocks {K : Type} (env : WalkEnv) (crypt_fn : CryptFn K)
    (crypt1_fn : Crypt1Fn K) (ctx : aes_xts_ctx K) (fuel : Nat) (req : skcipher_request)
    (tail : Nat) (walk : skcipher_walk) (st : State)
    (hmod : walk.total % 16 = 0) (hle : walk.nbytes ≤ walk.total) :
    ∃ es, (xts_crypt_rest env crypt_fn crypt1_fn ctx fuel req tail walk st).st.trace
        = st.trace ++ es ∧
      bulk_whole_blocks es = true := by
  rw [xts_crypt_rest_eq]
  by_cases ht : (crypt1_fn ctx.tweak_ctx st.iv).1 = 0
  · rw [if_neg (not_not.mpr ht)]
    obtain ⟨es, htr, hes⟩ := xts_walk_loop_whole_blocks env crypt_fn ctx fuel walk 0
      { mem := st.mem, iv := (crypt1_fn ctx.tweak_ctx st.iv).2,
        trace := st.trace ++ [Event.fpu_begin, Event.crypt1 KeySel.tweak st.iv 0] } hmod hle
    rcases hl : xts_walk_loop env crypt_fn ctx fuel walk 0
      { mem := st.mem, iv := (crypt1_fn ctx.tweak_ctx st.iv).2,
        trace := st.trace ++ [Event.fpu_begin, Event.crypt1 KeySel.tweak st.iv 0] }
      with ⟨exit, st1⟩
    rw [hl] at htr
    simp only at htr
    have hpre : st1.trace = st.trace ++ (Event.fpu_begin ::
        Event.crypt1 KeySel.tweak st.iv 0 :: es) := by
      rw [htr]
      simp only [List.append_assoc, List.cons_append, List.nil_append]
    have hnil : bulk_whole_blocks
        (Event.fpu_begin :: Event.crypt1 KeySel.tweak st.iv 0 :: es) = true := by
      have := hes [] rfl
      rw [List.append_nil] at this
      simpa [bulk_whole_blocks] using this
    cases exit with
    | exhausted => exact ⟨_, hpre, hnil⟩
    | returned e => exact ⟨_, hpre, hnil⟩
    | finished e =>
      by_cases htl : tail > 0 ∧ e = 0
      · simp only [htl, and_self, if_true]
        obtain ⟨es2, htr2, -, rest, hes2⟩ :=
          xts_tail_step_after_tweak env crypt_fn ctx req tail st1
        refine ⟨(Event.fpu_begin :: Event.crypt1 KeySel.tweak st.iv 0 :: es) ++ es2, ?_, ?_⟩
        · rw [htr2, hpre, List.append_assoc]
        · have := hes es2 (by rw [hes2]; rfl)
          simpa [bulk_whole_blocks] using this
      · simp only [htl, if_false]
        exact ⟨_, hpre, hnil⟩
  · rw [if_pos ht]
    exact ⟨_, rfl, rfl⟩

theorem subreq_cryptlen_mod (len : Nat) : subreq_cryptlen len % 16 = 0 := by
  unfold subreq_cryptlen to_u32 AES_BLOCK_SIZE
  simp only []
  omega

/-- Lengths of the multi-block calls of a whole run, in the form of the checker. -/
theorem xts_crypt_common_lengths {K : Type} (env : WalkEnv) (crypt_fn : CryptFn K)
    (crypt1_fn : Crypt1Fn K) (ctx : aes_xts_ctx K) (fuel : Nat) (req : skcipher_request)
    (st : State) :
    ∃ es, (xts_crypt_common env crypt_fn crypt1_fn ctx fuel req st).st.trace = st.trace ++ es ∧
      bulk_lengths_ok 0 0 es = true ∧
      ((req.cryptlen % 16 = 0 ∨
        (skcipher_walk_virt env req).2.nbytes < (skcipher_walk_virt env req).2.total) →
        bulk_whole_blocks es = true) := by
  by_cases h16 : 16 ≤ req.cryptlen
  · by_cases hn : (skcipher_walk_virt env req).2.nbytes = 0
    · rw [xts_crypt_common_eq_empty env crypt_fn crypt1_fn ctx fuel req st h16 hn]
      exact ⟨_, rfl, rfl, fun _ => rfl⟩
    · by_cases hsub : req.cryptlen % AES_BLOCK_SIZE > 0 ∧
          (skcipher_walk_virt env req).2.nbytes < (skcipher_walk_virt env req).2.total
      · by_cases hn2 : (skcipher_walk_virt env (make_subreq req)).2.nbytes = 0
        · rw [xts_crypt_common_eq_sub_empty env crypt_fn crypt1_fn ctx fuel req st h16 hn hsub hn2]
          exact ⟨_, rfl, rfl, fun _ => rfl⟩
        · rw [xts_crypt_common_eq_sub env crypt_fn crypt1_fn ctx fuel req st h16 hn hsub hn2]
          obtain ⟨es, htr, hes⟩ := xts_crypt_rest_lengths env crypt_fn crypt1_fn ctx fuel
            (make_subreq req) (req.cryptlen % AES_BLOCK_SIZE)
            (skcipher_walk_virt env (make_subreq req)).2 (st.log (subreq_events env req))
          obtain ⟨es1, htr1, hes1⟩ := xts_crypt_rest_whole_blocks env crypt_fn crypt1_fn ctx fuel
            (make_subreq req) (req.cryptlen % AES_BLOCK_SIZE)
            (skcipher_walk_virt env (make_subreq req)).2 (st.log (subreq_events env req))
            (subreq_cryptlen_mod req.cryptlen) (skcipher_walk_next_le _ _ _ _)
          have hsame : es1 = es := List.append_cancel_left (htr1.symm.trans htr)
          rw [hsame] at hes1
          refine ⟨subreq_events env req ++ es, ?_, ?_, fun _ => ?_⟩
          · rw [htr]
            simp only [State.log, List.append_assoc]
          · simpa [subreq_events, bulk_lengths_ok] using hes
          · simpa [subreq_events, bulk_whole_blocks] using hes1
      · rw [xts_crypt_common_eq_nosub env crypt_fn crypt1_fn ctx fuel req st h16 hn hsub]
        obtain ⟨es, htr, hes⟩ := xts_crypt_rest_lengths env crypt_fn crypt1_fn ctx fuel
          req 0 (skcipher_walk_virt env req).2
          (st.log [Event.walk_virt req (skcipher_walk_virt env req).1
            (skcipher_walk_virt env req).2.nbytes])
        refine ⟨Event.walk_virt req (skcipher_walk_virt env req).1
            (skcipher_walk_virt env req).2.nbytes :: es, ?_, ?_, fun hw => ?_⟩
        · rw [htr]
          simp only [State.log, List.append_assoc, List.singleton_append]
        · simpa [bulk_lengths_ok] using hes
        · have hmod : (skcipher_walk_virt env req).2.total % 16 = 0 := by
            show req.cryptlen % 16 = 0
            rcases hw with h | h
            · exact h
            · by_contra hc
              exact hsub ⟨by unfold AES_BLOCK_SIZE; omega, h⟩
          obtain ⟨es1, htr1, hes1⟩ := xts_crypt_rest_whole_blocks env crypt_fn crypt1_fn ctx fuel
            req 0 (skcipher_walk_virt env req).2
            (st.log [Event.walk_virt req (skcipher_walk_virt env req).1
              (skcipher_walk_virt env req).2.nbytes]) hmod (skcipher_walk_next_le _ _ _ _)
          have hsame : es1 = es := List.append_cancel_left (htr1.symm.trans htr)
          rw [hsame] at hes1
          simpa [bulk_whole_blocks] using hes1
  · have hs : req.cryptlen < AES_BLOCK_SIZE := by unfold AES_BLOCK_SIZE; omega
    refine ⟨[], ?_, rfl, fun _ => rfl⟩
    simp [xts_crypt_common, hs]

/-- C15, amended: in the main loop of `xts_crypt_common` the multi-block
primitive is invoked over `floor(chunk / 16) * 16` bytes for every chunk that is
not the last one of its walk, and over the whole chunk for the last one, which
is not rounded. When the length of the request is a multiple of 16, or the
first chunk is shorter than the request, every length the main loop passes is a
whole number of blocks. When the request is offered as a single chunk, the tail
included, the main loop makes one call over all `cryptlen` bytes, the trailing
partial block included (not `cryptlen - tail`), and no tail step follows. -/
theorem xts_crypt_common_bulk_lengths {K : Type} (env : WalkEnv) (crypt_fn : CryptFn K)
    (crypt1_fn : Crypt1Fn K) (ctx : aes_xts_ctx K) (fuel : Nat) (req : skcipher_request)
    (st : State) :
    ∃ es, (xts_crypt_common env crypt_fn crypt1_fn ctx fuel req st).st.trace = st.trace ++ es ∧
      bulk_lengths_ok 0 0 es = true ∧
      ((req.cryptlen % 16 = 0 ∨
        (skcipher_walk_virt env req).2.nbytes < (skcipher_walk_virt env req).2.total) →
        bulk_whole_blocks es = true) ∧
      (16 ≤ req.cryptlen → (skcipher_walk_virt env req).2.nbytes = req.cryptlen →
        (crypt1_fn ctx.tweak_ctx st.iv).1 = 0 → 0 < fuel →
        crypt_src_ranges es = [(req.src.off, req.cryptlen)] ∧
        es.any Event.is_tail = false) := by
  obtain ⟨es, htr, hlen, hblk⟩ := xts_crypt_common_lengths env crypt_fn crypt1_fn ctx fuel req st
  refine ⟨es, htr, hlen, hblk, ?_⟩
  intro h16 hwhole h1 hfuel
  obtain ⟨f, rfl⟩ : ∃ f, fuel = f + 1 := ⟨fuel - 1, by omega⟩
  have hs := (xts_crypt_common_single_chunk env crypt_fn crypt1_fn ctx f req st h16 hwhole h1).1
  have hsame := List.append_cancel_left (htr.symm.trans hs)
  rw [hsame]
  by_cases hc : (crypt_fn ctx.crypt_ctx (load st.mem req.src req.cryptlen)
      (crypt1_fn ctx.tweak_ctx st.iv).2).1 = 0
  · simp [hc, crypt_src_ranges, Event.is_tail]
  · simp [hc, crypt_src_ranges, Event.is_tail]

/-- Witness for C15: 100 bytes offered in chunks of 48 bytes; the sub-request has
80 bytes and the main loop passes 48 and 32 bytes. -/
theorem xts_crypt_common_bulk_lengths_witness :
    (∃ es, (xts_crypt_common stride_env toy_enc toy_crypt1 toy_ctx 100 (toy_req 100)
        (toy_state (List.replicate 100 9) 100)).st.trace
          = (toy_state (List.replicate 100 9) 100).trace ++ es ∧
      bulk_lengths_ok 0 0 es = true ∧
      (((toy_req 100).cryptlen % 16 = 0 ∨
        (skcipher_walk_virt stride_env (toy_req 100)).2.nbytes
          < (skcipher_walk_virt stride_env (toy_req 100)).2.total) →
        bulk_whole_blocks es = true) ∧
      (16 ≤ (toy_req 100).cryptlen →
        (skcipher_walk_virt stride_env (toy_req 100)).2.nbytes = (toy_req 100).cryptlen →
        (toy_crypt1 toy_ctx.tweak_ctx (toy_state (List.replicate 100 9) 100).iv).1 = 0 →
        0 < 100 →
        crypt_src_ranges es = [((toy_req 100).src.off, (toy_req 100).cryptlen)] ∧
        es.any Event.is_tail = false)) ∧
    crypt_src_ranges (xts_crypt_common stride_env toy_enc toy_crypt1 toy_ctx 100 (toy_req 100)
        (toy_state (List.replicate 100 9) 100)).st.trace = [(0, 48), (48, 32), (80, 20)] :=
  ⟨xts_crypt_common_bulk_lengths stride_env toy_enc toy_crypt1 toy_ctx 100 (toy_req 100)
    (toy_state (List.replicate 100 9) 100), by decide⟩

/-- Counterexample to C15 as stated: a 17-byte request offered as one chunk. The
main loop passes all 17 bytes, one block and a partial block, to the multi-block
primitive in one call; 17 is neither `floor(17 / 16) * 16` nor the length without
the tail, and there is no tail step. -/
theorem xts_crypt_common_bulk_lengths_cex :
    (skcipher_walk_virt stride_env (toy_req 17)).2.nbytes = 17 ∧
    (xts_crypt_common stride_env toy_enc toy_crypt1 toy_ctx 8 (toy_req 17)
        (toy_state (List.replicate 17 1) 17)).ret = some 0 ∧
    crypt_src_ranges (xts_crypt_common stride_env toy_enc toy_crypt1 toy_ctx 8 (toy_req 17)
        (toy_state (List.replicate 17 1) 17)).st.trace = [(0, 17)] ∧
    (xts_crypt_common stride_env toy_enc toy_crypt1 toy_ctx 8 (toy_req 17)
        (toy_state (List.replicate 17 1) 17)).st.trace.any Event.is_tail = false ∧
    17 / 16 * 16 ≠ 17 ∧ 17 - 17 % 16 ≠ 17 := by
  refine ⟨?_, ?_, ?_, ?_, ?_, ?_⟩ <;> decide

/-! ## xts_crypt_common: the calls of the tail step -/

/-- C17, amended: the tail step of `xts_crypt_common`, for encryption as for
decryption, makes no invocation of the single-block primitive; it makes exactly
one invocation of the multi-block primitive, under the data key, from the
running IV and over the bytes its walk offers, when that walk starts without
error, and none when the walk fails to start. -/
theorem xts_tail_step_one_call {K : Type} (env : WalkEnv) (crypt_fn : CryptFn K)
    (ctx : aes_xts_ctx K) (req : skcipher_request) (tail : Nat) (st : State) :
    ∃ es, (xts_tail_step env crypt_fn ctx req tail st).st.trace = st.trace ++ es ∧
      es.countP Event.is_crypt1 = 0 ∧
      es.countP Event.is_crypt
        = (if (skcipher_walk_virt env (tail_subreq req tail)).1 = 0 then 1 else 0) ∧
      ((skcipher_walk_virt env (tail_subreq req tail)).1 = 0 →
        Event.crypt KeySel.crypt (skcipher_walk_virt env (tail_subreq req tail)).2.src
          (skcipher_walk_virt env (tail_subreq req tail)).2.dst
          (skcipher_walk_virt env (tail_subreq req tail)).2.nbytes st.iv
          (crypt_fn ctx.crypt_ctx (load st.mem
            (skcipher_walk_virt env (tail_subreq req tail)).2.src
            (skcipher_walk_virt env (tail_subreq req tail)).2.nbytes) st.iv).1 ∈ es) := by
  refine ⟨_, xts_tail_step_events env crypt_fn ctx req tail st, ?_, ?_, ?_⟩
  · by_cases hv : (skcipher_walk_virt env (tail_subreq req tail)).1 = 0
    · by_cases hc : (crypt_fn ctx.crypt_ctx (load st.mem
          (skcipher_walk_virt env (tail_subreq req tail)).2.src
          (skcipher_walk_virt env (tail_subreq req tail)).2.nbytes) st.iv).1 = 0
      · by_cases ha : req.dst = req.src <;>
          simp [hv, hc, ha, tail_prelude, List.countP_cons, Event.is_crypt1]
      · by_cases ha : req.dst = req.src <;>
          simp [hv, hc, ha, tail_prelude, List.countP_cons, Event.is_crypt1]
    · by_cases ha : req.dst = req.src <;>
        simp [hv, ha, tail_prelude, List.countP_cons, Event.is_crypt1]
  · by_cases hv : (skcipher_walk_virt env (tail_subreq req tail)).1 = 0
    · by_cases hc : (crypt_fn ctx.crypt_ctx (load st.mem
          (skcipher_walk_virt env (tail_subreq req tail)).2.src
          (skcipher_walk_virt env (tail_subreq req tail)).2.nbytes) st.iv).1 = 0
      · by_cases ha : req.dst = req.src <;>
          simp [hv, hc, ha, tail_prelude, List.countP_cons, Event.is_crypt]
      · by_cases ha : req.dst = req.src <;>
          simp [hv, hc, ha, tail_prelude, List.countP_cons, Event.is_crypt]
    · by_cases ha : req.dst = req.src <;>
        simp [hv, ha, tail_prelude, List.countP_cons, Event.is_crypt]
  · intro hv
    simp [hv]

/-- Counterexample to C17 as stated: 50 bytes offered in chunks of 48 bytes. The
tail step, on the last 18 bytes, makes one call of the multi-block primitive
over 18 bytes and no call of the single-block primitive; the only single-block
call of the run is the tweak initialisation, before the main loop. -/
theorem xts_tail_step_one_call_cex :
    ((xts_tail_step stride_env toy_enc toy_ctx (make_subreq (toy_req 50)) 2
        (toy_state (List.replicate 50 1) 50)).st.trace.countP Event.is_crypt1 = 0 ∧
     crypt_src_ranges (xts_tail_step stride_env toy_enc toy_ctx (make_subreq (toy_req 50)) 2
        (toy_state (List.replicate 50 1) 50)).st.trace = [(32, 18)]) ∧
    ((xts_crypt_common stride_env toy_enc toy_crypt1 toy_ctx 50 (toy_req 50)
        (toy_state (List.replicate 50 1) 50)).ret = some 0 ∧
     ((xts_crypt_common stride_env toy_enc toy_crypt1 toy_ctx 50 (toy_req 50)
        (toy_state (List.replicate 50 1) 50)).st.trace.dropWhile
          (fun e => !e.is_tail)).countP Event.is_crypt1 = 0 ∧
     crypt_src_ranges ((xts_crypt_common stride_env toy_enc toy_crypt1 toy_ctx 50 (toy_req 50)
        (toy_state (List.replicate 50 1) 50)).st.trace.dropWhile
          (fun e => !e.is_tail)) = [(32, 18)] ∧
     (xts_crypt_common stride_env toy_enc toy_crypt1 toy_ctx 50 (toy_req 50)
        (toy_state (List.replicate 50 1) 50)).st.trace.countP Event.is_crypt1 = 1) := by
  refine ⟨⟨?_, ?_⟩, ?_, ?_, ?_, ?_⟩ <;> decide

/-! ## xts_crypt_common: when the tail step runs -/

/-- With a walk that never fails and offers at least one block while a block
remains, and a multi-block primitive that never fails, the main loop ends with
status 0 within as many iterations as the walk has bytes. -/
theorem xts_walk_loop_finishes {K : Type} (env : WalkEnv) (crypt_fn : CryptFn K)
    (ctx : aes_xts_ctx K) (hstat : env.never_fails) (hblk : env.block_chunks)
    (hok : NeverFails crypt_fn ctx.crypt_ctx) :
    ∀ (fuel : Nat) (walk : skcipher_walk) (err : Int) (st : State),
      0 < walk.total → walk.total ≤ fuel →
      walk.nbytes = min (env.chunk walk.src.off walk.total) walk.total →
      (xts_walk_loop env crypt_fn ctx fuel walk err st).1 = LoopExit.finished 0 := by
  intro fuel
  induction fuel with
  | zero =>
    intro walk err st hpos hfuel
    omega
  | succ fuel ih =>
    intro walk err st hpos hfuel hnb
    have hchunk := hblk walk.src.off walk.total
    have hn : 0 < walk.nbytes := by
      rw [hnb]
      omega
    by_cases hlast : walk.nbytes < walk.total
    · have hr : (xts_crypt_chunk crypt_fn ctx walk (loop_nbytes walk) st).1 = 0 :=
        hok _ _
      rw [xts_walk_loop_succ_ok env crypt_fn ctx fuel walk err st hn hr]
      obtain ⟨-, -, hadv⟩ := xts_step_state env crypt_fn ctx walk (loop_nbytes walk)
        (walk.nbytes - loop_nbytes walk) st
      have hln : loop_nbytes walk = block_floor walk.nbytes := by
        simp [loop_nbytes, hlast]
      have h16 : 16 ≤ walk.nbytes := by
        rw [hnb]
        omega
      have hb1 := block_floor_le walk.nbytes
      have hb3 := block_floor_ge h16
      rw [← hln] at hb1 hb3
      have hcons : walk.nbytes - (walk.nbytes - loop_nbytes walk) = loop_nbytes walk := by omega
      have hw3 : (skcipher_walk_done env walk (walk.nbytes - loop_nbytes walk)).2.total
          = walk.total - loop_nbytes walk := by
        simp [skcipher_walk_done, skcipher_walk_next, hcons]
      have hw4 : (skcipher_walk_done env walk (walk.nbytes - loop_nbytes walk)).2.nbytes
          = min (env.chunk (skcipher_walk_done env walk
                  (walk.nbytes - loop_nbytes walk)).2.src.off
                (skcipher_walk_done env walk (walk.nbytes - loop_nbytes walk)).2.total)
              (skcipher_walk_done env walk (walk.nbytes - loop_nbytes walk)).2.total := by
        simp [skcipher_walk_done, skcipher_walk_next, hstat _ _]
      rw [hadv]
      exact ih _ _ _ (by rw [hw3]; omega) (by rw [hw3]; omega) hw4
    · have hall : walk.nbytes = walk.total := by
        rw [hnb] at hlast ⊢
        omega
      rw [xts_walk_loop_single env crypt_fn ctx fuel walk err st hn hall,
        if_neg (not_not.mpr (hok _ _))]
      simp [skcipher_walk_done, skcipher_walk_next, hstat _ _]

/-- Neither the tweak initialisation nor the main loop forwards a handle: a run
that is entered with `tail = 0` has no tail step. -/
theorem xts_crypt_rest_no_tail {K : Type} (env : WalkEnv) (crypt_fn : CryptFn K)
    (crypt1_fn : Crypt1Fn K) (ctx : aes_xts_ctx K) (fuel : Nat) (req : skcipher_request)
    (walk : skcipher_walk) (st : State) :
    ∃ es, (xts_crypt_rest env crypt_fn crypt1_fn ctx fuel req 0 walk st).st.trace
        = st.trace ++ es ∧ es.any Event.is_tail = false := by
  rw [xts_crypt_rest_eq]
  by_cases ht : (crypt1_fn ctx.tweak_ctx st.iv).1 = 0
  · rw [if_neg (not_not.mpr ht)]
    obtain ⟨es, htr, hes⟩ := xts_walk_loop_all env crypt_fn ctx (fun x => x.is_tail = false)
      (fun _ _ _ _ _ => rfl) rfl rfl (fun _ _ _ => rfl) fuel walk 0
      { mem := st.mem, iv := (crypt1_fn ctx.tweak_ctx st.iv).2,
        trace := st.trace ++ [Event.fpu_begin, Event.crypt1 KeySel.tweak st.iv 0] }
    rcases hl : xts_walk_loop env crypt_fn ctx fuel walk 0
      { mem := st.mem, iv := (crypt1_fn ctx.tweak_ctx st.iv).2,
        trace := st.trace ++ [Event.fpu_begin, Event.crypt1 KeySel.tweak st.iv 0] }
      with ⟨exit, st1⟩
    rw [hl] at htr
    simp only at htr
    have hpre : st1.trace = st.trace ++ (Event.fpu_begin ::
        Event.crypt1 KeySel.tweak st.iv 0 :: es) := by
      rw [htr]
      simp only [List.append_assoc, List.cons_append, List.nil_append]
    have hnone : (Event.fpu_begin :: Event.crypt1 KeySel.tweak st.iv 0 :: es).any Event.is_tail
        = false := by
      simp only [List.any_cons, Event.is_tail, Bool.false_or]
      rw [List.any_eq_false]
      intro x hx
      simp [hes x hx]
    cases exit with
    | exhausted => exact ⟨_, hpre, hnone⟩
    | returned e => exact ⟨_, hpre, hnone⟩
    | finished e =>
      simp only [gt_iff_lt, Nat.lt_irrefl, false_and, if_false]
      exact ⟨_, hpre, hnone⟩
  · rw [if_pos ht]
    exact ⟨_, rfl, rfl⟩

/-- With a walk and primitives that do not fail, a run entered with a non-zero
`tail` reaches the tail step. -/
theorem xts_crypt_rest_tail_runs {K : Type} (env : WalkEnv) (crypt_fn : CryptFn K)
    (crypt1_fn : Crypt1Fn K) (ctx : aes_xts_ctx K) (fuel : Nat) (req : skcipher_request)
    (tail : Nat) (walk : skcipher_walk) (st : State)
    (hstat : env.never_fails) (hblk : env.block_chunks)
    (hok : NeverFails crypt_fn ctx.crypt_ctx) (h1 : (crypt1_fn ctx.tweak_ctx st.iv).1 = 0)
    (htail : 0 < tail) (hpos : 0 < walk.total) (hfuel : walk.total ≤ fuel)
    (hnb : walk.nbytes = min (env.chunk walk.src.off walk.total) walk.total) :
    ∃ pre rest, (xts_crypt_rest env crypt_fn crypt1_fn ctx fuel req tail walk st).st.trace
        = st.trace ++ (pre ++ Event.ffwd req.src req.cryptlen :: rest) := by
  rw [xts_crypt_rest_eq, if_neg (not_not.mpr h1)]
  have hfin := xts_walk_loop_finishes env crypt_fn ctx hstat hblk hok fuel walk 0
    { mem := st.mem, iv := (crypt1_fn ctx.tweak_ctx st.iv).2,
      trace := st.trace ++ [Event.fpu_begin, Event.crypt1 KeySel.tweak st.iv 0] }
    hpos hfuel hnb
  obtain ⟨es, htr, -⟩ := xts_walk_loop_all env crypt_fn ctx (fun _ => True)
    (fun _ _ _ _ _ => trivial) trivial trivial (fun _ _ _ => trivial) fuel walk 0
    { mem := st.mem, iv := (crypt1_fn ctx.tweak_ctx st.iv).2,
      trace := st.trace ++ [Event.fpu_begin, Event.crypt1 KeySel.tweak st.iv 0] }
  rcases hl : xts_walk_loop env crypt_fn ctx fuel walk 0
    { mem := st.mem, iv := (crypt1_fn ctx.tweak_ctx st.iv).2,
      trace := st.trace ++ [Event.fpu_begin, Event.crypt1 KeySel.tweak st.iv 0] }
    with ⟨exit, st1⟩
  rw [hl] at htr hfin
  simp only at htr hfin
  subst hfin
  simp only [htail, gt_iff_lt, and_self, if_true]
  obtain ⟨es2, htr2, -, rest, hes2⟩ := xts_tail_step_after_tweak env crypt_fn ctx req tail st1
  refine ⟨[Event.fpu_begin, Event.crypt1 KeySel.tweak st.iv 0] ++ es, rest, ?_⟩
  rw [htr2, htr, hes2]
  simp only [List.append_assoc]

/-- C16, amended: the tail step of `xts_crypt_common` is executed only if
`cryptlen % 16` is non-zero and the first chunk of the walk is shorter than the
whole request; a zero tail never triggers it, and neither does a non-zero tail
in a request the walk offers as a single chunk. Conversely, for a request of 32
bytes or more with a non-zero tail whose first chunk is shorter than the
request, the tail step is executed when no earlier step fails (a walk that never
fails and offers at least one block while one remains, primitives that return
0, a bound on the iterations not below the length). -/
theorem xts_crypt_common_tail_step_iff {K : Type} (env : WalkEnv) (crypt_fn : CryptFn K)
    (crypt1_fn : Crypt1Fn K) (ctx : aes_xts_ctx K) (fuel : Nat) (req : skcipher_request)
    (st : State) :
    ∃ es, (xts_crypt_common env crypt_fn crypt1_fn ctx fuel req st).st.trace = st.trace ++ es ∧
      (es.any Event.is_tail = true →
        req.cryptlen % 16 ≠ 0 ∧
        (skcipher_walk_virt env req).2.nbytes < (skcipher_walk_virt env req).2.total) ∧
      (env.never_fails → env.block_chunks → NeverFails crypt_fn ctx.crypt_ctx →
        (crypt1_fn ctx.tweak_ctx st.iv).1 = 0 →
        32 ≤ req.cryptlen → req.cryptlen < 4294967296 → req.cryptlen ≤ fuel →
        req.cryptlen % 16 ≠ 0 →
        (skcipher_walk_virt env req).2.nbytes < (skcipher_walk_virt env req).2.total →
        es.any Event.is_tail = true) := by
  by_cases h16 : 16 ≤ req.cryptlen
  · by_cases hn : (skcipher_walk_virt env req).2.nbytes = 0
    · rw [xts_crypt_common_eq_empty env crypt_fn crypt1_fn ctx fuel req st h16 hn]
      refine ⟨_, rfl, fun h => ?_, fun hstat hblk _ _ h32 _ _ _ _ => ?_⟩
      · simp [Event.is_tail] at h
      · exfalso
        have hc := hblk req.src.off req.cryptlen
        simp [skcipher_walk_virt, skcipher_walk_next, hstat _ _] at hn
        omega
    · by_cases hsub : req.cryptlen % AES_BLOCK_SIZE > 0 ∧
          (skcipher_walk_virt env req).2.nbytes < (skcipher_walk_virt env req).2.total
      · have hmod : req.cryptlen % 16 ≠ 0 := by
          have := hsub.1
          unfold AES_BLOCK_SIZE at this
          omega
        by_cases hn2 : (skcipher_walk_virt env (make_subreq req)).2.nbytes = 0
        · rw [xts_crypt_common_eq_sub_empty env crypt_fn crypt1_fn ctx fuel req st h16 hn hsub hn2]
          refine ⟨_, rfl, fun _ => ⟨hmod, hsub.2⟩, fun hstat hblk _ _ h32 hu _ _ _ => ?_⟩
          exfalso
          have hlen := subreq_cryptlen_eq req.cryptlen h16 hu hmod
          have hc := hblk req.src.off (subreq_cryptlen req.cryptlen)
          simp [skcipher_walk_virt, skcipher_walk_next, hstat _ _, make_subreq] at hn2
          omega
        · rw [xts_crypt_common_eq_sub env crypt_fn crypt1_fn ctx fuel req st h16 hn hsub hn2]
          obtain ⟨es1, htr, -⟩ := xts_crypt_rest_lengths env crypt_fn crypt1_fn ctx fuel
            (make_subreq req) (req.cryptlen % AES_BLOCK_SIZE)
            (skcipher_walk_virt env (make_subreq req)).2 (st.log (subreq_events env req))
          refine ⟨subreq_events env req ++ es1, ?_, fun _ => ⟨hmod, hsub.2⟩,
            fun hstat hblk hok h1 h32 hu hfuel _ _ => ?_⟩
          · rw [htr]
            simp only [State.log, List.append_assoc]
          · have hlen := subreq_cryptlen_eq req.cryptlen h16 hu hmod
            obtain ⟨pre, rest, htr2⟩ := xts_crypt_rest_tail_runs env crypt_fn crypt1_fn ctx fuel
              (make_subreq req) (req.cryptlen % AES_BLOCK_SIZE)
              (skcipher_walk_virt env (make_subreq req)).2 (st.log (subreq_events env req))
              hstat hblk hok h1 hsub.1
              (by show 0 < subreq_cryptlen req.cryptlen; omega)
              (by show subreq_cryptlen req.cryptlen ≤ fuel; omega)
              (by simp [skcipher_walk_virt, skcipher_walk_next, hstat _ _])
            have hsame := List.append_cancel_left (htr.symm.trans htr2)
            rw [hsame]
            simp [Event.is_tail]
      · rw [xts_crypt_common_eq_nosub env crypt_fn crypt1_fn ctx fuel req st h16 hn hsub]
        obtain ⟨es, htr, hes⟩ := xts_crypt_rest_no_tail env crypt_fn crypt1_fn ctx fuel
          req (skcipher_walk_virt env req).2
          (st.log [Event.walk_virt req (skcipher_walk_virt env req).1
            (skcipher_walk_virt env req).2.nbytes])
        have hnone : (Event.walk_virt req (skcipher_walk_virt env req).1
            (skcipher_walk_virt env req).2.nbytes :: es).any Event.is_tail = false := by
          simp only [List.any_cons, Event.is_tail, Bool.false_or]
          exact hes
        refine ⟨Event.walk_virt req (skcipher_walk_virt env req).1
            (skcipher_walk_virt env req).2.nbytes :: es, ?_, fun h => ?_,
            fun _ _ _ _ _ _ _ hm hc => ?_⟩
        · rw [htr]
          simp only [State.log, List.append_assoc, List.singleton_append]
        · rw [hnone] at h
          cases h
        · exact absurd ⟨by unfold AES_BLOCK_SIZE; omega, hc⟩ hsub
  · have hs : req.cryptlen < AES_BLOCK_SIZE := by unfold AES_BLOCK_SIZE; omega
    refine ⟨[], ?_, fun h => ?_, fun _ _ _ _ h32 _ _ _ _ => ?_⟩
    · simp [xts_crypt_common, hs]
    · simp at h
    · omega

/-- Witness for C16: 100 bytes offered in chunks of 48 bytes; the tail step runs. -/
theorem xts_crypt_common_tail_step_iff_witness :
    (∃ es, (xts_crypt_common stride_env toy_enc toy_crypt1 toy_ctx 100 (toy_req 100)
        (toy_state (List.replicate 100 9) 100)).st.trace
          = (toy_state (List.replicate 100 9) 100).trace ++ es ∧
      (es.any Event.is_tail = true →
        (toy_req 100).cryptlen % 16 ≠ 0 ∧
        (skcipher_walk_virt stride_env (toy_req 100)).2.nbytes
          < (skcipher_walk_virt stride_env (toy_req 100)).2.total) ∧
      (stride_env.never_fails → stride_env.block_chunks →
        NeverFails toy_enc toy_ctx.crypt_ctx →
        (toy_crypt1 toy_ctx.tweak_ctx (toy_state (List.replicate 100 9) 100).iv).1 = 0 →
        32 ≤ (toy_req 100).cryptlen → (toy_req 100).cryptlen < 4294967296 →
        (toy_req 100).cryptlen ≤ 100 →
        (toy_req 100).cryptlen % 16 ≠ 0 →
        (skcipher_walk_virt stride_env (toy_req 100)).2.nbytes
          < (skcipher_walk_virt stride_env (toy_req 100)).2.total →
        es.any Event.is_tail = true)) ∧
    (xts_crypt_common stride_env toy_enc toy_crypt1 toy_ctx 100 (toy_req 100)
        (toy_state (List.replicate 100 9) 100)).st.trace.any Event.is_tail = true :=
  ⟨xts_crypt_common_tail_step_iff stride_env toy_enc toy_crypt1 toy_ctx 100 (toy_req 100)
    (toy_state (List.replicate 100 9) 100), by decide⟩

/-- Counterexample to C16 as stated: a 20-byte request offered as one chunk has
a non-zero tail of 4 bytes; the run succeeds and no tail step is executed. -/
theorem xts_crypt_common_tail_step_iff_cex :
    (toy_req 20).cryptlen % 16 ≠ 0 ∧
    (xts_crypt_common stride_env toy_enc toy_crypt1 toy_ctx 8 (toy_req 20)
        (toy_state (List.replicate 20 1) 20)).ret = some 0 ∧
    (xts_crypt_common stride_env toy_enc toy_crypt1 toy_ctx 8 (toy_req 20)
        (toy_state (List.replicate 20 1) 20)).st.trace.any Event.is_tail = false ∧
    (xts_crypt_common stride_env toy_enc toy_crypt1 toy_ctx 8 (toy_req 20)
        (toy_state (List.replicate 20 1) 20)).st.trace.any Event.is_stealing = false := by
  refine ⟨?_, ?_, ?_, ?_⟩ <;> decide

/-! ## xts_crypt_common: the region of the tail step -/

/-- A walk over fewer than two blocks that starts without error and is offered
as a single chunk offers all its bytes. -/
theorem tail_walk_nbytes (env : WalkEnv) (req : skcipher_request) (tail : Nat)
    (hshort : env.short_whole) (htail : tail < 16)
    (hv : (skcipher_walk_virt env (tail_subreq req tail)).1 = 0) :
    (skcipher_walk_virt env (tail_subreq req tail)).2.nbytes = 16 + tail := by
  have hs : env.status (tail_subreq req tail).src.off (tail_subreq req tail).cryptlen = 0 := hv
  have hc := hshort (tail_subreq req tail).src.off (16 + tail) (by omega)
  simp only [skcipher_walk_virt, skcipher_walk_next, hs, if_true]
  simp only [tail_subreq, AES_BLOCK_SIZE] at hc ⊢
  omega

/-- Shape of the tail step: the forwarding of the handles and the set-up, the
walk of the tail request, then the one call, which is over one block plus the
tail when the walk offers fewer than two blocks as a single chunk. -/
theorem xts_tail_step_shape {K : Type} (env : WalkEnv) (crypt_fn : CryptFn K)
    (ctx : aes_xts_ctx K) (req : skcipher_request) (tail : Nat) (st : State) :
    ∃ post, (xts_tail_step env crypt_fn ctx req tail st).st.trace
        = st.trace ++ (tail_prelude req tail ++
            Event.walk_virt (tail_subreq req tail)
              (skcipher_walk_virt env (tail_subreq req tail)).1
              (skcipher_walk_virt env (tail_subreq req tail)).2.nbytes :: post) ∧
      (env.short_whole → tail < 16 →
        (skcipher_walk_virt env (tail_subreq req tail)).1 = 0 →
        crypt_src_ranges post = [((tail_subreq req tail).src.off, 16 + tail)] ∧
        crypt_dst_ranges post = [((tail_subreq req tail).dst.off, 16 + tail)]) := by
  refine ⟨_, xts_tail_step_events env crypt_fn ctx req tail st, ?_⟩
  intro hshort htail hv
  have hnb := tail_walk_nbytes env req tail hshort htail hv
  have hsrc : (skcipher_walk_virt env (tail_subreq req tail)).2.src
      = (tail_subreq req tail).src := rfl
  have hdst : (skcipher_walk_virt env (tail_subreq req tail)).2.dst
      = (tail_subreq req tail).dst := rfl
  rw [if_neg (not_not.mpr hv), hnb, hsrc, hdst]
  by_cases hc : (crypt_fn ctx.crypt_ctx
      (load st.mem (tail_subreq req tail).src (16 + tail)) st.iv).1 = 0
  · simp [hc, crypt_src_ranges, crypt_dst_ranges]
  · simp [hc, crypt_src_ranges, crypt_dst_ranges]

/-- Shape of a run that reaches the tail step: the events before it are those of
the tweak initialisation and of the main loop, which consumed the whole walk
when every chunk but the last holds a block; then come the forwarding of the
handles, the set-up and the walk of the tail request, and the one call. -/
theorem xts_crypt_rest_tail_shape {K : Type} (env : WalkEnv) (crypt_fn : CryptFn K)
    (crypt1_fn : Crypt1Fn K) (ctx : aes_xts_ctx K) (fuel : Nat) (req : skcipher_request)
    (tail : Nat) (walk : skcipher_walk) (st : State)
    (hle : walk.nbytes ≤ walk.total) (hw : 0 < walk.nbytes) :
    ∃ es, (xts_crypt_rest env crypt_fn crypt1_fn ctx fuel req tail walk st).st.trace
        = st.trace ++ es ∧
      (es.any Event.is_tail = true →
        ∃ pre post, es = pre ++ (tail_prelude req tail ++
            Event.walk_virt (tail_subreq req tail)
              (skcipher_walk_virt env (tail_subreq req tail)).1
              (skcipher_walk_virt env (tail_subreq req tail)).2.nbytes :: post) ∧
          pre.any Event.is_tail = false ∧
          (env.block_chunks →
            chained walk.src.off (crypt_src_ranges pre) (walk.src.off + walk.total) ∧
            chained walk.dst.off (crypt_dst_ranges pre) (walk.dst.off + walk.total)) ∧
          (env.short_whole → tail < 16 →
            (skcipher_walk_virt env (tail_subreq req tail)).1 = 0 →
            crypt_src_ranges post = [((tail_subreq req tail).src.off, 16 + tail)] ∧
            crypt_dst_ranges post = [((tail_subreq req tail).dst.off, 16 + tail)])) := by
  rw [xts_crypt_rest_eq]
  by_cases ht : (crypt1_fn ctx.tweak_ctx st.iv).1 = 0
  · rw [if_neg (not_not.mpr ht)]
    obtain ⟨es, htr, hes⟩ := xts_walk_loop_all env crypt_fn ctx (fun x => x.is_tail = false)
      (fun _ _ _ _ _ => rfl) rfl rfl (fun _ _ _ => rfl) fuel walk 0
      { mem := st.mem, iv := (crypt1_fn ctx.tweak_ctx st.iv).2,
        trace := st.trace ++ [Event.fpu_begin, Event.crypt1 KeySel.tweak st.iv 0] }
    have hcov := xts_walk_loop_covers env crypt_fn ctx
    rcases hl : xts_walk_loop env crypt_fn ctx fuel walk 0
      { mem := st.mem, iv := (crypt1_fn ctx.tweak_ctx st.iv).2,
        trace := st.trace ++ [Event.fpu_begin, Event.crypt1 KeySel.tweak st.iv 0] }
      with ⟨exit, st1⟩
    rw [hl] at htr
    simp only at htr
    have hpre : st1.trace = st.trace ++ (Event.fpu_begin ::
        Event.crypt1 KeySel.tweak st.iv 0 :: es) := by
      rw [htr]
      simp only [List.append_assoc, List.cons_append, List.nil_append]
    have hnone : (Event.fpu_begin :: Event.crypt1 KeySel.tweak st.iv 0 :: es).any Event.is_tail
        = false := by
      simp only [List.any_cons, Event.is_tail, Bool.false_or]
      rw [List.any_eq_false]
      intro x hx
      simp [hes x hx]
    cases exit with
    | exhausted => exact ⟨_, hpre, fun h => by rw [hnone] at h; cases h⟩
    | returned e => exact ⟨_, hpre, fun h => by rw [hnone] at h; cases h⟩
    | finished e =>
      by_cases htl : tail > 0 ∧ e = 0
      · simp only [htl, and_self, if_true]
        obtain ⟨-, rfl⟩ := htl
        obtain ⟨post, htr2, hpost⟩ := xts_tail_step_shape env crypt_fn ctx req tail st1
        refine ⟨(Event.fpu_begin :: Event.crypt1 KeySel.tweak st.iv 0 :: es) ++
          (tail_prelude req tail ++
            Event.walk_virt (tail_subreq req tail)
              (skcipher_walk_virt env (tail_subreq req tail)).1
              (skcipher_walk_virt env (tail_subreq req tail)).2.nbytes :: post), ?_, ?_⟩
        · rw [htr2, hpre, List.append_assoc]
        · intro _
          refine ⟨Event.fpu_begin :: Event.crypt1 KeySel.tweak st.iv 0 :: es, post, rfl, hnone,
            ?_, hpost⟩
          intro hblk
          obtain ⟨es1, htr1, hc1, hc2⟩ := hcov hblk fuel walk 0
            { mem := st.mem, iv := (crypt1_fn ctx.tweak_ctx st.iv).2,
              trace := st.trace ++ [Event.fpu_begin, Event.crypt1 KeySel.tweak st.iv 0] }
            hle (by intro h; omega) (by rw [hl])
          rw [hl] at htr1
          have hsame : es1 = es := List.append_cancel_left (htr1.symm.trans htr)
          rw [hsame] at hc1 hc2
          exact ⟨by simpa [crypt_src_ranges] using hc1,
            by simpa [crypt_dst_ranges] using hc2⟩
      · simp only [htl, if_false]
        exact ⟨_, hpre, fun h => by rw [hnone] at h; cases h⟩
  · rw [if_pos ht]
    exact ⟨_, rfl, fun h => by simp [Event.is_tail] at h⟩

/-- The request of the tail step, set up from the sub-request: both handles are
those of the original request advanced by `cryptlen - 16 - tail` bytes, the
destination is the source exactly when it was in the original request, the
length is one block plus the tail, and the region ends where the original
request ends. -/
theorem tail_subreq_region (req : skcipher_request) (h16 : 16 ≤ req.cryptlen)
    (hu : req.cryptlen < 4294967296) (hmod : req.cryptlen % 16 ≠ 0) :
    (tail_subreq (make_subreq req) (req.cryptlen % 16)).src
      = scatterwalk_ffwd req.src (req.cryptlen - 16 - req.cryptlen % 16) ∧
    (tail_subreq (make_subreq req) (req.cryptlen % 16)).dst
      = scatterwalk_ffwd req.dst (req.cryptlen - 16 - req.cryptlen % 16) ∧
    ((tail_subreq (make_subreq req) (req.cryptlen % 16)).dst
        = (tail_subreq (make_subreq req) (req.cryptlen % 16)).src ↔ req.dst = req.src) ∧
    (tail_subreq (make_subreq req) (req.cryptlen % 16)).cryptlen = 16 + req.cryptlen % 16 ∧
    (tail_subreq (make_subreq req) (req.cryptlen % 16)).src.off
      + (tail_subreq (make_subreq req) (req.cryptlen % 16)).cryptlen
      = req.src.off + req.cryptlen ∧
    (tail_subreq (make_subreq req) (req.cryptlen % 16)).dst.off
      + (tail_subreq (make_subreq req) (req.cryptlen % 16)).cryptlen
      = req.dst.off + req.cryptlen := by
  have hlen := subreq_cryptlen_eq req.cryptlen h16 hu hmod
  have hl2 : req.cryptlen - req.cryptlen % 16 - 16 = req.cryptlen - 16 - req.cryptlen % 16 := by
    omega
  rw [hl2] at hlen
  clear hl2
  obtain ⟨⟨sb, so, sh⟩, ⟨db, d0, dh⟩, len⟩ := req
  simp only at h16 hu hmod hlen ⊢
  by_cases ha : (⟨db, d0, dh⟩ : scatterlist) = ⟨sb, so, sh⟩
  · simp only [tail_subreq, make_subreq, hlen, ha, scatterwalk_ffwd, AES_BLOCK_SIZE,
      ne_eq, not_true_eq_false, if_false, true_and, and_true]
    simp only [scatterlist.mk.injEq] at ha
    obtain ⟨rfl, rfl, rfl⟩ := ha
    exact ⟨rfl, by omega, by omega⟩
  · simp only [tail_subreq, make_subreq, hlen, ha, scatterwalk_ffwd, AES_BLOCK_SIZE,
      ne_eq, not_false_eq_true, if_true, true_and, iff_false]
    simp only [scatterlist.mk.injEq] at ha ⊢
    omega

/-- What the tail step logs before its walk, set up from the sub-request: the
source handle is forwarded, the destination handle too exactly when
`req->dst != req->src`, a comparison of the two pointers, and the request is
set on the forwarded handles. -/
theorem tail_prelude_make_subreq (req : skcipher_request) (h16 : 16 ≤ req.cryptlen)
    (hu : req.cryptlen < 4294967296) (hmod : req.cryptlen % 16 ≠ 0) :
    (req.dst = req.src →
      tail_prelude (make_subreq req) (req.cryptlen % 16)
        = [Event.ffwd req.src (req.cryptlen - 16 - req.cryptlen % 16),
           Event.set_crypt (scatterwalk_ffwd req.src (req.cryptlen - 16 - req.cryptlen % 16))
             (scatterwalk_ffwd req.src (req.cryptlen - 16 - req.cryptlen % 16))
             (16 + req.cryptlen % 16)]) ∧
    (req.dst ≠ req.src →
      tail_prelude (make_subreq req) (req.cryptlen % 16)
        = [Event.ffwd req.src (req.cryptlen - 16 - req.cryptlen % 16),
           Event.ffwd req.dst (req.cryptlen - 16 - req.cryptlen % 16),
           Event.set_crypt (scatterwalk_ffwd req.src (req.cryptlen - 16 - req.cryptlen % 16))
             (scatterwalk_ffwd req.dst (req.cryptlen - 16 - req.cryptlen % 16))
             (16 + req.cryptlen % 16)]) := by
  have hlen := subreq_cryptlen_eq req.cryptlen h16 hu hmod
  have hl2 : req.cryptlen - req.cryptlen % 16 - 16 = req.cryptlen - 16 - req.cryptlen % 16 := by
    omega
  rw [hl2] at hlen
  constructor
  · intro h
    simp only [tail_prelude, tail_subreq, make_subreq, hlen, h, ne_eq, not_true_eq_false,
      if_false, List.nil_append, AES_BLOCK_SIZE]
  · intro h
    simp only [tail_prelude, tail_subreq, make_subreq, hlen, ne_eq, h, not_false_eq_true,
      if_true, List.singleton_append, AES_BLOCK_SIZE]

/-- C18, amended: whenever the tail step of `xts_crypt_common` runs, for a
32-bit length, the tail is non-zero and the request the step sets up and walks is
the last `16 + tail` bytes of the original request: source and destination are
those of the original request advanced by `cryptlen - 16 - tail` bytes, the
destination is the source exactly when it was in the original request, and the
length is `16 + tail`. The step forwards the source handle and, exactly when
`req->dst` and `req->src` are different pointers (two lists, be it over the
same memory), the destination handle as well. The `cryptlen - 16 - tail` bytes
before it are exactly what the main loop consumed when every chunk of the walk
but the last holds at least one block, and the one call of the step is over all
`16 + tail` bytes when a walk over fewer than two blocks is offered as a single
chunk; the call is over the bytes the walk of the step offers, which may be
fewer otherwise. -/
theorem xts_crypt_common_tail_region {K : Type} (env : WalkEnv) (crypt_fn : CryptFn K)
    (crypt1_fn : Crypt1Fn K) (ctx : aes_xts_ctx K) (fuel : Nat) (req : skcipher_request)
    (st : State) (hu : req.cryptlen < 4294967296) :
    ∃ es, (xts_crypt_common env crypt_fn crypt1_fn ctx fuel req st).st.trace = st.trace ++ es ∧
      (es.any Event.is_tail = true →
        req.cryptlen % 16 ≠ 0 ∧
        (tail_subreq (make_subreq req) (req.cryptlen % 16)).src
          = scatterwalk_ffwd req.src (req.cryptlen - 16 - req.cryptlen % 16) ∧
        (tail_subreq (make_subreq req) (req.cryptlen % 16)).dst
          = scatterwalk_ffwd req.dst (req.cryptlen - 16 - req.cryptlen % 16) ∧
        ((tail_subreq (make_subreq req) (req.cryptlen % 16)).dst
            = (tail_subreq (make_subreq req) (req.cryptlen % 16)).src ↔ req.dst = req.src) ∧
        (tail_subreq (make_subreq req) (req.cryptlen % 16)).cryptlen
          = 16 + req.cryptlen % 16 ∧
        (tail_subreq (make_subreq req) (req.cryptlen % 16)).src.off
          + (tail_subreq (make_subreq req) (req.cryptlen % 16)).cryptlen
          = req.src.off + req.cryptlen ∧
        (req.dst = req.src →
          tail_prelude (make_subreq req) (req.cryptlen % 16)
            = [Event.ffwd req.src (req.cryptlen - 16 - req.cryptlen % 16),
               Event.set_crypt
                 (scatterwalk_ffwd req.src (req.cryptlen - 16 - req.cryptlen % 16))
                 (scatterwalk_ffwd req.src (req.cryptlen - 16 - req.cryptlen % 16))
                 (16 + req.cryptlen % 16)]) ∧
        (req.dst ≠ req.src →
          tail_prelude (make_subreq req) (req.cryptlen % 16)
            = [Event.ffwd req.src (req.cryptlen - 16 - req.cryptlen % 16),
               Event.ffwd req.dst (req.cryptlen - 16 - req.cryptlen % 16),
               Event.set_crypt
                 (scatterwalk_ffwd req.src (req.cryptlen - 16 - req.cryptlen % 16))
                 (scatterwalk_ffwd req.dst (req.cryptlen - 16 - req.cryptlen % 16))
                 (16 + req.cryptlen % 16)]) ∧
        ∃ pre post,
          es = pre ++ (tail_prelude (make_subreq req) (req.cryptlen % 16) ++
            Event.walk_virt (tail_subreq (make_subreq req) (req.cryptlen % 16))
              (skcipher_walk_virt env
                (tail_subreq (make_subreq req) (req.cryptlen % 16))).1
              (skcipher_walk_virt env
                (tail_subreq (make_subreq req) (req.cryptlen % 16))).2.nbytes :: post) ∧
          pre.any Event.is_tail = false ∧
          (env.block_chunks →
            chained req.src.off (crypt_src_ranges pre)
              (req.src.off + (req.cryptlen - 16 - req.cryptlen % 16)) ∧
            chained req.dst.off (crypt_dst_ranges pre)
              (req.dst.off + (req.cryptlen - 16 - req.cryptlen % 16))) ∧
          (env.short_whole →
            (skcipher_walk_virt env
              (tail_subreq (make_subreq req) (req.cryptlen % 16))).1 = 0 →
            crypt_src_ranges post
              = [(req.src.off + (req.cryptlen - 16 - req.cryptlen % 16),
                  16 + req.cryptlen % 16)] ∧
            crypt_dst_ranges post
              = [(req.dst.off + (req.cryptlen - 16 - req.cryptlen % 16),
                  16 + req.cryptlen % 16)])) := by
  by_cases h16 : 16 ≤ req.cryptlen
  · by_cases hn : (skcipher_walk_virt env req).2.nbytes = 0
    · rw [xts_crypt_common_eq_empty env crypt_fn crypt1_fn ctx fuel req st h16 hn]
      exact ⟨_, rfl, fun h => by simp [Event.is_tail] at h⟩
    · by_cases hsub : req.cryptlen % AES_BLOCK_SIZE > 0 ∧
          (skcipher_walk_virt env req).2.nbytes < (skcipher_walk_virt env req).2.total
      · have hmod : req.cryptlen % 16 ≠ 0 := by
          have := hsub.1
          unfold AES_BLOCK_SIZE at this
          omega
        by_cases hn2 : (skcipher_walk_virt env (make_subreq req)).2.nbytes = 0
        · rw [xts_crypt_common_eq_sub_empty env crypt_fn crypt1_fn ctx fuel req st h16 hn hsub hn2]
          exact ⟨_, rfl, fun h => by simp [subreq_events, Event.is_tail] at h⟩
        · rw [xts_crypt_common_eq_sub env crypt_fn crypt1_fn ctx fuel req st h16 hn hsub hn2]
          obtain ⟨es, htr, hes⟩ := xts_crypt_rest_tail_shape env crypt_fn crypt1_fn ctx fuel
            (make_subreq req) (req.cryptlen % AES_BLOCK_SIZE)
            (skcipher_walk_virt env (make_subreq req)).2 (st.log (subreq_events env req))
            (skcipher_walk_next_le _ _ _ _) (by omega)
          have hlen := subreq_cryptlen_eq req.cryptlen h16 hu hmod
          obtain ⟨r1, r2, r3, r4, r5, r6⟩ := tail_subreq_region req h16 hu hmod
          refine ⟨subreq_events env req ++ es, ?_, fun h => ?_⟩
          · rw [htr]
            simp only [State.log, List.append_assoc]
          · have hes2 : es.any Event.is_tail = true := by
              simpa [subreq_events, Event.is_tail] using h
            obtain ⟨pre, post, hsplit, hpre, hcov, hcall⟩ := hes hes2
            refine ⟨hmod, r1, r2, r3, r4, r5, (tail_prelude_make_subreq req h16 hu hmod).1,
              (tail_prelude_make_subreq req h16 hu hmod).2,
              subreq_events env req ++ pre, post, ?_, ?_, ?_, ?_⟩
            · rw [hsplit, List.append_assoc]
              rfl
            · simpa [subreq_events, Event.is_tail] using hpre
            · intro hblk
              obtain ⟨c1, c2⟩ := hcov hblk
              have ht : (skcipher_walk_virt env (make_subreq req)).2.total
                  = req.cryptlen - 16 - req.cryptlen % 16 := by
                show subreq_cryptlen req.cryptlen = _
                omega
              rw [ht] at c1 c2
              constructor
              · rw [crypt_src_ranges_append]
                simpa [subreq_events, crypt_src_ranges] using c1
              · rw [crypt_dst_ranges_append]
                simpa [subreq_events, crypt_dst_ranges] using c2
            · intro hshort hv
              obtain ⟨c1, c2⟩ := hcall hshort (Nat.mod_lt _ (by decide)) hv
              have e1 : (tail_subreq (make_subreq req) (req.cryptlen % 16)).src.off
                  = req.src.off + (req.cryptlen - 16 - req.cryptlen % 16) := by
                rw [r1]
                rfl
              have e2 : (tail_subreq (make_subreq req) (req.cryptlen % 16)).dst.off
                  = req.dst.off + (req.cryptlen - 16 - req.cryptlen % 16) := by
                rw [r2]
                rfl
              rw [← e1, ← e2]
              exact ⟨c1, c2⟩
      · rw [xts_crypt_common_eq_nosub env crypt_fn crypt1_fn ctx fuel req st h16 hn hsub]
        obtain ⟨es, htr, hes⟩ := xts_crypt_rest_no_tail env crypt_fn crypt1_fn ctx fuel
          req (skcipher_walk_virt env req).2
          (st.log [Event.walk_virt req (skcipher_walk_virt env req).1
            (skcipher_walk_virt env req).2.nbytes])
        refine ⟨Event.walk_virt req (skcipher_walk_virt env req).1
            (skcipher_walk_virt env req).2.nbytes :: es, ?_, fun h => ?_⟩
        · rw [htr]
          simp only [State.log, List.append_assoc, List.singleton_append]
        · simp only [List.any_cons, Event.is_tail, Bool.false_or] at h
          rw [hes] at h
          cases h
  · have hs : req.cryptlen < AES_BLOCK_SIZE := by unfold AES_BLOCK_SIZE; omega
    refine ⟨[], ?_, fun h => ?_⟩
    · simp [xts_crypt_common, hs]
    · simp at h

/-- Two lists over the same memory: 100 bytes of buffer 0, processed in place
through two different list pointers and offered in chunks of 48 bytes. The tail
step forwards the source handle and the destination handle, one call each, and
its call is over the last 20 bytes. A request whose destination is the source
pointer has a single forwarding. -/
theorem xts_tail_step_two_lists :
    (two_list_req 100).dst ≠ (two_list_req 100).src ∧
    (two_list_req 100).dst.buf = (two_list_req 100).src.buf ∧
    (two_list_req 100).dst.off = (two_list_req 100).src.off ∧
    (xts_crypt_common stride_env toy_enc toy_crypt1 toy_ctx 100 (two_list_req 100)
        (toy_state (List.replicate 100 9) 100)).ret = some 0 ∧
    (xts_crypt_common stride_env toy_enc toy_crypt1 toy_ctx 100 (two_list_req 100)
        (toy_state (List.replicate 100 9) 100)).st.trace.filter
          (fun e => match e with
            | Event.ffwd _ _ => true
            | _ => false)
      = [Event.ffwd { buf := 0, off := 0 } 80, Event.ffwd { buf := 0, off := 0, head := 1 } 80] ∧
    (xts_crypt_common stride_env toy_enc toy_crypt1 toy_ctx 100
        { src := { buf := 0, off := 0 }, dst := { buf := 0, off := 0 }, cryptlen := 100 }
        (toy_state (List.replicate 100 9) 100)).st.trace.filter
          (fun e => match e with
            | Event.ffwd _ _ => true
            | _ => false)
      = [Event.ffwd { buf := 0, off := 0 } 80] ∧
    crypt_dst_ranges (xts_crypt_common stride_env toy_enc toy_crypt1 toy_ctx 100
        (two_list_req 100) (toy_state (List.replicate 100 9) 100)).st.trace
      = [(0, 48), (48, 32), (80, 20)] := by
  refine ⟨?_, ?_, ?_, ?_, ?_, ?_, ?_⟩ <;> decide

/-- Witness for C18: 100 bytes offered in chunks of 48 bytes. The tail step runs
on the last 20 bytes, after the main loop consumed 80. -/
theorem xts_crypt_common_tail_region_witness :
    (toy_req 100).cryptlen < 4294967296 ∧
    (∃ es, (xts_crypt_common stride_env toy_enc toy_crypt1 toy_ctx 100 (toy_req 100)
        (toy_state (List.replicate 100 9) 100)).st.trace
          = (toy_state (List.replicate 100 9) 100).trace ++ es ∧
      (es.any Event.is_tail = true →
        (toy_req 100).cryptlen % 16 ≠ 0 ∧
        (tail_subreq (make_subreq (toy_req 100)) ((toy_req 100).cryptlen % 16)).src
          = scatterwalk_ffwd (toy_req 100).src 80 ∧
        (tail_subreq (make_subreq (toy_req 100)) ((toy_req 100).cryptlen % 16)).dst
          = scatterwalk_ffwd (toy_req 100).dst 80)) ∧
    (xts_crypt_common stride_env toy_enc toy_crypt1 toy_ctx 100 (toy_req 100)
        (toy_state (List.replicate 100 9) 100)).st.trace.any Event.is_tail = true ∧
    crypt_src_ranges (xts_crypt_common stride_env toy_enc toy_crypt1 toy_ctx 100 (toy_req 100)
        (toy_state (List.replicate 100 9) 100)).st.trace = [(0, 48), (48, 32), (80, 20)] := by
  refine ⟨by decide, ?_, by decide, by decide⟩
  obtain ⟨es, h1, h2⟩ := xts_crypt_common_tail_region stride_env toy_enc toy_crypt1 toy_ctx 100
    (toy_req 100) (toy_state (List.replicate 100 9) 100) (by decide)
  exact ⟨es, h1, fun h => ⟨(h2 h).1, (h2 h).2.1, (h2 h).2.2.1⟩⟩

/-- Counterexample to C18 as stated: 50 bytes cut every 16 bytes. The main loop
consumes 32 bytes and the tail step is set up over the last 18 bytes, but its
walk offers 16 bytes and the one call of the step is over these 16 bytes: the
run returns 0 and the last 2 bytes of the request were handed to no call. -/
theorem xts_crypt_common_tail_region_cex :
    (xts_crypt_common (cut_env 16) toy_enc toy_crypt1 toy_ctx 50 (toy_req 50)
        (toy_state (List.replicate 50 1) 50)).ret = some 0 ∧
    (xts_crypt_common (cut_env 16) toy_enc toy_crypt1 toy_ctx 50 (toy_req 50)
        (toy_state (List.replicate 50 1) 50)).st.trace.any Event.is_tail = true ∧
    (tail_subreq (make_subreq (toy_req 50)) 2).cryptlen = 18 ∧
    crypt_src_ranges (xts_crypt_common (cut_env 16) toy_enc toy_crypt1 toy_ctx 50 (toy_req 50)
        (toy_state (List.replicate 50 1) 50)).st.trace = [(0, 16), (16, 16), (32, 16)] ∧
    crypt_dst_ranges (xts_crypt_common (cut_env 16) toy_enc toy_crypt1 toy_ctx 50 (toy_req 50)
        (toy_state (List.replicate 50 1) 50)).st.trace = [(0, 16), (16, 16), (32, 16)] := by
  refine ⟨?_, ?_, ?_, ?_, ?_⟩ <;> decide

/-! ## xts_crypt_common: tweak sensitivity -/

theorem walk_check_append (a b : List Event) (s : UnitState) :
    walk_check s (a ++ b) = (walk_check s a).bind (fun s1 => walk_check s1 b) := by
  induction a generalizing s with
  | nil => simp [walk_check]
  | cons x xs ih =>
    cases x <;> cases s <;> simp [walk_check, ih]

theorem walk_check_append_of {a b : List Event} {s t : UnitState} {r : Option UnitState}
    (ha : walk_check s a = some t) (hb : walk_check t b = r) :
    walk_check s (a ++ b) = r := by
  rw [walk_check_append, ha]
  simpa using hb

/-- The main loop and the walk: entered with the unit freshly acquired when a
chunk is pending (released otherwise), it leaves the unit released, or freshly
acquired when the bound on the iterations ran out. -/
theorem xts_walk_loop_walk_check {K : Type} (env : WalkEnv) (crypt_fn : CryptFn K)
    (ctx : aes_xts_ctx K) :
    ∀ (fuel : Nat) (walk : skcipher_walk) (err : Int) (st : State),
      ∃ es, (xts_walk_loop env crypt_fn ctx fuel walk err st).2.trace = st.trace ++ es ∧
        walk_check (if 0 < walk.nbytes then UnitState.fresh else UnitState.free) es
          = some (if (xts_walk_loop env crypt_fn ctx fuel walk err st).1 = LoopExit.exhausted
              then UnitState.fresh else UnitState.free) := by
  intro fuel
  induction fuel with
  | zero =>
    intro walk err st
    by_cases hn : 0 < walk.nbytes
    · refine ⟨[], ?_, ?_⟩ <;> simp [xts_walk_loop, hn, walk_check]
    · refine ⟨[], ?_, ?_⟩ <;> simp [xts_walk_loop, hn, walk_check]
  | succ fuel ih =>
    intro walk err st
    by_cases hn : 0 < walk.nbytes
    · by_cases hr : (xts_crypt_chunk crypt_fn ctx walk (loop_nbytes walk) st).1 = 0
      · rw [xts_walk_loop_succ_ok env crypt_fn ctx fuel walk err st hn hr]
        obtain ⟨es, htr, hes⟩ := ih
          (xts_walk_advance env walk (walk.nbytes - loop_nbytes walk)
            (xts_crypt_chunk crypt_fn ctx walk (loop_nbytes walk) st).2).1.2
          (xts_walk_advance env walk (walk.nbytes - loop_nbytes walk)
            (xts_crypt_chunk crypt_fn ctx walk (loop_nbytes walk) st).2).1.1
          (xts_walk_advance env walk (walk.nbytes - loop_nbytes walk)
            (xts_crypt_chunk crypt_fn ctx walk (loop_nbytes walk) st).2).2
        rw [xts_walk_advance_trace, xts_crypt_chunk_trace] at htr
        refine ⟨_, htr.trans (by rw [List.append_assoc, List.append_assoc]), ?_⟩
        rw [if_pos hn]
        refine walk_check_append_of (t := UnitState.free) (by simp [walk_check]) ?_
        refine walk_check_append_of ?_ hes
        by_cases hp : 0 < (xts_walk_advance env walk (walk.nbytes - loop_nbytes walk)
            (xts_crypt_chunk crypt_fn ctx walk (loop_nbytes walk) st).2).1.2.nbytes
        · simp [hp, walk_check]
        · simp [hp, walk_check]
      · rw [xts_walk_loop_succ_fail env crypt_fn ctx fuel walk err st hn hr]
        refine ⟨_, xts_crypt_chunk_trace _ _ _ _ _, ?_⟩
        simp [hn, walk_check]
    · rw [xts_walk_loop_idle env crypt_fn ctx _ walk err st hn]
      refine ⟨[], ?_, ?_⟩ <;> simp [hn, walk_check]

theorem xts_tail_step_walk_check {K : Type} (env : WalkEnv) (crypt_fn : CryptFn K)
    (ctx : aes_xts_ctx K) (req : skcipher_request) (tail : Nat) (st : State) :
    ∃ es, (xts_tail_step env crypt_fn ctx req tail st).st.trace = st.trace ++ es ∧
      walk_check UnitState.free es = some UnitState.free := by
  refine ⟨_, xts_tail_step_events env crypt_fn ctx req tail st, ?_⟩
  have hpre : walk_check UnitState.free (tail_prelude req tail) = some UnitState.free := by
    by_cases ha : req.dst = req.src <;> simp [tail_prelude, ha, walk_check]
  refine walk_check_append_of hpre ?_
  by_cases hv : (skcipher_walk_virt env (tail_subreq req tail)).1 = 0
  · by_cases hc : (crypt_fn ctx.crypt_ctx (load st.mem
          (skcipher_walk_virt env (tail_subreq req tail)).2.src
          (skcipher_walk_virt env (tail_subreq req tail)).2.nbytes) st.iv).1 = 0
    · simp [hv, hc, walk_check]
    · simp [hv, hc, walk_check]
  · simp [hv, walk_check]

theorem xts_crypt_rest_walk_check {K : Type} (env : WalkEnv) (crypt_fn : CryptFn K)
    (crypt1_fn : Crypt1Fn K) (ctx : aes_xts_ctx K) (fuel : Nat) (req : skcipher_request)
    (tail : Nat) (walk : skcipher_walk) (st : State) (hw : 0 < walk.nbytes) :
    ∃ es, (xts_crypt_rest env crypt_fn crypt1_fn ctx fuel req tail walk st).st.trace
        = st.trace ++ es ∧
      walk_check UnitState.free es
        = some (if (xts_crypt_rest env crypt_fn crypt1_fn ctx fuel req tail walk st).ret = none
            then UnitState.fresh else UnitState.free) := by
  rw [xts_crypt_rest_eq]
  by_cases ht : (crypt1_fn ctx.tweak_ctx st.iv).1 = 0
  · rw [if_neg (not_not.mpr ht)]
    obtain ⟨es, htr, hes⟩ := xts_walk_loop_walk_check env crypt_fn ctx fuel walk 0
      { mem := st.mem, iv := (crypt1_fn ctx.tweak_ctx st.iv).2,
        trace := st.trace ++ [Event.fpu_begin, Event.crypt1 KeySel.tweak st.iv 0] }
    rw [if_pos hw] at hes
    rcases hl : xts_walk_loop env crypt_fn ctx fuel walk 0
      { mem := st.mem, iv := (crypt1_fn ctx.tweak_ctx st.iv).2,
        trace := st.trace ++ [Event.fpu_begin, Event.crypt1 KeySel.tweak st.iv 0] }
      with ⟨exit, st1⟩
    rw [hl] at htr hes
    simp only at htr hes
    have hpre : st1.trace = st.trace ++ (Event.fpu_begin ::
        Event.crypt1 KeySel.tweak st.iv 0 :: es) := by
      rw [htr]
      simp only [List.append_assoc, List.cons_append, List.nil_append]
    have hchk : walk_check UnitState.free
        (Event.fpu_begin :: Event.crypt1 KeySel.tweak st.iv 0 :: es)
        = some (if exit = LoopExit.exhausted then UnitState.fresh else UnitState.free) := by
      simpa [walk_check] using hes
    cases exit with
    | exhausted => exact ⟨_, hpre, by simpa using hchk⟩
    | returned e => exact ⟨_, hpre, by simpa using hchk⟩
    | finished e =>
      have hchk2 : walk_check UnitState.free
          (Event.fpu_begin :: Event.crypt1 KeySel.tweak st.iv 0 :: es)
          = some UnitState.free := by simpa using hchk
      by_cases htl : tail > 0 ∧ e = 0
      · simp only [htl, and_self, if_true]
        obtain ⟨es2, htr2, hes2⟩ := xts_tail_step_walk_check env crypt_fn ctx req tail st1
        have hret : (xts_tail_step env crypt_fn ctx req tail st1).ret ≠ none := by
          rw [xts_tail_step_eq]
          split
          · simp
          · split <;> simp
        refine ⟨(Event.fpu_begin :: Event.crypt1 KeySel.tweak st.iv 0 :: es) ++ es2, ?_, ?_⟩
        · rw [htr2, hpre, List.append_assoc]
        · rw [if_neg hret]
          exact walk_check_append_of hchk2 hes2
      · simp only [htl, if_false]
        exact ⟨_, hpre, by simpa using hchk2⟩
  · rw [if_pos ht]
    refine ⟨[Event.fpu_begin, Event.crypt1 KeySel.tweak st.iv (crypt1_fn ctx.tweak_ctx st.iv).1,
      Event.fpu_end], rfl, ?_⟩
    simp [walk_check]

/-- C21: in every run of `xts_crypt_common` the events pass the checker of the
cipher unit around the walk from the released state: every start, advance and
abort of the walk (the walk over the request, over the sub-request and over the
tail) happens with the unit released, and every multi-block call is made with
the unit held and no other multi-block call since it was acquired, so that
between two consecutive multi-block calls the unit is released and acquired
again. A run that returns leaves the unit released. -/
theorem xts_crypt_common_walk_released {K : Type} (env : WalkEnv) (crypt_fn : CryptFn K)
    (crypt1_fn : Crypt1Fn K) (ctx : aes_xts_ctx K) (fuel : Nat) (req : skcipher_request)
    (st : State) :
    ∃ es, (xts_crypt_common env crypt_fn crypt1_fn ctx fuel req st).st.trace = st.trace ++ es ∧
      walk_check UnitState.free es
        = some (if (xts_crypt_common env crypt_fn crypt1_fn ctx fuel req st).ret = none
            then UnitState.fresh else UnitState.free) := by
  by_cases h16 : 16 ≤ req.cryptlen
  · by_cases hn : (skcipher_walk_virt env req).2.nbytes = 0
    · rw [xts_crypt_common_eq_empty env crypt_fn crypt1_fn ctx fuel req st h16 hn]
      exact ⟨_, rfl, by simp [walk_check]⟩
    · by_cases hsub : req.cryptlen % AES_BLOCK_SIZE > 0 ∧
          (skcipher_walk_virt env req).2.nbytes < (skcipher_walk_virt env req).2.total
      · have hskip : walk_check UnitState.free (subreq_events env req) = some UnitState.free := by
          simp [walk_check, subreq_events]
        by_cases hn2 : (skcipher_walk_virt env (make_subreq req)).2.nbytes = 0
        · rw [xts_crypt_common_eq_sub_empty env crypt_fn crypt1_fn ctx fuel req st h16 hn hsub hn2]
          exact ⟨_, rfl, by simpa using hskip⟩
        · rw [xts_crypt_common_eq_sub env crypt_fn crypt1_fn ctx fuel req st h16 hn hsub hn2]
          obtain ⟨es, htr, hes⟩ := xts_crypt_rest_walk_check env crypt_fn crypt1_fn ctx fuel
            (make_subreq req) (req.cryptlen % AES_BLOCK_SIZE)
            (skcipher_walk_virt env (make_subreq req)).2 (st.log (subreq_events env req))
            (by omega)
          refine ⟨subreq_events env req ++ es, ?_, walk_check_append_of hskip hes⟩
          rw [htr]
          simp only [State.log, List.append_assoc]
      · rw [xts_crypt_common_eq_nosub env crypt_fn crypt1_fn ctx fuel req st h16 hn hsub]
        obtain ⟨es, htr, hes⟩ := xts_crypt_rest_walk_check env crypt_fn crypt1_fn ctx fuel
          req 0 (skcipher_walk_virt env req).2
          (st.log [Event.walk_virt req (skcipher_walk_virt env req).1
            (skcipher_walk_virt env req).2.nbytes]) (by omega)
        refine ⟨[Event.walk_virt req (skcipher_walk_virt env req).1
            (skcipher_walk_virt env req).2.nbytes] ++ es, ?_,
          walk_check_append_of (by simp [walk_check]) hes⟩
        rw [htr]
        simp only [State.log, List.append_assoc]
  · have hs : req.cryptlen < AES_BLOCK_SIZE := by unfold AES_BLOCK_SIZE; omega
    refine ⟨[], ?_, ?_⟩
    · simp [xts_crypt_common, hs]
    · simp [xts_crypt_common, hs, walk_check]

/-- The checker is not vacuous: a walk step while the unit is held is rejected,
and so is a second multi-block call under one acquisition. -/
theorem walk_check_rejects :
    walk_check UnitState.free [Event.fpu_begin, Event.walk_done 0 0 0] = none ∧
    walk_check UnitState.free
      [Event.fpu_begin,
       Event.crypt KeySel.crypt { buf := 0, off := 0 } { buf := 1, off := 0 } 16 [] 0,
       Event.crypt KeySel.crypt { buf := 0, off := 16 } { buf := 1, off := 16 } 16 [] 0]
      = none := by
  constructor <;> decide

/-! ## xts_crypt_common: termination -/

/-- One iteration of the main loop on a pending chunk that is the last of its
walk or holds at least one block leaves strictly fewer bytes in the walk. -/
theorem skcipher_walk_done_decreases (env : WalkEnv) (walk : skcipher_walk)
    (hn : 0 < walk.nbytes) (hle : walk.nbytes ≤ walk.total)
    (hblk : walk.nbytes < walk.total → 16 ≤ walk.nbytes) :
    (skcipher_walk_done env walk (walk.nbytes - loop_nbytes walk)).2.total < walk.total ∧
    (skcipher_walk_done env walk (walk.nbytes - loop_nbytes walk)).2.total
      = walk.total - loop_nbytes walk ∧
    0 < loop_nbytes walk := by
  have hl := loop_nbytes_le walk
  have hpos : 0 < loop_nbytes walk := by
    unfold loop_nbytes
    split
    · next h => exact Nat.lt_of_lt_of_le (by decide) (block_floor_ge (hblk h))
    · exact hn
  have htot : (skcipher_walk_done env walk (walk.nbytes - loop_nbytes walk)).2.total
      = walk.total - (walk.nbytes - (walk.nbytes - loop_nbytes walk)) := rfl
  rw [htot]
  omega

/-- With a walk in which every chunk that is not the last holds at least one
block, the main loop ends, at completion or at the first error, within as many
iterations as the walk has bytes, whatever the walk and the primitive report. -/
theorem xts_walk_loop_terminates {K : Type} (env : WalkEnv) (crypt_fn : CryptFn K)
    (ctx : aes_xts_ctx K) (hblk : env.block_chunks) :
    ∀ (fuel : Nat) (walk : skcipher_walk) (err : Int) (st : State),
      walk.total ≤ fuel →
      (walk.nbytes = 0 ∨
        walk.nbytes = min (env.chunk walk.src.off walk.total) walk.total) →
      (xts_walk_loop env crypt_fn ctx fuel walk err st).1 ≠ LoopExit.exhausted := by
  intro fuel
  induction fuel with
  | zero =>
    intro walk err st hfuel hnb
    have hn : ¬ 0 < walk.nbytes := by
      rcases hnb with h | h
      · omega
      · rw [h]
        omega
    rw [xts_walk_loop_idle env crypt_fn ctx _ walk err st hn]
    simp
  | succ fuel ih =>
    intro walk err st hfuel hnb
    by_cases hn : 0 < walk.nbytes
    · by_cases hr : (xts_crypt_chunk crypt_fn ctx walk (loop_nbytes walk) st).1 = 0
      · rw [xts_walk_loop_succ_ok env crypt_fn ctx fuel walk err st hn hr]
        obtain ⟨-, -, hadv⟩ := xts_step_state env crypt_fn ctx walk (loop_nbytes walk)
          (walk.nbytes - loop_nbytes walk) st
        have hmin : walk.nbytes = min (env.chunk walk.src.off walk.total) walk.total := by
          rcases hnb with h | h
          · omega
          · exact h
        have hc := hblk walk.src.off walk.total
        obtain ⟨hdec, -, -⟩ := skcipher_walk_done_decreases env walk hn (by rw [hmin]; omega)
          (by rw [hmin]; omega)
        rw [hadv]
        refine ih _ _ _ (by omega) ?_
        simp only [skcipher_walk_done, skcipher_walk_next]
        split
        · right
          rfl
        · left
          rfl
      · rw [xts_walk_loop_succ_fail env crypt_fn ctx fuel walk err st hn hr]
        simp
    · rw [xts_walk_loop_idle env crypt_fn ctx _ walk err st hn]
      simp

theorem xts_tail_step_returns {K : Type} (env : WalkEnv) (crypt_fn : CryptFn K)
    (ctx : aes_xts_ctx K) (req : skcipher_request) (tail : Nat) (st : State) :
    (xts_tail_step env crypt_fn ctx req tail st).ret ≠ none := by
  rw [xts_tail_step_eq]
  split
  · simp
  · split <;> simp

theorem xts_crypt_rest_terminates {K : Type} (env : WalkEnv) (crypt_fn : CryptFn K)
    (crypt1_fn : Crypt1Fn K) (ctx : aes_xts_ctx K) (fuel : Nat) (req : skcipher_request)
    (tail : Nat) (walk : skcipher_walk) (st : State) (hblk : env.block_chunks)
    (hfuel : walk.total ≤ fuel)
    (hnb : walk.nbytes = 0 ∨
      walk.nbytes = min (env.chunk walk.src.off walk.total) walk.total) :
    (xts_crypt_rest env crypt_fn crypt1_fn ctx fuel req tail walk st).ret ≠ none := by
  rw [xts_crypt_rest_eq]
  by_cases ht : (crypt1_fn ctx.tweak_ctx st.iv).1 = 0
  · rw [if_neg (not_not.mpr ht)]
    have hne := xts_walk_loop_terminates env crypt_fn ctx hblk fuel walk 0
      { mem := st.mem, iv := (crypt1_fn ctx.tweak_ctx st.iv).2,
        trace := st.trace ++ [Event.fpu_begin, Event.crypt1 KeySel.tweak st.iv 0] } hfuel hnb
    rcases hl : xts_walk_loop env crypt_fn ctx fuel walk 0
      { mem := st.mem, iv := (crypt1_fn ctx.tweak_ctx st.iv).2,
        trace := st.trace ++ [Event.fpu_begin, Event.crypt1 KeySel.tweak st.iv 0] }
      with ⟨exit, st1⟩
    rw [hl] at hne
    cases exit with
    | exhausted => exact absurd rfl hne
    | returned e => simp
    | finished e =>
      by_cases htl : tail > 0 ∧ e = 0
      · simp only [htl, and_self, if_true]
        exact xts_tail_step_returns env crypt_fn ctx req tail st1
      · simp only [htl, if_false]
        simp
  · rw [if_pos ht]
    simp

theorem skcipher_walk_virt_nbytes (env : WalkEnv) (req : skcipher_request) :
    (skcipher_walk_virt env req).2.nbytes = 0 ∨
    (skcipher_walk_virt env req).2.nbytes
      = min (env.chunk (skcipher_walk_virt env req).2.src.off
          (skcipher_walk_virt env req).2.total) (skcipher_walk_virt env req).2.total := by
  simp only [skcipher_walk_virt, skcipher_walk_next]
  split
  · right
    rfl
  · left
    rfl

/-- A main loop that ended within its bound does the same under any larger
bound. -/
theorem xts_walk_loop_fuel_mono {K : Type} (env : WalkEnv) (crypt_fn : CryptFn K)
    (ctx : aes_xts_ctx K) (k : Nat) :
    ∀ (fuel : Nat) (walk : skcipher_walk) (err : Int) (st : State),
      (xts_walk_loop env crypt_fn ctx fuel walk err st).1 ≠ LoopExit.exhausted →
      xts_walk_loop env crypt_fn ctx (fuel + k) walk err st
        = xts_walk_loop env crypt_fn ctx fuel walk err st := by
  intro fuel
  induction fuel with
  | zero =>
    intro walk err st hne
    have hn : ¬ 0 < walk.nbytes := by
      intro h
      simp [xts_walk_loop, h] at hne
    rw [xts_walk_loop_idle env crypt_fn ctx _ walk err st hn,
      xts_walk_loop_idle env crypt_fn ctx _ walk err st hn]
  | succ fuel ih =>
    intro walk err st hne
    by_cases hn : 0 < walk.nbytes
    · by_cases hr : (xts_crypt_chunk crypt_fn ctx walk (loop_nbytes walk) st).1 = 0
      · have hk : fuel + 1 + k = (fuel + k) + 1 := by omega
        rw [xts_walk_loop_succ_ok env crypt_fn ctx fuel walk err st hn hr] at hne ⊢
        rw [hk, xts_walk_loop_succ_ok env crypt_fn ctx (fuel + k) walk err st hn hr]
        exact ih _ _ _ hne
      · have hk : fuel + 1 + k = (fuel + k) + 1 := by omega
        rw [hk, xts_walk_loop_succ_fail env crypt_fn ctx (fuel + k) walk err st hn hr,
          xts_walk_loop_succ_fail env crypt_fn ctx fuel walk err st hn hr]
    · rw [xts_walk_loop_idle env crypt_fn ctx _ walk err st hn,
        xts_walk_loop_idle env crypt_fn ctx _ walk err st hn]

theorem xts_crypt_rest_fuel_mono {K : Type} (env : WalkEnv) (crypt_fn : CryptFn K)
    (crypt1_fn : Crypt1Fn K) (ctx : aes_xts_ctx K) (fuel k : Nat) (req : skcipher_request)
    (tail : Nat) (walk : skcipher_walk) (st : State) (hblk : env.block_chunks)
    (hfuel : walk.total ≤ fuel)
    (hnb : walk.nbytes = 0 ∨
      walk.nbytes = min (env.chunk walk.src.off walk.total) walk.total) :
    xts_crypt_rest env crypt_fn crypt1_fn ctx (fuel + k) req tail walk st
      = xts_crypt_rest env crypt_fn crypt1_fn ctx fuel req tail walk st := by
  rw [xts_crypt_rest_eq, xts_crypt_rest_eq,
    xts_walk_loop_fuel_mono env crypt_fn ctx k fuel walk 0 _
      (xts_walk_loop_terminates env crypt_fn ctx hblk fuel walk 0 _ hfuel hnb)]

/-- A run on a walk in which every chunk that is not the last holds at least
one block returns, and returns the same under every bound on the iterations
that is not below the length of the request. -/
theorem xts_crypt_common_returns {K : Type} (env : WalkEnv) (crypt_fn : CryptFn K)
    (crypt1_fn : Crypt1Fn K) (ctx : aes_xts_ctx K) (fuel k : Nat) (req : skcipher_request)
    (st : State) (hblk : env.block_chunks)
    (hu : req.cryptlen < 4294967296) (hfuel : req.cryptlen ≤ fuel) :
    (xts_crypt_common env crypt_fn crypt1_fn ctx fuel req st).ret ≠ none ∧
    xts_crypt_common env crypt_fn crypt1_fn ctx (fuel + k) req st
      = xts_crypt_common env crypt_fn crypt1_fn ctx fuel req st := by
  by_cases h16 : 16 ≤ req.cryptlen
  · by_cases hn : (skcipher_walk_virt env req).2.nbytes = 0
    · rw [xts_crypt_common_eq_empty env crypt_fn crypt1_fn ctx fuel req st h16 hn,
        xts_crypt_common_eq_empty env crypt_fn crypt1_fn ctx (fuel + k) req st h16 hn]
      exact ⟨by simp, rfl⟩
    · by_cases hsub : req.cryptlen % AES_BLOCK_SIZE > 0 ∧
          (skcipher_walk_virt env req).2.nbytes < (skcipher_walk_virt env req).2.total
      · have hmod : req.cryptlen % 16 ≠ 0 := by
          have := hsub.1
          unfold AES_BLOCK_SIZE at this
          omega
        have hlen := subreq_cryptlen_eq req.cryptlen h16 hu hmod
        have htot : (skcipher_walk_virt env (make_subreq req)).2.total ≤ fuel := by
          show subreq_cryptlen req.cryptlen ≤ fuel
          omega
        by_cases hn2 : (skcipher_walk_virt env (make_subreq req)).2.nbytes = 0
        · rw [xts_crypt_common_eq_sub_empty env crypt_fn crypt1_fn ctx fuel req st h16 hn hsub
            hn2, xts_crypt_common_eq_sub_empty env crypt_fn crypt1_fn ctx (fuel + k) req st h16
            hn hsub hn2]
          exact ⟨by simp, rfl⟩
        · rw [xts_crypt_common_eq_sub env crypt_fn crypt1_fn ctx fuel req st h16 hn hsub hn2,
            xts_crypt_common_eq_sub env crypt_fn crypt1_fn ctx (fuel + k) req st h16 hn hsub hn2]
          exact ⟨xts_crypt_rest_terminates env crypt_fn crypt1_fn ctx fuel _ _ _ _ hblk htot
              (skcipher_walk_virt_nbytes env _),
            xts_crypt_rest_fuel_mono env crypt_fn crypt1_fn ctx fuel k _ _ _ _ hblk htot
              (skcipher_walk_virt_nbytes env _)⟩
      · rw [xts_crypt_common_eq_nosub env crypt_fn crypt1_fn ctx fuel req st h16 hn hsub,
          xts_crypt_common_eq_nosub env crypt_fn crypt1_fn ctx (fuel + k) req st h16 hn hsub]
        exact ⟨xts_crypt_rest_terminates env crypt_fn crypt1_fn ctx fuel _ _ _ _ hblk hfuel
            (skcipher_walk_virt_nbytes env _),
          xts_crypt_rest_fuel_mono env crypt_fn crypt1_fn ctx fuel k _ _ _ _ hblk hfuel
            (skcipher_walk_virt_nbytes env _)⟩
  · have hs : req.cryptlen < AES_BLOCK_SIZE := by unfold AES_BLOCK_SIZE; omega
    simp [xts_crypt_common, hs]

/-- C22: for every request of 32-bit length and every walk in which each chunk
that is not the last of its walk holds at least one block (16 bytes),
`xts_crypt_common` terminates, whatever the walk and the primitives report: the
run returns within as many loop iterations as the request has bytes (and returns
the same under any larger bound), and each iteration of the main loop on such a
chunk strictly decreases the number of bytes remaining in the walk, by the
positive number of bytes it passed to the primitive. -/
theorem xts_crypt_common_terminates {K : Type} (env : WalkEnv) (crypt_fn : CryptFn K)
    (crypt1_fn : Crypt1Fn K) (ctx : aes_xts_ctx K) (fuel : Nat) (req : skcipher_request)
    (st : State)
    (hblk : ∀ off total, env.chunk off total < total → 16 ≤ env.chunk off total)
    (hu : req.cryptlen < 4294967296) (hfuel : req.cryptlen ≤ fuel) :
    (xts_crypt_common env crypt_fn crypt1_fn ctx fuel req st).ret ≠ none ∧
    (∀ k, xts_crypt_common env crypt_fn crypt1_fn ctx (fuel + k) req st
      = xts_crypt_common env crypt_fn crypt1_fn ctx fuel req st) ∧
    (∀ walk : skcipher_walk, 0 < walk.nbytes → walk.nbytes ≤ walk.total →
      (walk.nbytes < walk.total → 16 ≤ walk.nbytes) →
      (skcipher_walk_done env walk (walk.nbytes - loop_nbytes walk)).2.total < walk.total ∧
      (skcipher_walk_done env walk (walk.nbytes - loop_nbytes walk)).2.total
        = walk.total - loop_nbytes walk ∧
      0 < loop_nbytes walk) := by
  have hb : env.block_chunks := by
    intro off total
    by_cases h : env.chunk off total < total
    · have := hblk off total h
      omega
    · omega
  refine ⟨(xts_crypt_common_returns env crypt_fn crypt1_fn ctx fuel 0 req st hb hu hfuel).1,
    fun k => (xts_crypt_common_returns env crypt_fn crypt1_fn ctx fuel k req st hb hu hfuel).2,
    fun walk hn hle hw => skcipher_walk_done_decreases env walk hn hle hw⟩

/-- Witness for C22: 100 bytes offered in chunks of 48 bytes, with a multi-block
primitive that fails on every call. -/
theorem xts_crypt_common_terminates_witness :
    (xts_crypt_common stride_env failing_crypt toy_crypt1 toy_ctx 100 (toy_req 100)
        (toy_state (List.replicate 100 9) 100)).ret ≠ none ∧
    (xts_crypt_common stride_env failing_crypt toy_crypt1 toy_ctx 100 (toy_req 100)
        (toy_state (List.replicate 100 9) 100)).ret = some (-5) :=
  ⟨(xts_crypt_common_terminates stride_env failing_crypt toy_crypt1 toy_ctx 100 (toy_req 100)
      (toy_state (List.replicate 100 9) 100)
      (fun off total h => by
        have := stride_env_block_chunks off total
        omega)
      (by decide) (by decide)).1, by decide⟩

/-! ## xts_crypt_common: a request offered as a single chunk -/

/-- C23, amended: for every request of at least 16 bytes whose first walk chunk
covers the whole request, `xts_crypt_common` creates no sub-request and runs no
tail step; when the tweak initialisation succeeds it makes exactly one
multi-block call, from the start of the source to the start of the destination,
whose byte length is the full length of the request, any partial final block
included; when the tweak initialisation fails it makes no multi-block call and
returns the status of the failure. -/
theorem xts_crypt_common_one_call {K : Type} (env : WalkEnv) (crypt_fn : CryptFn K)
    (crypt1_fn : Crypt1Fn K) (ctx : aes_xts_ctx K) (fuel : Nat) (req : skcipher_request)
    (st : State) (h16 : 16 ≤ req.cryptlen)
    (hwhole : (skcipher_walk_virt env req).2.nbytes = (skcipher_walk_virt env req).2.total)
    (hfuel : 0 < fuel) :
    ∃ es, (xts_crypt_common env crypt_fn crypt1_fn ctx fuel req st).st.trace = st.trace ++ es ∧
      (∀ x ∈ es, x.is_stealing = false) ∧
      ((crypt1_fn ctx.tweak_ctx st.iv).1 = 0 →
        es.countP Event.is_crypt = 1 ∧
        crypt_src_ranges es = [(req.src.off, req.cryptlen)] ∧
        crypt_dst_ranges es = [(req.dst.off, req.cryptlen)]) ∧
      ((crypt1_fn ctx.tweak_ctx st.iv).1 ≠ 0 →
        es.countP Event.is_crypt = 0 ∧
        (xts_crypt_common env crypt_fn crypt1_fn ctx fuel req st).ret
          = some (crypt1_fn ctx.tweak_ctx st.iv).1) := by
  have hw : (skcipher_walk_virt env req).2.nbytes = req.cryptlen := hwhole
  obtain ⟨f, rfl⟩ : ∃ f, fuel = f + 1 := ⟨fuel - 1, by omega⟩
  by_cases h1 : (crypt1_fn ctx.tweak_ctx st.iv).1 = 0
  · obtain ⟨htr, -⟩ := xts_crypt_common_single_chunk env crypt_fn crypt1_fn ctx f req st h16 hw h1
    refine ⟨_, htr, ?_, fun _ => ?_, fun h => absurd h1 h⟩
    · intro x hx
      by_cases hc : (crypt_fn ctx.crypt_ctx (load st.mem req.src req.cryptlen)
          (crypt1_fn ctx.tweak_ctx st.iv).2).1 = 0
      · simp only [hc, ne_eq, not_true_eq_false, if_false, List.mem_cons,
          List.mem_singleton, List.not_mem_nil, or_false] at hx
        rcases hx with rfl | rfl | rfl | rfl | rfl | rfl <;> rfl
      · simp only [hc, ne_eq, not_false_eq_true, if_true, List.mem_cons,
          List.not_mem_nil, or_false] at hx
        rcases hx with rfl | rfl | rfl | rfl | rfl <;> rfl
    · by_cases hc : (crypt_fn ctx.crypt_ctx (load st.mem req.src req.cryptlen)
          (crypt1_fn ctx.tweak_ctx st.iv).2).1 = 0
      · simp [hc, crypt_src_ranges, crypt_dst_ranges, Event.is_crypt, List.countP_cons]
      · simp [hc, crypt_src_ranges, crypt_dst_ranges, Event.is_crypt, List.countP_cons]
  · have hn : (skcipher_walk_virt env req).2.nbytes ≠ 0 := by omega
    have hsub : ¬ (req.cryptlen % AES_BLOCK_SIZE > 0 ∧
        (skcipher_walk_virt env req).2.nbytes < (skcipher_walk_virt env req).2.total) := by
      rw [hwhole]
      omega
    rw [xts_crypt_common_eq_nosub env crypt_fn crypt1_fn ctx (f + 1) req st h16 hn hsub,
      xts_crypt_rest_eq, if_pos (show (crypt1_fn ctx.tweak_ctx
        (st.log [Event.walk_virt req (skcipher_walk_virt env req).1
          (skcipher_walk_virt env req).2.nbytes]).iv).1 ≠ 0 from h1)]
    refine ⟨[Event.walk_virt req (skcipher_walk_virt env req).1
        (skcipher_walk_virt env req).2.nbytes, Event.fpu_begin,
      Event.crypt1 KeySel.tweak st.iv (crypt1_fn ctx.tweak_ctx st.iv).1, Event.fpu_end],
      ?_, ?_, fun h => absurd h h1, fun _ => ⟨?_, rfl⟩⟩
    · simp [State.log]
    · intro x hx
      simp only [List.mem_cons, List.mem_singleton, List.not_mem_nil, or_false] at hx
      rcases hx with rfl | rfl | rfl | rfl <;> rfl
    · simp [Event.is_crypt, List.countP_cons]

/-- Witness for C23: a 20-byte request offered as one chunk. -/
theorem xts_crypt_common_one_call_witness :
    (∃ es, (xts_crypt_common stride_env toy_enc toy_crypt1 toy_ctx 8 (toy_req 20)
        (toy_state (List.replicate 20 1) 20)).st.trace
          = (toy_state (List.replicate 20 1) 20).trace ++ es ∧
      (∀ x ∈ es, x.is_stealing = false) ∧
      ((toy_crypt1 toy_ctx.tweak_ctx (toy_state (List.replicate 20 1) 20).iv).1 = 0 →
        es.countP Event.is_crypt = 1 ∧
        crypt_src_ranges es = [((toy_req 20).src.off, (toy_req 20).cryptlen)] ∧
        crypt_dst_ranges es = [((toy_req 20).dst.off, (toy_req 20).cryptlen)]) ∧
      ((toy_crypt1 toy_ctx.tweak_ctx (toy_state (List.replicate 20 1) 20).iv).1 ≠ 0 →
        es.countP Event.is_crypt = 0 ∧
        (xts_crypt_common stride_env toy_enc toy_crypt1 toy_ctx 8 (toy_req 20)
          (toy_state (List.replicate 20 1) 20)).ret
          = some (toy_crypt1 toy_ctx.tweak_ctx (toy_state (List.replicate 20 1) 20).iv).1)) ∧
    crypt_src_ranges (xts_crypt_common stride_env toy_enc toy_crypt1 toy_ctx 8 (toy_req 20)
        (toy_state (List.replicate 20 1) 20)).st.trace = [(0, 20)] :=
  ⟨xts_crypt_common_one_call stride_env toy_enc toy_crypt1 toy_ctx 8 (toy_req 20)
    (toy_state (List.replicate 20 1) 20) (by decide) (by decide) (by decide), by decide⟩

/-- Counterexample to C23 as stated: a 32-byte request offered as one chunk,
with a single-block primitive that fails. The run returns the failure status
after the tweak initialisation and makes no multi-block call. -/
theorem xts_crypt_common_one_call_cex :
    (skcipher_walk_virt stride_env (toy_req 32)).2.nbytes
      = (skcipher_walk_virt stride_env (toy_req 32)).2.total ∧
    (xts_crypt_common stride_env toy_enc failing_crypt1 toy_ctx 8 (toy_req 32)
        (toy_state (List.replicate 32 1) 32)).ret = some (-5) ∧
    (xts_crypt_common stride_env toy_enc failing_crypt1 toy_ctx 8 (toy_req 32)
        (toy_state (List.replicate 32 1) 32)).st.trace.countP Event.is_crypt = 0 ∧
    crypt_src_ranges (xts_crypt_common stride_env toy_enc failing_crypt1 toy_ctx 8 (toy_req 32)
        (toy_state (List.replicate 32 1) 32)).st.trace = [] := by
  refine ⟨?_, ?_, ?_, ?_⟩ <;> decide

/-! # The other drivers -/

/-! ## intel_pxp_key_check -/

/-- C30: `intel_pxp_key_check` returns `-ENODEV` when the arb session is not
valid, else `-EINVAL` when the object is not protected, else `-ENOEXEC` when the
key instance of the object, after it was set to the current instance if it was
0 and `assign` is true, differs from `pxp->key_instance`, else 0. The object
leaves the call with that key instance, which is the one it came with whenever
that one was not 0, `assign` is false, or one of the first two checks fails. -/
theorem intel_pxp_key_check_spec (pxp : intel_pxp) (obj : drm_i915_gem_object)
    (assign : Bool) :
    (intel_pxp_key_check pxp obj assign).1
      = (if pxp.arb_is_valid = false then -ENODEV
         else if obj.is_protected = false then -EINVAL
         else if (if obj.pxp_key_instance = 0 ∧ assign = true then pxp.key_instance
                  else obj.pxp_key_instance) ≠ pxp.key_instance then -ENOEXEC
         else 0) ∧
    (intel_pxp_key_check pxp obj assign).2.is_protected = obj.is_protected ∧
    (intel_pxp_key_check pxp obj assign).2.pxp_key_instance
      = (if pxp.arb_is_valid = true ∧ obj.is_protected = true ∧
            obj.pxp_key_instance = 0 ∧ assign = true then pxp.key_instance
         else obj.pxp_key_instance) ∧
    (obj.pxp_key_instance ≠ 0 → (intel_pxp_key_check pxp obj assign).2 = obj) ∧
    (assign = false → (intel_pxp_key_check pxp obj assign).2 = obj) := by
  obtain ⟨ce, valid, key, inv⟩ := pxp
  obtain ⟨prot, okey⟩ := obj
  cases valid
  · simp [intel_pxp_key_check, intel_pxp_is_active]
  · cases prot
    · simp [intel_pxp_key_check, intel_pxp_is_active]
    · cases assign
      · by_cases hk : okey = key
        · simp [intel_pxp_key_check, intel_pxp_is_active, hk]
        · simp [intel_pxp_key_check, intel_pxp_is_active, hk]
      · by_cases h0 : okey = 0
        · subst h0
          simp [intel_pxp_key_check, intel_pxp_is_active]
        · by_cases hk : okey = key
          · simp [intel_pxp_key_check, intel_pxp_is_active, hk, h0]
          · simp [intel_pxp_key_check, intel_pxp_is_active, hk, h0]

/-! ## SVS voltage conversion -/

theorem to_s32_small (n : Nat) (h : n < 2147483648) : to_s32 n = (n : Int) := by
  unfold to_s32
  have : n % 4294967296 = n := Nat.mod_eq_of_lt (by omega)
  rw [this, if_pos h]

theorem to_u32_natCast (n : Nat) (h : n < 4294967296) : to_u32 (n : Int) = n := by
  unfold to_u32
  omega

/-- For a config value of at most 255 nothing wraps in `config_to_uvolt`: the
result is `(c * 625 / 100 + 700) * 1000` microvolts. -/
theorem config_to_uvolt_eq (c : Nat) (h : c ≤ 255) :
    config_to_uvolt c = (((c * 625 / 100 + 700) * 1000 : Nat) : Int) := by
  unfold config_to_uvolt
  have h1 : c % 4294967296 = c := Nat.mod_eq_of_lt (by omega)
  have h2 : c * 625 % 4294967296 = c * 625 := Nat.mod_eq_of_lt (by omega)
  have hq : c * 625 / 100 ≤ 1593 := by omega
  have h3 : (c * 625 / 100 + 700) * 1000 % 4294967296 = (c * 625 / 100 + 700) * 1000 :=
    Nat.mod_eq_of_lt (by omega)
  rw [h1, h2, h3]
  exact to_s32_small _ (by omega)

/-- C29: for every SVS voltage config value `c` in 0..255,
`uvolt_to_config(config_to_uvolt(c)) == c`: the truncation of `c * 625 / 100`
loses less than one config step, and the round-up division by 625 gives `c`
back. -/
theorem uvolt_config_round_trip (c : Nat) (h : c ≤ 255) :
    uvolt_to_config (config_to_uvolt c) = c := by
  have hq : c * 625 / 100 ≤ 1593 := by omega
  rw [config_to_uvolt_eq c h]
  unfold uvolt_to_config
  have h2 : Int.tdiv (((c * 625 / 100 + 700) * 1000 : Nat) : Int) 1000
      = ((c * 625 / 100 + 700 : Nat) : Int) := by
    rw [Int.tdiv_eq_ediv (Int.ofNat_nonneg _) (by decide)]
    omega
  rw [h2]
  have e : ((((c * 625 / 100 + 700 : Nat) : Int) - 700) * 100 + 625 - 1)
      = ((c * 625 / 100 * 100 + 624 : Nat) : Int) := by
    push_cast
    ring
  rw [e, to_u32_natCast _ (by omega), to_s32_small _ (by omega),
    Int.tdiv_eq_ediv (Int.ofNat_nonneg _) (by decide)]
  clear h2 e
  have hk : (c * 625 / 100 * 100 + 624) / 625 = c := by omega
  have hk2 : ((c * 625 / 100 * 100 + 624 : Nat) : Int) / 625 = (c : Int) := by
    exact_mod_cast hk
  rw [hk2]
  unfold to_u8
  omega

/-- Witness for C29: the config value 200 stands for 1950000 microvolts. -/
theorem uvolt_config_round_trip_witness :
    config_to_uvolt 200 = 1950000 ∧ uvolt_to_config (config_to_uvolt 200) = 200 :=
  ⟨by decide, uvolt_config_round_trip 200 (by decide)⟩

/-! ## iwl_sar_fill_table -/

/-- Away from `INT_MIN`, the index `profs[i] - 1` is the difference itself. -/
theorem sar_profile_index_eq (p : Int) (hlo : -2147483648 < p) (hhi : p ≤ 2147483647) :
    sar_profile_index p = p - 1 := by
  unfold sar_profile_index to_s32 to_u32
  by_cases h : 1 ≤ p
  · have h1 : (p - 1) % 4294967296 = p - 1 := Int.emod_eq_of_lt (by omega) (by omega)
    rw [h1]
    have h2 : ((p - 1).toNat : Int) = p - 1 := Int.toNat_of_nonneg (by omega)
    have h3 : (p - 1).toNat % 4294967296 = (p - 1).toNat := Nat.mod_eq_of_lt (by omega)
    rw [h3]
    have h4 : (p - 1).toNat < 2147483648 := by omega
    rw [if_pos h4]
    exact h2
  · have h1 : (p - 1) % 4294967296 = p - 1 + 4294967296 := by
      have h5 : (p - 1) % 4294967296 = (p - 1 + 4294967296) % 4294967296 := by
        rw [Int.add_emod_self]
      rw [h5]
      exact Int.emod_eq_of_lt (by omega) (by omega)
    rw [h1]
    have h2 : ((p - 1 + 4294967296).toNat : Int) = p - 1 + 4294967296 :=
      Int.toNat_of_nonneg (by omega)
    have h3 : (p - 1 + 4294967296).toNat % 4294967296 = (p - 1 + 4294967296).toNat :=
      Nat.mod_eq_of_lt (by omega)
    rw [h3]
    have h4 : ¬ (p - 1 + 4294967296).toNat < 2147483648 := by omega
    rw [if_neg h4, h2]
    omega

/-- At `INT_MIN` the index `profs[i] - 1` wraps to `INT_MAX`. -/
theorem sar_profile_index_int_min : sar_profile_index (-2147483648) = 2147483647 := by
  decide

/-- With non-negative profile numbers, the loop over the chains returns
`-EPERM` or `-EINVAL` or accesses `fwrt->sar_profiles` at indices 0 to 3 only. -/
theorem iwl_sar_fill_chains_in_range (enabled : Int → Bool) (subbands : Int → Nat → Nat → Nat)
    (n_subbands : Nat) :
    ∀ (ps : List Int) (i : Nat) (acc : List Int) (wr : List (Nat × Nat)),
      (∀ p ∈ ps, 0 ≤ p) →
      (∀ x ∈ acc, 0 ≤ x ∧ x < (BIOS_SAR_MAX_PROFILE_NUM : Int)) →
      (iwl_sar_fill_chains enabled subbands n_subbands i ps acc wr).ret = -EPERM ∨
      (iwl_sar_fill_chains enabled subbands n_subbands i ps acc wr).ret = -EINVAL ∨
      ∀ x ∈ (iwl_sar_fill_chains enabled subbands n_subbands i ps acc wr).accesses,
        0 ≤ x ∧ x < (BIOS_SAR_MAX_PROFILE_NUM : Int) := by
  intro ps
  induction ps with
  | nil =>
    intro i acc wr _ hacc
    right
    right
    simpa [iwl_sar_fill_chains] using hacc
  | cons p ps ih =>
    intro i acc wr hps hacc
    have hp : 0 ≤ p := hps p (List.mem_cons_self _ _)
    simp only [iwl_sar_fill_chains]
    by_cases h0 : p = 0
    · rw [if_pos h0]
      exact Or.inl rfl
    · rw [if_neg h0]
      by_cases h4 : p > (BIOS_SAR_MAX_PROFILE_NUM : Int)
      · rw [if_pos h4]
        exact Or.inr (Or.inl rfl)
      · rw [if_neg h4]
        have h4n : p ≤ 4 := by
          have : ((BIOS_SAR_MAX_PROFILE_NUM : Nat) : Int) = 4 := rfl
          omega
        have hidx : sar_profile_index p = p - 1 :=
          sar_profile_index_eq p (by omega) (by omega)
        have hacc2 : ∀ x ∈ acc ++ [sar_profile_index p],
            0 ≤ x ∧ x < (BIOS_SAR_MAX_PROFILE_NUM : Int) := by
          intro x hx
          rcases List.mem_append.mp hx with h | h
          · exact hacc x h
          · simp only [List.mem_singleton] at h
            subst h
            rw [hidx]
            omega
        by_cases he : (!enabled (sar_profile_index p)) = true
        · rw [if_pos he]
          exact Or.inr (Or.inr hacc2)
        · rw [if_neg he]
          exact ih _ _ _ (fun q hq => hps q (List.mem_cons_of_mem _ hq)) hacc2

/-- With non-negative profile numbers, `iwl_sar_fill_table` returns `-EPERM`
or `-EINVAL` or accesses `fwrt->sar_profiles` at indices 0 to 3 only. -/
theorem iwl_sar_fill_table_in_range (enabled : Int → Bool) (subbands : Int → Nat → Nat → Nat)
    (n_subbands : Nat) (prof_a prof_b : Int) (ha : 0 ≤ prof_a) (hb : 0 ≤ prof_b) :
    (iwl_sar_fill_table enabled subbands n_subbands prof_a prof_b).ret = -EPERM ∨
    (iwl_sar_fill_table enabled subbands n_subbands prof_a prof_b).ret = -EINVAL ∨
    ∀ i ∈ (iwl_sar_fill_table enabled subbands n_subbands prof_a prof_b).accesses,
      0 ≤ i ∧ i < (BIOS_SAR_MAX_PROFILE_NUM : Int) := by
  unfold iwl_sar_fill_table
  refine iwl_sar_fill_chains_in_range enabled subbands n_subbands _ _ _ _ ?_ ?_
  · intro p hp
    simp only [List.mem_cons, List.mem_singleton, List.not_mem_nil, or_false] at hp
    rcases hp with rfl | rfl
    · exact ha
    · exact hb
  · intro x hx
    cases hx

/-- C26: the claim fails on the code for a negative profile number. Let
`prof_a` be a negative `int` (from -2147483648 to -1) and `prof_b` be from 1
to 4. Neither check of `iwl_sar_fill_table` fires for chain A (`prof_a` is not
0 and not above 4), and the first access to `fwrt->sar_profiles` is at the
index `profs[0] - 1` computed in `int`, which lies outside the array 0 to 3:
it is the negative number `prof_a - 1`, before the array, when `prof_a` is
above `INT_MIN`, and 2147483647, far behind it, when `prof_a` is `INT_MIN`.
The return value is 0 or 1, neither `-EPERM` nor `-EINVAL`; the lower bound of
the range 1 to 4 that the comments of the function name is not checked. -/
theorem iwl_sar_fill_table_negative_index (enabled : Int → Bool)
    (subbands : Int → Nat → Nat → Nat) (n_subbands : Nat) (prof_a prof_b : Int)
    (hint : -2147483648 ≤ prof_a) (ha : prof_a < 0)
    (hb : 0 < prof_b) (hb4 : prof_b ≤ (BIOS_SAR_MAX_PROFILE_NUM : Int)) :
    (iwl_sar_fill_table enabled subbands n_subbands prof_a prof_b).accesses.head?
      = some (sar_profile_index prof_a) ∧
    ¬ (0 ≤ sar_profile_index prof_a ∧
        sar_profile_index prof_a < (BIOS_SAR_MAX_PROFILE_NUM : Int)) ∧
    (-2147483648 < prof_a →
      sar_profile_index prof_a = prof_a - 1 ∧ sar_profile_index prof_a < 0) ∧
    (prof_a = -2147483648 → sar_profile_index prof_a = 2147483647) ∧
    ((iwl_sar_fill_table enabled subbands n_subbands prof_a prof_b).ret = 0 ∨
     (iwl_sar_fill_table enabled subbands n_subbands prof_a prof_b).ret = 1) ∧
    (iwl_sar_fill_table enabled subbands n_subbands prof_a prof_b).ret ≠ -EPERM ∧
    (iwl_sar_fill_table enabled subbands n_subbands prof_a prof_b).ret ≠ -EINVAL := by
  have hmax : ((BIOS_SAR_MAX_PROFILE_NUM : Nat) : Int) = 4 := rfl
  have h0 : ¬ prof_a = 0 := by omega
  have h4 : ¬ prof_a > (BIOS_SAR_MAX_PROFILE_NUM : Int) := by omega
  have hb0 : ¬ prof_b = 0 := by omega
  have hb4n : ¬ prof_b > (BIOS_SAR_MAX_PROFILE_NUM : Int) := by omega
  have hret : ∀ r : SarFill, (r.ret = 0 ∨ r.ret = 1) → r.ret ≠ -EPERM ∧ r.ret ≠ -EINVAL := by
    intro r hr
    unfold EPERM EINVAL
    omega
  have hneg : -2147483648 < prof_a →
      sar_profile_index prof_a = prof_a - 1 ∧ sar_profile_index prof_a < 0 := by
    intro h
    have he := sar_profile_index_eq prof_a h (by omega)
    exact ⟨he, by omega⟩
  have hmin : prof_a = -2147483648 → sar_profile_index prof_a = 2147483647 := by
    intro h
    rw [h]
    exact sar_profile_index_int_min
  have hout : ¬ (0 ≤ sar_profile_index prof_a ∧
      sar_profile_index prof_a < (BIOS_SAR_MAX_PROFILE_NUM : Int)) := by
    by_cases h : -2147483648 < prof_a
    · have := (hneg h).2
      omega
    · have := hmin (by omega)
      omega
  unfold iwl_sar_fill_table
  simp only [iwl_sar_fill_chains]
  rw [if_neg h0, if_neg h4]
  by_cases hea : (!enabled (sar_profile_index prof_a)) = true
  · rw [if_pos hea]
    exact ⟨rfl, hout, hneg, hmin, Or.inr rfl, hret _ (Or.inr rfl)⟩
  · rw [if_neg hea, if_neg hb0, if_neg hb4n]
    by_cases heb : (!enabled (sar_profile_index prof_b)) = true
    · rw [if_pos heb]
      exact ⟨rfl, hout, hneg, hmin, Or.inr rfl, hret _ (Or.inr rfl)⟩
    · rw [if_neg heb]
      exact ⟨rfl, hout, hneg, hmin, Or.inl rfl, hret _ (Or.inl rfl)⟩

/-- Evaluation for C26 at the failing input `prof_a = -1`, `prof_b = 1`, with
every profile enabled and all sub-band values 0: the table is accessed at
index -2, then at index 0, and the call returns 0. At `prof_a = INT_MIN` the
first access is at index 2147483647. -/
theorem iwl_sar_fill_table_negative_index_witness :
    (iwl_sar_fill_table (fun _ => true) (fun _ _ _ => 0) 2 (-1) 1).accesses.head?
      = some (sar_profile_index (-1)) ∧
    (iwl_sar_fill_table (fun _ => true) (fun _ _ _ => 0) 2 (-1) 1).accesses = [-2, 0] ∧
    (iwl_sar_fill_table (fun _ => true) (fun _ _ _ => 0) 2 (-1) 1).ret = 0 ∧
    (iwl_sar_fill_table (fun _ => true) (fun _ _ _ => 0) 2 (-2147483648) 1).accesses
      = [2147483647, 0] ∧
    (iwl_sar_fill_table (fun _ => true) (fun _ _ _ => 0) 2 (-2147483648) 1).ret = 0 :=
  ⟨(iwl_sar_fill_table_negative_index (fun _ => true) (fun _ _ _ => 0) 2 (-1) 1
      (by decide) (by decide) (by decide) (by decide)).1, by decide, by decide, by decide,
    by decide⟩

/-! ## hdcp_worker -/

/-- The attempts of `run_hdcp2_auth` either succeed, with status 0 and `state`
set to `HDCP2_AUTH_DONE`, or fail with a non-zero status and `state` as it
was. -/
theorem run_hdcp2_auth_from_state (auth22 : Nat → Int) :
    ∀ (n i : Nat) (s : auth_state),
      ((run_hdcp2_auth_from auth22 n i s).1 = 0 ∧
        (run_hdcp2_auth_from auth22 n i s).2 = auth_state.HDCP2_AUTH_DONE) ∨
      ((run_hdcp2_auth_from auth22 n i s).1 ≠ 0 ∧
        (run_hdcp2_auth_from auth22 n i s).2 = s) := by
  intro n
  induction n with
  | zero =>
    intro i s
    right
    simp [run_hdcp2_auth_from, EIO]
  | succ n ih =>
    intro i s
    simp only [run_hdcp2_auth_from]
    by_cases h0 : auth22 i = 0
    · rw [if_pos h0]
      exact Or.inl ⟨rfl, rfl⟩
    · rw [if_neg h0]
      by_cases ha : auth22 i ≠ -EAGAIN
      · rw [if_pos ha]
        exact Or.inr ⟨h0, rfl⟩
      · rw [if_neg ha]
        exact ih _ _

/-- C27: if the authentication state is `HDCP_AUTH_IDLE` when `hdcp_worker`
starts, then when it returns the state is `HDCP_AUTH_IDLE`, `HDCP1_AUTH_DONE` or
`HDCP2_AUTH_DONE`, for every value of `max_ver`, every answer of the TEE and
every outcome of the HDCP 2.2 attempts and of the HDCP 1.3 attempt: a failed
HDCP 2.2 run leaves `HDCP2_AUTH_PROGRESS` only while `max_ver >= 2`, and then
the HDCP 1.3 attempt that follows resets the state. -/
theorem hdcp_worker_final_state (max_ver : Nat) (cp : Int × Nat) (auth22 : Nat → Int)
    (auth13 : Int) (g : hdcp_ctl) (hidle : g.state = auth_state.HDCP_AUTH_IDLE) :
    (hdcp_worker max_ver cp auth22 auth13 g).state = auth_state.HDCP_AUTH_IDLE ∨
    (hdcp_worker max_ver cp auth22 auth13 g).state = auth_state.HDCP1_AUTH_DONE ∨
    (hdcp_worker max_ver cp auth22 auth13 g).state = auth_state.HDCP2_AUTH_DONE := by
  unfold hdcp_worker
  rw [if_neg (not_not.mpr hidle)]
  by_cases hcp : cp.1 = 0 ∧ cp.2 = 0 ∧ max_ver ≤ 2
  · rw [if_pos hcp]
    exact Or.inl hidle
  · rw [if_neg hcp]
    by_cases h2 : max_ver ≥ 2
    · have h1 : max_ver ≥ 1 := by omega
      simp only [h2, h1, if_true, true_and]
      rcases run_hdcp2_auth_from_state auth22 5 0 auth_state.HDCP2_AUTH_PROGRESS with
        ⟨hr, hs⟩ | ⟨hr, -⟩
      · have hr2 : (run_hdcp2_auth auth22).1 = 0 := hr
        rw [if_pos hr2]
        exact Or.inr (Or.inr hs)
      · have hr2 : ¬ (run_hdcp2_auth auth22).1 = 0 := hr
        rw [if_neg hr2]
        by_cases h13 : auth13 = 0
        · rw [if_pos h13]
          exact Or.inr (Or.inl rfl)
        · rw [if_neg h13]
          exact Or.inl rfl
    · simp only [h2, if_false, false_and]
      by_cases h1 : max_ver ≥ 1
      · simp only [h1, if_true, true_and]
        by_cases h13 : auth13 = 0
        · rw [if_pos h13]
          exact Or.inr (Or.inl rfl)
        · rw [if_neg h13]
          exact Or.inl rfl
      · simp only [h1, if_false, false_and]
        exact Or.inl hidle

/-- Witness for C27: with `max_ver = 2`, protection requested, every HDCP 2.2
attempt asking for a retry and HDCP 1.3 unsupported, the worker returns in
`HDCP_AUTH_IDLE`. -/
theorem hdcp_worker_final_state_witness :
    (hdcp_worker 2 (0, 1) (fun _ => -EAGAIN) (-EOPNOTSUPP)
        { state := auth_state.HDCP_AUTH_IDLE, hdcp_auth_try_count := 1, dev := hdcp_dev0 }).state
      = auth_state.HDCP_AUTH_IDLE ∧
    ((hdcp_worker 2 (0, 1) (fun _ => -EAGAIN) (-EOPNOTSUPP)
        { state := auth_state.HDCP_AUTH_IDLE, hdcp_auth_try_count := 1, dev := hdcp_dev0 }).state
      = auth_state.HDCP_AUTH_IDLE ∨
     (hdcp_worker 2 (0, 1) (fun _ => -EAGAIN) (-EOPNOTSUPP)
        { state := auth_state.HDCP_AUTH_IDLE, hdcp_auth_try_count := 1, dev := hdcp_dev0 }).state
      = auth_state.HDCP1_AUTH_DONE ∨
     (hdcp_worker 2 (0, 1) (fun _ => -EAGAIN) (-EOPNOTSUPP)
        { state := auth_state.HDCP_AUTH_IDLE, hdcp_auth_try_count := 1, dev := hdcp_dev0 }).state
      = auth_state.HDCP2_AUTH_DONE) :=
  ⟨by decide, hdcp_worker_final_state 2 (0, 1) (fun _ => -EAGAIN) (-EOPNOTSUPP)
    { state := auth_state.HDCP_AUTH_IDLE, hdcp_auth_try_count := 1, dev := hdcp_dev0 } rfl⟩

/-! ## The retry limit of the HDCP worker -/

/-- One interrupt once the retry count has reached the limit: the count stays,
and the worker is scheduled exactly when the handler reported `-EAGAIN`. -/
theorem hdcp_dplink_handle_irq_at_limit (max_retry_count : Nat) (irq22 irq13 : Int)
    (g : hdcp_ctl) (hmax : max_retry_count ≤ g.hdcp_auth_try_count) :
    (hdcp_dplink_handle_irq max_retry_count irq22 irq13 g).hdcp_auth_try_count
      = g.hdcp_auth_try_count ∧
    (hdcp_dplink_handle_irq max_retry_count irq22 irq13 g).dev.schedule_calls
      = g.dev.schedule_calls
        + (if hdcp_irq_ret irq22 irq13 g.state = -EAGAIN then 1 else 0) := by
  have hd1 : ¬ EAGAIN = EFAULT := by decide
  have hd2 : ¬ EFAULT = EAGAIN := by decide
  unfold hdcp_dplink_handle_irq
  by_cases hf : hdcp_irq_ret irq22 irq13 g.state = -EFAULT
  · have hne : ¬ hdcp_irq_ret irq22 irq13 g.state = -EAGAIN := by
      rw [hf]
      decide
    simp [hf, hne, hmax, hd1, hd2]
  · by_cases ha : hdcp_irq_ret irq22 irq13 g.state = -EAGAIN
    · simp [hf, ha, hdcp_auth_worker_schedule, hd1, hd2]
    · simp [hf, ha]

/-- One connect notification other than a physical disconnect once the retry
count has reached the limit: the count stays and the worker is not scheduled. -/
theorem hdcp_dplink_connect_state_at_limit (max_retry_count now : Nat) (dp : dp_state)
    (g : hdcp_ctl) (hmax : max_retry_count ≤ g.hdcp_auth_try_count)
    (hdp : dp ≠ dp_state.DP_PHYSICAL_DISCONNECT) :
    (hdcp_dplink_connect_state max_retry_count now dp g).hdcp_auth_try_count
      = g.hdcp_auth_try_count ∧
    (hdcp_dplink_connect_state max_retry_count now dp g).dev.schedule_calls
      = g.dev.schedule_calls := by
  unfold hdcp_dplink_connect_state
  rw [if_neg hdp]
  by_cases hd : dp = dp_state.DP_DISCONNECT
  · simp [hd]
  · simp [hd, hmax]

/-- C28, amended: once `hdcp_auth_try_count` has reached `max_retry_count`, it
stays there until a `DP_PHYSICAL_DISCONNECT` resets it to 0, and until then
`hdcp_dplink_connect_state` does not schedule the authentication worker and
`hdcp_dplink_handle_irq` does not schedule it for an interrupt whose handler
reported `-EFAULT`; the retry limit does not cover `-EAGAIN`: each interrupt
whose handler reports `-EAGAIN` schedules the worker once, so that over any
sequence of calls without a physical disconnect the number of times the worker
is scheduled is the number of such interrupts. -/
theorem hdcp_retry_limit (max_retry_count : Nat) :
    ∀ (calls : List hdcp_call) (g : hdcp_ctl),
      max_retry_count ≤ g.hdcp_auth_try_count →
      (∀ c ∈ calls, c.is_physical_disconnect = false) →
      (hdcp_run max_retry_count calls g).hdcp_auth_try_count = g.hdcp_auth_try_count ∧
      (hdcp_run max_retry_count calls g).dev.schedule_calls
        = g.dev.schedule_calls + eagain_irqs max_retry_count calls g ∧
      ∀ now, (hdcp_dplink_connect_state max_retry_count now dp_state.DP_PHYSICAL_DISCONNECT
          (hdcp_run max_retry_count calls g)).hdcp_auth_try_count = 0 := by
  intro calls
  induction calls with
  | nil =>
    intro g _ _
    exact ⟨rfl, rfl, fun _ => rfl⟩
  | cons c cs ih =>
    intro g hmax hcs
    have hc := hcs c (List.mem_cons_self _ _)
    have hrest : ∀ x ∈ cs, x.is_physical_disconnect = false :=
      fun x hx => hcs x (List.mem_cons_of_mem _ hx)
    cases c with
    | irq irq22 irq13 =>
      obtain ⟨h1, h2⟩ := hdcp_dplink_handle_irq_at_limit max_retry_count irq22 irq13 g hmax
      obtain ⟨i1, i2, i3⟩ := ih (hdcp_dplink_handle_irq max_retry_count irq22 irq13 g)
        (by rw [h1]; exact hmax) hrest
      refine ⟨?_, ?_, i3⟩
      · show (hdcp_run max_retry_count cs
          (hdcp_dplink_handle_irq max_retry_count irq22 irq13 g)).hdcp_auth_try_count = _
        rw [i1, h1]
      · show (hdcp_run max_retry_count cs
          (hdcp_dplink_handle_irq max_retry_count irq22 irq13 g)).dev.schedule_calls = _
        rw [i2, h2]
        simp only [eagain_irqs, hdcp_step]
        omega
    | connect now dp =>
      have hdp : dp ≠ dp_state.DP_PHYSICAL_DISCONNECT := by
        intro h
        rw [h] at hc
        simp [hdcp_call.is_physical_disconnect] at hc
      obtain ⟨h1, h2⟩ := hdcp_dplink_connect_state_at_limit max_retry_count now dp g hmax hdp
      obtain ⟨i1, i2, i3⟩ := ih (hdcp_dplink_connect_state max_retry_count now dp g)
        (by rw [h1]; exact hmax) hrest
      refine ⟨?_, ?_, i3⟩
      · show (hdcp_run max_retry_count cs
          (hdcp_dplink_connect_state max_retry_count now dp g)).hdcp_auth_try_count = _
        rw [i1, h1]
      · show (hdcp_run max_retry_count cs
          (hdcp_dplink_connect_state max_retry_count now dp g)).dev.schedule_calls = _
        rw [i2, h2]
        simp only [eagain_irqs, hdcp_step]

/-- Witness for C28: at the limit of 5 and in `HDCP2_AUTH_DONE`, a connect, an
interrupt reporting `-EAGAIN`, another connect and a disconnect: the count stays
5 and the worker is scheduled once, for the `-EAGAIN`. -/
theorem hdcp_retry_limit_witness :
    (hdcp_run 5
      [hdcp_call.connect 7 (dp_state.other 1), hdcp_call.irq (-EAGAIN) 0,
       hdcp_call.connect 8 (dp_state.other 1), hdcp_call.connect 9 dp_state.DP_DISCONNECT]
      { state := auth_state.HDCP2_AUTH_DONE, hdcp_auth_try_count := 5,
        dev := hdcp_dev0 }).hdcp_auth_try_count = 5 ∧
    (hdcp_run 5
      [hdcp_call.connect 7 (dp_state.other 1), hdcp_call.irq (-EAGAIN) 0,
       hdcp_call.connect 8 (dp_state.other 1), hdcp_call.connect 9 dp_state.DP_DISCONNECT]
      { state := auth_state.HDCP2_AUTH_DONE, hdcp_auth_try_count := 5,
        dev := hdcp_dev0 }).dev.schedule_calls = 1 ∧
    eagain_irqs 5
      [hdcp_call.connect 7 (dp_state.other 1), hdcp_call.irq (-EAGAIN) 0,
       hdcp_call.connect 8 (dp_state.other 1), hdcp_call.connect 9 dp_state.DP_DISCONNECT]
      { state := auth_state.HDCP2_AUTH_DONE, hdcp_auth_try_count := 5, dev := hdcp_dev0 } = 1 :=
  ⟨(hdcp_retry_limit 5
      [hdcp_call.connect 7 (dp_state.other 1), hdcp_call.irq (-EAGAIN) 0,
       hdcp_call.connect 8 (dp_state.other 1), hdcp_call.connect 9 dp_state.DP_DISCONNECT]
      { state := auth_state.HDCP2_AUTH_DONE, hdcp_auth_try_count := 5, dev := hdcp_dev0 }
      (by decide) (by decide)).1, by decide, by decide⟩

/-- Counterexample to C28 as stated: with the retry count at the limit of 5 and
the state `HDCP2_AUTH_DONE`, an interrupt whose handler reports `-EAGAIN` makes
`hdcp_dplink_handle_irq` schedule the authentication worker, with no physical
disconnect in between; the count is still 5. -/
theorem hdcp_retry_limit_cex :
    (hdcp_dplink_handle_irq 5 (-EAGAIN) 0
      { state := auth_state.HDCP2_AUTH_DONE, hdcp_auth_try_count := 5,
        dev := hdcp_dev0 }).dev.schedule_calls = 1 ∧
    (hdcp_dplink_handle_irq 5 (-EAGAIN) 0
      { state := auth_state.HDCP2_AUTH_DONE, hdcp_auth_try_count := 5,
        dev := hdcp_dev0 }).dev.work_pending = true ∧
    (hdcp_dplink_handle_irq 5 (-EAGAIN) 0
      { state := auth_state.HDCP2_AUTH_DONE, hdcp_auth_try_count := 5,
        dev := hdcp_dev0 }).hdcp_auth_try_count = 5 ∧
    hdcp_dev0.schedule_calls = 0 := by
  refine ⟨?_, ?_, ?_, ?_⟩ <;> decide

/-! ## i915_pxp_ops_ioctl: session_mutex and the wakeref -/

/-- C24: on the paths of `i915_pxp_ops_ioctl` the wakeref is released exactly
once when one was obtained and never otherwise, and `session_mutex` is locked
and unlocked in balance on every path but one: when PXP is enabled, a wakeref
was obtained and `hw_state_invalidated` is set, the call jumps to `out_unlock`
and unlocks `session_mutex` without having locked it (the checker rejects the
trace), where the failure path of `intel_pxp_start` jumps to `out_pm`. -/
theorem i915_pxp_ops_ioctl_locking (pxp : intel_pxp) (wakeref : Nat) (bound : Bool)
    (restart : Int) (valid_after : Bool) (handler : pxp_action → Int) (action : pxp_action) :
    pm_puts wakeref (i915_pxp_ops_ioctl pxp wakeref bound restart valid_after handler
        action).trace
      = (if pxp.ce = true ∧ wakeref ≠ 0 then 1 else 0) ∧
    mutex_check false (i915_pxp_ops_ioctl pxp wakeref bound restart valid_after handler
        action).trace
      = (if pxp.ce = true ∧ wakeref ≠ 0 ∧ pxp.hw_state_invalidated = true then none
         else some false) ∧
    (pxp.ce = true → wakeref ≠ 0 → pxp.hw_state_invalidated = true →
      i915_pxp_ops_ioctl pxp wakeref bound restart valid_after handler action
        = { ret := 0,
            status := some pxp_op_status.DOWNSTREAM_DRM_I915_PXP_OP_STATUS_RETRY_REQUIRED,
            trace := [PxpEvent.pm_get wakeref, PxpEvent.mutex_unlock,
              PxpEvent.pm_put wakeref] }) := by
  unfold i915_pxp_ops_ioctl intel_pxp_is_enabled
  by_cases hce : pxp.ce = true
  · by_cases hw : wakeref = 0
    · simp [hce, hw, pm_puts, mutex_check]
    · by_cases hinv : pxp.hw_state_invalidated = true
      · simp [hce, hw, hinv, pm_puts, mutex_check]
      · by_cases hst : (!intel_pxp_is_active pxp) = true ∧
            intel_pxp_start pxp bound restart valid_after ≠ 0
        · simp only [hce, hw, hinv, Bool.not_true, if_false, Bool.false_eq_true]
          rw [if_pos hst]
          simp [pm_puts, mutex_check, hinv, hw]
        · simp only [hce, hw, hinv, Bool.not_true, if_false, Bool.false_eq_true]
          rw [if_neg hst]
          by_cases hact : (!intel_pxp_is_active pxp) = true
          · cases action <;> simp [hact, pm_puts, mutex_check, hinv, hw]
          · cases action <;> simp [hact, pm_puts, mutex_check, hinv, hw]
  · simp [hce, pm_puts, mutex_check]

/-- Evaluation for C24 at the failing input: PXP enabled, arb session valid,
`hw_state_invalidated` set, wakeref 1, any action. The call returns 0 with the
retry status after `mutex_unlock` on a mutex it never locked. -/
theorem i915_pxp_ops_ioctl_locking_witness :
    (i915_pxp_ops_ioctl
        { ce := true, arb_is_valid := true, key_instance := 1, hw_state_invalidated := true }
        1 true 0 true (fun _ => 0)
        pxp_action.DOWNSTREAM_DRM_I915_PXP_ACTION_QUERY_PXP_TAG).trace
      = [PxpEvent.pm_get 1, PxpEvent.mutex_unlock, PxpEvent.pm_put 1] ∧
    mutex_check false (i915_pxp_ops_ioctl
        { ce := true, arb_is_valid := true, key_instance := 1, hw_state_invalidated := true }
        1 true 0 true (fun _ => 0)
        pxp_action.DOWNSTREAM_DRM_I915_PXP_ACTION_QUERY_PXP_TAG).trace
      = none :=
  ⟨by decide, (i915_pxp_ops_ioctl_locking
      { ce := true, arb_is_valid := true, key_instance := 1, hw_state_invalidated := true }
      1 true 0 true (fun _ => 0)
      pxp_action.DOWNSTREAM_DRM_I915_PXP_ACTION_QUERY_PXP_TAG).2.1.trans (by decide)⟩

/-! ## The reduced-power TLV parser -/

theorem le32_at_tlv_header (type len : Nat) (rest : Bytes) (ht : type < 4294967296)
    (hl : len < 4294967296) :
    le32_at (tlv_header type len ++ rest) 0 = some type ∧
    le32_at (tlv_header type len ++ rest) 4 = some len := by
  unfold le32_at tlv_header
  simp only [List.cons_append, List.length_cons, List.getD_cons_zero, List.getD_cons_succ,
    Nat.zero_add]
  constructor
  · rw [if_pos (by omega)]
    congr 1
    omega
  · rw [if_pos (by omega)]
    congr 1
    omega

/-- C25: the claim fails on the code. The check `len < tlv_len` compares the
remaining length with the length field, but the cursor then advances by
`ALIGN(tlv_len, 4)`. On the 14-byte buffer `padded_tlv_input` (one TLV of type 0
with length 5 and six bytes after the header) the counter goes from 6 to
`6 - 8`, which wraps to 2^64 - 2, and the next iteration reads a TLV header at
offset 20, outside the buffer, in `iwl_uefi_reduce_power_parse` as in
`iwl_uefi_reduce_power_section`. On the 8-byte buffer that holds one SKU TLV of
length 0, `iwl_uefi_reduce_power_parse` reads the first word of the SKU id at
offset 8, outside the buffer: the length of a SKU TLV is not compared with the
size of the id. -/
theorem iwl_uefi_reduce_power_parse_overrun (sku_type mem_desc_type max_chunks : Nat)
    (sku_id : Nat × Nat × Nat) (fuel : Nat) (img : iwl_pnvm_image)
    (hs : sku_type ≠ 0) (hs32 : sku_type < 4294967296) (hm : mem_desc_type ≠ 0) :
    padded_tlv_input.length = 14 ∧
    ALIGN4 5 = 8 ∧
    size_sub (14 - 8) (ALIGN4 5) = 18446744073709551614 ∧
    iwl_uefi_reduce_power_parse sku_type mem_desc_type max_chunks sku_id padded_tlv_input
      (fuel + 2) 0 14 img = ParseOutcome.fault 20 4 ∧
    iwl_uefi_reduce_power_section sku_type mem_desc_type max_chunks padded_tlv_input
      (fuel + 2) 0 14 = ParseOutcome.fault 20 4 ∧
    (tlv_header sku_type 0).length = 8 ∧
    iwl_uefi_reduce_power_parse sku_type mem_desc_type max_chunks sku_id
      (tlv_header sku_type 0) (fuel + 1) 0 8 img = ParseOutcome.fault 8 4 := by
  have ha : ALIGN4 5 = 8 := by decide
  have hsub : size_sub (14 - 8) 8 = 18446744073709551614 := by decide
  obtain ⟨hr0, hr4⟩ := le32_at_tlv_header 0 5 [1, 2, 3, 4, 5, 6] (by decide) (by decide)
  have hr20 : le32_at padded_tlv_input 20 = none := by decide
  have hp0 : le32_at padded_tlv_input 0 = some 0 := hr0
  have hp4 : le32_at padded_tlv_input 4 = some 5 := hr4
  have hs0 : ¬ 0 = sku_type := fun h => hs h.symm
  have hm0 : ¬ 0 = mem_desc_type := fun h => hm h.symm
  obtain ⟨hk0, hk4⟩ := le32_at_tlv_header sku_type 0 [] hs32 (by decide)
  rw [List.append_nil] at hk0 hk4
  have hk8 : le32_at (tlv_header sku_type 0) 8 = none := by
    simp [le32_at, tlv_header]
  refine ⟨by decide, ha, by rw [ha]; exact hsub, ?_, ?_, by simp [tlv_header], ?_⟩
  · simp only [iwl_uefi_reduce_power_parse, Nat.zero_add, hp0, hp4, ha, hsub, hs0, hr20]
    simp
  · simp only [iwl_uefi_reduce_power_section, reduce_power_section_loop, Nat.zero_add, hp0,
      hp4, ha, hsub, hs0, hm0, hr20]
    simp
  · simp only [iwl_uefi_reduce_power_parse, Nat.zero_add, hk0, hk4, sku_id_match, hk8]
    simp

/-- Evaluation for C25 with the constants of the firmware file format
(`IWL_UCODE_TLV_PNVM_SKU` 64, `IWL_UCODE_TLV_MEM_DESC` 7) and 64 chunks at
most. -/
theorem iwl_uefi_reduce_power_parse_overrun_witness :
    iwl_uefi_reduce_power_parse 64 7 64 (1, 2, 3) padded_tlv_input 14 0 14 { chunks := [] }
      = ParseOutcome.fault 20 4 ∧
    iwl_uefi_reduce_power_parse 64 7 64 (1, 2, 3) (tlv_header 64 0) 8 0 8 { chunks := [] }
      = ParseOutcome.fault 8 4 :=
  ⟨(iwl_uefi_reduce_power_parse_overrun 64 7 64 (1, 2, 3) 12 { chunks := [] }
      (by decide) (by decide) (by decide)).2.2.2.1,
   (iwl_uefi_reduce_power_parse_overrun 64 7 64 (1, 2, 3) 7 { chunks := [] }
      (by decide) (by decide) (by decide)).2.2.2.2.2.2⟩

theorem le32_at_some {data : Bytes} {off v : Nat} (h : le32_at data off = some v) :
    off + 4 ≤ data.length := by
  unfold le32_at at h
  by_contra hc
  rw [if_neg hc] at h
  cases h

theorem reduce_power_section_done_returns (img : iwl_pnvm_image) :
    reduce_power_section_done img ≠ ParseOutcome.out_of_fuel := by
  unfold reduce_power_section_done
  split <;> simp

/-- The loop of `iwl_uefi_reduce_power_section` stops, by a return or by a read
outside the buffer, within one iteration per eight bytes of the buffer. -/
theorem reduce_power_section_loop_stops (sku_type mem_desc_type max_chunks : Nat)
    (data : Bytes) :
    ∀ (fuel off len : Nat) (img : iwl_pnvm_image),
      data.length < off + 8 * (fuel + 1) →
      reduce_power_section_loop sku_type mem_desc_type max_chunks data (fuel + 1) off len img
        ≠ ParseOutcome.out_of_fuel := by
  intro fuel
  induction fuel with
  | zero =>
    intro off len img h
    have hno : le32_at data (off + 4) = none := by
      unfold le32_at
      rw [if_neg (by omega)]
    simp only [reduce_power_section_loop, hno]
    split
    · simp
    · exact reduce_power_section_done_returns img
  | succ fuel ih =>
    intro off len img h
    rw [reduce_power_section_loop]
    split
    · split
      · simp
      · simp
      · next tlv_len tlv_type h4 h0 =>
        have hin := le32_at_some h4
        split
        · simp
        · split
          · split
            · simp
            · split
              · simp
              · exact ih _ _ _ (by omega)
          · split
            · exact reduce_power_section_done_returns img
            · exact ih _ _ _ (by omega)
    · exact reduce_power_section_done_returns img

/-- The loop of `iwl_uefi_reduce_power_parse` stops, by a return or by a read
outside the buffer, within one iteration per eight bytes of the buffer. -/
theorem iwl_uefi_reduce_power_parse_stops (sku_type mem_desc_type max_chunks : Nat)
    (sku_id : Nat × Nat × Nat) (data : Bytes) :
    ∀ (fuel off len : Nat) (img : iwl_pnvm_image),
      data.length < off + 8 * (fuel + 1) →
      iwl_uefi_reduce_power_parse sku_type mem_desc_type max_chunks sku_id data (fuel + 1)
        off len img ≠ ParseOutcome.out_of_fuel := by
  intro fuel
  induction fuel with
  | zero =>
    intro off len img h
    have hno : le32_at data (off + 4) = none := by
      unfold le32_at
      rw [if_neg (by omega)]
    simp only [iwl_uefi_reduce_power_parse, hno]
    split <;> simp
  | succ fuel ih =>
    intro off len img h
    rw [iwl_uefi_reduce_power_parse]
    split
    · split
      · simp
      · simp
      · next tlv_len tlv_type h4 h0 =>
        have hin := le32_at_some h4
        split
        · simp
        · split
          · split
            · simp
            · have hsec := reduce_power_section_loop_stops sku_type mem_desc_type max_chunks
                data fuel (off + 8 + ALIGN4 tlv_len) (size_sub (len - 8) (ALIGN4 tlv_len))
                { chunks := [] } (by omega)
              split
              · split
                · simp
                · exact ih _ _ _ (by omega)
              · next other hother hne =>
                intro hout
                apply hsec
                unfold iwl_uefi_reduce_power_section at hne
                rw [← hout]
                rfl
            · exact ih _ _ _ (by omega)
          · exact ih _ _ _ (by omega)
    · simp

end Zuma
